import Mathlib

/-!
# Detection pipeline of the image-recognition app (TFObjectDetection.js, YOLOv8.js)

Shallow embedding of the heuristic tree / building detector.

Modelling conventions.
* JavaScript numbers are modelled as exact rationals (`ℚ`); rounding of IEEE doubles is
  not modelled.  Where the source divides by a number that may be zero and then compares
  the quotient, the quotient is a `JsNum`, which also has `Infinity`, `-Infinity`, `NaN`.
* A random source (`Math.random`, or a seeded generator) is a stream `ℕ → ℚ`; the
  functions thread the index of the next unread value.  `Math.random` is documented to
  return values in `[0, 1)`, which is the predicate `UnitRange`.
* A `TypeError` raised by reading a property of `undefined` is the result `none`.
* `console.log` calls and timer delays have no effect on the returned values and are
  left out.  `toFixed(2)` in debug payloads is kept as the unrounded number.
-/

namespace Txsb

/-! ## Numbers -/

/-- A JavaScript number that is the result of one division of finite numbers. -/
inductive JsNum where
  | fin (q : ℚ)
  | posInf
  | negInf
  | nan
  deriving DecidableEq

/-- JavaScript `a / b` for finite `a`, `b` (the sign of a zero is not modelled). -/
def jsDiv (a b : ℚ) : JsNum :=
  if b = 0 then
    if 0 < a then JsNum.posInf else if a < 0 then JsNum.negInf else JsNum.nan
  else JsNum.fin (a / b)

/-- JavaScript `a > c` for a finite `c`. -/
def JsNum.gt (a : JsNum) (c : ℚ) : Bool :=
  match a with
  | JsNum.fin q => decide (c < q)
  | JsNum.posInf => true
  | JsNum.negInf => false
  | JsNum.nan => false

/-- JavaScript `a < c` for a finite `c`. -/
def JsNum.lt (a : JsNum) (c : ℚ) : Bool :=
  match a with
  | JsNum.fin q => decide (q < c)
  | JsNum.posInf => false
  | JsNum.negInf => true
  | JsNum.nan => false

/-- The values of a random source lie in `[0, 1)`, as those of `Math.random` do. -/
def UnitRange (rng : ℕ → ℚ) : Prop := ∀ n, 0 ≤ rng n ∧ rng n < 1

/-! ## Data model -/

/-- Bounding box in pixel space: `{x, y, width, height}`. -/
structure BBox where
  x : ℚ
  y : ℚ
  width : ℚ
  height : ℚ
  deriving DecidableEq

/-- The optional `debug` payload of a detection. -/
structure DebugInfo where
  greenRatio : ℚ
  grayRatio : ℚ
  treeScore : Option ℤ
  buildingScore : Option ℤ
  deriving DecidableEq

/-- A detection record; `cls` is the field `class` of the source. -/
structure Detection where
  cls : ℤ
  className : String
  rawClass : Option String
  confidence : ℚ
  bbox : BBox
  debug : Option DebugInfo
  simulated : Bool
  deriving DecidableEq

/-- The feature record that `_analyzeImageBlock` returns for one block. -/
structure BlockFeature where
  r : ℚ
  g : ℚ
  b : ℚ
  variance : ℚ
  edges : ℚ
  greenness : ℚ
  grayness : ℚ
  blueness : ℚ
  greenRatio : ℚ
  grayRatio : ℚ
  blueRatio : ℚ
  deriving DecidableEq

/-- A grid coordinate `{x, y}`. -/
structure Cell where
  x : ℕ
  y : ℕ
  deriving DecidableEq

/-- The feature grid, indexed `grid[y][x]`. -/
abbrev Grid := List (List BlockFeature)

/-- The read `grid[y][x]` followed by a property access: fails unless the cell exists. -/
def gridAt (grid : Grid) (c : Cell) : Option BlockFeature :=
  match grid[c.y]? with
  | none => none
  | some row => row[c.x]?

/-- Every cell of every region indexes into the feature grid. -/
def RegionsInGrid (regions : List (List Cell)) (grid : Grid) : Prop :=
  ∀ region ∈ regions, ∀ c ∈ region, (gridAt grid c).isSome = true

instance (regions : List (List Cell)) (grid : Grid) : Decidable (RegionsInGrid regions grid) :=
  inferInstanceAs (Decidable (∀ region ∈ regions, ∀ c ∈ region, (gridAt grid c).isSome = true))

/-- The detection has one of the two supported categories, with the matching label. -/
def Detection.Supported (d : Detection) : Prop :=
  (d.cls = 58 ∧ d.className = "树木") ∨ (d.cls = -1 ∧ d.className = "建筑物")

/-- The order in which the comparator `(a, b) => b.confidence - a.confidence` leaves
`a` before `b`. -/
def ConfGE (a b : Detection) : Prop := b.confidence ≤ a.confidence

instance : DecidableRel ConfGE := fun a b => inferInstanceAs (Decidable (b.confidence ≤ a.confidence))

instance : IsTotal Detection ConfGE := ⟨fun a b => le_total b.confidence a.confidence⟩

instance : IsTrans Detection ConfGE := ⟨fun _ _ _ hab hbc => le_trans hbc hab⟩

/-- The sort `xs.sort((a, b) => b.confidence - a.confidence)` (a stable sort). -/
def sortByConfidence (xs : List Detection) : List Detection :=
  xs.insertionSort ConfGE

/-- The confidences along the list never increase. -/
def ConfidenceSorted (xs : List Detection) : Prop :=
  xs.Sorted ConfGE

/-- The box lies inside the image `[0, w] × [0, h]`. -/
def BBox.Inside (b : BBox) (w h : ℚ) : Prop :=
  0 ≤ b.x ∧ 0 ≤ b.y ∧ b.x + b.width ≤ w ∧ b.y + b.height ≤ h

/-! ## `_generateFallbackDetections` (TFObjectDetection.js) -/

/-- The value `treeProbability` of `_generateFallbackDetections`. -/
def treeProbability (aspectRatio : JsNum) : ℚ :=
  if aspectRatio.gt 1.6 then 0.4 else if aspectRatio.gt 1.3 then 0.3 else 0.25

/-- Loop state of `_generateFallbackDetections`: the results pushed so far, the two
flags, and the index of the next unread random value. -/
structure FallbackState where
  results : List Detection
  hasTree : Bool
  hasBuilding : Bool
  next : ℕ

/-- One iteration `i` of the loop of `_generateFallbackDetections`. -/
def fallbackStep (width height p : ℚ) (numDetections : ℤ) (getRandom : ℕ → ℚ)
    (st : FallbackState) (i : ℕ) : FallbackState :=
  -- the class of the object; the last two slots are forced when a class is missing
  let forcedBuilding : Bool := decide ((i : ℤ) = numDetections - 2) && !st.hasBuilding
  let forcedTree : Bool := decide ((i : ℤ) = numDetections - 1) && !st.hasTree
  let isTree : Bool :=
    if forcedBuilding then false
    else if forcedTree then true
    else decide (getRandom st.next < p)
  let k : ℕ := if forcedBuilding || forcedTree then st.next else st.next + 1
  let xSection : ℚ := width / ((numDetections : ℚ) + 1)
  let x0 : ℚ := xSection * ((i : ℚ) + 1) - xSection / 2 + (getRandom k - 0.5) * xSection
  let y0 : ℚ :=
    if isTree then height * (0.3 + getRandom (k + 1) * 0.2)
    else height * (0.15 + getRandom (k + 1) * 0.25)
  let boxWidth : ℚ :=
    if isTree then width * (0.08 + getRandom (k + 2) * 0.12)
    else width * (0.18 + getRandom (k + 2) * 0.22)
  let boxHeight : ℚ := height * (0.25 + getRandom (k + 3) * 0.3)
  let x : ℚ := max 0 (min (width - boxWidth) x0)
  let y : ℚ := max 0 (min (height - boxHeight) y0)
  let baseDeltaConfidence : ℚ := getRandom (k + 4) * 0.25
  let confidence : ℚ := if isTree then 0.6 + baseDeltaConfidence else 0.7 + baseDeltaConfidence
  { results := st.results ++
      [{ cls := if isTree then 58 else -1
         className := if isTree then "树木" else "建筑物"
         rawClass := some (if isTree then "tree" else "building")
         confidence := confidence
         bbox := { x := x, y := y, width := boxWidth, height := boxHeight }
         debug := none
         simulated := false }]
    hasTree := st.hasTree || isTree
    hasBuilding := st.hasBuilding || !isTree
    next := k + 5 }

/-- The state of `_generateFallbackDetections` after its loop. -/
def fallbackLoop (width height : ℚ) (aspectRatio : JsNum) (getRandom : ℕ → ℚ) :
    FallbackState :=
  let numDetections : ℤ := ⌊getRandom 0 * 4⌋ + 2
  (List.range numDetections.toNat).foldl
    (fallbackStep width height (treeProbability aspectRatio) numDetections getRandom)
    { results := [], hasTree := false, hasBuilding := false, next := 1 }

/-- `_generateFallbackDetections(width, height, aspectRatio, customGetRandom)`; the
stream `getRandom` is `customGetRandom || Math.random`. -/
def _generateFallbackDetections (width height : ℚ) (aspectRatio : JsNum)
    (getRandom : ℕ → ℚ) : List Detection :=
  sortByConfidence (fallbackLoop width height aspectRatio getRandom).results

/-! ## `_resolveOverlaps` (TFObjectDetection.js) -/

/-- The local function `calculateOverlap` of `_resolveOverlaps`: intersection area over
the smaller of the two areas. -/
def calculateOverlap (bbox1 bbox2 : BBox) : JsNum :=
  let xOverlap : ℚ :=
    max 0 (min (bbox1.x + bbox1.width) (bbox2.x + bbox2.width) - max bbox1.x bbox2.x)
  let yOverlap : ℚ :=
    max 0 (min (bbox1.y + bbox1.height) (bbox2.y + bbox2.height) - max bbox1.y bbox2.y)
  let overlapArea : ℚ := xOverlap * yOverlap
  let bbox1Area : ℚ := bbox1.width * bbox1.height
  let bbox2Area : ℚ := bbox2.width * bbox2.height
  jsDiv overlapArea (min bbox1Area bbox2Area)

/-- The box that replaces `currentObject.bbox` when `other` is merged into it. -/
def mergeBBox (cur other : BBox) : BBox :=
  let minX : ℚ := min cur.x other.x
  let minY : ℚ := min cur.y other.y
  let maxX : ℚ := max (cur.x + cur.width) (other.x + other.width)
  let maxY : ℚ := max (cur.y + cur.height) (other.y + other.height)
  { x := minX, y := minY, width := maxX - minX, height := maxY - minY }

/-- One iteration `j` of the inner loop of `_resolveOverlaps`; the state is
`currentObject` and `usedIndices`. -/
def absorbStep (objects : List Detection) (i : ℕ) (st : Detection × List ℕ) (j : ℕ) :
    Detection × List ℕ :=
  if i = j ∨ j ∈ st.2 then st
  else
    match objects[i]?, objects[j]? with
    | some oi, some oj =>
      if oi.cls ≠ oj.cls then st
      else if (calculateOverlap st.1.bbox oj.bbox).gt 0.7 then
        ({ st.1 with
            bbox := mergeBBox st.1.bbox oj.bbox
            confidence := max st.1.confidence oj.confidence },
          j :: st.2)
      else st
    | _, _ => st

/-- One iteration `i` of the outer loop of `_resolveOverlaps`; the state is
`finalObjects` and `usedIndices`. -/
def resolveStep (objects : List Detection) (st : List Detection × List ℕ) (i : ℕ) :
    List Detection × List ℕ :=
  if i ∈ st.2 then st
  else
    match objects[i]? with
    | none => st
    | some oi =>
      let inner := (List.range objects.length).foldl (absorbStep objects i) (oi, i :: st.2)
      (st.1 ++ [inner.1], inner.2)

/-- `_resolveOverlaps(objects)`. -/
def _resolveOverlaps (objects : List Detection) : List Detection :=
  if objects.length ≤ 1 then objects
  else ((List.range objects.length).foldl (resolveStep objects) ([], [])).1

/-! ## `_classifyRegions` (TFObjectDetection.js) -/

/-- The sums and the block extent that `_classifyRegions` accumulates over one region;
`minX = none` and `minY = none` stand for the initial value `Infinity`. -/
structure RegionAcc where
  avgGreenness : ℚ
  avgGrayness : ℚ
  avgBlueness : ℚ
  avgEdges : ℚ
  avgGreenRatio : ℚ
  avgGrayRatio : ℚ
  avgBlueRatio : ℚ
  minX : Option ℕ
  minY : Option ℕ
  maxX : ℕ
  maxY : ℕ

/-- The accumulator before the first cell. -/
def RegionAcc.init : RegionAcc :=
  { avgGreenness := 0, avgGrayness := 0, avgBlueness := 0, avgEdges := 0,
    avgGreenRatio := 0, avgGrayRatio := 0, avgBlueRatio := 0,
    minX := none, minY := none, maxX := 0, maxY := 0 }

/-- The call `Math.min(m, v)` where `m = none` is `Infinity`. -/
def minInf (m : Option ℕ) (v : ℕ) : ℕ :=
  match m with
  | none => v
  | some a => min a v

/-- The loop `for (const {x, y} of region)`; `none` when `grid[y][x]` does not exist. -/
def accumulateRegion (grid : Grid) : List Cell → RegionAcc → Option RegionAcc
  | [], acc => some acc
  | c :: rest, acc =>
    match gridAt grid c with
    | none => none
    | some f =>
      accumulateRegion grid rest
        { avgGreenness := acc.avgGreenness + f.greenness
          avgGrayness := acc.avgGrayness + f.grayness
          avgBlueness := acc.avgBlueness + f.blueness
          avgEdges := acc.avgEdges + f.edges
          avgGreenRatio := acc.avgGreenRatio + f.greenRatio
          avgGrayRatio := acc.avgGrayRatio + f.grayRatio
          avgBlueRatio := acc.avgBlueRatio + f.blueRatio
          minX := some (minInf acc.minX c.x)
          minY := some (minInf acc.minY c.y)
          maxX := max acc.maxX c.x
          maxY := max acc.maxY c.y }

/-- The tree score ladder over the averaged green ratio and greenness. -/
def treeScoreOf (avgGreenRatio avgGreenness : ℚ) : ℤ :=
  (if avgGreenRatio > 0.4 then 3 else if avgGreenRatio > 0.25 then 2
    else if avgGreenRatio > 0.15 then 1 else 0)
  + (if avgGreenness > 0.2 then 2 else if avgGreenness > 0.1 then 1 else 0)

/-- The building score ladder; `upperTall` is the position test
`centerY < 0.4 && objectHeight > imgHeight * 0.3`. -/
def buildingScoreOf (avgGrayRatio avgEdges avgGrayness : ℚ) (upperTall : Bool) : ℤ :=
  (if avgGrayRatio > 0.4 then 3 else if avgGrayRatio > 0.25 then 2
    else if avgGrayRatio > 0.15 then 1 else 0)
  + (if avgEdges > 0.08 then 3 else if avgEdges > 0.05 then 2
    else if avgEdges > 0.03 then 1 else 0)
  + (if avgGrayness > 0.5 then 2 else if avgGrayness > 0.35 then 1 else 0)
  + (if upperTall then 1 else 0)

/-- The local `getRandom` of `_classifyRegions`: `Math.random() * 0.1 + 0.95`. -/
def jitter (r : ℚ) : ℚ := r * 0.1 + 0.95

/-- The object that `_classifyRegions` pushes for a region of at least 4 cells, given
the accumulated sums `acc` and the four jitter factors, in the order they are drawn. -/
def regionObject (acc : RegionAcc) (len : ℕ) (imgHeight blockSize : ℚ)
    (j1 j2 j3 j4 : ℚ) : Detection :=
  let avgGreenness : ℚ := acc.avgGreenness / len
  let avgGrayness : ℚ := acc.avgGrayness / len
  let avgEdges : ℚ := acc.avgEdges / len
  let avgGreenRatio : ℚ := acc.avgGreenRatio / len
  let avgGrayRatio : ℚ := acc.avgGrayRatio / len
  -- a region that reaches this point has a cell, so `minX`, `minY` are not `Infinity`
  let minX : ℚ := ((acc.minX.getD 0 : ℕ) : ℚ)
  let minY : ℚ := ((acc.minY.getD 0 : ℕ) : ℚ)
  let maxX : ℚ := (acc.maxX : ℚ)
  let maxY : ℚ := (acc.maxY : ℚ)
  let centerY : JsNum := jsDiv ((minY + maxY) / 2) imgHeight
  let objectHeight : ℚ := (maxY - minY) * blockSize
  let upperTall : Bool := centerY.lt 0.4 && decide (objectHeight > imgHeight * 0.3)
  let treeScore : ℤ := treeScoreOf avgGreenRatio avgGreenness
  let buildingScore : ℤ := buildingScoreOf avgGrayRatio avgEdges avgGrayness upperTall
  let isTree : Bool := decide (treeScore > buildingScore)
  let scoreDiff : ℚ := ((|treeScore - buildingScore| : ℤ) : ℚ)
  let confidence : ℚ := 0.7 + min 0.25 (scoreDiff * 0.05)
  { cls := if isTree then 58 else -1
    className := if isTree then "树木" else "建筑物"
    rawClass := some (if isTree then "tree" else "building")
    confidence := confidence
    bbox :=
      { x := minX * blockSize * j1
        y := minY * blockSize * j2
        width := (maxX - minX + 1) * blockSize * j3
        height := (maxY - minY + 1) * blockSize * j4 }
    debug := some
      { greenRatio := avgGreenRatio, grayRatio := avgGrayRatio,
        treeScore := some treeScore, buildingScore := some buildingScore }
    simulated := false }

/-- The loop `for (const region of regions)` of `_classifyRegions`: the objects pushed
and the number of `Math.random` values read, starting from index `k`. -/
def classifyLoop (grid : Grid) (imgHeight blockSize : ℚ) (random : ℕ → ℚ) :
    List (List Cell) → ℕ → Option (List Detection × ℕ)
  | [], k => some ([], k)
  | region :: rest, k =>
    if region.length < 4 then classifyLoop grid imgHeight blockSize random rest k
    else
      match accumulateRegion grid region RegionAcc.init with
      | none => none
      | some acc =>
        let obj := regionObject acc region.length imgHeight blockSize
          (jitter (random k)) (jitter (random (k + 1)))
          (jitter (random (k + 2))) (jitter (random (k + 3)))
        match classifyLoop grid imgHeight blockSize random rest (k + 4) with
        | none => none
        | some (objs, k') => some (obj :: objs, k')

/-- `_classifyRegions(regions, grid, imgWidth, imgHeight, blockSize)` run against the
ambient source `random` (`Math.random`); `none` is a thrown `TypeError`. -/
def _classifyRegions (regions : List (List Cell)) (grid : Grid)
    (imgWidth imgHeight blockSize : ℚ) (random : ℕ → ℚ) : Option (List Detection) :=
  match classifyLoop grid imgHeight blockSize random regions 0 with
  | none => none
  | some (objects, k) =>
    if objects.length = 0 then
      some (_generateFallbackDetections imgWidth imgHeight (jsDiv imgWidth imgHeight)
        (fun n => random (k + n)))
    else
      let finalObjects := sortByConfidence (_resolveOverlaps objects)
      some (finalObjects.take (min finalObjects.length 6))

/-! ## The seeded generator -/

/-- Truncation toward zero, as in the quotient of JavaScript `%`. -/
def jsTrunc (q : ℚ) : ℤ := if 0 ≤ q then ⌊q⌋ else ⌈q⌉

/-- JavaScript `a % m` on finite numbers, `m` not zero: the remainder takes the sign
of `a`. -/
def jsMod (a m : ℚ) : ℚ := a - m * (jsTrunc (a / m) : ℚ)

/-- JavaScript `Math.round`: the nearest integer, halves rounded up. -/
def jsRound (q : ℚ) : ℤ := ⌊q + 1 / 2⌋

/-- One update `s = (s * 9301 + 49297) % 233280` of the generator state. -/
def lcgNext (s : ℚ) : ℚ := jsMod (s * 9301 + 49297) 233280

/-- The generator state after `k` updates, started at `s`. -/
def lcgState (s : ℚ) : ℕ → ℚ
  | 0 => s
  | k + 1 => lcgNext (lcgState s k)

/-- The value that call number `k` (from 0) of the generator closure returns. -/
def lcgValue (s : ℚ) (k : ℕ) : ℚ := lcgState s (k + 1) / 233280

/-- `_seededRandom(seed)` as the stream of the values of the returned closure; `ambient`
is the value of `Math.random()` that is read when `seed` is falsy. -/
def _seededRandom (seed ambient : ℚ) : ℕ → ℚ :=
  lcgValue (if seed = 0 then ambient * 10000 else seed)

/-! ## `simulateDetection` and `detect` (TFObjectDetection.js) -/

/-- The region with index `i` that `_divideCanvasToRegions` builds and then perturbs with
the four random values `r1 .. r4`, in the order they are drawn. -/
def canvasRegion (width height : ℚ) (count : ℤ) (i : ℕ) (r1 r2 r3 r4 : ℚ) : BBox :=
  let segmentWidth : ℚ := width / (count : ℚ)
  let segmentHeight : ℚ := height / (count : ℚ)
  let x0 : ℚ := if width ≥ height then (i : ℚ) * segmentWidth else 0
  let y0 : ℚ := if width ≥ height then 0 else (i : ℚ) * segmentHeight
  let w0 : ℚ := if width ≥ height then segmentWidth else width
  let h0 : ℚ := if width ≥ height then height else segmentHeight
  let jitter : ℚ := 0.1
  let x1 : ℚ := x0 + w0 * jitter * (r1 - 0.5)
  let y1 : ℚ := y0 + h0 * jitter * (r2 - 0.5)
  let w1 : ℚ := w0 * (0.9 + r3 * 0.2)
  let h1 : ℚ := h0 * (0.9 + r4 * 0.2)
  { x := max 0 (min (width - w1) x1)
    y := max 0 (min (height - h1) y1)
    width := w1
    height := h1 }

/-- `_divideCanvasToRegions(width, height, count, rng)`, reading `rng` from index `k`;
region `i` reads the values `k + 4 i .. k + 4 i + 3`. -/
def _divideCanvasToRegions (width height : ℚ) (count : ℤ) (rng : ℕ → ℚ) (k : ℕ) :
    List BBox :=
  (List.range count.toNat).map (fun i =>
    canvasRegion width height count i
      (rng (k + 4 * i)) (rng (k + 4 * i + 1)) (rng (k + 4 * i + 2)) (rng (k + 4 * i + 3)))

/-- `_getBBoxInRegion(region, rng)`, reading `rng` from index `k` (four values). -/
def _getBBoxInRegion (region : BBox) (rng : ℕ → ℚ) (k : ℕ) : BBox :=
  let minRatio : ℚ := 0.3
  let maxRatio : ℚ := 0.8
  let widthRatio : ℚ := minRatio + rng k * (maxRatio - minRatio)
  let heightRatio : ℚ := minRatio + rng (k + 1) * (maxRatio - minRatio)
  let boxWidth : ℚ := region.width * widthRatio
  let boxHeight : ℚ := region.height * heightRatio
  { x := region.x + (region.width - boxWidth) * rng (k + 2)
    y := region.y + (region.height - boxHeight) * rng (k + 3)
    width := boxWidth
    height := boxHeight }

/-- One iteration `i` of the loop of `simulateDetection`; the state is the list
`detections` and the index of the next unread value of `rng`.  The list `regions` has
`detectionCount` entries, so `regions[i]` exists for every `i` of the loop. -/
def simulateStep (regions : List BBox) (treeIndex buildingIndex : ℤ) (debug : Bool)
    (rng : ℕ → ℚ) (st : List Detection × ℕ) (i : ℕ) : List Detection × ℕ :=
  let k0 : ℕ := st.2
  -- `rng()` is read only when `i` is neither of the two forced indices
  let drawn : Bool := decide ((i : ℤ) ≠ treeIndex) && decide ((i : ℤ) ≠ buildingIndex)
  let isTree : Bool :=
    decide ((i : ℤ) = treeIndex) ||
      (decide ((i : ℤ) ≠ buildingIndex) && decide (rng k0 > 0.5))
  let k1 : ℕ := if drawn then k0 + 1 else k0
  let bbox : BBox := _getBBoxInRegion (regions[i]?.getD ⟨0, 0, 0, 0⟩) rng k1
  let confidence : ℚ := 0.8 + rng (k1 + 4) * 0.15
  let k2 : ℕ := k1 + 5
  let dbg : Option DebugInfo :=
    if debug then
      some
        { greenRatio := if isTree then 0.65 + rng k2 * 0.25 else 0.05 + rng k2 * 0.15
          grayRatio :=
            if isTree then 0.05 + rng (k2 + 1) * 0.15 else 0.55 + rng (k2 + 1) * 0.25
          treeScore := none
          buildingScore := none }
    else none
  (st.1 ++
      [{ cls := if isTree then 58 else -1
         className := if isTree then "树木" else "建筑物"
         rawClass := none
         confidence := confidence
         bbox := bbox
         debug := dbg
         simulated := false }],
    if debug then k2 + 2 else k2)

/-- The list `detections` that `simulateDetection(canvas, options)` resolves to;
`imageHash`, `variation` are `options.imageHash || 0`, `options.variation || 0`, and
`ambient` is the value of `Math.random()` that seeds the generator when the seed is 0. -/
def simulateDetection (canvasWidth canvasHeight imageHash variation : ℚ) (debug : Bool)
    (ambient : ℚ) : List Detection :=
  let seed : ℚ := imageHash + variation * 0.1
  let rng : ℕ → ℚ := _seededRandom seed ambient
  let detectionCount : ℤ := ⌊rng 0 * 3⌋ + 2
  let treeIndex : ℤ := ⌊rng 1 * (detectionCount : ℚ)⌋
  let buildingIndex : ℤ :=
    Int.tmod (treeIndex + 1 + ⌊rng 2 * ((detectionCount : ℚ) - 1)⌋) detectionCount
  let regions : List BBox := _divideCanvasToRegions canvasWidth canvasHeight detectionCount rng 3
  ((List.range detectionCount.toNat).foldl
    (simulateStep regions treeIndex buildingIndex debug rng)
    ([], 3 + 4 * detectionCount.toNat)).1

/-- The list that `detect(image, options)` resolves to: the simulated detections with
the label normalisation of `detect` applied. -/
def detect (canvasWidth canvasHeight imageHash variation : ℚ) (debug : Bool)
    (ambient : ℚ) : List Detection :=
  (simulateDetection canvasWidth canvasHeight imageHash variation debug ambient).map
    (fun detection =>
      if detection.className = "" ∨ detection.className = "未知" then
        { detection with className := "建筑物", cls := -1 }
      else detection)

/-! ## `_fallbackSimulatedDetection` (YOLOv8.js) -/

/-- One iteration `i` of the loop of `_fallbackSimulatedDetection`; the state is the
list `results` and the index of the next unread value of `getRandom`.  `sqrt` is
`Math.sqrt`. -/
def fallbackSimStep (sqrt : ℚ → ℚ) (width height treeProbability : ℚ) (numDetections : ℤ)
    (getRandom : ℕ → ℚ) (st : List Detection × ℕ) (i : ℕ) : List Detection × ℕ :=
  let k : ℕ := st.2
  let isTree : Bool := decide (getRandom k < treeProbability)
  let xSection : ℚ := width / ((numDetections : ℚ) + 1)
  let x0 : ℚ := xSection * ((i : ℚ) + 1) - xSection / 2
  let x1 : ℚ := x0 + (getRandom (k + 1) - 0.5) * width * 0.3
  let x : ℚ := max 0 (min (width * 0.8) x1)
  let y : ℚ :=
    if isTree then height * (0.2 + getRandom (k + 2) * 0.3)
    else height * (0.1 + getRandom (k + 2) * 0.2)
  let boxWidth0 : ℚ :=
    if isTree then width * (0.1 + getRandom (k + 3) * 0.1)
    else width * (0.2 + getRandom (k + 3) * 0.2)
  let boxHeight0 : ℚ :=
    if isTree then height * (0.3 + getRandom (k + 4) * 0.2)
    else height * (0.2 + getRandom (k + 4) * 0.3)
  let boxWidth : ℚ := min boxWidth0 (width - x)
  let boxHeight : ℚ := min boxHeight0 (height - y)
  let centerX : ℚ := width / 2
  let centerY : ℚ := height / 2
  let distFromCenter : ℚ :=
    sqrt (((x + boxWidth / 2) - centerX) ^ 2 + ((y + boxHeight / 2) - centerY) ^ 2) /
      sqrt ((width / 2) ^ 2 + (height / 2) ^ 2)
  let confidence : ℚ := 0.9 - distFromCenter * 0.3 + getRandom (k + 5) * 0.1
  (st.1 ++
      [{ cls := if isTree then 58 else -1
         className := if isTree then "树木" else "建筑物"
         rawClass := none
         confidence := confidence
         bbox := { x := x, y := y, width := boxWidth, height := boxHeight }
         debug := none
         simulated := true }],
    k + 6)

/-- The seed that `_fallbackSimulatedDetection` derives from the image size
(`image.width`, `image.height`, 0 when absent) and `options.variation || 0`. -/
def fallbackSimSeed (imageWidth imageHeight variation : ℚ) : ℚ :=
  let width : ℚ := if imageWidth = 0 then 640 else imageWidth
  let height : ℚ := if imageHeight = 0 then 480 else imageHeight
  let aspectRatio : ℚ := width / height
  let imageHash : ℚ := width * height * 13 + (jsRound (aspectRatio * 100) : ℚ)
  imageHash + variation * 1000

/-- `_fallbackSimulatedDetection(image, options)` of YOLOv8.js; `sqrt` is `Math.sqrt`. -/
def _fallbackSimulatedDetection (sqrt : ℚ → ℚ) (imageWidth imageHeight variation : ℚ) :
    List Detection :=
  let width : ℚ := if imageWidth = 0 then 640 else imageWidth
  let height : ℚ := if imageHeight = 0 then 480 else imageHeight
  let aspectRatio : ℚ := width / height
  let getRandom : ℕ → ℚ := lcgValue (fallbackSimSeed imageWidth imageHeight variation)
  let numDetections : ℤ := ⌊getRandom 0 * 3⌋ + 2
  let treeProbability : ℚ := if aspectRatio > 1.2 then 0.6 else 0.4
  sortByConfidence
    ((List.range numDetections.toNat).foldl
      (fallbackSimStep sqrt width height treeProbability numDetections getRandom)
      ([], 1)).1

/-- The flags of the fallback loop tell the truth about the results pushed so far. -/
def FallbackState.FlagsSound (st : FallbackState) : Prop :=
  (st.hasTree = true → ∃ d ∈ st.results, d.cls = 58) ∧
    (st.hasBuilding = true → ∃ d ∈ st.results, d.cls = -1)

/-- The classes that the slots of `_fallbackSimulatedDetection` get, in slot order: slot
`i` reads the value number `1 + 6 i` of the generator and is a tree when that value is
below `treeProbability`. -/
def fallbackSimClasses (imageWidth imageHeight variation : ℚ) : List ℤ :=
  let width : ℚ := if imageWidth = 0 then 640 else imageWidth
  let height : ℚ := if imageHeight = 0 then 480 else imageHeight
  let aspectRatio : ℚ := width / height
  let getRandom : ℕ → ℚ := lcgValue (fallbackSimSeed imageWidth imageHeight variation)
  let numDetections : ℤ := ⌊getRandom 0 * 3⌋ + 2
  let treeProbability : ℚ := if aspectRatio > 1.2 then 0.6 else 0.4
  (List.range numDetections.toNat).map
    (fun i => if getRandom (1 + 6 * i) < treeProbability then 58 else -1)

instance (b : BBox) (w h : ℚ) : Decidable (b.Inside w h) :=
  inferInstanceAs (Decidable (0 ≤ b.x ∧ 0 ≤ b.y ∧ b.x + b.width ≤ w ∧ b.y + b.height ≤ h))

/-! ## The scores of `_classifyRegions`, named -/

/-- The position test `centerY < 0.4 && objectHeight > imgHeight * 0.3` that
`_classifyRegions` makes on the block extent of a region. -/
def regionUpperTall (acc : RegionAcc) (imgHeight blockSize : ℚ) : Bool :=
  let minY : ℚ := ((acc.minY.getD 0 : ℕ) : ℚ)
  let maxY : ℚ := (acc.maxY : ℚ)
  let centerY : JsNum := jsDiv ((minY + maxY) / 2) imgHeight
  let objectHeight : ℚ := (maxY - minY) * blockSize
  centerY.lt 0.4 && decide (objectHeight > imgHeight * 0.3)

/-- The value of `treeScore` that `_classifyRegions` computes for a region of `len`
cells with the accumulated sums `acc`. -/
def regionTreeScore (acc : RegionAcc) (len : ℕ) : ℤ :=
  treeScoreOf (acc.avgGreenRatio / len) (acc.avgGreenness / len)

/-- The value of `buildingScore` that `_classifyRegions` computes for a region of `len`
cells with the accumulated sums `acc`. -/
def regionBuildingScore (acc : RegionAcc) (len : ℕ) (imgHeight blockSize : ℚ) : ℤ :=
  buildingScoreOf (acc.avgGrayRatio / len) (acc.avgEdges / len) (acc.avgGrayness / len)
    (regionUpperTall acc imgHeight blockSize)

/-! ## `_colorDifference`, `_isSimilarBlock`, `_segmentRegions` (TFObjectDetection.js) -/

/-- `_colorDifference(block1, block2)`. -/
def _colorDifference (block1 block2 : BlockFeature) : ℚ :=
  (|block1.r - block2.r| + |block1.g - block2.g| + |block1.b - block2.b|) / (255 * 3)

/-- `_isSimilarBlock(block1, block2)`. -/
def _isSimilarBlock (block1 block2 : BlockFeature) : Bool :=
  let colorThreshold : ℚ := 0.2
  let featureThreshold : ℚ := 0.3
  let colorDiff : ℚ := _colorDifference block1 block2
  if colorDiff > colorThreshold then false
  else
    let greennessDiff : ℚ := |block1.greenness - block2.greenness|
    let graynessDiff : ℚ := |block1.grayness - block2.grayness|
    decide (greennessDiff < featureThreshold) && decide (graynessDiff < featureThreshold)

/-- The edge grid, indexed `edgeGrid[y][x]`. -/
abbrev EdgeGrid := List (List ℚ)

/-- The array `neighbors` of `_segmentRegions`: left, right, up, down of `current`. -/
def neighborsOf (current : Cell) : List (ℤ × ℤ) :=
  [((current.x : ℤ) - 1, (current.y : ℤ)), ((current.x : ℤ) + 1, (current.y : ℤ)),
   ((current.x : ℤ), (current.y : ℤ) - 1), ((current.x : ℤ), (current.y : ℤ) + 1)]

/-- The condition under which `_segmentRegions` absorbs the neighbour `n` into the region
grown from `seed`: `some true` to absorb, `some false` to skip, `none` when the
condition throws a `TypeError` (`edgeGrid[n.y]` is undefined, or a block handed to
`_isSimilarBlock` is undefined).  `visited` is the set of cells marked `true`. -/
def absorbTest (grid : Grid) (edgeGrid : EdgeGrid) (gridWidth gridHeight : ℕ)
    (seed : Cell) (visited : List Cell) (n : ℤ × ℤ) : Option Bool :=
  if 0 ≤ n.1 ∧ n.1 < (gridWidth : ℤ) ∧ 0 ≤ n.2 ∧ n.2 < (gridHeight : ℤ) then
    let c : Cell := ⟨n.1.toNat, n.2.toNat⟩
    if c ∈ visited then some false
    else
      match edgeGrid[c.y]? with
      | none => none
      | some row =>
        match row[c.x]? with
        | none => some false -- `undefined < 0.3` is false
        | some e =>
          if e < 0.3 then
            match gridAt grid seed, gridAt grid c with
            | some block1, some block2 => some (_isSimilarBlock block1 block2)
            | _, _ => none
          else some false
  else some false

/-- The loop `for (const neighbor of neighbors)`; the state is `queue` and `visited`. -/
def visitNeighbors (grid : Grid) (edgeGrid : EdgeGrid) (gridWidth gridHeight : ℕ)
    (seed : Cell) : List (ℤ × ℤ) → List Cell × List Cell → Option (List Cell × List Cell)
  | [], st => some st
  | n :: rest, st =>
    match absorbTest grid edgeGrid gridWidth gridHeight seed st.2 n with
    | none => none
    | some true =>
      visitNeighbors grid edgeGrid gridWidth gridHeight seed rest
        (st.1 ++ [⟨n.1.toNat, n.2.toNat⟩], ⟨n.1.toNat, n.2.toNat⟩ :: st.2)
    | some false => visitNeighbors grid edgeGrid gridWidth gridHeight seed rest st

/-- The loop `while (queue.length > 0)` of `_segmentRegions`, run for at most `fuel`
iterations; it returns `region` and `visited`.  `none` is a `TypeError`, or fuel that
ran out (a region has at most `gridWidth * gridHeight` cells, which is the fuel that
`_segmentRegions` gives). -/
def floodFill (grid : Grid) (edgeGrid : EdgeGrid) (gridWidth gridHeight : ℕ) (seed : Cell) :
    ℕ → List Cell → List Cell → List Cell → Option (List Cell × List Cell)
  | _, [], region, visited => some (region, visited)
  | 0, _ :: _, _, _ => none
  | fuel + 1, current :: queue, region, visited =>
    match visitNeighbors grid edgeGrid gridWidth gridHeight seed (neighborsOf current)
        (queue, visited) with
    | none => none
    | some st =>
      floodFill grid edgeGrid gridWidth gridHeight seed fuel st.1 (region ++ [current]) st.2

/-- The cells `(x, y)` in the order of the two outer loops of `_segmentRegions`. -/
def cellsInOrder (gridWidth gridHeight : ℕ) : List Cell :=
  (List.range gridHeight).flatMap (fun y => (List.range gridWidth).map (fun x => ⟨x, y⟩))

/-- The two outer loops of `_segmentRegions` over the cells that are left; the state is
`regions` and `visited`. -/
def segmentLoop (grid : Grid) (edgeGrid : EdgeGrid) (gridWidth gridHeight : ℕ) :
    List Cell → List (List Cell) × List Cell → Option (List (List Cell) × List Cell)
  | [], st => some st
  | c :: rest, st =>
    if c ∈ st.2 then segmentLoop grid edgeGrid gridWidth gridHeight rest st
    else
      match floodFill grid edgeGrid gridWidth gridHeight c (gridWidth * gridHeight) [c] []
          (c :: st.2) with
      | none => none
      | some filled =>
        segmentLoop grid edgeGrid gridWidth gridHeight rest
          (if filled.1.length ≥ 3 then st.1 ++ [filled.1] else st.1, filled.2)

/-- `_segmentRegions(grid, edgeGrid, gridWidth, gridHeight)`; `none` is a thrown
`TypeError`. -/
def _segmentRegions (grid : Grid) (edgeGrid : EdgeGrid) (gridWidth gridHeight : ℕ) :
    Option (List (List Cell)) :=
  match segmentLoop grid edgeGrid gridWidth gridHeight (cellsInOrder gridWidth gridHeight)
      ([], []) with
  | none => none
  | some st => some st.1

/-- The grids have an entry for every cell of the `gridWidth` x `gridHeight` block grid. -/
def GridsCover (grid : Grid) (edgeGrid : EdgeGrid) (gridWidth gridHeight : ℕ) : Prop :=
  ∀ y, y < gridHeight → ∀ x, x < gridWidth →
    (gridAt grid ⟨x, y⟩).isSome = true ∧ (edgeGrid[y]?).isSome = true

instance (grid : Grid) (edgeGrid : EdgeGrid) (gridWidth gridHeight : ℕ) :
    Decidable (GridsCover grid edgeGrid gridWidth gridHeight) :=
  inferInstanceAs (Decidable (∀ y, y < gridHeight → ∀ x, x < gridWidth →
    (gridAt grid ⟨x, y⟩).isSome = true ∧ (edgeGrid[y]?).isSome = true))

/-- What the claims about `_fallbackSimulatedDetection` use of `Math.sqrt`: on arguments
that are not negative it is not negative and monotone, and it is positive on positive
arguments. -/
def SqrtLike (sqrt : ℚ → ℚ) : Prop :=
  (∀ a, 0 ≤ a → 0 ≤ sqrt a) ∧ (∀ a b, 0 ≤ a → a ≤ b → sqrt a ≤ sqrt b) ∧
    (∀ a, 0 < a → 0 < sqrt a)

/-- The cell lies in the `gridWidth` x `gridHeight` block grid. -/
def InGrid (gridWidth gridHeight : ℕ) (c : Cell) : Prop := c.x < gridWidth ∧ c.y < gridHeight

/-- Invariant of the flood fill started with the visited set `visited₀`: the cells of
`region` and `queue` are distinct, lie in the grid and were not visited before, and
`visited` holds exactly the old marks and these cells. -/
structure FillInv (gridWidth gridHeight : ℕ) (visited₀ region queue visited : List Cell) :
    Prop where
  nodup : (region ++ queue).Nodup
  fresh : ∀ c ∈ region ++ queue, InGrid gridWidth gridHeight c ∧ c ∉ visited₀
  marks : ∀ c, c ∈ visited ↔ c ∈ visited₀ ∨ c ∈ region ++ queue

/-- Invariant of the outer loops of `_segmentRegions`: no cell occurs twice in the regions
reported so far, their cells lie in the grid and are marked visited, and each region has
at least 3 cells. -/
structure SegInv (gridWidth gridHeight : ℕ) (regions : List (List Cell))
    (visited : List Cell) : Prop where
  nodup : regions.flatten.Nodup
  inGrid : ∀ r ∈ regions, ∀ c ∈ r, InGrid gridWidth gridHeight c ∧ c ∈ visited
  large : ∀ r ∈ regions, 3 ≤ r.length

/-- An approximation of the square root with the properties `SqrtLike`: the integer
square root of the argument rounded up. -/
def sqrtCeil (a : ℚ) : ℚ := ((Nat.sqrt ⌈a⌉.toNat : ℕ) : ℚ)

/-! ## The generator as the spec words it -/

/-- Follows the spec's words: `a mod m` for a positive modulus, the remainder in
`[0, m)`. -/
def specMod (a m : ℚ) : ℚ := a - m * (⌊a / m⌋ : ℚ)

/-- Follows the spec's words: `state = (state * 9301 + 49297) mod 233280`, started at the
seed. -/
def specLcgState (s : ℚ) : ℕ → ℚ
  | 0 => s
  | k + 1 => specMod (specLcgState s k * 9301 + 49297) 233280

/-! ## `_analyzeImageBlock` (TFObjectDetection.js) -/

/-- One RGBA sample of the pixel buffer. -/
structure Pixel where
  r : ℕ
  g : ℕ
  b : ℕ
  a : ℕ
  deriving DecidableEq

/-- The buffer `pixelData`: an RGBA byte array (its length is a multiple of 4, as that of
`ImageData.data` is), given as the list of its pixels.  The byte index `i` of the source
is 4 times the pixel index, so `i >= pixelData.length` says that the pixel index is at
or past the end of the list. -/
abbrev PixelData := List Pixel

/-- The class that the `if / else if` chain of the first pass gives a pixel; `other` is
a pixel that increments none of the three counters. -/
inductive PixelClass where
  | green
  | gray
  | blue
  | other
  deriving DecidableEq

/-- The `if / else if` chain of the first pass of `_analyzeImageBlock`. -/
def classifyPixel (r g b : ℚ) : PixelClass :=
  if g > r * 1.15 ∧ g > b * 1.15 then PixelClass.green
  else if max r (max g b) - min r (min g b) < 30 then PixelClass.gray
  else if b > r * 1.2 ∧ b > g * 1.1 then PixelClass.blue
  else PixelClass.other

/-- The variables of the first pass of `_analyzeImageBlock`. -/
structure BlockSums where
  rSum : ℚ
  gSum : ℚ
  bSum : ℚ
  pixelCount : ℕ
  greenPixels : ℕ
  grayPixels : ℕ
  bluePixels : ℕ

/-- The variables of the second pass of `_analyzeImageBlock`. -/
structure BlockVar where
  rVariance : ℚ
  gVariance : ℚ
  bVariance : ℚ
  edgeStrength : ℚ

/-- The pairs `(x, y)` that the two nested loops of `_analyzeImageBlock` run through, in
order: `y` from `startY` below `endY`, `x` from `startX` below `endX`. -/
def blockCoords (imgWidth imgHeight startX startY : ℕ) (blockWidth blockHeight : ℤ) :
    List (ℕ × ℕ) :=
  let endX : ℤ := min ((startX : ℤ) + blockWidth) (imgWidth : ℤ)
  let endY : ℤ := min ((startY : ℤ) + blockHeight) (imgHeight : ℤ)
  (List.range' startY (endY - startY).toNat).flatMap
    (fun y => (List.range' startX (endX - startX).toNat).map (fun x => (x, y)))

/-- The body of the first pass at `(x, y)`. -/
def sumStep (pixelData : PixelData) (imgWidth : ℕ) (st : BlockSums) (xy : ℕ × ℕ) :
    BlockSums :=
  match pixelData[xy.2 * imgWidth + xy.1]? with
  | none => st -- `if (i >= pixelData.length) continue`
  | some p =>
    let r : ℚ := (p.r : ℚ)
    let g : ℚ := (p.g : ℚ)
    let b : ℚ := (p.b : ℚ)
    let cls : PixelClass := classifyPixel r g b
    { rSum := st.rSum + r
      gSum := st.gSum + g
      bSum := st.bSum + b
      greenPixels := if cls = PixelClass.green then st.greenPixels + 1 else st.greenPixels
      grayPixels := if cls = PixelClass.gray then st.grayPixels + 1 else st.grayPixels
      bluePixels := if cls = PixelClass.blue then st.bluePixels + 1 else st.bluePixels
      pixelCount := st.pixelCount + 1 }

/-- The body of the second pass at `(x, y)`. -/
def varStep (pixelData : PixelData) (imgWidth : ℕ) (endX endY : ℤ) (avgR avgG avgB : ℚ)
    (st : BlockVar) (xy : ℕ × ℕ) : BlockVar :=
  match pixelData[xy.2 * imgWidth + xy.1]? with
  | none => st -- `if (i >= pixelData.length) continue`
  | some p =>
    let rVariance : ℚ := st.rVariance + ((p.r : ℚ) - avgR) ^ 2
    let gVariance : ℚ := st.gVariance + ((p.g : ℚ) - avgG) ^ 2
    let bVariance : ℚ := st.bVariance + ((p.b : ℚ) - avgB) ^ 2
    let edgeStrength : ℚ :=
      if (xy.1 : ℤ) < endX - 1 ∧ (xy.2 : ℤ) < endY - 1 then
        match pixelData[xy.2 * imgWidth + (xy.1 + 1)]?,
            pixelData[(xy.2 + 1) * imgWidth + xy.1]? with
        | some right, some bottom =>
          let hEdge : ℚ :=
            |(p.r : ℚ) - right.r| + |(p.g : ℚ) - right.g| + |(p.b : ℚ) - right.b|
          let vEdge : ℚ :=
            |(p.r : ℚ) - bottom.r| + |(p.g : ℚ) - bottom.g| + |(p.b : ℚ) - bottom.b|
          st.edgeStrength + (hEdge + vEdge) / 2
        | _, _ => st.edgeStrength
      else st.edgeStrength
    { rVariance := rVariance, gVariance := gVariance, bVariance := bVariance,
      edgeStrength := edgeStrength }

/-- The all-zero feature that `_analyzeImageBlock` returns for a block without pixels. -/
def zeroFeature : BlockFeature :=
  { r := 0, g := 0, b := 0, variance := 0, edges := 0, greenness := 0, grayness := 0,
    blueness := 0, greenRatio := 0, grayRatio := 0, blueRatio := 0 }

/-- The state of the first pass of `_analyzeImageBlock` after its loops. -/
def blockSums (pixelData : PixelData) (imgWidth imgHeight startX startY : ℕ)
    (blockWidth blockHeight : ℤ) : BlockSums :=
  (blockCoords imgWidth imgHeight startX startY blockWidth blockHeight).foldl
    (sumStep pixelData imgWidth)
    { rSum := 0, gSum := 0, bSum := 0, pixelCount := 0, greenPixels := 0, grayPixels := 0,
      bluePixels := 0 }

/-- `_analyzeImageBlock(pixelData, imgWidth, imgHeight, startX, startY, blockWidth,
blockHeight)`. -/
def _analyzeImageBlock (pixelData : PixelData) (imgWidth imgHeight startX startY : ℕ)
    (blockWidth blockHeight : ℤ) : BlockFeature :=
  let endX : ℤ := min ((startX : ℤ) + blockWidth) (imgWidth : ℤ)
  let endY : ℤ := min ((startY : ℤ) + blockHeight) (imgHeight : ℤ)
  let s : BlockSums := blockSums pixelData imgWidth imgHeight startX startY blockWidth blockHeight
  if s.pixelCount = 0 then zeroFeature
  else
    let pixelCount : ℚ := (s.pixelCount : ℚ)
    let avgR : ℚ := s.rSum / pixelCount
    let avgG : ℚ := s.gSum / pixelCount
    let avgB : ℚ := s.bSum / pixelCount
    let greenRatio : ℚ := (s.greenPixels : ℚ) / pixelCount
    let grayRatio : ℚ := (s.grayPixels : ℚ) / pixelCount
    let blueRatio : ℚ := (s.bluePixels : ℚ) / pixelCount
    let v : BlockVar :=
      (blockCoords imgWidth imgHeight startX startY blockWidth blockHeight).foldl
        (varStep pixelData imgWidth endX endY avgR avgG avgB)
        { rVariance := 0, gVariance := 0, bVariance := 0, edgeStrength := 0 }
    let variance : ℚ := (v.rVariance + v.gVariance + v.bVariance) / (3 * pixelCount)
    let edgeStrength : ℚ := v.edgeStrength / (pixelCount * 255 * 3)
    let greenness : ℚ :=
      if avgG > avgR * 1.15 ∧ avgG > avgB * 1.15 then (avgG - max avgR avgB) / 255 else 0
    let colorDeviation : ℚ := max |avgR - avgG| (max |avgR - avgB| |avgG - avgB|)
    let grayness : ℚ := 1 - colorDeviation / 255
    let blueness : ℚ :=
      if avgB > avgR * 1.1 ∧ avgB > avgG * 1.05 then (avgB - max avgR avgG) / 255 else 0
    { r := avgR, g := avgG, b := avgB, variance := variance, edges := edgeStrength,
      greenness := greenness, grayness := grayness, blueness := blueness,
      greenRatio := greenRatio, grayRatio := grayRatio, blueRatio := blueRatio }

/-! ## `_detectEdges` (TFObjectDetection.js) -/

/-- The value that `_detectEdges` stores in `edgeGrid[y][x]`; `none` is a `TypeError`
(a block that is read does not exist). -/
def detectEdgeCell (grid : Grid) (gridWidth gridHeight x y : ℕ) : Option ℚ :=
  match gridAt grid ⟨x, y⟩ with
  | none => none
  | some cur =>
    let edge0 : ℚ := cur.edges * 2
    let edge1 : Option ℚ :=
      if (x : ℤ) < (gridWidth : ℤ) - 1 then
        match gridAt grid ⟨x + 1, y⟩ with
        | none => none
        | some right => some (edge0 + _colorDifference cur right * 0.5)
      else some edge0
    match edge1 with
    | none => none
    | some e1 =>
      let edge2 : Option ℚ :=
        if (y : ℤ) < (gridHeight : ℤ) - 1 then
          match gridAt grid ⟨x, y + 1⟩ with
          | none => none
          | some bottom => some (e1 + _colorDifference cur bottom * 0.5)
        else some e1
      match edge2 with
      | none => none
      | some e2 => some (min 1 e2)

/-- `_detectEdges(grid, gridWidth, gridHeight)`; `none` is a thrown `TypeError`. -/
def _detectEdges (grid : Grid) (gridWidth gridHeight : ℕ) : Option EdgeGrid :=
  (List.range gridHeight).mapM
    (fun y => (List.range gridWidth).mapM (fun x => detectEdgeCell grid gridWidth gridHeight x y))

/-- The read `edgeGrid[y][x]`. -/
def edgeAt (edgeGrid : EdgeGrid) (c : Cell) : Option ℚ :=
  match edgeGrid[c.y]? with
  | none => none
  | some row => row[c.x]?

/-- Follows the spec's words: 2 x own edge strength + 0.5 x color distance to the right
neighbour (if present) + 0.5 x color distance to the bottom neighbour (if present),
clamped to 1. -/
def specEdgeValue (cur : BlockFeature) (right bottom : Option BlockFeature) : ℚ :=
  min 1
    (2 * cur.edges +
      (match right with
        | some r => 0.5 * _colorDifference cur r
        | none => 0) +
      (match bottom with
        | some b => 0.5 * _colorDifference cur b
        | none => 0))

/-- The feature grid has a block for every cell of the block grid. -/
def GridCovers (grid : Grid) (gridWidth gridHeight : ℕ) : Prop :=
  ∀ y, y < gridHeight → ∀ x, x < gridWidth → (gridAt grid ⟨x, y⟩).isSome = true

instance (grid : Grid) (gridWidth gridHeight : ℕ) :
    Decidable (GridCovers grid gridWidth gridHeight) :=
  inferInstanceAs (Decidable (∀ y, y < gridHeight → ∀ x, x < gridWidth →
    (gridAt grid ⟨x, y⟩).isSome = true))

/-! ## Sample inputs -/

/-- A block of uniform mid-gray pixels. -/
def sampleGrayBlock : BlockFeature :=
  { r := 128, g := 128, b := 128, variance := 0, edges := 0, greenness := 0,
    grayness := 1, blueness := 0, greenRatio := 0, grayRatio := 1, blueRatio := 0 }

/-- A feature grid of 2 rows and 2 columns. -/
def sampleGrid : Grid :=
  [[sampleGrayBlock, sampleGrayBlock], [sampleGrayBlock, sampleGrayBlock]]

/-- The region that covers the whole of `sampleGrid`. -/
def sampleRegion : List Cell := [⟨0, 0⟩, ⟨1, 0⟩, ⟨0, 1⟩, ⟨1, 1⟩]

/-- A region of 3 cells, which `_classifyRegions` skips. -/
def sampleSmallRegion : List Cell := [⟨0, 0⟩, ⟨1, 0⟩, ⟨0, 1⟩]

/-- A random source that always returns one half. -/
def halfSource : ℕ → ℚ := fun _ => 1 / 2

/-- A feature grid of 4 rows and 4 columns, the block grid of a 64 x 64 image with
blocks of 16 pixels. -/
def sampleGrid4 : Grid := List.replicate 4 (List.replicate 4 sampleGrayBlock)

/-- The top row of `sampleGrid4`: a region of 4 cells that spans the grid's width. -/
def sampleRowRegion : List Cell := [⟨0, 0⟩, ⟨1, 0⟩, ⟨2, 0⟩, ⟨3, 0⟩]

/-- A random source that always returns nine tenths (jitter factor 1.04). -/
def highSource : ℕ → ℚ := fun _ => 9 / 10

/-- A random source that always returns zero. -/
def zeroSource : ℕ → ℚ := fun _ => 0

/-- The features of a block of uniform gray pixels of value `v`. -/
def grayBlock (v : ℚ) : BlockFeature :=
  { r := v, g := v, b := v, variance := 0, edges := 0, greenness := 0,
    grayness := 1, blueness := 0, greenRatio := 0, grayRatio := 1, blueRatio := 0 }

/-- A feature grid of 10 rows and 1 column: the block grid of a 16 x 160 image with
blocks of 16 pixels. -/
def sampleColumnGrid : Grid := List.replicate 10 [sampleGrayBlock]

/-- The lower half of `sampleColumnGrid`: rows 5 to 9. -/
def sampleLowRegion : List Cell := [⟨0, 5⟩, ⟨0, 6⟩, ⟨0, 7⟩, ⟨0, 8⟩, ⟨0, 9⟩]

/-- A feature grid of 1 row and 3 columns. -/
def sampleRowGrid3 : Grid := [[sampleGrayBlock, sampleGrayBlock, sampleGrayBlock]]

/-- An edge grid of 1 row and 3 columns without edges. -/
def sampleEdgeRow3 : EdgeGrid := [[0, 0, 0]]

/-- An edge grid of 4 rows and 4 columns whose second row is an edge. -/
def sampleEdgeGrid4 : EdgeGrid := [[0, 0, 0, 0], [1, 1, 1, 1], [0, 0, 0, 0], [0, 0, 0, 0]]

/-! ## Predicates and sample inputs for the block analysis -/

/-- The mean channels of the block feature lie in `[0, 255]`. -/
def ChannelsInRange (block : BlockFeature) : Prop :=
  0 ≤ block.r ∧ block.r ≤ 255 ∧ 0 ≤ block.g ∧ block.g ≤ 255 ∧ 0 ≤ block.b ∧ block.b ≤ 255

instance (block : BlockFeature) : Decidable (ChannelsInRange block) :=
  inferInstanceAs (Decidable (0 ≤ block.r ∧ block.r ≤ 255 ∧ 0 ≤ block.g ∧ block.g ≤ 255 ∧
    0 ≤ block.b ∧ block.b ≤ 255))

/-- The value of cell `(x, y)` of the edge grid in the spec's words, for a grid that has
the block `(x, y)`; the right and bottom neighbours count when they are in the grid. -/
def edgeValueAt (grid : Grid) (gridWidth gridHeight x y : ℕ) : ℚ :=
  match gridAt grid ⟨x, y⟩ with
  | none => 0
  | some cur =>
    specEdgeValue cur (if x + 1 < gridWidth then gridAt grid ⟨x + 1, y⟩ else none)
      (if y + 1 < gridHeight then gridAt grid ⟨x, y + 1⟩ else none)

/-- The feature that `_analyzeImageBlock` computes for a block all of whose pixels have
the color `(r, g, b)`. -/
def uniformFeature (r g b : ℚ) : BlockFeature :=
  { r := r, g := g, b := b, variance := 0, edges := 0
    greenness := if g > r * 1.15 ∧ g > b * 1.15 then (g - max r b) / 255 else 0
    grayness := 1 - max |r - g| (max |r - b| |g - b|) / 255
    blueness := if b > r * 1.1 ∧ b > g * 1.05 then (b - max r g) / 255 else 0
    greenRatio := if classifyPixel r g b = PixelClass.green then 1 else 0
    grayRatio := if classifyPixel r g b = PixelClass.gray then 1 else 0
    blueRatio := if classifyPixel r g b = PixelClass.blue then 1 else 0 }

/-- The block has at least one readable pixel, and all its readable pixels have the
color `(r, g, b)`. -/
def UniformBlock (pixelData : PixelData) (imgWidth imgHeight startX startY : ℕ)
    (blockWidth blockHeight : ℤ) (r g b : ℕ) : Prop :=
  (∃ xy ∈ blockCoords imgWidth imgHeight startX startY blockWidth blockHeight,
      (pixelData[xy.2 * imgWidth + xy.1]?).isSome = true) ∧
    ∀ xy ∈ blockCoords imgWidth imgHeight startX startY blockWidth blockHeight,
      ∀ p ∈ pixelData[xy.2 * imgWidth + xy.1]?, p.r = r ∧ p.g = g ∧ p.b = b

instance (pixelData : PixelData) (imgWidth imgHeight startX startY : ℕ)
    (blockWidth blockHeight : ℤ) (r g b : ℕ) :
    Decidable (UniformBlock pixelData imgWidth imgHeight startX startY blockWidth blockHeight
      r g b) :=
  inferInstanceAs (Decidable
    ((∃ xy ∈ blockCoords imgWidth imgHeight startX startY blockWidth blockHeight,
      (pixelData[xy.2 * imgWidth + xy.1]?).isSome = true) ∧
    ∀ xy ∈ blockCoords imgWidth imgHeight startX startY blockWidth blockHeight,
      ∀ p ∈ pixelData[xy.2 * imgWidth + xy.1]?, p.r = r ∧ p.g = g ∧ p.b = b))

/-- Every channel of every pixel of the buffer is an 8-bit value. -/
def EightBit (pixelData : PixelData) : Prop :=
  ∀ p ∈ pixelData, p.r ≤ 255 ∧ p.g ≤ 255 ∧ p.b ≤ 255

instance (pixelData : PixelData) : Decidable (EightBit pixelData) :=
  inferInstanceAs (Decidable (∀ p ∈ pixelData, p.r ≤ 255 ∧ p.g ≤ 255 ∧ p.b ≤ 255))

/-- A 2 x 2 image of mid-gray pixels. -/
def sampleGrayImage : PixelData := List.replicate 4 ⟨128, 128, 128, 255⟩

/-- A 1 x 1 image of one red pixel. -/
def sampleRedImage : PixelData := [⟨255, 0, 0, 255⟩]


/-- A 2 x 2 image of pure-green pixels. -/
def sampleGreenImage : PixelData := List.replicate 4 ⟨0, 200, 0, 255⟩

/-- The feature grid of `sampleGreenImage` with blocks of one pixel. -/
def sampleGreenGrid : Grid :=
  (List.range 2).map (fun y => (List.range 2).map (fun x =>
    _analyzeImageBlock sampleGreenImage 2 2 x y 1 1))

/-! ## Predicates for the region growth of `_segmentRegions` -/

/-- The two cells are neighbours in one of the four directions. -/
def Adjacent (p c : Cell) : Prop :=
  (p.y = c.y ∧ (p.x + 1 = c.x ∨ c.x + 1 = p.x)) ∨
    (p.x = c.x ∧ (p.y + 1 = c.y ∨ c.y + 1 = p.y))

instance (p c : Cell) : Decidable (Adjacent p c) :=
  inferInstanceAs (Decidable ((p.y = c.y ∧ (p.x + 1 = c.x ∨ c.x + 1 = p.x)) ∨
    (p.x = c.x ∧ (p.y + 1 = c.y ∨ c.y + 1 = p.y))))

/-- The two tests that `_segmentRegions` makes on a neighbour `c` before it absorbs it
into the region grown from `seed`: the edge value of `c` is below 0.3, and the block of
`c` is similar to the block of `seed`. -/
def Absorbable (grid : Grid) (edgeGrid : EdgeGrid) (seed c : Cell) : Prop :=
  (∃ e, edgeAt edgeGrid c = some e ∧ e < 0.3) ∧
    ∃ block1 block2, gridAt grid seed = some block1 ∧ gridAt grid c = some block2 ∧
      _isSimilarBlock block1 block2 = true

/-- The list starts with `seed`, and each later cell passed the two tests against `seed`
and is a neighbour of a cell before it. -/
def Grown (grid : Grid) (edgeGrid : EdgeGrid) (seed : Cell) (l : List Cell) : Prop :=
  l.head? = some seed ∧
    ∀ pre c post, l = pre ++ c :: post → pre ≠ [] →
      Absorbable grid edgeGrid seed c ∧ ∃ p ∈ pre, Adjacent p c

/-- A 4 x 4 image of mid-gray pixels. -/
def sampleGrayImage4 : PixelData := List.replicate 16 ⟨128, 128, 128, 255⟩

/-- The feature grid of `sampleGrayImage4` with blocks of 2 x 2 pixels: 2 rows and 2
columns. -/
def sampleGrayFeatureGrid : Grid :=
  (List.range 2).map (fun y => (List.range 2).map (fun x =>
    _analyzeImageBlock sampleGrayImage4 4 4 (x * 2) (y * 2) 2 2))

/-! ## Boxes: area, containment, and the overlap ratio as the spec words it -/

/-- The area `width * height` of a box. -/
def BBox.area (b : BBox) : ℚ := b.width * b.height

/-- The box `outer` contains the box `inner`. -/
def BBox.Contains (outer inner : BBox) : Prop :=
  outer.x ≤ inner.x ∧ outer.y ≤ inner.y ∧
    inner.x + inner.width ≤ outer.x + outer.width ∧
    inner.y + inner.height ≤ outer.y + outer.height

instance (outer inner : BBox) : Decidable (outer.Contains inner) :=
  inferInstanceAs (Decidable (outer.x ≤ inner.x ∧ outer.y ≤ inner.y ∧
    inner.x + inner.width ≤ outer.x + outer.width ∧
    inner.y + inner.height ≤ outer.y + outer.height))

/-- The two boxes are disjoint: one lies beside, above or below the other. -/
def BBox.Apart (a b : BBox) : Prop :=
  a.x + a.width ≤ b.x ∨ b.x + b.width ≤ a.x ∨ a.y + a.height ≤ b.y ∨ b.y + b.height ≤ a.y

/-- The box has positive width and height. -/
def BBox.Positive (b : BBox) : Prop := 0 < b.width ∧ 0 < b.height

instance (b : BBox) : Decidable b.Positive :=
  inferInstanceAs (Decidable (0 < b.width ∧ 0 < b.height))

/-- Follows the spec's words: the area of the intersection rectangle of two boxes, 0 when
the boxes do not intersect. -/
def specIntersectionArea (a b : BBox) : ℚ :=
  let left : ℚ := max a.x b.x
  let right : ℚ := min (a.x + a.width) (b.x + b.width)
  let top : ℚ := max a.y b.y
  let bottom : ℚ := min (a.y + a.height) (b.y + b.height)
  if left < right ∧ top < bottom then (right - left) * (bottom - top) else 0

/-- Follows the spec's words: `Overlap(a, b)` = intersection area / min(area(a),
area(b)). -/
def specOverlap (a b : BBox) : ℚ := specIntersectionArea a b / min a.area b.area

/-- The test under which `_resolveOverlaps` merges: the same category and an overlap
ratio above 0.7. -/
def HeavyOverlap (a b : Detection) : Prop :=
  a.cls = b.cls ∧ (calculateOverlap a.bbox b.bbox).gt 0.7 = true

instance (a b : Detection) : Decidable (HeavyOverlap a b) :=
  inferInstanceAs (Decidable (a.cls = b.cls ∧ (calculateOverlap a.bbox b.bbox).gt 0.7 = true))

/-- A detection of the given class, box and confidence; the other fields are those of a
classified region without debug payload. -/
def sampleDetection (cls : ℤ) (x y width height confidence : ℚ) : Detection :=
  { cls := cls
    className := if cls = 58 then "树木" else "建筑物"
    rawClass := some (if cls = 58 then "tree" else "building")
    confidence := confidence
    bbox := { x := x, y := y, width := width, height := height }
    debug := none
    simulated := false }

/-! ## `_calculateIoU`, `_applyNMS` (YOLOv8.js) -/

/-- JavaScript `a >= c` for a finite `c`. -/
def JsNum.ge (a : JsNum) (c : ℚ) : Bool :=
  match a with
  | JsNum.fin q => decide (c ≤ q)
  | JsNum.posInf => true
  | JsNum.negInf => false
  | JsNum.nan => false

/-- The constant `IOU_THRESHOLD` of YOLOv8.js. -/
def IOU_THRESHOLD : ℚ := 0.45

/-- `_calculateIoU(box1, box2)`. -/
def _calculateIoU (box1 box2 : BBox) : JsNum :=
  let x1 : ℚ := max box1.x box2.x
  let y1 : ℚ := max box1.y box2.y
  let x2 : ℚ := min (box1.x + box1.width) (box2.x + box2.width)
  let y2 : ℚ := min (box1.y + box1.height) (box2.y + box2.height)
  if x2 < x1 ∨ y2 < y1 then JsNum.fin 0
  else
    let intersection : ℚ := (x2 - x1) * (y2 - y1)
    let area1 : ℚ := box1.width * box1.height
    let area2 : ℚ := box2.width * box2.height
    let union : ℚ := area1 + area2 - intersection
    jsDiv intersection union

/-- One iteration `j` of the inner loop of `_applyNMS`; the state is the set of the
indices whose flag `isSelected` is true. -/
def suppressStep (detections : List Detection) (i : ℕ) (isSelected : List ℕ) (j : ℕ) :
    List ℕ :=
  if j ∈ isSelected then isSelected
  else
    match detections[i]?, detections[j]? with
    | some di, some dj =>
      if di.cls = dj.cls then
        if (_calculateIoU di.bbox dj.bbox).ge IOU_THRESHOLD then j :: isSelected
        else isSelected
      else isSelected
    | _, _ => isSelected

/-- One iteration `i` of the outer loop of `_applyNMS`; the state is `selected` and the
set of the indices whose flag `isSelected` is true. -/
def nmsStep (detections : List Detection) (st : List Detection × List ℕ) (i : ℕ) :
    List Detection × List ℕ :=
  if i ∈ st.2 then st
  else
    match detections[i]? with
    | none => st
    | some di =>
      (st.1 ++ [di],
        (List.range' (i + 1) (detections.length - (i + 1))).foldl (suppressStep detections i)
          (i :: st.2))

/-- `_applyNMS(detections)`: the list is sorted by confidence first. -/
def _applyNMS (detections : List Detection) : List Detection :=
  let sorted : List Detection := sortByConfidence detections
  ((List.range sorted.length).foldl (nmsStep sorted) ([], [])).1

/-- The test under which `_applyNMS` suppresses: the same class and an IoU of at least
`IOU_THRESHOLD`. -/
def Suppresses (a b : Detection) : Prop :=
  a.cls = b.cls ∧ (_calculateIoU a.bbox b.bbox).ge IOU_THRESHOLD = true

instance (a b : Detection) : Decidable (Suppresses a b) :=
  inferInstanceAs (Decidable
    (a.cls = b.cls ∧ (_calculateIoU a.bbox b.bbox).ge IOU_THRESHOLD = true))

/-! ## `generateHashFromFilename` (ImageProcessor.js) -/

/-- The conversion `ToInt32` of an integer: wrap-around into `[-2^31, 2^31)`. -/
def toInt32 (n : ℤ) : ℤ := (n + 2147483648) % 4294967296 - 2147483648

/-- The loop body of `generateHashFromFilename` for the code unit `char`:
`hash = ((hash << 5) - hash) + char; hash = hash & hash`. -/
def hashStep (hash : ℤ) (char : ℕ) : ℤ :=
  let shifted : ℤ := toInt32 (hash * 32) -- `hash << 5`
  let sum : ℤ := (shifted - hash) + (char : ℤ)
  toInt32 sum -- `hash & hash`

/-- The value of `hash` after the loop; the string is the list of its UTF-16 code units
(`filename.charCodeAt(i)`). -/
def filenameHash (filename : List ℕ) : ℤ := filename.foldl hashStep 0

/-- The end of `generateHashFromFilename`: `(Math.abs(hash) % 4 + 1).toString()`. -/
def hashNumberString (hash : ℤ) : String :=
  let hashNumber : ℤ := |hash| % 4 + 1
  toString hashNumber

/-- `generateHashFromFilename(filename)`. -/
def generateHashFromFilename (filename : List ℕ) : String :=
  hashNumberString (filenameHash filename)

/-! ## Invariants of the two loops of `_resolveOverlaps` -/

/-- Invariant of the inner loop of `_resolveOverlaps` for the anchor `oi = objects[i]`,
entered with the used indices `used₀`: `currentObject` keeps the category of the anchor,
its box contains the anchor's box, and every index added to `usedIndices` is that of an
input of the same category whose box lies in the box of `currentObject`. -/
structure AbsorbInv (objects : List Detection) (i : ℕ) (oi : Detection) (used₀ : List ℕ)
    (st : Detection × List ℕ) : Prop where
  cls : st.1.cls = oi.cls
  box : st.1.bbox.Contains oi.bbox
  self : i ∈ st.2
  old : ∀ j ∈ used₀, j ∈ st.2
  absorbed : ∀ j ∈ st.2, j = i ∨ j ∈ used₀ ∨
    ∃ o, objects[j]? = some o ∧ o.cls = oi.cls ∧ st.1.bbox.Contains o.bbox

/-- Invariant of the outer loop of `_resolveOverlaps` before iteration `m`; `pairs` lists
each output so far with the index of its anchor. -/
structure ResolveInv (objects : List Detection) (m : ℕ) (pairs : List (Detection × ℕ))
    (st : List Detection × List ℕ) : Prop where
  out : st.1 = pairs.map Prod.fst
  sorted : (pairs.map Prod.snd).Sorted (fun a b => a < b)
  bound : ∀ p ∈ pairs, p.2 < m
  anchor : ∀ p ∈ pairs, ∃ o, objects[p.2]? = some o ∧ p.1.cls = o.cls ∧
    p.1.bbox.Contains o.bbox
  used : ∀ i, i < m → i < objects.length → i ∈ st.2
  covered : ∀ i ∈ st.2, ∀ o, objects[i]? = some o →
    (∃ p ∈ pairs, p.2 = i) ∨
      ∃ p ∈ pairs, p.2 < i ∧ p.1.cls = o.cls ∧ p.1.bbox.Contains o.bbox

/-! ## Invariant of the outer loop of `_applyNMS` -/

/-- Invariant of the outer loop of `_applyNMS` over the sorted list `ds` before iteration
`m`; `pairs` lists each selected detection with its index.  Every index below `m` is
flagged; a flagged index is selected or is suppressed by an earlier selected detection;
no selected detection suppresses a later selected one or a later index not yet flagged. -/
structure NmsInv (ds : List Detection) (m : ℕ) (pairs : List (Detection × ℕ))
    (st : List Detection × List ℕ) : Prop where
  out : st.1 = pairs.map Prod.fst
  sorted : (pairs.map Prod.snd).Sorted (fun a b => a < b)
  bound : ∀ p ∈ pairs, p.2 < m
  get : ∀ p ∈ pairs, ds[p.2]? = some p.1
  used : ∀ i, i < m → i < ds.length → i ∈ st.2
  dropped : ∀ j ∈ st.2, (∃ p ∈ pairs, p.2 = j) ∨
    ∃ p ∈ pairs, p.2 < j ∧ ∃ dj, ds[j]? = some dj ∧ Suppresses p.1 dj
  clear : ∀ p ∈ pairs, ∀ j dj, p.2 < j → ds[j]? = some dj → j ∉ st.2 → ¬ Suppresses p.1 dj

/-! ## IEEE 754 double rounding -/

/-- Round to the nearest integer, ties to the even one. -/
def roundHalfEven (m : ℚ) : ℤ :=
  let f : ℤ := ⌊m⌋
  if m - f < 1 / 2 then f
  else if m - f > 1 / 2 then f + 1
  else if f % 2 = 0 then f else f + 1

/-- The number of halvings that take `n` below 2, with at most `fuel` steps. -/
def halvings : ℕ → ℕ → ℕ
  | 0, _ => 0
  | fuel + 1, n => if n < 2 then 0 else halvings fuel (n / 2) + 1

/-- The binary exponent `e` of a rational that is not zero: `2^e ≤ |q| < 2^(e+1)`. -/
def binaryExponent (q : ℚ) : ℤ :=
  let e0 : ℤ := (halvings q.num.natAbs q.num.natAbs : ℤ) - (halvings q.den q.den : ℤ)
  if (2 : ℚ) ^ e0 ≤ |q| then e0 else e0 - 1

/-- The result of a JavaScript arithmetic operation whose exact value is `q`: the IEEE 754
double nearest to `q`, ties to the even significand (53 significant bits; overflow and
subnormal numbers are not modelled). -/
def toDouble (q : ℚ) : ℚ :=
  if q = 0 then 0
  else
    let ulp : ℚ := (2 : ℚ) ^ (binaryExponent q - 52)
    (roundHalfEven (q / ulp) : ℚ) * ulp

/-! ## The seeded generator in double arithmetic -/

/-- One update `s = (s * 9301 + 49297) % 233280` of the generator state in double
arithmetic: the product and the sum are rounded to doubles; `%` of two doubles is exact. -/
def lcgNextDouble (s : ℚ) : ℚ := jsMod (toDouble (toDouble (s * 9301) + 49297)) 233280

/-- The generator state after `k` updates in double arithmetic, started at the double
`s`. -/
def lcgStateDouble (s : ℚ) : ℕ → ℚ
  | 0 => s
  | k + 1 => lcgNextDouble (lcgStateDouble s k)

/-- The value `s / 233280` that call number `k` (from 0) of the generator closure returns
in double arithmetic. -/
def lcgValueDouble (s : ℚ) (k : ℕ) : ℚ := toDouble (lcgStateDouble s (k + 1) / 233280)

/-- `_seededRandom(seed)` in double arithmetic, as the stream of the values of the
returned closure; `seed` is a double and `ambient` is the value of `Math.random()` that
is read when `seed` is falsy. -/
def seededRandomDouble (seed ambient : ℚ) : ℕ → ℚ :=
  lcgValueDouble (if seed = 0 then toDouble (ambient * 10000) else seed)

/-! ## The color scores of `_analyzeImageBlock` in double arithmetic -/

/-- The `if / else if` chain of the first pass of `_analyzeImageBlock` in double
arithmetic: the literals `1.15`, `1.2`, `1.1` are doubles and every product is rounded. -/
def classifyPixelDouble (r g b : ℚ) : PixelClass :=
  if g > toDouble (r * toDouble 1.15) ∧ g > toDouble (b * toDouble 1.15) then PixelClass.green
  else if toDouble (max r (max g b) - min r (min g b)) < 30 then PixelClass.gray
  else if b > toDouble (r * toDouble 1.2) ∧ b > toDouble (g * toDouble 1.1) then
    PixelClass.blue
  else PixelClass.other

/-- The variables of the first pass of `_analyzeImageBlock` as doubles. -/
structure BlockSumsDouble where
  rSum : ℚ
  gSum : ℚ
  bSum : ℚ
  pixelCount : ℚ
  greenPixels : ℚ
  grayPixels : ℚ
  bluePixels : ℚ

/-- The body of the first pass at `(x, y)` in double arithmetic: every `+=` and `++`
rounds its result. -/
def sumStepDouble (pixelData : PixelData) (imgWidth : ℕ) (st : BlockSumsDouble)
    (xy : ℕ × ℕ) : BlockSumsDouble :=
  match pixelData[xy.2 * imgWidth + xy.1]? with
  | none => st -- `if (i >= pixelData.length) continue`
  | some p =>
    let r : ℚ := (p.r : ℚ)
    let g : ℚ := (p.g : ℚ)
    let b : ℚ := (p.b : ℚ)
    let cls : PixelClass := classifyPixelDouble r g b
    { rSum := toDouble (st.rSum + r)
      gSum := toDouble (st.gSum + g)
      bSum := toDouble (st.bSum + b)
      greenPixels :=
        if cls = PixelClass.green then toDouble (st.greenPixels + 1) else st.greenPixels
      grayPixels :=
        if cls = PixelClass.gray then toDouble (st.grayPixels + 1) else st.grayPixels
      bluePixels :=
        if cls = PixelClass.blue then toDouble (st.bluePixels + 1) else st.bluePixels
      pixelCount := toDouble (st.pixelCount + 1) }

/-- The state of the first pass of `_analyzeImageBlock` after its loops, in double
arithmetic. -/
def blockSumsDouble (pixelData : PixelData) (imgWidth imgHeight startX startY : ℕ)
    (blockWidth blockHeight : ℤ) : BlockSumsDouble :=
  (blockCoords imgWidth imgHeight startX startY blockWidth blockHeight).foldl
    (sumStepDouble pixelData imgWidth)
    { rSum := 0, gSum := 0, bSum := 0, pixelCount := 0, greenPixels := 0, grayPixels := 0,
      bluePixels := 0 }

/-- The fields of the feature of `_analyzeImageBlock` that are computed from the first
pass alone: the channel means, the three dominance scores and the three pixel ratios. -/
structure ColorScores where
  r : ℚ
  g : ℚ
  b : ℚ
  greenness : ℚ
  grayness : ℚ
  blueness : ℚ
  greenRatio : ℚ
  grayRatio : ℚ
  blueRatio : ℚ
  deriving DecidableEq

/-- The all-zero scores that `_analyzeImageBlock` returns for a block without pixels. -/
def zeroColorScores : ColorScores :=
  { r := 0, g := 0, b := 0, greenness := 0, grayness := 0, blueness := 0, greenRatio := 0,
    grayRatio := 0, blueRatio := 0 }

/-- The fields `r`, `g`, `b`, `greenness`, `grayness`, `blueness`, `greenRatio`,
`grayRatio`, `blueRatio` of the feature that `_analyzeImageBlock(pixelData, imgWidth,
imgHeight, startX, startY, blockWidth, blockHeight)` returns, in double arithmetic: every
product, quotient, sum and difference is rounded to the nearest double.  The second pass
(variance and edge strength) feeds into none of these fields and is not part of this
definition. -/
def analyzeImageBlockDouble (pixelData : PixelData) (imgWidth imgHeight startX startY : ℕ)
    (blockWidth blockHeight : ℤ) : ColorScores :=
  let s : BlockSumsDouble :=
    blockSumsDouble pixelData imgWidth imgHeight startX startY blockWidth blockHeight
  if s.pixelCount = 0 then zeroColorScores
  else
    let avgR : ℚ := toDouble (s.rSum / s.pixelCount)
    let avgG : ℚ := toDouble (s.gSum / s.pixelCount)
    let avgB : ℚ := toDouble (s.bSum / s.pixelCount)
    let greenRatio : ℚ := toDouble (s.greenPixels / s.pixelCount)
    let grayRatio : ℚ := toDouble (s.grayPixels / s.pixelCount)
    let blueRatio : ℚ := toDouble (s.bluePixels / s.pixelCount)
    let greenness : ℚ :=
      if avgG > toDouble (avgR * toDouble 1.15) ∧ avgG > toDouble (avgB * toDouble 1.15) then
        toDouble (toDouble (avgG - max avgR avgB) / 255)
      else 0
    let colorDeviation : ℚ :=
      max |toDouble (avgR - avgG)| (max |toDouble (avgR - avgB)| |toDouble (avgG - avgB)|)
    let grayness : ℚ := toDouble (1 - toDouble (colorDeviation / 255))
    let blueness : ℚ :=
      if avgB > toDouble (avgR * toDouble 1.1) ∧ avgB > toDouble (avgG * toDouble 1.05) then
        toDouble (toDouble (avgB - max avgR avgG) / 255)
      else 0
    { r := avgR, g := avgG, b := avgB, greenness := greenness, grayness := grayness,
      blueness := blueness, greenRatio := greenRatio, grayRatio := grayRatio,
      blueRatio := blueRatio }

/-- The sums and counters of the first pass are natural numbers: `c` pixels counted after
at most `n` iterations, channel sums of at most `255 * c`, class counters of at most
`c`. -/
def BlockSumsDouble.Exact (st : BlockSumsDouble) (n : ℕ) : Prop :=
  ∃ c R G B gp yp bp : ℕ, st.pixelCount = (c : ℚ) ∧ st.rSum = (R : ℚ) ∧ st.gSum = (G : ℚ) ∧
    st.bSum = (B : ℚ) ∧ st.greenPixels = (gp : ℚ) ∧ st.grayPixels = (yp : ℚ) ∧
    st.bluePixels = (bp : ℚ) ∧ c ≤ n ∧ R ≤ 255 * c ∧ G ≤ 255 * c ∧ B ≤ 255 * c ∧
    gp ≤ c ∧ yp ≤ c ∧ bp ≤ c

/-- A 1 x 1 image whose pixel `(100, 115, 100)` has G equal to 1.15 times R and B. -/
def sampleBoundaryImage : PixelData := [⟨100, 115, 100, 255⟩]

/-! ## Invariants of `_resolveOverlaps` with confidences -/

/-- Invariant of the inner loop of `_resolveOverlaps` for the anchor `oi = objects[i]`,
entered with the used indices `used₀`: `currentObject` keeps the category of the anchor,
its box contains the anchor's box and its confidence is at least the anchor's; every
index added to `usedIndices` is that of an input of the same category whose box lies in
the box of `currentObject` and whose confidence is at most that of `currentObject`. -/
structure AbsorbConfInv (objects : List Detection) (i : ℕ) (oi : Detection)
    (used₀ : List ℕ) (st : Detection × List ℕ) : Prop where
  cls : st.1.cls = oi.cls
  box : st.1.bbox.Contains oi.bbox
  conf : oi.confidence ≤ st.1.confidence
  self : i ∈ st.2
  old : ∀ j ∈ used₀, j ∈ st.2
  absorbed : ∀ j ∈ st.2, j = i ∨ j ∈ used₀ ∨
    ∃ o, objects[j]? = some o ∧ o.cls = oi.cls ∧ st.1.bbox.Contains o.bbox ∧
      o.confidence ≤ st.1.confidence

/-- Invariant of the outer loop of `_resolveOverlaps` before iteration `m`: at most `m`
outputs exist, every index below `m` is used, and every used input is covered by an
output of its category whose box contains its box and whose confidence is at least its
own. -/
structure ResolveConfInv (objects : List Detection) (m : ℕ)
    (st : List Detection × List ℕ) : Prop where
  count : st.1.length ≤ m
  used : ∀ i, i < m → i < objects.length → i ∈ st.2
  covered : ∀ i ∈ st.2, ∀ o, objects[i]? = some o →
    ∃ out ∈ st.1, out.cls = o.cls ∧ out.bbox.Contains o.bbox ∧ o.confidence ≤ out.confidence

/-! ## Sample calls of `_classifyRegions` with seven regions -/

/-- Row `y` of a grid of 4 columns, as a region of 4 cells. -/
def rowRegion (y : ℕ) : List Cell := [⟨0, y⟩, ⟨1, y⟩, ⟨2, y⟩, ⟨3, y⟩]

/-- The seven rows of a grid of 7 rows and 4 columns, as seven regions from top to
bottom. -/
def sampleRowRegions : List (List Cell) := (List.range 7).map rowRegion

/-- A feature grid of 7 rows and 4 columns of uniform gray blocks. -/
def sampleGrayRowsGrid : Grid := List.replicate 7 (List.replicate 4 sampleGrayBlock)

/-- A feature grid of 7 rows and 4 columns: six rows of uniform pure-green blocks
`(0, 255, 0)` above one row of uniform gray blocks. -/
def sampleGreenAboveGrayGrid : Grid :=
  List.replicate 6 (List.replicate 4 (uniformFeature 0 255 0)) ++
    [List.replicate 4 sampleGrayBlock]

/-- The feature of one block of one pixel of `sampleGreenImage` (pixels `(0, 200, 0)`). -/
def sampleGreenBlock : BlockFeature := _analyzeImageBlock sampleGreenImage 2 2 0 0 1 1

/-- A feature grid of 7 rows and 4 columns of blocks of uniform pure-green pixels. -/
def sampleGreenRowsGrid : Grid := List.replicate 7 (List.replicate 4 sampleGreenBlock)

/-- A feature grid of 7 rows and 4 columns: six rows of uniform gray blocks above one row
of blocks of uniform pure-green pixels. -/
def sampleGrayAboveGreenGrid : Grid :=
  List.replicate 6 (List.replicate 4 sampleGrayBlock) ++ [List.replicate 4 sampleGreenBlock]

/-! ## Lemmas: sorting -/

theorem mem_sortByConfidence {xs : List Detection} {d : Detection} :
    d ∈ sortByConfidence xs ↔ d ∈ xs :=
  List.mem_insertionSort ConfGE

theorem length_sortByConfidence (xs : List Detection) :
    (sortByConfidence xs).length = xs.length :=
  List.length_insertionSort ConfGE xs

theorem sorted_sortByConfidence (xs : List Detection) :
    ConfidenceSorted (sortByConfidence xs) :=
  List.sorted_insertionSort ConfGE xs

/-! ## Lemmas: the fallback generator -/

theorem supported_of_isTree (isTree : Bool) (rawClass : Option String) (confidence : ℚ)
    (bbox : BBox) (debug : Option DebugInfo) (simulated : Bool) :
    Detection.Supported
      { cls := if isTree then 58 else -1
        className := if isTree then "树木" else "建筑物"
        rawClass := rawClass, confidence := confidence, bbox := bbox
        debug := debug, simulated := simulated } := by
  cases isTree
  · right; exact ⟨rfl, rfl⟩
  · left; exact ⟨rfl, rfl⟩

theorem fallbackStep_results (width height p : ℚ) (n : ℤ) (g : ℕ → ℚ)
    (st : FallbackState) (i : ℕ) :
    ∃ d, (fallbackStep width height p n g st i).results = st.results ++ [d] ∧
      d.Supported := by
  refine ⟨_, rfl, ?_⟩
  exact supported_of_isTree _ _ _ _ _ _

theorem fallbackFold_length (width height p : ℚ) (n : ℤ) (g : ℕ → ℚ) (l : List ℕ) :
    ∀ st : FallbackState,
      (l.foldl (fallbackStep width height p n g) st).results.length =
        st.results.length + l.length := by
  induction l with
  | nil => intro st; simp
  | cons i l ih =>
    intro st
    rw [List.foldl_cons, ih]
    obtain ⟨d, hd, _⟩ := fallbackStep_results width height p n g st i
    rw [hd]; simp; omega

theorem fallbackFold_supported (width height p : ℚ) (n : ℤ) (g : ℕ → ℚ) (l : List ℕ) :
    ∀ st : FallbackState, (∀ d ∈ st.results, d.Supported) →
      ∀ d ∈ (l.foldl (fallbackStep width height p n g) st).results, d.Supported := by
  induction l with
  | nil => intro st h; simpa using h
  | cons i l ih =>
    intro st h
    rw [List.foldl_cons]
    apply ih
    obtain ⟨d, hd, hs⟩ := fallbackStep_results width height p n g st i
    rw [hd]
    intro e he
    rcases List.mem_append.mp he with he | he
    · exact h e he
    · rw [List.mem_singleton.mp he]; exact hs

/-- The number of detections drawn from a value in `[0, 1)` is between 2 and 5. -/
theorem numDetections_bounds (r : ℚ) (h0 : 0 ≤ r) (h1 : r < 1) :
    2 ≤ ⌊r * 4⌋ + 2 ∧ ⌊r * 4⌋ + 2 ≤ 5 := by
  have ha : (0 : ℤ) ≤ ⌊r * 4⌋ := Int.floor_nonneg.mpr (by linarith)
  have hb : ⌊r * 4⌋ < 4 := Int.floor_lt.mpr (by push_cast; linarith)
  omega

theorem length_generateFallbackDetections (width height : ℚ) (a : JsNum) (g : ℕ → ℚ) :
    (_generateFallbackDetections width height a g).length = (⌊g 0 * 4⌋ + 2).toNat := by
  unfold _generateFallbackDetections fallbackLoop
  rw [length_sortByConfidence, fallbackFold_length]
  simp

theorem supported_generateFallbackDetections (width height : ℚ) (a : JsNum) (g : ℕ → ℚ) :
    ∀ d ∈ _generateFallbackDetections width height a g, d.Supported := by
  intro d hd
  unfold _generateFallbackDetections fallbackLoop at hd
  rw [mem_sortByConfidence] at hd
  exact fallbackFold_supported _ _ _ _ _ _ _ (by simp) d hd

/-! ## Lemmas: the overlap resolver -/

theorem absorbStep_supported (objects : List Detection) (i j : ℕ)
    (st : Detection × List ℕ) (h : st.1.Supported) :
    (absorbStep objects i st j).1.Supported := by
  unfold absorbStep
  split
  · exact h
  · split
    · split
      · exact h
      · split
        · exact h
        · exact h
    · exact h

theorem absorbFold_supported (objects : List Detection) (i : ℕ) (l : List ℕ) :
    ∀ st : Detection × List ℕ, st.1.Supported →
      (l.foldl (absorbStep objects i) st).1.Supported := by
  induction l with
  | nil => intro st h; exact h
  | cons j l ih =>
    intro st h
    rw [List.foldl_cons]
    exact ih _ (absorbStep_supported objects i j st h)

theorem resolveStep_supported (objects : List Detection)
    (hobj : ∀ d ∈ objects, d.Supported) (i : ℕ) (st : List Detection × List ℕ)
    (h : ∀ d ∈ st.1, d.Supported) :
    ∀ d ∈ (resolveStep objects st i).1, d.Supported := by
  unfold resolveStep
  split
  · exact h
  · split
    · exact h
    · rename_i oi hoi
      intro d hd
      rcases List.mem_append.mp hd with hd | hd
      · exact h d hd
      · rw [List.mem_singleton.mp hd]
        apply absorbFold_supported
        exact hobj oi (List.getElem?_mem hoi)

theorem resolveFold_supported (objects : List Detection)
    (hobj : ∀ d ∈ objects, d.Supported) (l : List ℕ) :
    ∀ st : List Detection × List ℕ, (∀ d ∈ st.1, d.Supported) →
      ∀ d ∈ (l.foldl (resolveStep objects) st).1, d.Supported := by
  induction l with
  | nil => intro st h; exact h
  | cons i l ih =>
    intro st h
    rw [List.foldl_cons]
    exact ih _ (resolveStep_supported objects hobj i st h)

theorem supported_resolveOverlaps (objects : List Detection)
    (hobj : ∀ d ∈ objects, d.Supported) :
    ∀ d ∈ _resolveOverlaps objects, d.Supported := by
  unfold _resolveOverlaps
  split
  · exact hobj
  · exact resolveFold_supported objects hobj _ _ (by simp)

theorem resolveStep_length_le (objects : List Detection) (i : ℕ)
    (st : List Detection × List ℕ) :
    st.1.length ≤ (resolveStep objects st i).1.length := by
  unfold resolveStep
  split
  · exact le_rfl
  · split
    · exact le_rfl
    · simp

theorem resolveFold_length_le (objects : List Detection) (l : List ℕ) :
    ∀ st : List Detection × List ℕ,
      st.1.length ≤ (l.foldl (resolveStep objects) st).1.length := by
  induction l with
  | nil => intro st; exact le_rfl
  | cons i l ih =>
    intro st
    rw [List.foldl_cons]
    exact le_trans (resolveStep_length_le objects i st) (ih _)

theorem resolveOverlaps_ne_nil (objects : List Detection) (h : objects ≠ []) :
    _resolveOverlaps objects ≠ [] := by
  unfold _resolveOverlaps
  split
  · exact h
  · rename_i hlen
    obtain ⟨o, rest, rfl⟩ := List.exists_cons_of_ne_nil h
    intro hnil
    have hlen1 := resolveFold_length_le (o :: rest)
      (List.map Nat.succ (List.range rest.length)) (resolveStep (o :: rest) ([], []) 0)
    rw [List.length_cons, List.range_succ_eq_map, List.foldl_cons] at hnil
    rw [hnil] at hlen1
    simp [resolveStep] at hlen1

/-! ## Lemmas: the classifier loop -/

theorem accumulateRegion_isSome (grid : Grid) (region : List Cell) :
    ∀ acc : RegionAcc, (∀ c ∈ region, (gridAt grid c).isSome = true) →
      ∃ acc', accumulateRegion grid region acc = some acc' := by
  induction region with
  | nil => intro acc _; exact ⟨acc, rfl⟩
  | cons c rest ih =>
    intro acc h
    obtain ⟨f, hf⟩ := Option.isSome_iff_exists.mp (h c (List.mem_cons_self c rest))
    simp only [accumulateRegion, hf]
    exact ih _ (fun c' hc' => h c' (List.mem_cons_of_mem c hc'))

theorem classifyLoop_isSome (grid : Grid) (imgHeight blockSize : ℚ) (random : ℕ → ℚ)
    (regions : List (List Cell)) (hin : RegionsInGrid regions grid) :
    ∀ k, ∃ r, classifyLoop grid imgHeight blockSize random regions k = some r := by
  induction regions with
  | nil => intro k; exact ⟨_, rfl⟩
  | cons region rest ih =>
    intro k
    have hrest : RegionsInGrid rest grid :=
      fun r hr => hin r (List.mem_cons_of_mem region hr)
    unfold classifyLoop
    split
    · exact ih hrest k
    · obtain ⟨acc, hacc⟩ := accumulateRegion_isSome grid region RegionAcc.init
        (hin region (List.mem_cons_self region rest))
      obtain ⟨r, hr⟩ := ih hrest (k + 4)
      rw [hacc]
      simp only [hr]
      exact ⟨_, rfl⟩

theorem classifyLoop_supported (grid : Grid) (imgHeight blockSize : ℚ) (random : ℕ → ℚ)
    (regions : List (List Cell)) :
    ∀ k objs k', classifyLoop grid imgHeight blockSize random regions k = some (objs, k') →
      ∀ d ∈ objs, d.Supported := by
  induction regions with
  | nil =>
    intro k objs k' h d hd
    simp only [classifyLoop, Option.some.injEq, Prod.mk.injEq] at h
    rw [← h.1] at hd
    simp at hd
  | cons region rest ih =>
    intro k objs k' h
    unfold classifyLoop at h
    split at h
    · exact ih k objs k' h
    · split at h
      · exact absurd h (by simp)
      · split at h
        · exact absurd h (by simp)
        · rename_i objs0 k0 hrest
          simp only [Option.some.injEq, Prod.mk.injEq] at h
          intro d hd
          rw [← h.1] at hd
          rcases List.mem_cons.mp hd with hd | hd
          · rw [hd]; exact supported_of_isTree _ _ _ _ _ _
          · exact ih _ _ _ hrest d hd

theorem halfSource_unitRange : UnitRange halfSource :=
  fun _ => ⟨by norm_num [halfSource], by norm_num [halfSource]⟩

/-! ## Claims about `_classifyRegions` -/

/-- C1: for regions whose cells index into the feature grid and a random source with
values in `[0, 1)`, `_classifyRegions` returns a list of detections that is not empty. -/
theorem classifyRegions_nonempty (regions : List (List Cell)) (grid : Grid)
    (imgWidth imgHeight blockSize : ℚ) (random : ℕ → ℚ)
    (hin : RegionsInGrid regions grid) (hr : UnitRange random) :
    ∃ ds, _classifyRegions regions grid imgWidth imgHeight blockSize random = some ds ∧
      ds ≠ [] := by
  obtain ⟨⟨objects, k⟩, hloop⟩ :=
    classifyLoop_isSome grid imgHeight blockSize random regions hin 0
  unfold _classifyRegions
  rw [hloop]
  by_cases hlen : objects.length = 0
  · refine ⟨_, if_pos hlen, ?_⟩
    intro hnil
    have hl := length_generateFallbackDetections imgWidth imgHeight
      (jsDiv imgWidth imgHeight) (fun n => random (k + n))
    rw [hnil] at hl
    have hb := numDetections_bounds (random (k + 0)) (hr _).1 (hr _).2
    simp only [List.length_nil] at hl
    omega
  · refine ⟨_, if_neg hlen, ?_⟩
    have hne : objects ≠ [] := fun h => hlen (by rw [h]; rfl)
    have h1 : sortByConfidence (_resolveOverlaps objects) ≠ [] := by
      intro h
      have := length_sortByConfidence (_resolveOverlaps objects)
      rw [h] at this
      exact resolveOverlaps_ne_nil objects hne (List.length_eq_zero.mp this.symm)
    intro h
    have hlen2 := congrArg List.length h
    rw [List.length_take] at hlen2
    have hpos : 0 < (sortByConfidence (_resolveOverlaps objects)).length :=
      List.length_pos.mpr h1
    simp only [List.length_nil] at hlen2
    omega

/-- Instance of C1 at the 2 x 2 sample grid, one region of 4 cells, `Math.random` = 0.5. -/
theorem classifyRegions_nonempty_witness :
    RegionsInGrid [sampleRegion] sampleGrid ∧ UnitRange halfSource ∧
      ∃ ds, _classifyRegions [sampleRegion] sampleGrid 32 32 16 halfSource = some ds ∧
        ds ≠ [] :=
  ⟨by decide, halfSource_unitRange,
    classifyRegions_nonempty [sampleRegion] sampleGrid 32 32 16 halfSource
      (by decide) halfSource_unitRange⟩

/-- C2: for regions whose cells index into the feature grid, every detection that
`_classifyRegions` returns, on the classified path and on the fallback path, has class
58 with className 树木 or class -1 with className 建筑物. -/
theorem classifyRegions_supported (regions : List (List Cell)) (grid : Grid)
    (imgWidth imgHeight blockSize : ℚ) (random : ℕ → ℚ)
    (hin : RegionsInGrid regions grid) :
    ∃ ds, _classifyRegions regions grid imgWidth imgHeight blockSize random = some ds ∧
      ∀ d ∈ ds, (d.cls = 58 ∧ d.className = "树木") ∨
        (d.cls = -1 ∧ d.className = "建筑物") := by
  obtain ⟨⟨objects, k⟩, hloop⟩ :=
    classifyLoop_isSome grid imgHeight blockSize random regions hin 0
  have hobj := classifyLoop_supported grid imgHeight blockSize random regions 0 objects k hloop
  unfold _classifyRegions
  rw [hloop]
  by_cases hlen : objects.length = 0
  · refine ⟨_, if_pos hlen, ?_⟩
    exact supported_generateFallbackDetections _ _ _ _
  · refine ⟨_, if_neg hlen, ?_⟩
    intro d hd
    have hd1 := List.mem_of_mem_take hd
    rw [mem_sortByConfidence] at hd1
    exact supported_resolveOverlaps objects hobj d hd1

/-- Instance of C2 at the 2 x 2 sample grid with one region of 4 cells. -/
theorem classifyRegions_supported_witness :
    RegionsInGrid [sampleRegion] sampleGrid ∧
      ∃ ds, _classifyRegions [sampleRegion] sampleGrid 32 32 16 halfSource = some ds ∧
        ∀ d ∈ ds, (d.cls = 58 ∧ d.className = "树木") ∨
          (d.cls = -1 ∧ d.className = "建筑物") :=
  ⟨by decide,
    classifyRegions_supported [sampleRegion] sampleGrid 32 32 16 halfSource (by decide)⟩

/-- C3: for regions whose cells index into the feature grid and a random source with
values in `[0, 1)`, the list that `_classifyRegions` returns has at most 6 detections
and their confidences never increase along the list. -/
theorem classifyRegions_capped_sorted (regions : List (List Cell)) (grid : Grid)
    (imgWidth imgHeight blockSize : ℚ) (random : ℕ → ℚ)
    (hin : RegionsInGrid regions grid) (hr : UnitRange random) :
    ∃ ds, _classifyRegions regions grid imgWidth imgHeight blockSize random = some ds ∧
      ds.length ≤ 6 ∧ ds.Sorted (fun a b => b.confidence ≤ a.confidence) := by
  obtain ⟨⟨objects, k⟩, hloop⟩ :=
    classifyLoop_isSome grid imgHeight blockSize random regions hin 0
  unfold _classifyRegions
  rw [hloop]
  by_cases hlen : objects.length = 0
  · refine ⟨_, if_pos hlen, ?_, ?_⟩
    · rw [length_generateFallbackDetections]
      have hb := numDetections_bounds (random (k + 0)) (hr _).1 (hr _).2
      omega
    · exact sorted_sortByConfidence _
  · refine ⟨_, if_neg hlen, ?_, ?_⟩
    · rw [List.length_take]
      omega
    · exact (sorted_sortByConfidence _).sublist (List.take_sublist _ _)

/-- Instance of C3 at the 2 x 2 sample grid with one region of 3 cells (fallback path). -/
theorem classifyRegions_capped_sorted_witness :
    RegionsInGrid [sampleSmallRegion] sampleGrid ∧ UnitRange halfSource ∧
      ∃ ds, _classifyRegions [sampleSmallRegion] sampleGrid 32 32 16 halfSource = some ds ∧
        ds.length ≤ 6 ∧ ds.Sorted (fun a b => b.confidence ≤ a.confidence) :=
  ⟨by decide, halfSource_unitRange,
    classifyRegions_capped_sorted [sampleSmallRegion] sampleGrid 32 32 16 halfSource
      (by decide) halfSource_unitRange⟩

/-! ## Claims about `_generateFallbackDetections` -/

theorem fallbackFold_forall (P : Detection → Prop) (width height p : ℚ) (n : ℤ)
    (g : ℕ → ℚ)
    (hstep : ∀ st i, ∃ d, (fallbackStep width height p n g st i).results =
      st.results ++ [d] ∧ P d) (l : List ℕ) :
    ∀ st : FallbackState, (∀ d ∈ st.results, P d) →
      ∀ d ∈ (l.foldl (fallbackStep width height p n g) st).results, P d := by
  induction l with
  | nil => intro st h; simpa using h
  | cons i l ih =>
    intro st h
    rw [List.foldl_cons]
    apply ih
    obtain ⟨d, hd, hs⟩ := hstep st i
    rw [hd]
    intro e he
    rcases List.mem_append.mp he with he | he
    · exact h e he
    · rw [List.mem_singleton.mp he]; exact hs

theorem clamp_inside (w bw x0 : ℚ) (hbw : bw ≤ w) :
    0 ≤ max 0 (min (w - bw) x0) ∧ max 0 (min (w - bw) x0) + bw ≤ w := by
  refine ⟨le_max_left _ _, ?_⟩
  have h1 : min (w - bw) x0 ≤ w - bw := min_le_left _ _
  have h2 : max 0 (min (w - bw) x0) ≤ w - bw := max_le (by linarith) h1
  linarith

theorem fallbackStep_inside (width height p : ℚ) (n : ℤ) (g : ℕ → ℚ)
    (hw : 0 < width) (hh : 0 < height) (hg : UnitRange g) (st : FallbackState) (i : ℕ) :
    ∃ d, (fallbackStep width height p n g st i).results = st.results ++ [d] ∧
      d.bbox.Inside width height := by
  refine ⟨_, rfl, ?_⟩
  simp only [BBox.Inside]
  have hbw : ∀ (b : Bool) (r : ℚ), 0 ≤ r → r < 1 →
      (if b = true then width * (0.08 + r * 0.12) else width * (0.18 + r * 0.22)) ≤ width := by
    intro b r h0 h1
    cases b
    · simp only [Bool.false_eq_true, if_false]; nlinarith
    · simp only [if_true]; nlinarith
  have hbh : ∀ r : ℚ, 0 ≤ r → r < 1 → height * (0.25 + r * 0.3) ≤ height := by
    intro r h0 h1; nlinarith
  refine ⟨le_max_left _ _, le_max_left _ _, ?_, ?_⟩
  · exact (clamp_inside _ _ _ (hbw _ _ (hg _).1 (hg _).2)).2
  · exact (clamp_inside _ _ _ (hbh _ (hg _).1 (hg _).2)).2

/-- C6: for positive width and height, any aspect ratio and a random source with values
in `[0, 1)`, every detection of `_generateFallbackDetections` has its bounding box
inside the image. -/
theorem generateFallbackDetections_inside (width height : ℚ) (aspectRatio : JsNum)
    (getRandom : ℕ → ℚ) (hw : 0 < width) (hh : 0 < height) (hg : UnitRange getRandom) :
    ∀ d ∈ _generateFallbackDetections width height aspectRatio getRandom,
      0 ≤ d.bbox.x ∧ 0 ≤ d.bbox.y ∧ d.bbox.x + d.bbox.width ≤ width ∧
        d.bbox.y + d.bbox.height ≤ height := by
  intro d hd
  unfold _generateFallbackDetections fallbackLoop at hd
  rw [mem_sortByConfidence] at hd
  exact fallbackFold_forall (fun d => d.bbox.Inside width height) _ _ _ _ _
    (fallbackStep_inside width height _ _ getRandom hw hh hg) _ _ (by simp) d hd

/-- Instance of C6 at the 640 x 480 image with `Math.random` = 0.5. -/
theorem generateFallbackDetections_inside_witness :
    (0 : ℚ) < 640 ∧ (0 : ℚ) < 480 ∧ UnitRange halfSource ∧
      ∀ d ∈ _generateFallbackDetections 640 480 (jsDiv 640 480) halfSource,
        0 ≤ d.bbox.x ∧ 0 ≤ d.bbox.y ∧ d.bbox.x + d.bbox.width ≤ 640 ∧
          d.bbox.y + d.bbox.height ≤ 480 :=
  ⟨by norm_num, by norm_num, halfSource_unitRange,
    generateFallbackDetections_inside 640 480 (jsDiv 640 480) halfSource
      (by norm_num) (by norm_num) halfSource_unitRange⟩

/-- What one iteration of the fallback loop does to the flags and to the class of the
object it pushes. -/
theorem fallbackStep_spec (width height p : ℚ) (n : ℤ) (g : ℕ → ℚ)
    (st : FallbackState) (i : ℕ) :
    ∃ (isTree : Bool) (d : Detection),
      (fallbackStep width height p n g st i).results = st.results ++ [d] ∧
      d.cls = (if isTree then 58 else -1) ∧
      (fallbackStep width height p n g st i).hasTree = (st.hasTree || isTree) ∧
      (fallbackStep width height p n g st i).hasBuilding = (st.hasBuilding || !isTree) ∧
      ((i : ℤ) = n - 2 → st.hasBuilding = false → isTree = false) ∧
      ((i : ℤ) = n - 1 → st.hasTree = false → isTree = true) := by
  refine ⟨_, _, rfl, rfl, rfl, rfl, ?_, ?_⟩
  · intro h1 h2
    simp [h1, h2]
  · intro h1 h2
    have h3 : ¬ ((i : ℤ) = n - 2) := by omega
    simp [h1, h2, h3]

theorem fallbackStep_flagsSound (width height p : ℚ) (n : ℤ) (g : ℕ → ℚ)
    (st : FallbackState) (i : ℕ) (h : st.FlagsSound) :
    (fallbackStep width height p n g st i).FlagsSound := by
  obtain ⟨isTree, d, hres, hcls, hT, hB, _, _⟩ := fallbackStep_spec width height p n g st i
  unfold FallbackState.FlagsSound
  rw [hres, hT, hB]
  constructor
  · intro ht
    rcases Bool.or_eq_true_iff.mp ht with ht | ht
    · obtain ⟨e, he, hc⟩ := h.1 ht
      exact ⟨e, List.mem_append_left _ he, hc⟩
    · exact ⟨d, by simp, by rw [hcls, ht]; rfl⟩
  · intro hb
    rcases Bool.or_eq_true_iff.mp hb with hb | hb
    · obtain ⟨e, he, hc⟩ := h.2 hb
      exact ⟨e, List.mem_append_left _ he, hc⟩
    · have : isTree = false := by simpa using hb
      exact ⟨d, by simp, by rw [hcls, this]; rfl⟩

theorem fallbackFold_flagsSound (width height p : ℚ) (n : ℤ) (g : ℕ → ℚ) (l : List ℕ) :
    ∀ st : FallbackState, st.FlagsSound →
      (l.foldl (fallbackStep width height p n g) st).FlagsSound := by
  induction l with
  | nil => intro st h; exact h
  | cons i l ih =>
    intro st h
    rw [List.foldl_cons]
    exact ih _ (fallbackStep_flagsSound width height p n g st i h)

theorem fallbackLoop_flags (width height : ℚ) (aspectRatio : JsNum) (g : ℕ → ℚ)
    (hg : UnitRange g) :
    (fallbackLoop width height aspectRatio g).hasTree = true ∧
      (fallbackLoop width height aspectRatio g).hasBuilding = true ∧
      (fallbackLoop width height aspectRatio g).FlagsSound := by
  have hb := numDetections_bounds (g 0) (hg 0).1 (hg 0).2
  obtain ⟨m, hm⟩ : ∃ m : ℕ, (⌊g 0 * 4⌋ + 2).toNat = m + 2 :=
    ⟨(⌊g 0 * 4⌋ + 2).toNat - 2, by omega⟩
  have hn : (⌊g 0 * 4⌋ + 2 : ℤ) = (m : ℤ) + 2 := by omega
  unfold fallbackLoop
  simp only [hm, List.range_succ, List.foldl_append, List.foldl_cons, List.foldl_nil]
  generalize hst0 : (List.range m).foldl
    (fallbackStep width height (treeProbability aspectRatio) (⌊g 0 * 4⌋ + 2) g)
    { results := [], hasTree := false, hasBuilding := false, next := 1 } = st0
  have hs0 : st0.FlagsSound := by
    rw [← hst0]
    apply fallbackFold_flagsSound
    constructor <;> intro h <;> simp at h
  obtain ⟨t1, d1, _, _, hT1, hB1, hf1, _⟩ :=
    fallbackStep_spec width height (treeProbability aspectRatio) (⌊g 0 * 4⌋ + 2) g st0 m
  generalize hst1 :
    fallbackStep width height (treeProbability aspectRatio) (⌊g 0 * 4⌋ + 2) g st0 m = st1
    at hT1 hB1
  have hs1 : st1.FlagsSound := by
    rw [← hst1]; exact fallbackStep_flagsSound _ _ _ _ _ _ _ hs0
  obtain ⟨t2, d2, _, _, hT2, hB2, _, hf2⟩ :=
    fallbackStep_spec width height (treeProbability aspectRatio) (⌊g 0 * 4⌋ + 2) g st1 (m + 1)
  have hs2 := fallbackStep_flagsSound width height (treeProbability aspectRatio)
    (⌊g 0 * 4⌋ + 2) g st1 (m + 1) hs1
  have hb1 : st1.hasBuilding = true := by
    rw [hB1]
    cases hsb : st0.hasBuilding
    · rw [hf1 (by omega) hsb]; rfl
    · rfl
  refine ⟨?_, ?_, hs2⟩
  · rw [hT2]
    cases hst : st1.hasTree
    · rw [hf2 (by push_cast; omega) hst]; rfl
    · rfl
  · rw [hB2, hb1]; rfl

/-- C7: for every width, height and aspect ratio and every random source with values in
`[0, 1)`, the list of `_generateFallbackDetections` has a detection of class 58 (tree)
and a detection of class -1 (building). -/
theorem generateFallbackDetections_tree_and_building (width height : ℚ)
    (aspectRatio : JsNum) (getRandom : ℕ → ℚ) (hg : UnitRange getRandom) :
    (∃ d ∈ _generateFallbackDetections width height aspectRatio getRandom, d.cls = 58) ∧
      (∃ d ∈ _generateFallbackDetections width height aspectRatio getRandom,
        d.cls = -1) := by
  obtain ⟨hT, hB, hs⟩ := fallbackLoop_flags width height aspectRatio getRandom hg
  obtain ⟨d1, hd1, hc1⟩ := hs.1 hT
  obtain ⟨d2, hd2, hc2⟩ := hs.2 hB
  unfold _generateFallbackDetections
  exact ⟨⟨d1, mem_sortByConfidence.mpr hd1, hc1⟩, ⟨d2, mem_sortByConfidence.mpr hd2, hc2⟩⟩

/-- Instance of C7 at the 640 x 480 image with `Math.random` = 0.5. -/
theorem generateFallbackDetections_tree_and_building_witness :
    UnitRange halfSource ∧
      (∃ d ∈ _generateFallbackDetections 640 480 (jsDiv 640 480) halfSource, d.cls = 58) ∧
      (∃ d ∈ _generateFallbackDetections 640 480 (jsDiv 640 480) halfSource, d.cls = -1) :=
  ⟨halfSource_unitRange,
    generateFallbackDetections_tree_and_building 640 480 (jsDiv 640 480) halfSource
      halfSource_unitRange⟩

/-! ## Lemmas: the seeded generator -/

theorem jsMod_lt (a m : ℚ) (hm : 0 < m) : jsMod a m < m := by
  unfold jsMod jsTrunc
  split
  · have h := Int.lt_floor_add_one (a / m)
    have h2 : a < m * ((⌊a / m⌋ : ℚ) + 1) := by
      have := mul_lt_mul_of_pos_left h hm
      rwa [mul_div_cancel₀ a (ne_of_gt hm)] at this
    linarith
  · have h := Int.le_ceil (a / m)
    have h2 : a ≤ m * (⌈a / m⌉ : ℚ) := by
      have := mul_le_mul_of_nonneg_left h (le_of_lt hm)
      rwa [mul_div_cancel₀ a (ne_of_gt hm)] at this
    linarith

theorem jsMod_nonneg (a m : ℚ) (ha : 0 ≤ a) (hm : 0 < m) : 0 ≤ jsMod a m := by
  unfold jsMod jsTrunc
  rw [if_pos (div_nonneg ha (le_of_lt hm))]
  have h := Int.floor_le (a / m)
  have h2 : m * (⌊a / m⌋ : ℚ) ≤ a := by
    have := mul_le_mul_of_nonneg_left h (le_of_lt hm)
    rwa [mul_div_cancel₀ a (ne_of_gt hm)] at this
  linarith

theorem lcgValue_lt_one (s : ℚ) (k : ℕ) : lcgValue s k < 1 := by
  unfold lcgValue
  rw [div_lt_one (by norm_num)]
  exact jsMod_lt _ _ (by norm_num)

theorem lcgState_nonneg (s : ℚ) (hs : 0 ≤ s) : ∀ k, 0 ≤ lcgState s k := by
  intro k
  induction k with
  | zero => exact hs
  | succ k ih =>
    exact jsMod_nonneg _ _ (by nlinarith) (by norm_num)

theorem lcgValue_unitRange (s : ℚ) (hs : 0 ≤ s) : UnitRange (lcgValue s) :=
  fun k => ⟨div_nonneg (lcgState_nonneg s hs (k + 1)) (by norm_num), lcgValue_lt_one s k⟩

/-- The number of detections drawn from a value below 1 is at most 4. -/
theorem count3_le (r : ℚ) (h1 : r < 1) : ⌊r * 3⌋ + 2 ≤ 4 := by
  have hb : ⌊r * 3⌋ < 3 := Int.floor_lt.mpr (by push_cast; linarith)
  omega

/-- The number of detections drawn from a value in `[0, 1)` is at least 2. -/
theorem count3_ge (r : ℚ) (h0 : 0 ≤ r) : 2 ≤ ⌊r * 3⌋ + 2 := by
  have ha : (0 : ℤ) ≤ ⌊r * 3⌋ := Int.floor_nonneg.mpr (by linarith)
  omega

/-! ## Claims about `simulateDetection` and `detect` -/

theorem simulateStep_results (regions : List BBox) (treeIndex buildingIndex : ℤ)
    (debug : Bool) (rng : ℕ → ℚ) (st : List Detection × ℕ) (i : ℕ) :
    ∃ d, (simulateStep regions treeIndex buildingIndex debug rng st i).1 = st.1 ++ [d] ∧
      d.Supported := by
  refine ⟨_, rfl, ?_⟩
  exact supported_of_isTree _ _ _ _ _ _

theorem simulateFold_spec (regions : List BBox) (treeIndex buildingIndex : ℤ)
    (debug : Bool) (rng : ℕ → ℚ) (l : List ℕ) :
    ∀ st : List Detection × ℕ, (∀ d ∈ st.1, d.Supported) →
      (l.foldl (simulateStep regions treeIndex buildingIndex debug rng) st).1.length =
          st.1.length + l.length ∧
        ∀ d ∈ (l.foldl (simulateStep regions treeIndex buildingIndex debug rng) st).1,
          d.Supported := by
  induction l with
  | nil => intro st h; exact ⟨by simp, h⟩
  | cons i l ih =>
    intro st h
    rw [List.foldl_cons]
    obtain ⟨d, hd, hs⟩ := simulateStep_results regions treeIndex buildingIndex debug rng st i
    have h' : ∀ e ∈ (simulateStep regions treeIndex buildingIndex debug rng st i).1,
        e.Supported := by
      rw [hd]
      intro e he
      rcases List.mem_append.mp he with he | he
      · exact h e he
      · rw [List.mem_singleton.mp he]; exact hs
    obtain ⟨h1, h2⟩ := ih _ h'
    refine ⟨?_, h2⟩
    rw [h1, hd]
    simp
    omega

theorem simulateDetection_length (canvasWidth canvasHeight imageHash variation : ℚ)
    (debug : Bool) (ambient : ℚ) :
    (simulateDetection canvasWidth canvasHeight imageHash variation debug ambient).length =
      (⌊_seededRandom (imageHash + variation * 0.1) ambient 0 * 3⌋ + 2).toNat := by
  unfold simulateDetection
  simp only []
  rw [(simulateFold_spec _ _ _ _ _ _ _ (by simp)).1]
  simp

theorem simulateDetection_supported (canvasWidth canvasHeight imageHash variation : ℚ)
    (debug : Bool) (ambient : ℚ) :
    ∀ d ∈ simulateDetection canvasWidth canvasHeight imageHash variation debug ambient,
      d.Supported := by
  unfold simulateDetection
  simp only []
  exact (simulateFold_spec _ _ _ _ _ _ _ (by simp)).2

/-- C4 (counterexample): for the canvas 640 x 480 with imageHash 2 and variation 0 the
list that `detect` resolves to is not sorted: its confidences are 78353/86400 and then
1418999/1555200, which is larger. -/
theorem detect_unsorted_example :
    ¬ ((detect 640 480 2 0 false 0).length ≤ 6 ∧
      (detect 640 480 2 0 false 0).Sorted (fun a b => b.confidence ≤ a.confidence)) := by
  decide!

/-- C4 (amended): for every canvas size and every seed (imageHash, variation, and the
ambient value used when the seed is 0), the list that `detect` resolves to is the list
built by `simulateDetection`, unchanged and in the same order, and has at most 6
entries. -/
theorem detect_length_le (canvasWidth canvasHeight imageHash variation : ℚ)
    (debug : Bool) (ambient : ℚ) :
    detect canvasWidth canvasHeight imageHash variation debug ambient =
        simulateDetection canvasWidth canvasHeight imageHash variation debug ambient ∧
      (detect canvasWidth canvasHeight imageHash variation debug ambient).length ≤ 6 := by
  have hmap : detect canvasWidth canvasHeight imageHash variation debug ambient =
      simulateDetection canvasWidth canvasHeight imageHash variation debug ambient := by
    unfold detect
    rw [List.map_congr_left, List.map_id]
    intro d hd
    have hs := simulateDetection_supported _ _ _ _ _ _ d hd
    have hne : ¬ (d.className = "" ∨ d.className = "未知") := by
      rcases hs with ⟨_, h⟩ | ⟨_, h⟩ <;> rw [h] <;> decide
    rw [if_neg hne]
    rfl
  refine ⟨hmap, ?_⟩
  rw [hmap, simulateDetection_length]
  have := count3_le (_seededRandom (imageHash + variation * 0.1) ambient 0)
    (lcgValue_lt_one _ _)
  omega

/-! ## Claims about the box and the determinism of `_classifyRegions` -/

/-- C5 (the code at the failing input): for the 64 x 64 image with blocks of 16 pixels,
the region that is the top row of the 4 x 4 block grid and jitter factor 1.04
(`Math.random` returning 0.9), `_classifyRegions` returns one detection whose box has
x = 0 and width 66.56, so that x + width exceeds the image width 64. -/
theorem classifyRegions_box_outside_example :
    (_classifyRegions [sampleRowRegion] sampleGrid4 64 64 16 highSource).map
        (List.map Detection.bbox) =
      some [{ x := 0, y := 0, width := 1664 / 25, height := 416 / 25 }] ∧
    ¬ (BBox.Inside { x := 0, y := 0, width := 1664 / 25, height := 416 / 25 } 64 64) := by
  decide!

theorem classifyLoop_short (grid : Grid) (imgHeight blockSize : ℚ) (random : ℕ → ℚ)
    (regions : List (List Cell)) (h : ∀ region ∈ regions, region.length < 4) :
    ∀ k, classifyLoop grid imgHeight blockSize random regions k = some ([], k) := by
  induction regions with
  | nil => intro k; rfl
  | cons region rest ih =>
    intro k
    unfold classifyLoop
    rw [if_pos (h region (List.mem_cons_self region rest))]
    exact ih (fun r hr => h r (List.mem_cons_of_mem region hr)) k

/-- C10 (counterexample): with no region at all and the same image size 640 x 480, a
call that reads 0 from `Math.random` and a call that reads 0.5 return different lists
(of 2 and of 4 detections). -/
theorem classifyRegions_fallback_depends_on_random :
    _classifyRegions [] [] 640 480 16 zeroSource ≠
      _classifyRegions [] [] 640 480 16 halfSource := by
  decide!

/-- C10 (amended): when every region has fewer than 4 cells, `_classifyRegions` returns
the list of `_generateFallbackDetections(imgWidth, imgHeight, imgWidth / imgHeight)` run
on the ambient random source; two such calls with the same image size that read the same
random values return identical lists, whatever their regions, grids and block sizes. -/
theorem classifyRegions_fallback_same_random (regions₁ regions₂ : List (List Cell))
    (grid₁ grid₂ : Grid) (imgWidth imgHeight blockSize₁ blockSize₂ : ℚ) (random : ℕ → ℚ)
    (h₁ : ∀ region ∈ regions₁, region.length < 4)
    (h₂ : ∀ region ∈ regions₂, region.length < 4) :
    _classifyRegions regions₁ grid₁ imgWidth imgHeight blockSize₁ random =
        some (_generateFallbackDetections imgWidth imgHeight (jsDiv imgWidth imgHeight)
          random) ∧
      _classifyRegions regions₂ grid₂ imgWidth imgHeight blockSize₂ random =
        _classifyRegions regions₁ grid₁ imgWidth imgHeight blockSize₁ random := by
  have key : ∀ (regions : List (List Cell)) (grid : Grid) (blockSize : ℚ),
      (∀ region ∈ regions, region.length < 4) →
      _classifyRegions regions grid imgWidth imgHeight blockSize random =
        some (_generateFallbackDetections imgWidth imgHeight (jsDiv imgWidth imgHeight)
          random) := by
    intro regions grid blockSize h
    unfold _classifyRegions
    rw [classifyLoop_short grid imgHeight blockSize random regions h 0]
    simp
  exact ⟨key regions₁ grid₁ blockSize₁ h₁,
    (key regions₂ grid₂ blockSize₂ h₂).trans (key regions₁ grid₁ blockSize₁ h₁).symm⟩

/-- Instance of the amended C10: a call with one region of 3 cells and a call with no region, both on the 32 x 32 image and `Math.random` = 0.5. -/
theorem classifyRegions_fallback_same_random_witness :
    (∀ region ∈ [sampleSmallRegion], region.length < 4) ∧
      (∀ region ∈ ([] : List (List Cell)), region.length < 4) ∧
      _classifyRegions [sampleSmallRegion] sampleGrid 32 32 16 halfSource =
        some (_generateFallbackDetections 32 32 (jsDiv 32 32) halfSource) ∧
      _classifyRegions [] [] 32 32 8 halfSource =
        _classifyRegions [sampleSmallRegion] sampleGrid 32 32 16 halfSource :=
  ⟨by decide, by decide,
    classifyRegions_fallback_same_random [sampleSmallRegion] [] sampleGrid [] 32 32 16 8
      halfSource (by decide) (by decide)⟩

/-! ## Claims about `_fallbackSimulatedDetection` (YOLOv8.js) -/

theorem fallbackSimFold_spec (sqrt : ℚ → ℚ) (width height p : ℚ) (numDetections : ℤ)
    (getRandom : ℕ → ℚ) (n : ℕ) :
    ((List.range n).foldl
        (fallbackSimStep sqrt width height p numDetections getRandom) ([], 1)).2 =
        1 + 6 * n ∧
      ((List.range n).foldl
        (fallbackSimStep sqrt width height p numDetections getRandom) ([], 1)).1.map
          Detection.cls =
        (List.range n).map (fun i => if getRandom (1 + 6 * i) < p then 58 else -1) ∧
      ∀ d ∈ ((List.range n).foldl
        (fallbackSimStep sqrt width height p numDetections getRandom) ([], 1)).1,
          d.Supported := by
  induction n with
  | zero => simp
  | succ n ih =>
    obtain ⟨h1, h2, h3⟩ := ih
    rw [List.range_succ, List.foldl_append, List.foldl_cons, List.foldl_nil]
    refine ⟨?_, ?_, ?_⟩
    · show _ + 6 = _
      rw [h1]; ring
    · show List.map Detection.cls (_ ++ [_]) = _
      rw [List.map_append, h2, List.map_append, h1]
      simp only [List.map_cons, List.map_nil, decide_eq_true_eq]
    · intro d hd
      have hd' : d ∈ _ ++ [_] := hd
      rcases List.mem_append.mp hd' with hd' | hd'
      · exact h3 d hd'
      · rw [List.mem_singleton.mp hd']; exact supported_of_isTree _ _ _ _ _ _

/-- C8 (counterexample): for the 100 x 100 image and variation 0 the three slots of
`_fallbackSimulatedDetection` are all buildings, whatever `Math.sqrt` returns: the list
has no detection of class 58. -/
theorem fallbackSimulatedDetection_no_tree_example :
    ¬ ∃ sqrt : ℚ → ℚ, ∃ d ∈ _fallbackSimulatedDetection sqrt 100 100 0, d.cls = 58 := by
  rintro ⟨sqrt, d, hd, hc⟩
  unfold _fallbackSimulatedDetection at hd
  rw [mem_sortByConfidence] at hd
  have hmem : d.cls ∈ fallbackSimClasses 100 100 0 := by
    unfold fallbackSimClasses
    rw [← (fallbackSimFold_spec sqrt _ _ _ _ _ _).2.1]
    exact List.mem_map_of_mem _ hd
  rw [hc] at hmem
  revert hmem
  decide!

theorem fallbackSim_cls_perm (sqrt : ℚ → ℚ) (imageWidth imageHeight variation : ℚ) :
    ((_fallbackSimulatedDetection sqrt imageWidth imageHeight variation).map
        Detection.cls).Perm (fallbackSimClasses imageWidth imageHeight variation) := by
  unfold _fallbackSimulatedDetection fallbackSimClasses
  rw [← (fallbackSimFold_spec sqrt _ _ _ _ _ _).2.1]
  exact (List.perm_insertionSort ConfGE _).map Detection.cls

theorem fallbackSim_supported (sqrt : ℚ → ℚ) (imageWidth imageHeight variation : ℚ) :
    ∀ d ∈ _fallbackSimulatedDetection sqrt imageWidth imageHeight variation,
      d.Supported := by
  unfold _fallbackSimulatedDetection
  intro d hd
  rw [mem_sortByConfidence] at hd
  exact (fallbackSimFold_spec sqrt _ _ _ _ _ _).2.2 d hd

/-- C8 (amended): for every image size and every variation, the classes of the list of
`_fallbackSimulatedDetection` are, up to the order of the final sort, the classes of its
slots, slot `i` being 58 (tree) when its random draw is below `treeProbability` and -1
(building) otherwise; every detection has class 58 with className 树木 or class -1 with
className 建筑物. -/
theorem fallbackSimulatedDetection_classes (sqrt : ℚ → ℚ)
    (imageWidth imageHeight variation : ℚ) :
    ((_fallbackSimulatedDetection sqrt imageWidth imageHeight variation).map
        Detection.cls).Perm (fallbackSimClasses imageWidth imageHeight variation) ∧
      ∀ d ∈ _fallbackSimulatedDetection sqrt imageWidth imageHeight variation,
        (d.cls = 58 ∧ d.className = "树木") ∨ (d.cls = -1 ∧ d.className = "建筑物") :=
  ⟨fallbackSim_cls_perm sqrt imageWidth imageHeight variation,
    fallbackSim_supported sqrt imageWidth imageHeight variation⟩

/-- C9 (the code at the failing input): for the 8 x 8 image and variation -1 the seed is
-68, the first random value is negative, `numDetections` is 0 and
`_fallbackSimulatedDetection` returns the empty list. -/
theorem fallbackSimulatedDetection_empty_example (sqrt : ℚ → ℚ) :
    fallbackSimSeed 8 8 (-1) = -68 ∧ _fallbackSimulatedDetection sqrt 8 8 (-1) = [] := by
  refine ⟨by decide!, ?_⟩
  have hperm := fallbackSim_cls_perm sqrt 8 8 (-1)
  have hnil : fallbackSimClasses 8 8 (-1) = [] := by decide!
  rw [hnil] at hperm
  exact List.map_eq_nil_iff.mp hperm.eq_nil

/-- For a seed that is not negative, `_fallbackSimulatedDetection` returns between 2 and
4 detections. -/
theorem fallbackSimulatedDetection_length_of_nonneg_seed (sqrt : ℚ → ℚ)
    (imageWidth imageHeight variation : ℚ)
    (hs : 0 ≤ fallbackSimSeed imageWidth imageHeight variation) :
    2 ≤ (_fallbackSimulatedDetection sqrt imageWidth imageHeight variation).length ∧
      (_fallbackSimulatedDetection sqrt imageWidth imageHeight variation).length ≤ 4 := by
  have hlen : (_fallbackSimulatedDetection sqrt imageWidth imageHeight variation).length =
      (⌊lcgValue (fallbackSimSeed imageWidth imageHeight variation) 0 * 3⌋ + 2).toNat := by
    have h := (fallbackSim_cls_perm sqrt imageWidth imageHeight variation).length_eq
    rw [List.length_map] at h
    rw [h]
    unfold fallbackSimClasses
    simp
  have hr := lcgValue_unitRange _ hs 0
  have h1 := count3_ge _ hr.1
  have h2 := count3_le _ hr.2
  rw [hlen]
  omega

/-! ## Claims about the seeded generator -/

/-- C11 (counterexample): with imageHash 0 and variation 0 (seed 0) on the canvas
640 x 480, a call in which `Math.random()` returns 0.0001 and a call in which it returns
0.0002 build different lists. -/
theorem simulateDetection_seed_zero_example :
    simulateDetection 640 480 0 0 false (1 / 10000) ≠
      simulateDetection 640 480 0 0 false (2 / 10000) := by
  decide!

/-- C11 (amended): for every imageHash and variation whose seed
`imageHash + variation * 0.1` is not 0, two calls of `simulateDetection` with the same
canvas size and options build the same list, whatever `Math.random()` returns. -/
theorem simulateDetection_deterministic (canvasWidth canvasHeight imageHash variation : ℚ)
    (debug : Bool) (ambient₁ ambient₂ : ℚ) (hseed : imageHash + variation * 0.1 ≠ 0) :
    simulateDetection canvasWidth canvasHeight imageHash variation debug ambient₁ =
      simulateDetection canvasWidth canvasHeight imageHash variation debug ambient₂ := by
  unfold simulateDetection _seededRandom
  simp only [if_neg hseed]

/-- Instance of the amended C11 at imageHash 2, variation 0 on the canvas 640 x 480. -/
theorem simulateDetection_deterministic_witness :
    (2 : ℚ) + 0 * 0.1 ≠ 0 ∧
      simulateDetection 640 480 2 0 false 0 = simulateDetection 640 480 2 0 false (1 / 2) :=
  ⟨by norm_num, simulateDetection_deterministic 640 480 2 0 false 0 (1 / 2) (by norm_num)⟩

theorem jsMod_eq_specMod (a m : ℚ) (ha : 0 ≤ a) (hm : 0 < m) : jsMod a m = specMod a m := by
  unfold jsMod specMod jsTrunc
  rw [if_pos (div_nonneg ha (le_of_lt hm))]

theorem lcgState_eq_spec (s : ℚ) (hs : 0 ≤ s) : ∀ k, lcgState s k = specLcgState s k := by
  intro k
  induction k with
  | zero => rfl
  | succ k ih =>
    show lcgNext (lcgState s k) = specMod (specLcgState s k * 9301 + 49297) 233280
    unfold lcgNext
    rw [jsMod_eq_specMod _ _ (by have := lcgState_nonneg s hs k; nlinarith) (by norm_num), ih]

/-- Over exact rational arithmetic (products, sums and quotients not rounded): for every
seed `s > 0`, call number `k` (counted from 1) of the generator that `_seededRandom(s)`
returns, and of the closure `getRandom` of YOLOv8.js started at `s`, yields
`s_k / 233280` with `s_0 = s` and `s_(k+1) = (s_k * 9301 + 49297) mod 233280`; every
value is at least 0 and below 1. -/
theorem seededRandom_sequence (s : ℚ) (hs : 0 < s) (ambient : ℚ) (k : ℕ) :
    _seededRandom s ambient k = specLcgState s (k + 1) / 233280 ∧
      lcgValue s k = specLcgState s (k + 1) / 233280 ∧
      0 ≤ _seededRandom s ambient k ∧ _seededRandom s ambient k < 1 := by
  have hval : lcgValue s k = specLcgState s (k + 1) / 233280 := by
    unfold lcgValue
    rw [lcgState_eq_spec s (le_of_lt hs)]
  have hsr : _seededRandom s ambient k = lcgValue s k := by
    unfold _seededRandom
    rw [if_neg (ne_of_gt hs)]
  have hr := lcgValue_unitRange s (le_of_lt hs) k
  rw [hsr]
  exact ⟨hval, hval, hr.1, hr.2⟩

/-- The exact generator at seed 2, first call: the value is 67899 / 233280. -/
theorem seededRandom_sequence_witness :
    (0 : ℚ) < 2 ∧ _seededRandom 2 0 0 = specLcgState 2 (0 + 1) / 233280 ∧
      lcgValue 2 0 = specLcgState 2 (0 + 1) / 233280 ∧
      0 ≤ _seededRandom 2 0 0 ∧ _seededRandom 2 0 0 < 1 :=
  ⟨by norm_num, seededRandom_sequence 2 (by norm_num) 0 0⟩

/-! ## Claims about confidences -/

theorem fallbackConfidence_bounds (isTree : Bool) (r : ℚ) (h0 : 0 ≤ r) (h1 : r < 1)
    (rawClass : Option String) (bbox : BBox) (debug : Option DebugInfo) (simulated : Bool)
    (className : String) :
    let d : Detection :=
      { cls := if isTree then 58 else -1
        className := className
        rawClass := rawClass
        confidence := if isTree then 0.6 + r * 0.25 else 0.7 + r * 0.25
        bbox := bbox, debug := debug, simulated := simulated }
    (d.cls = 58 → 0.6 ≤ d.confidence ∧ d.confidence < 0.85) ∧
      (d.cls = -1 → 0.7 ≤ d.confidence ∧ d.confidence < 0.95) ∧
      0 ≤ d.confidence ∧ d.confidence ≤ 1 := by
  cases isTree
  · simp only [Bool.false_eq_true, if_false]
    refine ⟨fun h => absurd h (by norm_num), fun _ => ⟨by linarith, by linarith⟩,
      by linarith, by linarith⟩
  · simp only [if_true]
    refine ⟨fun _ => ⟨by linarith, by linarith⟩, fun h => absurd h (by norm_num),
      by linarith, by linarith⟩

theorem fallbackStep_confidence (width height p : ℚ) (n : ℤ) (g : ℕ → ℚ)
    (hg : UnitRange g) (st : FallbackState) (i : ℕ) :
    ∃ d, (fallbackStep width height p n g st i).results = st.results ++ [d] ∧
      ((d.cls = 58 → 0.6 ≤ d.confidence ∧ d.confidence < 0.85) ∧
        (d.cls = -1 → 0.7 ≤ d.confidence ∧ d.confidence < 0.95) ∧
        0 ≤ d.confidence ∧ d.confidence ≤ 1) := by
  refine ⟨_, rfl, ?_⟩
  exact fallbackConfidence_bounds _ _ (hg _).1 (hg _).2 _ _ _ _ _

/-- C13: for every random source with values in `[0, 1)`, each detection of
`_generateFallbackDetections` has confidence in `[0.6, 0.85)` when its class is 58 and
in `[0.7, 0.95)` when its class is -1; every confidence is in `[0, 1]`. -/
theorem generateFallbackDetections_confidence (width height : ℚ) (aspectRatio : JsNum)
    (getRandom : ℕ → ℚ) (hg : UnitRange getRandom) :
    ∀ d ∈ _generateFallbackDetections width height aspectRatio getRandom,
      (d.cls = 58 → 0.6 ≤ d.confidence ∧ d.confidence < 0.85) ∧
        (d.cls = -1 → 0.7 ≤ d.confidence ∧ d.confidence < 0.95) ∧
        0 ≤ d.confidence ∧ d.confidence ≤ 1 := by
  intro d hd
  unfold _generateFallbackDetections fallbackLoop at hd
  rw [mem_sortByConfidence] at hd
  exact fallbackFold_forall
    (fun d => (d.cls = 58 → 0.6 ≤ d.confidence ∧ d.confidence < 0.85) ∧
      (d.cls = -1 → 0.7 ≤ d.confidence ∧ d.confidence < 0.95) ∧
      0 ≤ d.confidence ∧ d.confidence ≤ 1) _ _ _ _ _
    (fallbackStep_confidence width height _ _ getRandom hg) _ _ (by simp) d hd

/-- Instance of C13 at the 640 x 480 image with `Math.random` = 0.5. -/
theorem generateFallbackDetections_confidence_witness :
    UnitRange halfSource ∧
      ∀ d ∈ _generateFallbackDetections 640 480 (jsDiv 640 480) halfSource,
        (d.cls = 58 → 0.6 ≤ d.confidence ∧ d.confidence < 0.85) ∧
          (d.cls = -1 → 0.7 ≤ d.confidence ∧ d.confidence < 0.95) ∧
          0 ≤ d.confidence ∧ d.confidence ≤ 1 :=
  ⟨halfSource_unitRange,
    generateFallbackDetections_confidence 640 480 (jsDiv 640 480) halfSource
      halfSource_unitRange⟩

/-! ## Claims about the scores of `_classifyRegions` -/

theorem regionObject_conf_formula (acc : RegionAcc) (len : ℕ)
    (imgHeight blockSize j1 j2 j3 j4 : ℚ) :
    (regionObject acc len imgHeight blockSize j1 j2 j3 j4).confidence =
      0.7 + min 0.25
        (((|regionTreeScore acc len - regionBuildingScore acc len imgHeight blockSize| : ℤ) : ℚ)
          * 0.05) :=
  rfl

theorem regionObject_cls_eq (acc : RegionAcc) (len : ℕ)
    (imgHeight blockSize j1 j2 j3 j4 : ℚ) :
    (regionObject acc len imgHeight blockSize j1 j2 j3 j4).cls =
      if regionTreeScore acc len > regionBuildingScore acc len imgHeight blockSize then 58
      else -1 := by
  show (if decide (regionTreeScore acc len >
      regionBuildingScore acc len imgHeight blockSize) = true then (58 : ℤ) else -1) = _
  simp only [decide_eq_true_eq]

theorem regionObject_debug_eq (acc : RegionAcc) (len : ℕ)
    (imgHeight blockSize j1 j2 j3 j4 : ℚ) :
    (regionObject acc len imgHeight blockSize j1 j2 j3 j4).debug =
      some
        { greenRatio := acc.avgGreenRatio / len, grayRatio := acc.avgGrayRatio / len,
          treeScore := some (regionTreeScore acc len),
          buildingScore := some (regionBuildingScore acc len imgHeight blockSize) } :=
  rfl

/-- A single region of at least 4 cells in the grid: the list that `_classifyRegions`
returns is the one object built for it. -/
theorem classifyRegions_single (grid : Grid) (region : List Cell) (acc : RegionAcc)
    (imgWidth imgHeight blockSize : ℚ) (random : ℕ → ℚ) (hlen : 4 ≤ region.length)
    (hacc : accumulateRegion grid region RegionAcc.init = some acc) :
    _classifyRegions [region] grid imgWidth imgHeight blockSize random =
      some [regionObject acc region.length imgHeight blockSize (jitter (random 0))
        (jitter (random 1)) (jitter (random 2)) (jitter (random 3))] := by
  have hnot : ¬ region.length < 4 := by omega
  simp [_classifyRegions, classifyLoop, hnot, hacc, _resolveOverlaps, sortByConfidence]

theorem confidenceOfGap_mono (g₁ g₂ : ℚ) (h : g₁ ≤ g₂) :
    (0.7 : ℚ) + min 0.25 (g₁ * 0.05) ≤ 0.7 + min 0.25 (g₂ * 0.05) := by
  have : min (0.25 : ℚ) (g₁ * 0.05) ≤ min 0.25 (g₂ * 0.05) :=
    min_le_min le_rfl (by linarith)
  linarith

/-- C15: the detection that `_classifyRegions` builds for a region has confidence
`0.7 + min(0.25, |treeScore - buildingScore| * 0.05)`; the confidence lies in
`[0.70, 0.95]`, and of two such detections the one with the larger absolute score gap
has at least the confidence of the other. -/
theorem regionObject_confidence (acc : RegionAcc) (len : ℕ)
    (imgHeight blockSize j1 j2 j3 j4 : ℚ) :
    (regionObject acc len imgHeight blockSize j1 j2 j3 j4).confidence =
        0.7 + min 0.25
          (((|regionTreeScore acc len - regionBuildingScore acc len imgHeight blockSize| : ℤ) : ℚ)
            * 0.05) ∧
      0.7 ≤ (regionObject acc len imgHeight blockSize j1 j2 j3 j4).confidence ∧
      (regionObject acc len imgHeight blockSize j1 j2 j3 j4).confidence ≤ 0.95 ∧
      ∀ (acc' : RegionAcc) (len' : ℕ) (imgHeight' blockSize' j1' j2' j3' j4' : ℚ),
        |regionTreeScore acc len - regionBuildingScore acc len imgHeight blockSize| ≤
          |regionTreeScore acc' len' - regionBuildingScore acc' len' imgHeight' blockSize'| →
        (regionObject acc len imgHeight blockSize j1 j2 j3 j4).confidence ≤
          (regionObject acc' len' imgHeight' blockSize' j1' j2' j3' j4').confidence := by
  have hgap : (0 : ℚ) ≤
      ((|regionTreeScore acc len - regionBuildingScore acc len imgHeight blockSize| : ℤ) : ℚ) := by
    exact_mod_cast abs_nonneg _
  refine ⟨rfl, ?_, ?_, ?_⟩
  · rw [regionObject_conf_formula]
    have : (0 : ℚ) ≤ min 0.25
        (((|regionTreeScore acc len - regionBuildingScore acc len imgHeight blockSize| : ℤ) : ℚ)
          * 0.05) := le_min (by norm_num) (by linarith)
    linarith
  · rw [regionObject_conf_formula]
    have : min (0.25 : ℚ)
        (((|regionTreeScore acc len - regionBuildingScore acc len imgHeight blockSize| : ℤ) : ℚ)
          * 0.05) ≤ 0.25 := min_le_left _ _
    linarith
  · intro acc' len' imgHeight' blockSize' j1' j2' j3' j4' h
    rw [regionObject_conf_formula, regionObject_conf_formula]
    exact confidenceOfGap_mono _ _ (by exact_mod_cast h)

theorem treeScoreOf_range (a b : ℚ) : 0 ≤ treeScoreOf a b ∧ treeScoreOf a b ≤ 5 := by
  unfold treeScoreOf
  constructor <;> split_ifs <;> norm_num

theorem buildingScoreOf_range (a b c : ℚ) (u : Bool) :
    0 ≤ buildingScoreOf a b c u ∧ buildingScoreOf a b c u ≤ 9 := by
  unfold buildingScoreOf
  constructor <;> split_ifs <;> norm_num

/-- C16: the detection that `_classifyRegions` builds for a region has class 58 (tree)
if and only if treeScore > buildingScore, and class -1 (building) otherwise, so equal
scores give class -1; treeScore, the ladder over the averaged greenRatio and greenness,
is between 0 and 5, and buildingScore, the ladder over the averaged grayRatio, edge
strength and grayness plus the position bonus, is between 0 and 9. -/
theorem regionObject_class (acc : RegionAcc) (len : ℕ)
    (imgHeight blockSize j1 j2 j3 j4 : ℚ) :
    ((regionObject acc len imgHeight blockSize j1 j2 j3 j4).cls = 58 ↔
        regionTreeScore acc len > regionBuildingScore acc len imgHeight blockSize) ∧
      ((regionObject acc len imgHeight blockSize j1 j2 j3 j4).cls = -1 ↔
        regionTreeScore acc len ≤ regionBuildingScore acc len imgHeight blockSize) ∧
      (0 ≤ regionTreeScore acc len ∧ regionTreeScore acc len ≤ 5) ∧
      (0 ≤ regionBuildingScore acc len imgHeight blockSize ∧
        regionBuildingScore acc len imgHeight blockSize ≤ 9) ∧
      regionTreeScore acc len =
        treeScoreOf (acc.avgGreenRatio / len) (acc.avgGreenness / len) ∧
      regionBuildingScore acc len imgHeight blockSize =
        buildingScoreOf (acc.avgGrayRatio / len) (acc.avgEdges / len)
          (acc.avgGrayness / len) (regionUpperTall acc imgHeight blockSize) := by
  refine ⟨?_, ?_, treeScoreOf_range _ _, buildingScoreOf_range _ _ _ _, rfl, rfl⟩
  · rw [regionObject_cls_eq]
    split_ifs with h
    · exact ⟨fun _ => h, fun _ => rfl⟩
    · exact ⟨fun h' => absurd h' (by norm_num), fun h' => absurd h' h⟩
  · rw [regionObject_cls_eq]
    split_ifs with h
    · exact ⟨fun h' => absurd h' (by norm_num), fun h' => absurd h (not_lt.mpr h')⟩
    · exact ⟨fun _ => not_lt.mp h, fun _ => rfl⟩

/-- C17 (the code at the failing input): in the 16 x 160 image with blocks of 16 pixels,
the region of rows 5 to 9 has its box from y = 80 to y = 160, so its centre is at 75% of
the image height; `_classifyRegions` computes centerY = 7 / 160 from the block rows,
finds it below 0.4, and with objectHeight = 64 > 48 adds the bonus: buildingScore is 6
instead of 5. -/
theorem classifyRegions_bonus_low_region_example :
    (accumulateRegion sampleColumnGrid sampleLowRegion RegionAcc.init).map
        (fun acc => (regionUpperTall acc 160 16,
          buildingScoreOf (acc.avgGrayRatio / 5) (acc.avgEdges / 5) (acc.avgGrayness / 5)
            false)) = some (true, 5) ∧
      (_classifyRegions [sampleLowRegion] sampleColumnGrid 16 160 16 halfSource).map
        (List.map (fun d => (d.bbox, d.debug.bind (fun i => i.buildingScore)))) =
        some [({ x := 0, y := 80, width := 16, height := 80 }, some 6)] := by
  decide!

/-! ## Claims about `_isSimilarBlock` -/

/-- C20 (counterexample): the uniform gray blocks of values 153 and 102 have color
distance exactly 0.2, which is not strictly below 0.2, and `_isSimilarBlock` returns
true for them. -/
theorem isSimilarBlock_boundary_example :
    ¬ (_isSimilarBlock (grayBlock 153) (grayBlock 102) = true ↔
      (_colorDifference (grayBlock 153) (grayBlock 102) < 0.2 ∧
        |(grayBlock 153).greenness - (grayBlock 102).greenness| < 0.3 ∧
        |(grayBlock 153).grayness - (grayBlock 102).grayness| < 0.3)) := by
  decide!

/-- C20 (amended): `_isSimilarBlock` returns true if and only if the color distance is
at most 0.2 and the absolute greenness difference is strictly less than 0.3 and the
absolute grayness difference is strictly less than 0.3. -/
theorem isSimilarBlock_iff (block1 block2 : BlockFeature) :
    _isSimilarBlock block1 block2 = true ↔
      (_colorDifference block1 block2 ≤ 0.2 ∧
        |block1.greenness - block2.greenness| < 0.3 ∧
        |block1.grayness - block2.grayness| < 0.3) := by
  unfold _isSimilarBlock
  simp only []
  split_ifs with h
  · constructor
    · intro h'; exact absurd h' (by simp)
    · intro h'; exact absurd h'.1 (not_le.mpr h)
  · simp only [Bool.and_eq_true, decide_eq_true_eq]
    exact ⟨fun h' => ⟨not_lt.mp h, h'⟩, fun h' => h'.2⟩

/-! ## Claims about the confidence of `_fallbackSimulatedDetection` -/

theorem sqrtCeil_sqrtLike : SqrtLike sqrtCeil := by
  refine ⟨fun a _ => Nat.cast_nonneg _, fun a b _ hab => ?_, fun a ha => ?_⟩
  · unfold sqrtCeil
    exact_mod_cast Nat.sqrt_le_sqrt (Int.toNat_le_toNat (Int.ceil_le_ceil hab))
  · unfold sqrtCeil
    have h1 : 0 < ⌈a⌉ := Int.ceil_pos.mpr ha
    have h2 : 0 < ⌈a⌉.toNat := by omega
    exact_mod_cast Nat.sqrt_pos.mpr h2

theorem yoloConfidence_bounds (sqrt : ℚ → ℚ) (hs : SqrtLike sqrt)
    (width height x1 ry rw rh rc : ℚ) (isTree : Bool) (hw : 0 < width) (hh : 0 < height)
    (hry : 0 ≤ ry ∧ ry < 1) (hrw : 0 ≤ rw ∧ rw < 1) (hrh : 0 ≤ rh ∧ rh < 1)
    (hrc : 0 ≤ rc ∧ rc < 1) :
    0.6 ≤ 0.9 -
        sqrt (((max 0 (min (width * 0.8) x1) +
              min (if isTree = true then width * (0.1 + rw * 0.1)
                else width * (0.2 + rw * 0.2))
                (width - max 0 (min (width * 0.8) x1)) / 2) - width / 2) ^ 2 +
            (((if isTree = true then height * (0.2 + ry * 0.3)
                else height * (0.1 + ry * 0.2)) +
              min (if isTree = true then height * (0.3 + rh * 0.2)
                else height * (0.2 + rh * 0.3))
                (height - (if isTree = true then height * (0.2 + ry * 0.3)
                  else height * (0.1 + ry * 0.2))) / 2) - height / 2) ^ 2) /
          sqrt ((width / 2) ^ 2 + (height / 2) ^ 2) * 0.3 + rc * 0.1 ∧
      0.9 -
        sqrt (((max 0 (min (width * 0.8) x1) +
              min (if isTree = true then width * (0.1 + rw * 0.1)
                else width * (0.2 + rw * 0.2))
                (width - max 0 (min (width * 0.8) x1)) / 2) - width / 2) ^ 2 +
            (((if isTree = true then height * (0.2 + ry * 0.3)
                else height * (0.1 + ry * 0.2)) +
              min (if isTree = true then height * (0.3 + rh * 0.2)
                else height * (0.2 + rh * 0.3))
                (height - (if isTree = true then height * (0.2 + ry * 0.3)
                  else height * (0.1 + ry * 0.2))) / 2) - height / 2) ^ 2) /
          sqrt ((width / 2) ^ 2 + (height / 2) ^ 2) * 0.3 + rc * 0.1 < 1 := by
  generalize hx : max 0 (min (width * 0.8) x1) = x
  generalize hy : (if isTree = true then height * (0.2 + ry * 0.3)
    else height * (0.1 + ry * 0.2)) = y
  generalize hbw0 : (if isTree = true then width * (0.1 + rw * 0.1)
    else width * (0.2 + rw * 0.2)) = bw0
  generalize hbh0 : (if isTree = true then height * (0.3 + rh * 0.2)
    else height * (0.2 + rh * 0.3)) = bh0
  have hx0 : 0 ≤ x := by rw [← hx]; exact le_max_left _ _
  have hx1 : x ≤ width * 0.8 := by
    rw [← hx]; exact max_le (by nlinarith) (min_le_left _ _)
  have hy0 : 0 < y := by
    rw [← hy]; cases isTree
    · simp only [Bool.false_eq_true, if_false]; nlinarith [hry.1]
    · simp only [if_true]; nlinarith [hry.1]
  have hy1 : y < height := by
    rw [← hy]; cases isTree
    · simp only [Bool.false_eq_true, if_false]; nlinarith [hry.2]
    · simp only [if_true]; nlinarith [hry.2]
  have hbw : 0 < bw0 := by
    rw [← hbw0]; cases isTree
    · simp only [Bool.false_eq_true, if_false]; nlinarith [hrw.1]
    · simp only [if_true]; nlinarith [hrw.1]
  have hbh : 0 < bh0 := by
    rw [← hbh0]; cases isTree
    · simp only [Bool.false_eq_true, if_false]; nlinarith [hrh.1]
    · simp only [if_true]; nlinarith [hrh.1]
  have hw1 : 0 < min bw0 (width - x) := lt_min hbw (by linarith)
  have hw2 : min bw0 (width - x) ≤ width - x := min_le_right _ _
  have hh1 : 0 < min bh0 (height - y) := lt_min hbh (by linarith)
  have hh2 : min bh0 (height - y) ≤ height - y := min_le_right _ _
  have hdx : (x + min bw0 (width - x) / 2 - width / 2) ^ 2 ≤ (width / 2) ^ 2 :=
    sq_le_sq' (by linarith) (by linarith)
  have hdy : (y + min bh0 (height - y) / 2 - height / 2) ^ 2 ≤ (height / 2) ^ 2 :=
    sq_le_sq' (by linarith) (by linarith)
  have hA0 : 0 ≤ (x + min bw0 (width - x) / 2 - width / 2) ^ 2 +
      (y + min bh0 (height - y) / 2 - height / 2) ^ 2 := by positivity
  have hB0 : 0 < (width / 2) ^ 2 + (height / 2) ^ 2 := by positivity
  have hsA := hs.1 _ hA0
  have hsAB := hs.2.1 _ _ hA0 (add_le_add hdx hdy)
  have hsB := hs.2.2 _ hB0
  have hd0 : 0 ≤ sqrt ((x + min bw0 (width - x) / 2 - width / 2) ^ 2 +
      (y + min bh0 (height - y) / 2 - height / 2) ^ 2) /
      sqrt ((width / 2) ^ 2 + (height / 2) ^ 2) := div_nonneg hsA (le_of_lt hsB)
  have hd1 : sqrt ((x + min bw0 (width - x) / 2 - width / 2) ^ 2 +
      (y + min bh0 (height - y) / 2 - height / 2) ^ 2) /
      sqrt ((width / 2) ^ 2 + (height / 2) ^ 2) ≤ 1 := (div_le_one hsB).mpr hsAB
  constructor
  · linarith [hrc.1]
  · linarith [hrc.2]

theorem fallbackSimStep_confidence (sqrt : ℚ → ℚ) (hs : SqrtLike sqrt)
    (width height p : ℚ) (n : ℤ) (g : ℕ → ℚ) (hw : 0 < width) (hh : 0 < height)
    (hg : UnitRange g) (st : List Detection × ℕ) (i : ℕ) :
    ∃ d, (fallbackSimStep sqrt width height p n g st i).1 = st.1 ++ [d] ∧
      (0.6 ≤ d.confidence ∧ d.confidence < 1) := by
  refine ⟨_, rfl, ?_⟩
  exact yoloConfidence_bounds sqrt hs width height _ _ _ _ _ _ hw hh (hg _) (hg _) (hg _)
    (hg _)

theorem fallbackSimFold_forall (P : Detection → Prop) (sqrt : ℚ → ℚ)
    (width height p : ℚ) (n : ℤ) (g : ℕ → ℚ)
    (hstep : ∀ st i, ∃ d, (fallbackSimStep sqrt width height p n g st i).1 =
      st.1 ++ [d] ∧ P d) (l : List ℕ) :
    ∀ st : List Detection × ℕ, (∀ d ∈ st.1, P d) →
      ∀ d ∈ (l.foldl (fallbackSimStep sqrt width height p n g) st).1, P d := by
  induction l with
  | nil => intro st h; simpa using h
  | cons i l ih =>
    intro st h
    rw [List.foldl_cons]
    apply ih
    obtain ⟨d, hd, hP⟩ := hstep st i
    rw [hd]
    intro e he
    rcases List.mem_append.mp he with he | he
    · exact h e he
    · rw [List.mem_singleton.mp he]; exact hP

/-- C14: for every image with positive width and height and every seed that is not
negative, with `Math.sqrt` monotone, not negative and positive on positive arguments,
each detection of `_fallbackSimulatedDetection` has its confidence in `[0.6, 1)`, hence
in `[0, 1]`. -/
theorem fallbackSimulatedDetection_confidence (sqrt : ℚ → ℚ) (hs : SqrtLike sqrt)
    (imageWidth imageHeight variation : ℚ) (hw : 0 < imageWidth) (hh : 0 < imageHeight)
    (hseed : 0 ≤ fallbackSimSeed imageWidth imageHeight variation) :
    ∀ d ∈ _fallbackSimulatedDetection sqrt imageWidth imageHeight variation,
      (0.6 ≤ d.confidence ∧ d.confidence < 1) ∧ 0 ≤ d.confidence ∧ d.confidence ≤ 1 := by
  intro d hd
  unfold _fallbackSimulatedDetection at hd
  rw [mem_sortByConfidence] at hd
  simp only [if_neg (ne_of_gt hw), if_neg (ne_of_gt hh)] at hd
  have h := fallbackSimFold_forall (fun d => 0.6 ≤ d.confidence ∧ d.confidence < 1) sqrt
    imageWidth imageHeight _ _ _
    (fallbackSimStep_confidence sqrt hs imageWidth imageHeight _ _ _ hw hh
      (lcgValue_unitRange _ hseed)) _ _ (by simp) d hd
  exact ⟨h, by linarith [h.1], by linarith [h.2]⟩

/-- Instance of C14 at the 640 x 480 image with variation 0 (seed 3993733), with the
integer square root of the rounded-up argument for `Math.sqrt`. -/
theorem fallbackSimulatedDetection_confidence_witness :
    SqrtLike sqrtCeil ∧ (0 : ℚ) < 640 ∧ (0 : ℚ) < 480 ∧
      0 ≤ fallbackSimSeed 640 480 0 ∧
      ∀ d ∈ _fallbackSimulatedDetection sqrtCeil 640 480 0,
        (0.6 ≤ d.confidence ∧ d.confidence < 1) ∧ 0 ≤ d.confidence ∧ d.confidence ≤ 1 :=
  ⟨sqrtCeil_sqrtLike, by norm_num, by norm_num, by decide!,
    fallbackSimulatedDetection_confidence sqrtCeil sqrtCeil_sqrtLike 640 480 0
      (by norm_num) (by norm_num) (by decide!)⟩

/-! ## Lemmas: the segmenter -/

theorem mem_cellsInOrder (gridWidth gridHeight : ℕ) (c : Cell) :
    c ∈ cellsInOrder gridWidth gridHeight ↔ InGrid gridWidth gridHeight c := by
  unfold cellsInOrder InGrid
  simp only [List.mem_flatMap, List.mem_map, List.mem_range]
  constructor
  · rintro ⟨y, hy, x, hx, rfl⟩
    exact ⟨hx, hy⟩
  · rintro ⟨hx, hy⟩
    exact ⟨c.y, hy, c.x, hx, rfl⟩

theorem length_cellsInOrder (gridWidth gridHeight : ℕ) :
    (cellsInOrder gridWidth gridHeight).length = gridWidth * gridHeight := by
  unfold cellsInOrder
  induction gridHeight with
  | zero => simp
  | succ n ih =>
    rw [List.range_succ, List.flatMap_append, List.length_append, ih]
    simp [Nat.mul_succ]

theorem length_le_of_inGrid (gridWidth gridHeight : ℕ) (l : List Cell) (hn : l.Nodup)
    (hin : ∀ c ∈ l, InGrid gridWidth gridHeight c) : l.length ≤ gridWidth * gridHeight := by
  have hsub : l ⊆ cellsInOrder gridWidth gridHeight :=
    fun c hc => (mem_cellsInOrder gridWidth gridHeight c).mpr (hin c hc)
  have h := (List.subperm_of_subset hn hsub).length_le
  rwa [length_cellsInOrder] at h

theorem absorbTest_true (grid : Grid) (edgeGrid : EdgeGrid) (gridWidth gridHeight : ℕ)
    (seed : Cell) (visited : List Cell) (n : ℤ × ℤ)
    (h : absorbTest grid edgeGrid gridWidth gridHeight seed visited n = some true) :
    InGrid gridWidth gridHeight ⟨n.1.toNat, n.2.toNat⟩ ∧
      (⟨n.1.toNat, n.2.toNat⟩ : Cell) ∉ visited := by
  by_cases hb : 0 ≤ n.1 ∧ n.1 < (gridWidth : ℤ) ∧ 0 ≤ n.2 ∧ n.2 < (gridHeight : ℤ)
  · by_cases hv : (⟨n.1.toNat, n.2.toNat⟩ : Cell) ∈ visited
    · simp [absorbTest, hb, hv] at h
    · refine ⟨⟨?_, ?_⟩, hv⟩
      · show n.1.toNat < gridWidth
        omega
      · show n.2.toNat < gridHeight
        omega
  · simp [absorbTest, hb] at h

theorem absorbTest_isSome (grid : Grid) (edgeGrid : EdgeGrid) (gridWidth gridHeight : ℕ)
    (hcov : GridsCover grid edgeGrid gridWidth gridHeight) (seed : Cell)
    (hseed : InGrid gridWidth gridHeight seed) (visited : List Cell) (n : ℤ × ℤ) :
    ∃ b, absorbTest grid edgeGrid gridWidth gridHeight seed visited n = some b := by
  by_cases hb : 0 ≤ n.1 ∧ n.1 < (gridWidth : ℤ) ∧ 0 ≤ n.2 ∧ n.2 < (gridHeight : ℤ)
  · by_cases hv : (⟨n.1.toNat, n.2.toNat⟩ : Cell) ∈ visited
    · exact ⟨false, by simp [absorbTest, hb, hv]⟩
    · have hx : n.1.toNat < gridWidth := by omega
      have hy : n.2.toNat < gridHeight := by omega
      obtain ⟨hg, he⟩ := hcov n.2.toNat hy n.1.toNat hx
      obtain ⟨row, hrow⟩ := Option.isSome_iff_exists.mp he
      obtain ⟨b2, hb2⟩ := Option.isSome_iff_exists.mp hg
      obtain ⟨b1, hb1⟩ := Option.isSome_iff_exists.mp (hcov seed.y hseed.2 seed.x hseed.1).1
      cases hrx : row[n.1.toNat]? with
      | none => exact ⟨false, by simp only [absorbTest, if_pos hb, if_neg hv, hrow, hrx]⟩
      | some e =>
        by_cases he3 : e < 0.3
        · exact ⟨_isSimilarBlock b1 b2, by
            simp only [absorbTest, if_pos hb, if_neg hv, hrow, hrx, if_pos he3, hb1, hb2]⟩
        · exact ⟨false, by
            simp only [absorbTest, if_pos hb, if_neg hv, hrow, hrx, if_neg he3]⟩
  · exact ⟨false, by simp [absorbTest, hb]⟩

theorem visitNeighbors_inv (grid : Grid) (edgeGrid : EdgeGrid) (gridWidth gridHeight : ℕ)
    (seed : Cell) (visited₀ done : List Cell) (nbrs : List (ℤ × ℤ)) :
    ∀ st st' : List Cell × List Cell,
      visitNeighbors grid edgeGrid gridWidth gridHeight seed nbrs st = some st' →
      FillInv gridWidth gridHeight visited₀ done st.1 st.2 →
      FillInv gridWidth gridHeight visited₀ done st'.1 st'.2 := by
  induction nbrs with
  | nil =>
    intro st st' h hinv
    simp only [visitNeighbors, Option.some.injEq] at h
    rw [← h]; exact hinv
  | cons n rest ih =>
    intro st st' h hinv
    unfold visitNeighbors at h
    cases ht : absorbTest grid edgeGrid gridWidth gridHeight seed st.2 n with
    | none => rw [ht] at h; exact absurd h (by simp)
    | some b =>
      rw [ht] at h
      cases b with
      | false => exact ih st st' h hinv
      | true =>
        obtain ⟨hin, hnv⟩ := absorbTest_true _ _ _ _ _ _ _ ht
        refine ih _ st' h ?_
        have hnot : (⟨n.1.toNat, n.2.toNat⟩ : Cell) ∉ done ++ st.1 := fun hc =>
          hnv ((hinv.marks _).mpr (Or.inr hc))
        have hnot0 : (⟨n.1.toNat, n.2.toNat⟩ : Cell) ∉ visited₀ := fun hc =>
          hnv ((hinv.marks _).mpr (Or.inl hc))
        constructor
        · show (done ++ (st.1 ++ [_])).Nodup
          rw [← List.append_assoc]
          exact List.Nodup.append hinv.nodup (List.nodup_singleton _)
            (by
              intro a ha hb
              rw [List.mem_singleton.mp hb] at ha
              exact hnot ha)
        · intro c hc
          have hc' : c ∈ done ++ (st.1 ++ [_]) := hc
          rw [← List.append_assoc, List.mem_append, List.mem_singleton] at hc'
          rcases hc' with hc' | hc'
          · exact hinv.fresh c hc'
          · rw [hc']; exact ⟨hin, hnot0⟩
        · intro c
          show c ∈ _ :: st.2 ↔ c ∈ visited₀ ∨ c ∈ done ++ (st.1 ++ [_])
          simp only [List.mem_cons, hinv.marks c, List.mem_append, List.mem_singleton,
            List.not_mem_nil, or_false]
          tauto

theorem visitNeighbors_isSome (grid : Grid) (edgeGrid : EdgeGrid) (gridWidth gridHeight : ℕ)
    (hcov : GridsCover grid edgeGrid gridWidth gridHeight) (seed : Cell)
    (hseed : InGrid gridWidth gridHeight seed) (nbrs : List (ℤ × ℤ)) :
    ∀ st : List Cell × List Cell,
      ∃ st', visitNeighbors grid edgeGrid gridWidth gridHeight seed nbrs st = some st' := by
  induction nbrs with
  | nil => intro st; exact ⟨st, rfl⟩
  | cons n rest ih =>
    intro st
    obtain ⟨b, hb⟩ := absorbTest_isSome grid edgeGrid gridWidth gridHeight hcov seed hseed st.2 n
    unfold visitNeighbors
    rw [hb]
    cases b with
    | false => exact ih st
    | true => exact ih _

theorem floodFill_spec (grid : Grid) (edgeGrid : EdgeGrid) (gridWidth gridHeight : ℕ)
    (hcov : GridsCover grid edgeGrid gridWidth gridHeight) (seed : Cell)
    (hseed : InGrid gridWidth gridHeight seed) (visited₀ : List Cell) :
    ∀ (fuel : ℕ) (queue region visited : List Cell),
      FillInv gridWidth gridHeight visited₀ region queue visited →
      gridWidth * gridHeight ≤ fuel + region.length →
      ∃ res, floodFill grid edgeGrid gridWidth gridHeight seed fuel queue region visited =
          some res ∧
        FillInv gridWidth gridHeight visited₀ res.1 [] res.2 := by
  intro fuel
  induction fuel with
  | zero =>
    intro queue region visited hinv hfuel
    cases queue with
    | nil => exact ⟨(region, visited), by simp [floodFill], hinv⟩
    | cons current queue =>
      exfalso
      have hlen := length_le_of_inGrid gridWidth gridHeight _ hinv.nodup
        (fun c hc => (hinv.fresh c hc).1)
      simp only [List.length_append, List.length_cons] at hlen
      omega
  | succ fuel ih =>
    intro queue region visited hinv hfuel
    cases queue with
    | nil => exact ⟨(region, visited), by simp [floodFill], hinv⟩
    | cons current queue =>
      have hinv1 : FillInv gridWidth gridHeight visited₀ (region ++ [current]) queue visited := by
        constructor
        · have := hinv.nodup
          simpa using this
        · intro c hc
          exact hinv.fresh c (by simpa using hc)
        · intro c
          rw [hinv.marks c]
          simp
      obtain ⟨st, hst⟩ := visitNeighbors_isSome grid edgeGrid gridWidth gridHeight hcov seed
        hseed (neighborsOf current) (queue, visited)
      have hinv2 := visitNeighbors_inv grid edgeGrid gridWidth gridHeight seed visited₀
        (region ++ [current]) (neighborsOf current) (queue, visited) st hst hinv1
      obtain ⟨res, hres, hinv3⟩ := ih st.1 (region ++ [current]) st.2 hinv2
        (by simp only [List.length_append, List.length_singleton]; omega)
      refine ⟨res, ?_, hinv3⟩
      simp only [floodFill, hst]
      exact hres

theorem segmentLoop_spec (grid : Grid) (edgeGrid : EdgeGrid) (gridWidth gridHeight : ℕ)
    (hcov : GridsCover grid edgeGrid gridWidth gridHeight) (cells : List Cell) :
    (∀ c ∈ cells, InGrid gridWidth gridHeight c) →
    ∀ st : List (List Cell) × List Cell, SegInv gridWidth gridHeight st.1 st.2 →
      ∃ st', segmentLoop grid edgeGrid gridWidth gridHeight cells st = some st' ∧
        SegInv gridWidth gridHeight st'.1 st'.2 := by
  induction cells with
  | nil => intro _ st hinv; exact ⟨st, rfl, hinv⟩
  | cons c rest ih =>
    intro hcells st hinv
    have hrest : ∀ c' ∈ rest, InGrid gridWidth gridHeight c' :=
      fun c' hc' => hcells c' (List.mem_cons_of_mem c hc')
    have hc : InGrid gridWidth gridHeight c := hcells c (List.mem_cons_self c rest)
    unfold segmentLoop
    by_cases hv : c ∈ st.2
    · rw [if_pos hv]
      exact ih hrest st hinv
    · rw [if_neg hv]
      have hinit : FillInv gridWidth gridHeight st.2 [] [c] (c :: st.2) := by
        constructor
        · simp
        · intro c' hc'
          simp only [List.nil_append, List.mem_singleton] at hc'
          rw [hc']; exact ⟨hc, hv⟩
        · intro c'
          simp only [List.nil_append, List.mem_cons, List.mem_singleton, List.not_mem_nil,
            or_false]
          tauto
      obtain ⟨res, hres, hfin⟩ := floodFill_spec grid edgeGrid gridWidth gridHeight hcov c hc
        st.2 (gridWidth * gridHeight) [c] [] (c :: st.2) hinit (by simp)
      rw [hres]
      apply ih hrest
      have hfresh : ∀ a ∈ res.1, InGrid gridWidth gridHeight a ∧ a ∉ st.2 :=
        fun a ha => hfin.fresh a (by simpa using ha)
      have hmarks : ∀ a, a ∈ res.2 ↔ a ∈ st.2 ∨ a ∈ res.1 :=
        fun a => by simpa using hfin.marks a
      have hnd : res.1.Nodup := by simpa using hfin.nodup
      have hold : ∀ r ∈ st.1, ∀ a ∈ r, InGrid gridWidth gridHeight a ∧ a ∈ res.2 :=
        fun r hr a ha => ⟨(hinv.inGrid r hr a ha).1,
          (hmarks a).mpr (Or.inl (hinv.inGrid r hr a ha).2)⟩
      by_cases hlen : res.1.length ≥ 3
      · simp only [if_pos hlen]
        constructor
        · rw [List.flatten_append, List.flatten_singleton]
          refine List.Nodup.append hinv.nodup hnd ?_
          intro a ha hb
          obtain ⟨r, hr, har⟩ := List.mem_flatten.mp ha
          exact (hfresh a hb).2 (hinv.inGrid r hr a har).2
        · intro r hr a ha
          rcases List.mem_append.mp hr with hr | hr
          · exact hold r hr a ha
          · rw [List.mem_singleton.mp hr] at ha
            exact ⟨(hfresh a ha).1, (hmarks a).mpr (Or.inr ha)⟩
        · intro r hr
          rcases List.mem_append.mp hr with hr | hr
          · exact hinv.large r hr
          · rw [List.mem_singleton.mp hr]; exact hlen
      · simp only [if_neg hlen]
        exact ⟨hinv.nodup, hold, hinv.large⟩

theorem segmentRegions_spec (grid : Grid) (edgeGrid : EdgeGrid) (gridWidth gridHeight : ℕ)
    (hcov : GridsCover grid edgeGrid gridWidth gridHeight) :
    ∃ regions, _segmentRegions grid edgeGrid gridWidth gridHeight = some regions ∧
      regions.flatten.Nodup ∧
      (∀ r ∈ regions, ∀ c ∈ r, InGrid gridWidth gridHeight c) ∧
      ∀ r ∈ regions, 3 ≤ r.length := by
  obtain ⟨st, hst, hinv⟩ := segmentLoop_spec grid edgeGrid gridWidth gridHeight hcov
    (cellsInOrder gridWidth gridHeight)
    (fun c hc => (mem_cellsInOrder gridWidth gridHeight c).mp hc) ([], [])
    ⟨by simp, by simp, by simp⟩
  refine ⟨st.1, ?_, hinv.nodup, fun r hr c hc => (hinv.inGrid r hr c hc).1, hinv.large⟩
  unfold _segmentRegions
  rw [hst]

/-! ## Claims about `_segmentRegions` -/

/-- C18 (counterexample): for the grid of 1 row and 3 columns of equal blocks without
edges, `_segmentRegions` returns one region of 3 cells, so not every returned region has
at least 4 cells. -/
theorem segmentRegions_three_cells_example :
    ¬ ∃ regions, _segmentRegions sampleRowGrid3 sampleEdgeRow3 3 1 = some regions ∧
      ∀ r ∈ regions, 4 ≤ r.length := by
  rintro ⟨regions, h, hall⟩
  have heval : _segmentRegions sampleRowGrid3 sampleEdgeRow3 3 1 =
      some [[⟨0, 0⟩, ⟨1, 0⟩, ⟨2, 0⟩]] := by decide!
  rw [heval] at h
  injection h with h
  have h3 := hall [⟨0, 0⟩, ⟨1, 0⟩, ⟨2, 0⟩] (by rw [← h]; simp)
  simp at h3

/-- C18 (amended): for every feature grid and edge grid that cover the block grid,
`_segmentRegions` returns a list of regions each of which has at least 3 cells;
connected components with fewer than 3 cells are discarded. -/
theorem segmentRegions_min_size (grid : Grid) (edgeGrid : EdgeGrid)
    (gridWidth gridHeight : ℕ) (hcov : GridsCover grid edgeGrid gridWidth gridHeight) :
    ∃ regions, _segmentRegions grid edgeGrid gridWidth gridHeight = some regions ∧
      ∀ r ∈ regions, 3 ≤ r.length := by
  obtain ⟨regions, h, _, _, hlarge⟩ :=
    segmentRegions_spec grid edgeGrid gridWidth gridHeight hcov
  exact ⟨regions, h, hlarge⟩

/-- Instance of the amended C18 at the 4 x 4 sample grid whose second row is an edge. -/
theorem segmentRegions_min_size_witness :
    GridsCover sampleGrid4 sampleEdgeGrid4 4 4 ∧
      ∃ regions, _segmentRegions sampleGrid4 sampleEdgeGrid4 4 4 = some regions ∧
        ∀ r ∈ regions, 3 ≤ r.length :=
  ⟨by decide, segmentRegions_min_size sampleGrid4 sampleEdgeGrid4 4 4 (by decide)⟩

/-- C19: for every feature grid and edge grid that cover the block grid, the regions
that `_segmentRegions` returns are pairwise disjoint, no region contains a cell twice,
and every cell of every region lies inside the grid. -/
theorem segmentRegions_disjoint (grid : Grid) (edgeGrid : EdgeGrid)
    (gridWidth gridHeight : ℕ) (hcov : GridsCover grid edgeGrid gridWidth gridHeight) :
    ∃ regions, _segmentRegions grid edgeGrid gridWidth gridHeight = some regions ∧
      regions.Pairwise List.Disjoint ∧ (∀ r ∈ regions, r.Nodup) ∧
      ∀ r ∈ regions, ∀ c ∈ r, c.x < gridWidth ∧ c.y < gridHeight := by
  obtain ⟨regions, h, hnd, hin, _⟩ :=
    segmentRegions_spec grid edgeGrid gridWidth gridHeight hcov
  have hnd' := List.nodup_flatten.mp hnd
  exact ⟨regions, h, hnd'.2, hnd'.1, hin⟩

/-- Instance of C19 at the 4 x 4 sample grid whose second row is an edge (two regions
are returned). -/
theorem segmentRegions_disjoint_witness :
    GridsCover sampleGrid4 sampleEdgeGrid4 4 4 ∧
      ∃ regions, _segmentRegions sampleGrid4 sampleEdgeGrid4 4 4 = some regions ∧
        regions.Pairwise List.Disjoint ∧ (∀ r ∈ regions, r.Nodup) ∧
        ∀ r ∈ regions, ∀ c ∈ r, c.x < 4 ∧ c.y < 4 :=
  ⟨by decide, segmentRegions_disjoint sampleGrid4 sampleEdgeGrid4 4 4 (by decide)⟩

/-! ## Theorems: the block analysis, the edge grid and uniform regions -/

/-! ## Claims about `_colorDifference` and `_detectEdges` -/

/-- C23: for two block features whose mean channels lie in `[0, 255]`,
`_colorDifference` equals `(|r1 - r2| + |g1 - g2| + |b1 - b2|) / 765`, lies in `[0, 1]`,
is symmetric, and is 0 exactly when the three channel means coincide. -/
theorem colorDifference_props (block1 block2 : BlockFeature)
    (h1 : ChannelsInRange block1) (h2 : ChannelsInRange block2) :
    _colorDifference block1 block2 =
        (|block1.r - block2.r| + |block1.g - block2.g| + |block1.b - block2.b|) / 765 ∧
      0 ≤ _colorDifference block1 block2 ∧ _colorDifference block1 block2 ≤ 1 ∧
      _colorDifference block1 block2 = _colorDifference block2 block1 ∧
      (_colorDifference block1 block2 = 0 ↔
        block1.r = block2.r ∧ block1.g = block2.g ∧ block1.b = block2.b) := by
  obtain ⟨hr1, hr1', hg1, hg1', hb1, hb1'⟩ := h1
  obtain ⟨hr2, hr2', hg2, hg2', hb2, hb2'⟩ := h2
  have har : |block1.r - block2.r| ≤ 255 := abs_le.mpr ⟨by linarith, by linarith⟩
  have hag : |block1.g - block2.g| ≤ 255 := abs_le.mpr ⟨by linarith, by linarith⟩
  have hab : |block1.b - block2.b| ≤ 255 := abs_le.mpr ⟨by linarith, by linarith⟩
  have h0r := abs_nonneg (block1.r - block2.r)
  have h0g := abs_nonneg (block1.g - block2.g)
  have h0b := abs_nonneg (block1.b - block2.b)
  have hform : _colorDifference block1 block2 =
      (|block1.r - block2.r| + |block1.g - block2.g| + |block1.b - block2.b|) / 765 := by
    unfold _colorDifference; norm_num
  refine ⟨hform, ?_, ?_, ?_, ?_⟩
  · rw [hform]; exact div_nonneg (by linarith) (by norm_num)
  · rw [hform, div_le_one (by norm_num)]; linarith
  · unfold _colorDifference
    rw [abs_sub_comm block1.r, abs_sub_comm block1.g, abs_sub_comm block1.b]
  · rw [hform, div_eq_zero_iff]
    constructor
    · intro h
      rcases h with h | h
      · have e1 : |block1.r - block2.r| = 0 := by linarith
        have e2 : |block1.g - block2.g| = 0 := by linarith
        have e3 : |block1.b - block2.b| = 0 := by linarith
        exact ⟨sub_eq_zero.mp (abs_eq_zero.mp e1), sub_eq_zero.mp (abs_eq_zero.mp e2),
          sub_eq_zero.mp (abs_eq_zero.mp e3)⟩
      · exact absurd h (by norm_num)
    · rintro ⟨e1, e2, e3⟩
      left
      rw [e1, e2, e3]
      simp

/-- Instance of C23 at the uniform gray blocks of values 153 and 102. -/
theorem colorDifference_props_witness :
    ChannelsInRange (grayBlock 153) ∧ ChannelsInRange (grayBlock 102) ∧
      _colorDifference (grayBlock 153) (grayBlock 102) =
        (|(grayBlock 153).r - (grayBlock 102).r| + |(grayBlock 153).g - (grayBlock 102).g| +
          |(grayBlock 153).b - (grayBlock 102).b|) / 765 ∧
      0 ≤ _colorDifference (grayBlock 153) (grayBlock 102) ∧
      _colorDifference (grayBlock 153) (grayBlock 102) ≤ 1 ∧
      _colorDifference (grayBlock 153) (grayBlock 102) =
        _colorDifference (grayBlock 102) (grayBlock 153) ∧
      (_colorDifference (grayBlock 153) (grayBlock 102) = 0 ↔
        (grayBlock 153).r = (grayBlock 102).r ∧ (grayBlock 153).g = (grayBlock 102).g ∧
          (grayBlock 153).b = (grayBlock 102).b) :=
  ⟨by decide!, by decide!,
    colorDifference_props (grayBlock 153) (grayBlock 102) (by decide!) (by decide!)⟩

theorem mapM_eq_some_map {α β : Type} (f : α → Option β) (g : α → β) (l : List α)
    (h : ∀ a ∈ l, f a = some (g a)) : l.mapM f = some (l.map g) := by
  induction l with
  | nil => rfl
  | cons a l ih =>
    rw [List.mapM_cons, h a (List.mem_cons_self a l),
      ih (fun b hb => h b (List.mem_cons_of_mem a hb))]
    rfl


theorem detectEdgeCell_eq (grid : Grid) (gridWidth gridHeight : ℕ)
    (hcov : GridCovers grid gridWidth gridHeight) (x y : ℕ) (hx : x < gridWidth)
    (hy : y < gridHeight) :
    detectEdgeCell grid gridWidth gridHeight x y =
      some (edgeValueAt grid gridWidth gridHeight x y) := by
  obtain ⟨cur, hcur⟩ := Option.isSome_iff_exists.mp (hcov y hy x hx)
  unfold detectEdgeCell edgeValueAt specEdgeValue
  simp only [hcur]
  by_cases hr : x + 1 < gridWidth
  · have hr' : (x : ℤ) < (gridWidth : ℤ) - 1 := by omega
    obtain ⟨right, hright⟩ := Option.isSome_iff_exists.mp (hcov y hy (x + 1) hr)
    by_cases hb : y + 1 < gridHeight
    · have hb' : (y : ℤ) < (gridHeight : ℤ) - 1 := by omega
      obtain ⟨bottom, hbottom⟩ := Option.isSome_iff_exists.mp (hcov (y + 1) hb x hx)
      simp only [if_pos hr, if_pos hr', if_pos hb, if_pos hb', hright, hbottom]
      congr 2; ring
    · have hb' : ¬ (y : ℤ) < (gridHeight : ℤ) - 1 := by omega
      simp only [if_pos hr, if_pos hr', if_neg hb, if_neg hb', hright]
      congr 2; ring
  · have hr' : ¬ (x : ℤ) < (gridWidth : ℤ) - 1 := by omega
    by_cases hb : y + 1 < gridHeight
    · have hb' : (y : ℤ) < (gridHeight : ℤ) - 1 := by omega
      obtain ⟨bottom, hbottom⟩ := Option.isSome_iff_exists.mp (hcov (y + 1) hb x hx)
      simp only [if_neg hr, if_neg hr', if_pos hb, if_pos hb', hbottom]
      congr 2; ring
    · have hb' : ¬ (y : ℤ) < (gridHeight : ℤ) - 1 := by omega
      simp only [if_neg hr, if_neg hr', if_neg hb, if_neg hb']
      congr 2; ring

theorem detectEdges_eq (grid : Grid) (gridWidth gridHeight : ℕ)
    (hcov : GridCovers grid gridWidth gridHeight) :
    _detectEdges grid gridWidth gridHeight =
      some ((List.range gridHeight).map (fun y =>
        (List.range gridWidth).map (fun x => edgeValueAt grid gridWidth gridHeight x y))) := by
  unfold _detectEdges
  apply mapM_eq_some_map
  intro y hy
  apply mapM_eq_some_map
  intro x hx
  exact detectEdgeCell_eq grid gridWidth gridHeight hcov x y (List.mem_range.mp hx)
    (List.mem_range.mp hy)

theorem edgeAt_map_range (gridWidth gridHeight : ℕ) (f : ℕ → ℕ → ℚ) (x y : ℕ)
    (hx : x < gridWidth) (hy : y < gridHeight) :
    edgeAt ((List.range gridHeight).map (fun y => (List.range gridWidth).map (fun x => f x y)))
      ⟨x, y⟩ = some (f x y) := by
  unfold edgeAt
  simp [List.getElem?_map, List.getElem?_range, hx, hy]

theorem colorDifference_nonneg (block1 block2 : BlockFeature) :
    0 ≤ _colorDifference block1 block2 := by
  unfold _colorDifference
  positivity

theorem specEdgeValue_bounds (cur : BlockFeature) (right bottom : Option BlockFeature) :
    specEdgeValue cur right bottom ≤ 1 ∧ (0 ≤ cur.edges → 0 ≤ specEdgeValue cur right bottom) := by
  unfold specEdgeValue
  refine ⟨min_le_left _ _, fun h => le_min (by norm_num) ?_⟩
  have h1 : (0 : ℚ) ≤ (match right with
      | some r => 0.5 * _colorDifference cur r
      | none => 0) := by
    cases right with
    | none => exact le_rfl
    | some r => have := colorDifference_nonneg cur r; simp only []; linarith
  have h2 : (0 : ℚ) ≤ (match bottom with
      | some b => 0.5 * _colorDifference cur b
      | none => 0) := by
    cases bottom with
    | none => exact le_rfl
    | some b => have := colorDifference_nonneg cur b; simp only []; linarith
  linarith

/-- C22: for every feature grid that has a block for each cell of the `gridWidth` x
`gridHeight` block grid, `_detectEdges` returns a grid of `gridHeight` rows of
`gridWidth` values whose cell `(x, y)` is
`min(1, 2 * edges + 0.5 * colorDifference to the right neighbour (if x < gridWidth - 1)
+ 0.5 * colorDifference to the bottom neighbour (if y < gridHeight - 1))`; every value is
at most 1 and, when the block's edge strength is not negative, at least 0. -/
theorem detectEdges_spec (grid : Grid) (gridWidth gridHeight : ℕ)
    (hcov : GridCovers grid gridWidth gridHeight) :
    ∃ edgeGrid, _detectEdges grid gridWidth gridHeight = some edgeGrid ∧
      edgeGrid.length = gridHeight ∧ (∀ row ∈ edgeGrid, row.length = gridWidth) ∧
      ∀ y, y < gridHeight → ∀ x, x < gridWidth →
        ∃ cur, gridAt grid ⟨x, y⟩ = some cur ∧
          edgeAt edgeGrid ⟨x, y⟩ =
            some (specEdgeValue cur
              (if x + 1 < gridWidth then gridAt grid ⟨x + 1, y⟩ else none)
              (if y + 1 < gridHeight then gridAt grid ⟨x, y + 1⟩ else none)) ∧
          specEdgeValue cur
              (if x + 1 < gridWidth then gridAt grid ⟨x + 1, y⟩ else none)
              (if y + 1 < gridHeight then gridAt grid ⟨x, y + 1⟩ else none) ≤ 1 ∧
          (0 ≤ cur.edges →
            0 ≤ specEdgeValue cur
              (if x + 1 < gridWidth then gridAt grid ⟨x + 1, y⟩ else none)
              (if y + 1 < gridHeight then gridAt grid ⟨x, y + 1⟩ else none)) := by
  refine ⟨_, detectEdges_eq grid gridWidth gridHeight hcov, by simp, ?_, ?_⟩
  · intro row hrow
    obtain ⟨y, _, rfl⟩ := List.mem_map.mp hrow
    simp
  · intro y hy x hx
    obtain ⟨cur, hcur⟩ := Option.isSome_iff_exists.mp (hcov y hy x hx)
    refine ⟨cur, hcur, ?_, (specEdgeValue_bounds cur _ _).1, (specEdgeValue_bounds cur _ _).2⟩
    rw [edgeAt_map_range gridWidth gridHeight
      (fun x y => edgeValueAt grid gridWidth gridHeight x y) x y hx hy]
    simp only [edgeValueAt, hcur]

/-- Instance of C22 at the 4 x 4 sample grid. -/
theorem detectEdges_spec_witness :
    GridCovers sampleGrid4 4 4 ∧
    ∃ edgeGrid, _detectEdges sampleGrid4 4 4 = some edgeGrid ∧
      edgeGrid.length = 4 ∧ (∀ row ∈ edgeGrid, row.length = 4) ∧
      ∀ y, y < 4 → ∀ x, x < 4 →
        ∃ cur, gridAt sampleGrid4 ⟨x, y⟩ = some cur ∧
          edgeAt edgeGrid ⟨x, y⟩ =
            some (specEdgeValue cur
              (if x + 1 < 4 then gridAt sampleGrid4 ⟨x + 1, y⟩ else none)
              (if y + 1 < 4 then gridAt sampleGrid4 ⟨x, y + 1⟩ else none)) ∧
          specEdgeValue cur
              (if x + 1 < 4 then gridAt sampleGrid4 ⟨x + 1, y⟩ else none)
              (if y + 1 < 4 then gridAt sampleGrid4 ⟨x, y + 1⟩ else none) ≤ 1 ∧
          (0 ≤ cur.edges →
            0 ≤ specEdgeValue cur
              (if x + 1 < 4 then gridAt sampleGrid4 ⟨x + 1, y⟩ else none)
              (if y + 1 < 4 then gridAt sampleGrid4 ⟨x, y + 1⟩ else none)) :=
  ⟨by decide, detectEdges_spec sampleGrid4 4 4 (by decide)⟩

/-! ## Lemmas: `_analyzeImageBlock` -/

theorem mem_blockCoords (imgWidth imgHeight startX startY : ℕ) (blockWidth blockHeight : ℤ)
    (x y : ℕ) :
    (x, y) ∈ blockCoords imgWidth imgHeight startX startY blockWidth blockHeight ↔
      startX ≤ x ∧ (x : ℤ) < min ((startX : ℤ) + blockWidth) (imgWidth : ℤ) ∧
        startY ≤ y ∧ (y : ℤ) < min ((startY : ℤ) + blockHeight) (imgHeight : ℤ) := by
  unfold blockCoords
  simp only [List.mem_flatMap, List.mem_map, List.mem_range'_1, Prod.mk.injEq]
  constructor
  · rintro ⟨y', ⟨hy1, hy2⟩, x', ⟨hx1, hx2⟩, rfl, rfl⟩
    refine ⟨hx1, ?_, hy1, ?_⟩ <;> omega
  · rintro ⟨hx1, hx2, hy1, hy2⟩
    exact ⟨y, ⟨hy1, by omega⟩, x, ⟨hx1, by omega⟩, rfl, rfl⟩

theorem sumFold_unreadable (pixelData : PixelData) (imgWidth : ℕ) (l : List (ℕ × ℕ))
    (h : ∀ xy ∈ l, pixelData[xy.2 * imgWidth + xy.1]? = none) :
    ∀ st : BlockSums, l.foldl (sumStep pixelData imgWidth) st = st := by
  induction l with
  | nil => intro st; rfl
  | cons xy l ih =>
    intro st
    rw [List.foldl_cons]
    have h1 : sumStep pixelData imgWidth st xy = st := by
      unfold sumStep
      rw [h xy (List.mem_cons_self xy l)]
    rw [h1]
    exact ih (fun a ha => h a (List.mem_cons_of_mem xy ha)) st

theorem sumStep_counts (pixelData : PixelData) (imgWidth : ℕ) (st : BlockSums) (xy : ℕ × ℕ)
    (h : st.greenPixels + st.grayPixels + st.bluePixels ≤ st.pixelCount) :
    (sumStep pixelData imgWidth st xy).greenPixels +
        (sumStep pixelData imgWidth st xy).grayPixels +
        (sumStep pixelData imgWidth st xy).bluePixels ≤
      (sumStep pixelData imgWidth st xy).pixelCount := by
  unfold sumStep
  cases pixelData[xy.2 * imgWidth + xy.1]? with
  | none => exact h
  | some p =>
    simp only []
    cases classifyPixel (p.r : ℚ) (p.g : ℚ) (p.b : ℚ) <;> simp <;> omega

theorem sumFold_counts (pixelData : PixelData) (imgWidth : ℕ) (l : List (ℕ × ℕ)) :
    ∀ st : BlockSums, st.greenPixels + st.grayPixels + st.bluePixels ≤ st.pixelCount →
      (l.foldl (sumStep pixelData imgWidth) st).greenPixels +
          (l.foldl (sumStep pixelData imgWidth) st).grayPixels +
          (l.foldl (sumStep pixelData imgWidth) st).bluePixels ≤
        (l.foldl (sumStep pixelData imgWidth) st).pixelCount := by
  induction l with
  | nil => intro st h; exact h
  | cons xy l ih =>
    intro st h
    rw [List.foldl_cons]
    exact ih _ (sumStep_counts pixelData imgWidth st xy h)

theorem blockSums_counts (pixelData : PixelData) (imgWidth imgHeight startX startY : ℕ)
    (blockWidth blockHeight : ℤ) :
    (blockSums pixelData imgWidth imgHeight startX startY blockWidth blockHeight).greenPixels +
      (blockSums pixelData imgWidth imgHeight startX startY blockWidth blockHeight).grayPixels +
      (blockSums pixelData imgWidth imgHeight startX startY blockWidth blockHeight).bluePixels ≤
    (blockSums pixelData imgWidth imgHeight startX startY blockWidth blockHeight).pixelCount := by
  unfold blockSums
  exact sumFold_counts _ _ _ _ (by simp)

theorem analyze_of_count_zero (pixelData : PixelData) (imgWidth imgHeight startX startY : ℕ)
    (blockWidth blockHeight : ℤ)
    (h : (blockSums pixelData imgWidth imgHeight startX startY blockWidth blockHeight).pixelCount
      = 0) :
    _analyzeImageBlock pixelData imgWidth imgHeight startX startY blockWidth blockHeight =
      zeroFeature := by
  unfold _analyzeImageBlock
  simp only [if_pos h]

/-- The fields of the feature of a block that has a readable pixel, in terms of the sums
of the first pass. -/
theorem analyze_fields (pixelData : PixelData) (imgWidth imgHeight startX startY : ℕ)
    (blockWidth blockHeight : ℤ) (s : BlockSums)
    (hs : blockSums pixelData imgWidth imgHeight startX startY blockWidth blockHeight = s)
    (h : s.pixelCount ≠ 0) :
    let f := _analyzeImageBlock pixelData imgWidth imgHeight startX startY blockWidth blockHeight
    f.r = s.rSum / s.pixelCount ∧ f.g = s.gSum / s.pixelCount ∧ f.b = s.bSum / s.pixelCount ∧
      f.greenRatio = s.greenPixels / s.pixelCount ∧
      f.grayRatio = s.grayPixels / s.pixelCount ∧
      f.blueRatio = s.bluePixels / s.pixelCount ∧
      f.greenness = (if f.g > f.r * 1.15 ∧ f.g > f.b * 1.15 then (f.g - max f.r f.b) / 255
        else 0) ∧
      f.grayness = 1 - max |f.r - f.g| (max |f.r - f.b| |f.g - f.b|) / 255 ∧
      f.blueness = (if f.b > f.r * 1.1 ∧ f.b > f.g * 1.05 then (f.b - max f.r f.g) / 255
        else 0) ∧
      f.variance =
        (((blockCoords imgWidth imgHeight startX startY blockWidth blockHeight).foldl
            (varStep pixelData imgWidth (min ((startX : ℤ) + blockWidth) (imgWidth : ℤ))
              (min ((startY : ℤ) + blockHeight) (imgHeight : ℤ)) f.r f.g f.b)
            { rVariance := 0, gVariance := 0, bVariance := 0, edgeStrength := 0 }).rVariance +
          ((blockCoords imgWidth imgHeight startX startY blockWidth blockHeight).foldl
            (varStep pixelData imgWidth (min ((startX : ℤ) + blockWidth) (imgWidth : ℤ))
              (min ((startY : ℤ) + blockHeight) (imgHeight : ℤ)) f.r f.g f.b)
            { rVariance := 0, gVariance := 0, bVariance := 0, edgeStrength := 0 }).gVariance +
          ((blockCoords imgWidth imgHeight startX startY blockWidth blockHeight).foldl
            (varStep pixelData imgWidth (min ((startX : ℤ) + blockWidth) (imgWidth : ℤ))
              (min ((startY : ℤ) + blockHeight) (imgHeight : ℤ)) f.r f.g f.b)
            { rVariance := 0, gVariance := 0, bVariance := 0, edgeStrength := 0 }).bVariance) /
          (3 * s.pixelCount) ∧
      f.edges =
        ((blockCoords imgWidth imgHeight startX startY blockWidth blockHeight).foldl
            (varStep pixelData imgWidth (min ((startX : ℤ) + blockWidth) (imgWidth : ℤ))
              (min ((startY : ℤ) + blockHeight) (imgHeight : ℤ)) f.r f.g f.b)
            { rVariance := 0, gVariance := 0, bVariance := 0, edgeStrength := 0 }).edgeStrength /
          (s.pixelCount * 255 * 3) := by
  subst hs
  unfold _analyzeImageBlock
  simp only [if_neg h, and_self]

/-! ## Claims about `_analyzeImageBlock` -/

/-- C24 (counterexample): for the 1 x 1 image of one red pixel `(255, 0, 0)` the pixel
passes none of the three tests: the three counters stay 0 while the pixel count is 1, and
the three ratios add up to 0. -/
theorem analyzeImageBlock_red_example :
    ¬ ((blockSums sampleRedImage 1 1 0 0 1 1).greenPixels +
          (blockSums sampleRedImage 1 1 0 0 1 1).grayPixels +
          (blockSums sampleRedImage 1 1 0 0 1 1).bluePixels =
        (blockSums sampleRedImage 1 1 0 0 1 1).pixelCount ∧
      (_analyzeImageBlock sampleRedImage 1 1 0 0 1 1).greenRatio +
          (_analyzeImageBlock sampleRedImage 1 1 0 0 1 1).grayRatio +
          (_analyzeImageBlock sampleRedImage 1 1 0 0 1 1).blueRatio = 1) := by
  decide!

/-- C24 (amended): `_analyzeImageBlock` counts every pixel in at most one of the classes
green, gray, blue: greenPixels + grayPixels + bluePixels is at most the pixel count, and
greenRatio + grayRatio + blueRatio is at most 1. -/
theorem analyzeImageBlock_ratio_sum (pixelData : PixelData)
    (imgWidth imgHeight startX startY : ℕ) (blockWidth blockHeight : ℤ) :
    (blockSums pixelData imgWidth imgHeight startX startY blockWidth blockHeight).greenPixels +
        (blockSums pixelData imgWidth imgHeight startX startY blockWidth blockHeight).grayPixels +
        (blockSums pixelData imgWidth imgHeight startX startY blockWidth blockHeight).bluePixels ≤
      (blockSums pixelData imgWidth imgHeight startX startY blockWidth blockHeight).pixelCount ∧
    (_analyzeImageBlock pixelData imgWidth imgHeight startX startY blockWidth
          blockHeight).greenRatio +
        (_analyzeImageBlock pixelData imgWidth imgHeight startX startY blockWidth
          blockHeight).grayRatio +
        (_analyzeImageBlock pixelData imgWidth imgHeight startX startY blockWidth
          blockHeight).blueRatio ≤ 1 := by
  have hc := blockSums_counts pixelData imgWidth imgHeight startX startY blockWidth blockHeight
  refine ⟨hc, ?_⟩
  by_cases h0 :
      (blockSums pixelData imgWidth imgHeight startX startY blockWidth blockHeight).pixelCount = 0
  · rw [analyze_of_count_zero _ _ _ _ _ _ _ h0]
    simp [zeroFeature]
  · obtain ⟨_, _, _, hg, hgr, hb, _⟩ := analyze_fields pixelData imgWidth imgHeight startX
      startY blockWidth blockHeight _ rfl h0
    rw [hg, hgr, hb]
    have hpos : (0 : ℚ) <
        ((blockSums pixelData imgWidth imgHeight startX startY blockWidth
          blockHeight).pixelCount : ℚ) := by
      exact_mod_cast Nat.pos_of_ne_zero h0
    rw [← add_div, ← add_div, div_le_one hpos]
    exact_mod_cast hc

/-- C25: whenever the block contains no readable pixel (the block origin is at or beyond
the image extent, or a block extent is not positive, or every pixel index of the block
is at or past the end of the buffer), `_analyzeImageBlock` returns the feature whose
eleven fields are all 0. -/
theorem analyzeImageBlock_empty (pixelData : PixelData)
    (imgWidth imgHeight startX startY : ℕ) (blockWidth blockHeight : ℤ)
    (h : imgWidth ≤ startX ∨ imgHeight ≤ startY ∨ blockWidth ≤ 0 ∨ blockHeight ≤ 0 ∨
      ∀ xy ∈ blockCoords imgWidth imgHeight startX startY blockWidth blockHeight,
        pixelData.length ≤ xy.2 * imgWidth + xy.1) :
    _analyzeImageBlock pixelData imgWidth imgHeight startX startY blockWidth blockHeight =
      { r := 0, g := 0, b := 0, variance := 0, edges := 0, greenness := 0, grayness := 0,
        blueness := 0, greenRatio := 0, grayRatio := 0, blueRatio := 0 } := by
  have hall : ∀ xy ∈ blockCoords imgWidth imgHeight startX startY blockWidth blockHeight,
      pixelData[xy.2 * imgWidth + xy.1]? = none := by
    intro xy hxy
    obtain ⟨x, y⟩ := xy
    have hm := (mem_blockCoords imgWidth imgHeight startX startY blockWidth blockHeight x y).mp hxy
    rcases h with h | h | h | h | h
    · exfalso; omega
    · exfalso; omega
    · exfalso; omega
    · exfalso; omega
    · exact List.getElem?_eq_none (h (x, y) hxy)
  rw [analyze_of_count_zero]
  · rfl
  · unfold blockSums
    rw [sumFold_unreadable pixelData imgWidth _ hall]

/-- Instance of C25 at a block whose origin is beyond the 2 x 2 sample image. -/
theorem analyzeImageBlock_empty_witness :
    (2 ≤ 2 ∨ 2 ≤ 0 ∨ (2 : ℤ) ≤ 0 ∨ (2 : ℤ) ≤ 0 ∨
      ∀ xy ∈ blockCoords 2 2 2 0 2 2, sampleGrayImage.length ≤ xy.2 * 2 + xy.1) ∧
    _analyzeImageBlock sampleGrayImage 2 2 2 0 2 2 =
      { r := 0, g := 0, b := 0, variance := 0, edges := 0, greenness := 0, grayness := 0,
        blueness := 0, greenRatio := 0, grayRatio := 0, blueRatio := 0 } :=
  ⟨Or.inl le_rfl, analyzeImageBlock_empty sampleGrayImage 2 2 2 0 2 2 (Or.inl le_rfl)⟩


theorem sumStep_bounds (pixelData : PixelData) (h8 : EightBit pixelData) (imgWidth : ℕ)
    (st : BlockSums) (xy : ℕ × ℕ)
    (h : (0 ≤ st.rSum ∧ st.rSum ≤ 255 * st.pixelCount) ∧
      (0 ≤ st.gSum ∧ st.gSum ≤ 255 * st.pixelCount) ∧
      (0 ≤ st.bSum ∧ st.bSum ≤ 255 * st.pixelCount)) :
    (0 ≤ (sumStep pixelData imgWidth st xy).rSum ∧
        (sumStep pixelData imgWidth st xy).rSum ≤
          255 * (sumStep pixelData imgWidth st xy).pixelCount) ∧
      (0 ≤ (sumStep pixelData imgWidth st xy).gSum ∧
        (sumStep pixelData imgWidth st xy).gSum ≤
          255 * (sumStep pixelData imgWidth st xy).pixelCount) ∧
      (0 ≤ (sumStep pixelData imgWidth st xy).bSum ∧
        (sumStep pixelData imgWidth st xy).bSum ≤
          255 * (sumStep pixelData imgWidth st xy).pixelCount) := by
  unfold sumStep
  cases hp : pixelData[xy.2 * imgWidth + xy.1]? with
  | none => exact h
  | some p =>
    obtain ⟨hr, hg, hb⟩ := h8 p (List.getElem?_mem hp)
    have hr' : ((p.r : ℕ) : ℚ) ≤ 255 := by exact_mod_cast hr
    have hg' : ((p.g : ℕ) : ℚ) ≤ 255 := by exact_mod_cast hg
    have hb' : ((p.b : ℕ) : ℚ) ≤ 255 := by exact_mod_cast hb
    have hr0 : (0 : ℚ) ≤ (p.r : ℕ) := Nat.cast_nonneg _
    have hg0 : (0 : ℚ) ≤ (p.g : ℕ) := Nat.cast_nonneg _
    have hb0 : (0 : ℚ) ≤ (p.b : ℕ) := Nat.cast_nonneg _
    simp only [Nat.cast_add, Nat.cast_one]
    obtain ⟨⟨h1, h2⟩, ⟨h3, h4⟩, ⟨h5, h6⟩⟩ := h
    refine ⟨⟨by linarith, by linarith⟩, ⟨by linarith, by linarith⟩, ⟨by linarith, by linarith⟩⟩

theorem sumFold_bounds (pixelData : PixelData) (h8 : EightBit pixelData) (imgWidth : ℕ)
    (l : List (ℕ × ℕ)) :
    ∀ st : BlockSums,
      ((0 ≤ st.rSum ∧ st.rSum ≤ 255 * st.pixelCount) ∧
        (0 ≤ st.gSum ∧ st.gSum ≤ 255 * st.pixelCount) ∧
        (0 ≤ st.bSum ∧ st.bSum ≤ 255 * st.pixelCount)) →
      ((0 ≤ (l.foldl (sumStep pixelData imgWidth) st).rSum ∧
          (l.foldl (sumStep pixelData imgWidth) st).rSum ≤
            255 * (l.foldl (sumStep pixelData imgWidth) st).pixelCount) ∧
        (0 ≤ (l.foldl (sumStep pixelData imgWidth) st).gSum ∧
          (l.foldl (sumStep pixelData imgWidth) st).gSum ≤
            255 * (l.foldl (sumStep pixelData imgWidth) st).pixelCount) ∧
        (0 ≤ (l.foldl (sumStep pixelData imgWidth) st).bSum ∧
          (l.foldl (sumStep pixelData imgWidth) st).bSum ≤
            255 * (l.foldl (sumStep pixelData imgWidth) st).pixelCount)) := by
  induction l with
  | nil => intro st h; exact h
  | cons xy l ih =>
    intro st h
    rw [List.foldl_cons]
    exact ih _ (sumStep_bounds pixelData h8 imgWidth st xy h)

theorem dominance_bounds (x y z c d : ℚ) (hx : 0 ≤ x ∧ x ≤ 255) (hy : 0 ≤ y ∧ y ≤ 255)
    (hz : 0 ≤ z ∧ z ≤ 255) (hc : 1 ≤ c) (hd : 1 ≤ d) :
    0 ≤ (if x > y * c ∧ x > z * d then (x - max y z) / 255 else 0) ∧
      (if x > y * c ∧ x > z * d then (x - max y z) / 255 else 0) ≤ 1 := by
  split_ifs with h
  · have h1 : y ≤ x := by nlinarith [h.1, hy.1]
    have h2 : z ≤ x := by nlinarith [h.2, hz.1]
    have h3 : max y z ≤ x := max_le h1 h2
    have h4 : 0 ≤ max y z := le_max_of_le_left hy.1
    constructor
    · exact div_nonneg (by linarith) (by norm_num)
    · rw [div_le_one (by norm_num)]; linarith [hx.2]
  · exact ⟨le_rfl, by norm_num⟩

/-- Over exact rational arithmetic (products and quotients not rounded): for every pixel
buffer with 8-bit channels and every block, the feature of `_analyzeImageBlock` has
greenness, grayness, blueness and the three ratios in `[0, 1]`; greenness is 0 unless
mean G exceeds 1.15 times mean R and mean B, and blueness is 0 unless mean B exceeds 1.1
times mean R and 1.05 times mean G. -/
theorem analyzeImageBlock_ranges (pixelData : PixelData) (h8 : EightBit pixelData)
    (imgWidth imgHeight startX startY : ℕ) (blockWidth blockHeight : ℤ) :
    let f := _analyzeImageBlock pixelData imgWidth imgHeight startX startY blockWidth blockHeight
    (0 ≤ f.greenness ∧ f.greenness ≤ 1) ∧ (0 ≤ f.grayness ∧ f.grayness ≤ 1) ∧
      (0 ≤ f.blueness ∧ f.blueness ≤ 1) ∧ (0 ≤ f.greenRatio ∧ f.greenRatio ≤ 1) ∧
      (0 ≤ f.grayRatio ∧ f.grayRatio ≤ 1) ∧ (0 ≤ f.blueRatio ∧ f.blueRatio ≤ 1) ∧
      (f.greenness ≠ 0 → f.g > f.r * 1.15 ∧ f.g > f.b * 1.15) ∧
      (f.blueness ≠ 0 → f.b > f.r * 1.1 ∧ f.b > f.g * 1.05) := by
  intro f
  by_cases h0 :
      (blockSums pixelData imgWidth imgHeight startX startY blockWidth blockHeight).pixelCount = 0
  · have hf : f = zeroFeature := analyze_of_count_zero _ _ _ _ _ _ _ h0
    rw [hf]
    simp [zeroFeature]
  · obtain ⟨hr, hg, hb, hgR, hgrR, hbR, hgn, hgy, hbn, _, _⟩ := analyze_fields pixelData imgWidth
      imgHeight startX startY blockWidth blockHeight _ rfl h0
    have hc := blockSums_counts pixelData imgWidth imgHeight startX startY blockWidth blockHeight
    have hbd : _ := sumFold_bounds pixelData h8 imgWidth
      (blockCoords imgWidth imgHeight startX startY blockWidth blockHeight)
      { rSum := 0, gSum := 0, bSum := 0, pixelCount := 0, greenPixels := 0, grayPixels := 0,
        bluePixels := 0 } (by simp)
    change _ ∧ _ ∧ _ at hbd
    generalize hs :
      blockSums pixelData imgWidth imgHeight startX startY blockWidth blockHeight = s at *
    have hs' : (blockCoords imgWidth imgHeight startX startY blockWidth blockHeight).foldl
        (sumStep pixelData imgWidth)
        { rSum := 0, gSum := 0, bSum := 0, pixelCount := 0, greenPixels := 0, grayPixels := 0,
          bluePixels := 0 } = s := hs
    rw [hs'] at hbd
    have hn : (0 : ℚ) < (s.pixelCount : ℚ) := by exact_mod_cast Nat.pos_of_ne_zero h0
    have hR : 0 ≤ f.r ∧ f.r ≤ 255 := by
      rw [hr]; exact ⟨div_nonneg hbd.1.1 hn.le, by rw [div_le_iff₀ hn]; exact hbd.1.2⟩
    have hG : 0 ≤ f.g ∧ f.g ≤ 255 := by
      rw [hg]; exact ⟨div_nonneg hbd.2.1.1 hn.le, by rw [div_le_iff₀ hn]; exact hbd.2.1.2⟩
    have hB : 0 ≤ f.b ∧ f.b ≤ 255 := by
      rw [hb]; exact ⟨div_nonneg hbd.2.2.1 hn.le, by rw [div_le_iff₀ hn]; exact hbd.2.2.2⟩
    have hratio : ∀ k : ℕ, k ≤ s.pixelCount →
        0 ≤ (k : ℚ) / s.pixelCount ∧ (k : ℚ) / s.pixelCount ≤ 1 := by
      intro k hk
      refine ⟨div_nonneg (Nat.cast_nonneg k) hn.le, ?_⟩
      rw [div_le_one hn]; exact_mod_cast hk
    refine ⟨?_, ?_, ?_, ?_, ?_, ?_, ?_, ?_⟩
    · rw [hgn]
      exact dominance_bounds f.g f.r f.b 1.15 1.15 hG hR hB (by norm_num) (by norm_num)
    · rw [hgy]
      have h1 : |f.r - f.g| ≤ 255 := abs_le.mpr ⟨by linarith [hR.1, hG.2], by linarith [hR.2, hG.1]⟩
      have h2 : |f.r - f.b| ≤ 255 := abs_le.mpr ⟨by linarith [hR.1, hB.2], by linarith [hR.2, hB.1]⟩
      have h3 : |f.g - f.b| ≤ 255 := abs_le.mpr ⟨by linarith [hG.1, hB.2], by linarith [hG.2, hB.1]⟩
      have hmax : max |f.r - f.g| (max |f.r - f.b| |f.g - f.b|) ≤ 255 := max_le h1 (max_le h2 h3)
      have hmin : 0 ≤ max |f.r - f.g| (max |f.r - f.b| |f.g - f.b|) :=
        le_max_of_le_left (abs_nonneg _)
      constructor
      · have : max |f.r - f.g| (max |f.r - f.b| |f.g - f.b|) / 255 ≤ 1 := by
          rw [div_le_one (by norm_num)]; exact hmax
        linarith
      · have : 0 ≤ max |f.r - f.g| (max |f.r - f.b| |f.g - f.b|) / 255 :=
          div_nonneg hmin (by norm_num)
        linarith
    · rw [hbn]
      exact dominance_bounds f.b f.r f.g 1.1 1.05 hB hR hG (by norm_num) (by norm_num)
    · rw [hgR]; exact hratio _ (by omega)
    · rw [hgrR]; exact hratio _ (by omega)
    · rw [hbR]; exact hratio _ (by omega)
    · intro hne
      by_contra hcon
      exact hne (by rw [hgn, if_neg hcon])
    · intro hne
      by_contra hcon
      exact hne (by rw [hbn, if_neg hcon])

/-- The exact feature of the 2 x 2 sample image of mid-gray pixels. -/
theorem analyzeImageBlock_ranges_witness :
    EightBit sampleGrayImage ∧
    (let f := _analyzeImageBlock sampleGrayImage 2 2 0 0 2 2
    (0 ≤ f.greenness ∧ f.greenness ≤ 1) ∧ (0 ≤ f.grayness ∧ f.grayness ≤ 1) ∧
      (0 ≤ f.blueness ∧ f.blueness ≤ 1) ∧ (0 ≤ f.greenRatio ∧ f.greenRatio ≤ 1) ∧
      (0 ≤ f.grayRatio ∧ f.grayRatio ≤ 1) ∧ (0 ≤ f.blueRatio ∧ f.blueRatio ≤ 1) ∧
      (f.greenness ≠ 0 → f.g > f.r * 1.15 ∧ f.g > f.b * 1.15) ∧
      (f.blueness ≠ 0 → f.b > f.r * 1.1 ∧ f.b > f.g * 1.05)) :=
  ⟨by decide, analyzeImageBlock_ranges sampleGrayImage (by decide) 2 2 0 0 2 2⟩

theorem sumStep_uniform (pixelData : PixelData) (imgWidth : ℕ) (r g b : ℕ) (st : BlockSums)
    (xy : ℕ × ℕ)
    (hp : ∀ p ∈ pixelData[xy.2 * imgWidth + xy.1]?, p.r = r ∧ p.g = g ∧ p.b = b)
    (h : st.rSum = r * st.pixelCount ∧ st.gSum = g * st.pixelCount ∧
      st.bSum = b * st.pixelCount ∧
      st.greenPixels = (if classifyPixel r g b = PixelClass.green then st.pixelCount else 0) ∧
      st.grayPixels = (if classifyPixel r g b = PixelClass.gray then st.pixelCount else 0) ∧
      st.bluePixels = (if classifyPixel r g b = PixelClass.blue then st.pixelCount else 0)) :
    ((sumStep pixelData imgWidth st xy).rSum = r * (sumStep pixelData imgWidth st xy).pixelCount ∧
      (sumStep pixelData imgWidth st xy).gSum = g * (sumStep pixelData imgWidth st xy).pixelCount ∧
      (sumStep pixelData imgWidth st xy).bSum = b * (sumStep pixelData imgWidth st xy).pixelCount ∧
      (sumStep pixelData imgWidth st xy).greenPixels =
        (if classifyPixel r g b = PixelClass.green then
          (sumStep pixelData imgWidth st xy).pixelCount else 0) ∧
      (sumStep pixelData imgWidth st xy).grayPixels =
        (if classifyPixel r g b = PixelClass.gray then
          (sumStep pixelData imgWidth st xy).pixelCount else 0) ∧
      (sumStep pixelData imgWidth st xy).bluePixels =
        (if classifyPixel r g b = PixelClass.blue then
          (sumStep pixelData imgWidth st xy).pixelCount else 0)) ∧
      st.pixelCount ≤ (sumStep pixelData imgWidth st xy).pixelCount ∧
      ((pixelData[xy.2 * imgWidth + xy.1]?).isSome = true →
        st.pixelCount < (sumStep pixelData imgWidth st xy).pixelCount) := by
  unfold sumStep
  cases hq : pixelData[xy.2 * imgWidth + xy.1]? with
  | none => exact ⟨h, le_rfl, by simp⟩
  | some p =>
    obtain ⟨h1, h2, h3⟩ := hp p (by rw [hq]; exact rfl)
    obtain ⟨e1, e2, e3, e4, e5, e6⟩ := h
    simp only [h1, h2, h3, e1, e2, e3, e4, e5, e6, Nat.cast_add, Nat.cast_one]
    refine ⟨⟨by ring, by ring, by ring, ?_, ?_, ?_⟩, Nat.le_succ _, fun _ => Nat.lt_succ_self _⟩
    · split_ifs <;> rfl
    · split_ifs <;> rfl
    · split_ifs <;> rfl

theorem sumFold_uniform (pixelData : PixelData) (imgWidth : ℕ) (r g b : ℕ)
    (l : List (ℕ × ℕ)) :
    ∀ st : BlockSums,
      (∀ xy ∈ l, ∀ p ∈ pixelData[xy.2 * imgWidth + xy.1]?, p.r = r ∧ p.g = g ∧ p.b = b) →
      (st.rSum = r * st.pixelCount ∧ st.gSum = g * st.pixelCount ∧
        st.bSum = b * st.pixelCount ∧
        st.greenPixels = (if classifyPixel r g b = PixelClass.green then st.pixelCount else 0) ∧
        st.grayPixels = (if classifyPixel r g b = PixelClass.gray then st.pixelCount else 0) ∧
        st.bluePixels = (if classifyPixel r g b = PixelClass.blue then st.pixelCount else 0)) →
      ((l.foldl (sumStep pixelData imgWidth) st).rSum =
          r * (l.foldl (sumStep pixelData imgWidth) st).pixelCount ∧
        (l.foldl (sumStep pixelData imgWidth) st).gSum =
          g * (l.foldl (sumStep pixelData imgWidth) st).pixelCount ∧
        (l.foldl (sumStep pixelData imgWidth) st).bSum =
          b * (l.foldl (sumStep pixelData imgWidth) st).pixelCount ∧
        (l.foldl (sumStep pixelData imgWidth) st).greenPixels =
          (if classifyPixel r g b = PixelClass.green then
            (l.foldl (sumStep pixelData imgWidth) st).pixelCount else 0) ∧
        (l.foldl (sumStep pixelData imgWidth) st).grayPixels =
          (if classifyPixel r g b = PixelClass.gray then
            (l.foldl (sumStep pixelData imgWidth) st).pixelCount else 0) ∧
        (l.foldl (sumStep pixelData imgWidth) st).bluePixels =
          (if classifyPixel r g b = PixelClass.blue then
            (l.foldl (sumStep pixelData imgWidth) st).pixelCount else 0)) ∧
        st.pixelCount ≤ (l.foldl (sumStep pixelData imgWidth) st).pixelCount ∧
        ((∃ xy ∈ l, (pixelData[xy.2 * imgWidth + xy.1]?).isSome = true) →
          st.pixelCount < (l.foldl (sumStep pixelData imgWidth) st).pixelCount) := by
  induction l with
  | nil =>
    intro st _ h
    exact ⟨h, le_rfl, by simp⟩
  | cons xy l ih =>
    intro st hl h
    rw [List.foldl_cons]
    obtain ⟨s1, s2, s3⟩ := sumStep_uniform pixelData imgWidth r g b st xy
      (hl xy (List.mem_cons_self _ _)) h
    obtain ⟨i1, i2, i3⟩ := ih (sumStep pixelData imgWidth st xy)
      (fun xy' hxy' => hl xy' (List.mem_cons_of_mem _ hxy')) s1
    refine ⟨i1, le_trans s2 i2, ?_⟩
    rintro ⟨xy', hmem, hsome⟩
    rcases List.mem_cons.mp hmem with rfl | hmem'
    · exact lt_of_lt_of_le (s3 hsome) i2
    · exact lt_of_le_of_lt s2 (i3 ⟨xy', hmem', hsome⟩)

theorem varStep_uniform (pixelData : PixelData) (imgWidth imgHeight startX startY : ℕ)
    (blockWidth blockHeight : ℤ) (r g b : ℕ)
    (hu : ∀ xy ∈ blockCoords imgWidth imgHeight startX startY blockWidth blockHeight,
      ∀ p ∈ pixelData[xy.2 * imgWidth + xy.1]?, p.r = r ∧ p.g = g ∧ p.b = b)
    (st : BlockVar) (xy : ℕ × ℕ)
    (hxy : xy ∈ blockCoords imgWidth imgHeight startX startY blockWidth blockHeight) :
    varStep pixelData imgWidth (min ((startX : ℤ) + blockWidth) (imgWidth : ℤ))
      (min ((startY : ℤ) + blockHeight) (imgHeight : ℤ)) r g b st xy = st := by
  obtain ⟨x, y⟩ := xy
  have hxy' := (mem_blockCoords _ _ _ _ _ _ x y).mp hxy
  unfold varStep
  cases hq : pixelData[y * imgWidth + x]? with
  | none => simp only [hq]
  | some p =>
    obtain ⟨h1, h2, h3⟩ := hu (x, y) hxy p (by simp only [hq]; exact rfl)
    simp only [hq, h1, h2, h3, sub_self, ne_eq, OfNat.ofNat_ne_zero, not_false_eq_true,
      zero_pow, add_zero]
    have he : (if (x : ℤ) < min ((startX : ℤ) + blockWidth) (imgWidth : ℤ) - 1 ∧
          (y : ℤ) < min ((startY : ℤ) + blockHeight) (imgHeight : ℤ) - 1 then
        match pixelData[y * imgWidth + (x + 1)]?, pixelData[(y + 1) * imgWidth + x]? with
        | some right, some bottom =>
          st.edgeStrength + ((|(r : ℚ) - right.r| + |(g : ℚ) - right.g| + |(b : ℚ) - right.b|) +
            (|(r : ℚ) - bottom.r| + |(g : ℚ) - bottom.g| + |(b : ℚ) - bottom.b|)) / 2
        | _, _ => st.edgeStrength
        else st.edgeStrength) = st.edgeStrength := by
      split_ifs with hc
      · have hR : (x + 1, y) ∈
            blockCoords imgWidth imgHeight startX startY blockWidth blockHeight := by
          rw [mem_blockCoords]
          refine ⟨by omega, ?_, hxy'.2.2.1, hxy'.2.2.2⟩
          push_cast; linarith [hc.1]
        have hB : (x, y + 1) ∈
            blockCoords imgWidth imgHeight startX startY blockWidth blockHeight := by
          rw [mem_blockCoords]
          refine ⟨hxy'.1, hxy'.2.1, by omega, ?_⟩
          push_cast; linarith [hc.2]
        cases hr : pixelData[y * imgWidth + (x + 1)]? with
        | none => rfl
        | some right =>
          cases hb : pixelData[(y + 1) * imgWidth + x]? with
          | none => rfl
          | some bottom =>
            obtain ⟨r1, r2, r3⟩ := hu (x + 1, y) hR right (by simp only [hr]; exact rfl)
            obtain ⟨b1, b2, b3⟩ := hu (x, y + 1) hB bottom (by simp only [hb]; exact rfl)
            simp only [r1, r2, r3, b1, b2, b3, sub_self, abs_zero, add_zero, zero_div]
      · rfl
    rw [he]

theorem varFold_uniform (pixelData : PixelData) (imgWidth imgHeight startX startY : ℕ)
    (blockWidth blockHeight : ℤ) (r g b : ℕ)
    (hu : ∀ xy ∈ blockCoords imgWidth imgHeight startX startY blockWidth blockHeight,
      ∀ p ∈ pixelData[xy.2 * imgWidth + xy.1]?, p.r = r ∧ p.g = g ∧ p.b = b)
    (l : List (ℕ × ℕ)) :
    (∀ xy ∈ l, xy ∈ blockCoords imgWidth imgHeight startX startY blockWidth blockHeight) →
    ∀ st : BlockVar,
      l.foldl (varStep pixelData imgWidth (min ((startX : ℤ) + blockWidth) (imgWidth : ℤ))
        (min ((startY : ℤ) + blockHeight) (imgHeight : ℤ)) r g b) st = st := by
  induction l with
  | nil => intro _ st; rfl
  | cons xy l ih =>
    intro hl st
    rw [List.foldl_cons, varStep_uniform pixelData imgWidth imgHeight startX startY blockWidth
      blockHeight r g b hu st xy (hl xy (List.mem_cons_self _ _))]
    exact ih (fun xy' h => hl xy' (List.mem_cons_of_mem _ h)) st

theorem blockSums_uniform (pixelData : PixelData) (imgWidth imgHeight startX startY : ℕ)
    (blockWidth blockHeight : ℤ) (r g b : ℕ)
    (h : UniformBlock pixelData imgWidth imgHeight startX startY blockWidth blockHeight r g b)
    (s : BlockSums)
    (hs : s = blockSums pixelData imgWidth imgHeight startX startY blockWidth blockHeight) :
    s.rSum = r * s.pixelCount ∧ s.gSum = g * s.pixelCount ∧ s.bSum = b * s.pixelCount ∧
      s.greenPixels = (if classifyPixel r g b = PixelClass.green then s.pixelCount else 0) ∧
      s.grayPixels = (if classifyPixel r g b = PixelClass.gray then s.pixelCount else 0) ∧
      s.bluePixels = (if classifyPixel r g b = PixelClass.blue then s.pixelCount else 0) ∧
      0 < s.pixelCount := by
  obtain ⟨hex, hu⟩ := h
  obtain ⟨⟨u1, u2, u3, u4, u5, u6⟩, _, upos⟩ := sumFold_uniform pixelData imgWidth r g b
    (blockCoords imgWidth imgHeight startX startY blockWidth blockHeight)
    { rSum := 0, gSum := 0, bSum := 0, pixelCount := 0, greenPixels := 0, grayPixels := 0,
      bluePixels := 0 } hu (by simp)
  subst hs
  exact ⟨u1, u2, u3, u4, u5, u6, upos hex⟩

theorem analyze_uniform (pixelData : PixelData) (imgWidth imgHeight startX startY : ℕ)
    (blockWidth blockHeight : ℤ) (r g b : ℕ)
    (h : UniformBlock pixelData imgWidth imgHeight startX startY blockWidth blockHeight r g b) :
    _analyzeImageBlock pixelData imgWidth imgHeight startX startY blockWidth blockHeight =
      uniformFeature r g b := by
  obtain ⟨u1, u2, u3, u4, u5, u6, upos'⟩ := blockSums_uniform pixelData imgWidth imgHeight
    startX startY blockWidth blockHeight r g b h _ rfl
  obtain ⟨hex, hu⟩ := h
  have h0 : (blockSums pixelData imgWidth imgHeight startX startY blockWidth
      blockHeight).pixelCount ≠ 0 := by
    intro h0; rw [h0] at upos'; exact absurd upos' (lt_irrefl _)
  obtain ⟨hr, hg, hb, hgR, hgrR, hbR, hgn, hgy, hbn, hvar, hedge⟩ := analyze_fields pixelData
    imgWidth imgHeight startX startY blockWidth blockHeight _ rfl h0
  have hn : ((blockSums pixelData imgWidth imgHeight startX startY blockWidth
      blockHeight).pixelCount : ℚ) ≠ 0 := by exact_mod_cast h0
  rw [u1, mul_div_assoc, div_self hn, mul_one] at hr
  rw [u2, mul_div_assoc, div_self hn, mul_one] at hg
  rw [u3, mul_div_assoc, div_self hn, mul_one] at hb
  rw [hr, hg, hb] at hgn hgy hbn hvar hedge
  rw [varFold_uniform pixelData imgWidth imgHeight startX startY blockWidth blockHeight r g b hu
    _ (fun _ hxy => hxy)] at hvar hedge
  simp only [add_zero, zero_div] at hvar hedge
  rw [u4] at hgR
  rw [u5] at hgrR
  rw [u6] at hbR
  have hratio : ∀ c : Prop, ∀ _ : Decidable c,
      (((if c then (blockSums pixelData imgWidth imgHeight startX startY blockWidth
        blockHeight).pixelCount else 0 : ℕ) : ℚ) /
        ((blockSums pixelData imgWidth imgHeight startX startY blockWidth
          blockHeight).pixelCount : ℚ)) = if c then 1 else 0 := by
    intro c _
    split_ifs
    · exact div_self hn
    · simp
  rw [hratio] at hgR hgrR hbR
  generalize _analyzeImageBlock pixelData imgWidth imgHeight startX startY blockWidth
    blockHeight = f at *
  obtain ⟨fr, fg, fb, fv, fe, fgn, fgy, fbn, fgR, fgrR, fbR⟩ := f
  simp only at hr hg hb hgR hgrR hbR hgn hgy hbn hvar hedge
  subst hr hg hb hgR hgrR hbR hgn hgy hbn hvar hedge
  rfl

/-- C27: for every block that has at least one pixel and whose pixels all have the same
gray value `(v, v, v)`, black included, `_analyzeImageBlock` returns grayness 1,
greenness 0, blueness 0, edges 0, variance 0, grayRatio 1 and greenRatio = blueRatio = 0. -/
theorem analyzeImageBlock_uniform_gray (pixelData : PixelData)
    (imgWidth imgHeight startX startY : ℕ) (blockWidth blockHeight : ℤ) (v : ℕ)
    (h : UniformBlock pixelData imgWidth imgHeight startX startY blockWidth blockHeight v v v) :
    let f := _analyzeImageBlock pixelData imgWidth imgHeight startX startY blockWidth blockHeight
    f.grayness = 1 ∧ f.greenness = 0 ∧ f.blueness = 0 ∧ f.edges = 0 ∧ f.variance = 0 ∧
      f.grayRatio = 1 ∧ f.greenRatio = 0 ∧ f.blueRatio = 0 := by
  intro f
  have hf : f = uniformFeature v v v := analyze_uniform _ _ _ _ _ _ _ v v v h
  have hv : (0 : ℚ) ≤ (v : ℚ) := Nat.cast_nonneg v
  have h1 : ¬ ((v : ℚ) > (v : ℚ) * 1.15) := by
    intro hc; nlinarith
  have h2 : ¬ ((v : ℚ) > (v : ℚ) * 1.1) := by
    intro hc; nlinarith
  have hcls : classifyPixel (v : ℚ) v v = PixelClass.gray := by
    unfold classifyPixel
    rw [if_neg (fun hc => h1 hc.1), if_pos (by simp)]
  rw [hf]
  simp [uniformFeature, hcls, h1, h2]

/-- Instance of C27 at the 2 x 2 sample image of mid-gray pixels. -/
theorem analyzeImageBlock_uniform_gray_witness :
    UniformBlock sampleGrayImage 2 2 0 0 2 2 128 128 128 ∧
    (let f := _analyzeImageBlock sampleGrayImage 2 2 0 0 2 2
    f.grayness = 1 ∧ f.greenness = 0 ∧ f.blueness = 0 ∧ f.edges = 0 ∧ f.variance = 0 ∧
      f.grayRatio = 1 ∧ f.greenRatio = 0 ∧ f.blueRatio = 0) :=
  ⟨by decide, analyzeImageBlock_uniform_gray sampleGrayImage 2 2 0 0 2 2 128 (by decide)⟩

theorem accumulateRegion_field (grid : Grid) (φ : BlockFeature → ℚ) (ψ : RegionAcc → ℚ)
    (hstep : ∀ (acc : RegionAcc) (f : BlockFeature) (c : Cell),
      ψ { avgGreenness := acc.avgGreenness + f.greenness
          avgGrayness := acc.avgGrayness + f.grayness
          avgBlueness := acc.avgBlueness + f.blueness
          avgEdges := acc.avgEdges + f.edges
          avgGreenRatio := acc.avgGreenRatio + f.greenRatio
          avgGrayRatio := acc.avgGrayRatio + f.grayRatio
          avgBlueRatio := acc.avgBlueRatio + f.blueRatio
          minX := some (minInf acc.minX c.x)
          minY := some (minInf acc.minY c.y)
          maxX := max acc.maxX c.x
          maxY := max acc.maxY c.y } = ψ acc + φ f)
    (lo hi : ℚ) (region : List Cell) :
    ∀ acc₀ : RegionAcc,
      (∀ c ∈ region, (gridAt grid c).isSome = true) →
      ∃ acc, accumulateRegion grid region acc₀ = some acc ∧
        ((∀ c ∈ region, ∀ f, gridAt grid c = some f → lo ≤ φ f) →
          ψ acc₀ + region.length * lo ≤ ψ acc) ∧
        ((∀ c ∈ region, ∀ f, gridAt grid c = some f → φ f ≤ hi) →
          ψ acc ≤ ψ acc₀ + region.length * hi) := by
  induction region with
  | nil =>
    intro acc₀ _
    exact ⟨acc₀, rfl, fun _ => by simp, fun _ => by simp⟩
  | cons c rest ih =>
    intro acc₀ h
    obtain ⟨f, hf⟩ := Option.isSome_iff_exists.mp (h c (List.mem_cons_self _ _))
    obtain ⟨acc, hacc, h1, h2⟩ := ih
      { avgGreenness := acc₀.avgGreenness + f.greenness
        avgGrayness := acc₀.avgGrayness + f.grayness
        avgBlueness := acc₀.avgBlueness + f.blueness
        avgEdges := acc₀.avgEdges + f.edges
        avgGreenRatio := acc₀.avgGreenRatio + f.greenRatio
        avgGrayRatio := acc₀.avgGrayRatio + f.grayRatio
        avgBlueRatio := acc₀.avgBlueRatio + f.blueRatio
        minX := some (minInf acc₀.minX c.x)
        minY := some (minInf acc₀.minY c.y)
        maxX := max acc₀.maxX c.x
        maxY := max acc₀.maxY c.y }
      (fun c' hc' => h c' (List.mem_cons_of_mem _ hc'))
    refine ⟨acc, ?_, ?_, ?_⟩
    · simp only [accumulateRegion, hf]
      exact hacc
    · intro hlo
      have h1' := h1 (fun c' hc' => hlo c' (List.mem_cons_of_mem _ hc'))
      have := hlo c (List.mem_cons_self _ _) f hf
      rw [hstep] at h1'
      simp only [List.length_cons, Nat.cast_add, Nat.cast_one]
      linarith
    · intro hhi
      have h2' := h2 (fun c' hc' => hhi c' (List.mem_cons_of_mem _ hc'))
      have := hhi c (List.mem_cons_self _ _) f hf
      rw [hstep] at h2'
      simp only [List.length_cons, Nat.cast_add, Nat.cast_one]
      linarith

/-- The averages that `_classifyRegions` forms over a region: each is at least a lower
bound, and at most an upper bound, that holds for the features of all its blocks. -/
theorem accumulateRegion_averages (grid : Grid) (region : List Cell) (hlen : 0 < region.length)
    (hsome : ∀ c ∈ region, (gridAt grid c).isSome = true) :
    ∃ acc, accumulateRegion grid region RegionAcc.init = some acc ∧
      ∀ lo hi : ℚ,
      (((∀ c ∈ region, ∀ f, gridAt grid c = some f → lo ≤ f.greenness) →
          lo ≤ acc.avgGreenness / region.length) ∧
        ((∀ c ∈ region, ∀ f, gridAt grid c = some f → f.greenness ≤ hi) →
          acc.avgGreenness / region.length ≤ hi)) ∧
      (((∀ c ∈ region, ∀ f, gridAt grid c = some f → lo ≤ f.grayness) →
          lo ≤ acc.avgGrayness / region.length) ∧
        ((∀ c ∈ region, ∀ f, gridAt grid c = some f → f.grayness ≤ hi) →
          acc.avgGrayness / region.length ≤ hi)) ∧
      (((∀ c ∈ region, ∀ f, gridAt grid c = some f → lo ≤ f.edges) →
          lo ≤ acc.avgEdges / region.length) ∧
        ((∀ c ∈ region, ∀ f, gridAt grid c = some f → f.edges ≤ hi) →
          acc.avgEdges / region.length ≤ hi)) ∧
      (((∀ c ∈ region, ∀ f, gridAt grid c = some f → lo ≤ f.greenRatio) →
          lo ≤ acc.avgGreenRatio / region.length) ∧
        ((∀ c ∈ region, ∀ f, gridAt grid c = some f → f.greenRatio ≤ hi) →
          acc.avgGreenRatio / region.length ≤ hi)) ∧
      (((∀ c ∈ region, ∀ f, gridAt grid c = some f → lo ≤ f.grayRatio) →
          lo ≤ acc.avgGrayRatio / region.length) ∧
        ((∀ c ∈ region, ∀ f, gridAt grid c = some f → f.grayRatio ≤ hi) →
          acc.avgGrayRatio / region.length ≤ hi)) := by
  have hn : (0 : ℚ) < (region.length : ℚ) := by exact_mod_cast hlen
  obtain ⟨acc, hacc, _, _⟩ := accumulateRegion_field grid (fun f => f.greenness)
    (fun a => a.avgGreenness) (fun _ _ _ => rfl) 0 0 region RegionAcc.init hsome
  have key : ∀ (φ : BlockFeature → ℚ) (ψ : RegionAcc → ℚ),
      (∀ (acc : RegionAcc) (f : BlockFeature) (c : Cell),
        ψ { avgGreenness := acc.avgGreenness + f.greenness
            avgGrayness := acc.avgGrayness + f.grayness
            avgBlueness := acc.avgBlueness + f.blueness
            avgEdges := acc.avgEdges + f.edges
            avgGreenRatio := acc.avgGreenRatio + f.greenRatio
            avgGrayRatio := acc.avgGrayRatio + f.grayRatio
            avgBlueRatio := acc.avgBlueRatio + f.blueRatio
            minX := some (minInf acc.minX c.x)
            minY := some (minInf acc.minY c.y)
            maxX := max acc.maxX c.x
            maxY := max acc.maxY c.y } = ψ acc + φ f) →
      ψ RegionAcc.init = 0 → ∀ lo hi : ℚ,
      ((∀ c ∈ region, ∀ f, gridAt grid c = some f → lo ≤ φ f) → lo ≤ ψ acc / region.length) ∧
      ((∀ c ∈ region, ∀ f, gridAt grid c = some f → φ f ≤ hi) →
        ψ acc / region.length ≤ hi) := by
    intro φ ψ hstep hinit lo hi
    obtain ⟨acc', hacc', h1, h2⟩ := accumulateRegion_field grid φ ψ hstep lo hi region
      RegionAcc.init hsome
    rw [hacc] at hacc'
    cases Option.some.inj hacc'
    rw [hinit, zero_add] at h1 h2
    constructor
    · intro h; rw [le_div_iff₀ hn]; linarith [h1 h]
    · intro h; rw [div_le_iff₀ hn]; linarith [h2 h]
  refine ⟨acc, hacc, fun lo hi => ⟨?_, ?_, ?_, ?_, ?_⟩⟩
  · exact key (fun f => f.greenness) (fun a => a.avgGreenness) (fun _ _ _ => rfl) rfl lo hi
  · exact key (fun f => f.grayness) (fun a => a.avgGrayness) (fun _ _ _ => rfl) rfl lo hi
  · exact key (fun f => f.edges) (fun a => a.avgEdges) (fun _ _ _ => rfl) rfl lo hi
  · exact key (fun f => f.greenRatio) (fun a => a.avgGreenRatio) (fun _ _ _ => rfl) rfl lo hi
  · exact key (fun f => f.grayRatio) (fun a => a.avgGrayRatio) (fun _ _ _ => rfl) rfl lo hi

/-- The scores and the object of a region all of whose blocks carry the features of a
uniform gray block. -/
theorem regionObject_gray (grid : Grid) (region : List Cell) (hlen : 4 ≤ region.length)
    (hgray : ∀ c ∈ region, ∃ f, gridAt grid c = some f ∧ f.grayRatio = 1 ∧ f.grayness = 1 ∧
      f.greenRatio = 0 ∧ f.greenness = 0 ∧ f.edges = 0)
    (imgHeight blockSize : ℚ) :
    ∃ acc, accumulateRegion grid region RegionAcc.init = some acc ∧
      regionTreeScore acc region.length = 0 ∧
      5 ≤ regionBuildingScore acc region.length imgHeight blockSize ∧
      ∀ j1 j2 j3 j4 : ℚ,
        (regionObject acc region.length imgHeight blockSize j1 j2 j3 j4).cls = -1 ∧
        (regionObject acc region.length imgHeight blockSize j1 j2 j3 j4).confidence = 0.95 := by
  obtain ⟨acc, hacc, havg⟩ := accumulateRegion_averages grid region (by omega)
    (fun c hc => by obtain ⟨f, hf, _⟩ := hgray c hc; rw [hf]; rfl)
  have hfe : ∀ c ∈ region, ∀ f, gridAt grid c = some f → f.grayRatio = 1 ∧ f.grayness = 1 ∧
      f.greenRatio = 0 ∧ f.greenness = 0 ∧ f.edges = 0 := by
    intro c hc f hf
    obtain ⟨f', hf', h⟩ := hgray c hc
    rw [hf] at hf'
    cases Option.some.inj hf'
    exact h
  have hg : acc.avgGreenness / region.length = 0 :=
    le_antisymm ((havg 0 0).1.2 (fun c hc f hf => (hfe c hc f hf).2.2.2.1.le))
      ((havg 0 0).1.1 (fun c hc f hf => (hfe c hc f hf).2.2.2.1.ge))
  have hy : acc.avgGrayness / region.length = 1 :=
    le_antisymm ((havg 1 1).2.1.2 (fun c hc f hf => (hfe c hc f hf).2.1.le))
      ((havg 1 1).2.1.1 (fun c hc f hf => (hfe c hc f hf).2.1.ge))
  have he : acc.avgEdges / region.length = 0 :=
    le_antisymm ((havg 0 0).2.2.1.2 (fun c hc f hf => (hfe c hc f hf).2.2.2.2.le))
      ((havg 0 0).2.2.1.1 (fun c hc f hf => (hfe c hc f hf).2.2.2.2.ge))
  have hr : acc.avgGreenRatio / region.length = 0 :=
    le_antisymm ((havg 0 0).2.2.2.1.2 (fun c hc f hf => (hfe c hc f hf).2.2.1.le))
      ((havg 0 0).2.2.2.1.1 (fun c hc f hf => (hfe c hc f hf).2.2.1.ge))
  have hs : acc.avgGrayRatio / region.length = 1 :=
    le_antisymm ((havg 1 1).2.2.2.2.2 (fun c hc f hf => (hfe c hc f hf).1.le))
      ((havg 1 1).2.2.2.2.1 (fun c hc f hf => (hfe c hc f hf).1.ge))
  have htree : regionTreeScore acc region.length = 0 := by
    unfold regionTreeScore treeScoreOf
    rw [hr, hg]; norm_num
  have hbuild : regionBuildingScore acc region.length imgHeight blockSize =
      5 + (if regionUpperTall acc imgHeight blockSize then 1 else 0) := by
    unfold regionBuildingScore buildingScoreOf
    rw [hs, he, hy]; norm_num
  have hb5 : 5 ≤ regionBuildingScore acc region.length imgHeight blockSize := by
    rw [hbuild]; split_ifs <;> norm_num
  have hb9 := (buildingScoreOf_range (acc.avgGrayRatio / region.length)
    (acc.avgEdges / region.length) (acc.avgGrayness / region.length)
    (regionUpperTall acc imgHeight blockSize)).2
  change regionBuildingScore acc region.length imgHeight blockSize ≤ 9 at hb9
  refine ⟨acc, hacc, htree, hb5, fun j1 j2 j3 j4 => ⟨?_, ?_⟩⟩
  · rw [regionObject_cls_eq, htree, if_neg (by omega)]
  · rw [regionObject_conf_formula, htree]
    have habs : (5 : ℚ) ≤ ((|0 - regionBuildingScore acc region.length imgHeight blockSize| : ℤ)
        : ℚ) := by
      have : (5 : ℤ) ≤ |0 - regionBuildingScore acc region.length imgHeight blockSize| := by
        rw [zero_sub, abs_neg, abs_of_nonneg (by omega)]; exact hb5
      exact_mod_cast this
    rw [min_eq_left (by linarith)]
    norm_num

/-- The feature of a block of uniform pure-green pixels `(0, G, 0)` with `G ≥ 52`. -/
theorem uniformFeature_green (G : ℕ) (hG : 52 ≤ G) :
    (uniformFeature 0 G 0).greenRatio = 1 ∧ (uniformFeature 0 G 0).grayRatio = 0 ∧
      (uniformFeature 0 G 0).edges = 0 ∧ 52 / 255 ≤ (uniformFeature 0 G 0).greenness ∧
      (uniformFeature 0 G 0).grayness ≤ 1 := by
  have hG' : (52 : ℚ) ≤ (G : ℚ) := by exact_mod_cast hG
  have hpos : (G : ℚ) > 0 * 1.15 := by linarith
  have hcls : classifyPixel 0 (G : ℚ) 0 = PixelClass.green := by
    unfold classifyPixel
    rw [if_pos ⟨hpos, hpos⟩]
  refine ⟨?_, ?_, rfl, ?_, ?_⟩
  · simp [uniformFeature, hcls]
  · simp [uniformFeature, hcls]
  · simp only [uniformFeature]
    rw [if_pos ⟨hpos, hpos⟩, max_self, sub_zero]
    exact div_le_div_of_nonneg_right hG' (by norm_num)
  · simp only [uniformFeature]
    have : 0 ≤ max |(0 : ℚ) - G| (max |(0 : ℚ) - 0| |(G : ℚ) - 0|) / 255 :=
      div_nonneg (le_max_of_le_left (abs_nonneg _)) (by norm_num)
    linarith

/-! ## Lemmas: the growth of a region -/

theorem absorbTest_absorbable (grid : Grid) (edgeGrid : EdgeGrid) (gridWidth gridHeight : ℕ)
    (seed : Cell) (visited : List Cell) (n : ℤ × ℤ)
    (h : absorbTest grid edgeGrid gridWidth gridHeight seed visited n = some true) :
    Absorbable grid edgeGrid seed ⟨n.1.toNat, n.2.toNat⟩ ∧ 0 ≤ n.1 ∧ 0 ≤ n.2 := by
  by_cases hb : 0 ≤ n.1 ∧ n.1 < (gridWidth : ℤ) ∧ 0 ≤ n.2 ∧ n.2 < (gridHeight : ℤ)
  · by_cases hv : (⟨n.1.toNat, n.2.toNat⟩ : Cell) ∈ visited
    · simp [absorbTest, hb, hv] at h
    · cases hrow : edgeGrid[n.2.toNat]? with
      | none => simp [absorbTest, hb, hv, hrow] at h
      | some row =>
        cases hrx : row[n.1.toNat]? with
        | none => simp [absorbTest, hb, hv, hrow, hrx] at h
        | some e =>
          by_cases he : e < 0.3
          · cases hb1 : gridAt grid seed with
            | none => simp [absorbTest, hb, hv, hrow, hrx, he, hb1] at h
            | some block1 =>
              cases hb2 : gridAt grid ⟨n.1.toNat, n.2.toNat⟩ with
              | none => simp [absorbTest, hb, hv, hrow, hrx, he, hb1, hb2] at h
              | some block2 =>
                simp only [absorbTest, if_pos hb, if_neg hv, hrow, hrx, if_pos he, hb1, hb2,
                  Option.some.injEq] at h
                refine ⟨⟨⟨e, ?_, he⟩, block1, block2, hb1, hb2, h⟩, hb.1, hb.2.2.1⟩
                simp only [edgeAt, hrow, hrx]
          · simp [absorbTest, hb, hv, hrow, hrx, he] at h
  · simp [absorbTest, hb] at h

theorem adjacent_of_neighbor (current : Cell) (n : ℤ × ℤ) (hn : n ∈ neighborsOf current)
    (h1 : 0 ≤ n.1) (h2 : 0 ≤ n.2) : Adjacent current ⟨n.1.toNat, n.2.toNat⟩ := by
  obtain ⟨a, b⟩ := n
  simp only [neighborsOf, List.mem_cons, Prod.mk.injEq, List.mem_singleton, List.not_mem_nil,
    or_false] at hn
  unfold Adjacent
  simp only at h1 h2 ⊢
  rcases hn with ⟨rfl, rfl⟩ | ⟨rfl, rfl⟩ | ⟨rfl, rfl⟩ | ⟨rfl, rfl⟩
  · left; constructor <;> omega
  · left; constructor <;> omega
  · right; constructor <;> omega
  · right; constructor <;> omega

theorem grown_snoc (grid : Grid) (edgeGrid : EdgeGrid) (seed c : Cell) (l : List Cell)
    (hl : Grown grid edgeGrid seed l) (hc : Absorbable grid edgeGrid seed c)
    (hadj : ∃ p ∈ l, Adjacent p c) : Grown grid edgeGrid seed (l ++ [c]) := by
  obtain ⟨hhead, hrest⟩ := hl
  constructor
  · cases l with
    | nil => simp at hhead
    | cons a l => simpa using hhead
  · intro pre c' post heq hpre
    rcases List.eq_nil_or_concat post with rfl | ⟨post', d, rfl⟩
    · have h1 : l ++ [c] = pre ++ [c'] := heq
      obtain ⟨h2, h3⟩ := List.append_inj' h1 rfl
      cases h3
      subst h2
      exact ⟨hc, hadj⟩
    · have h1 : l ++ [c] = (pre ++ c' :: post') ++ [d] := by
        rw [heq]; simp
      obtain ⟨h2, _⟩ := List.append_inj' h1 rfl
      exact hrest pre c' post' h2 hpre

theorem visitNeighbors_grown (grid : Grid) (edgeGrid : EdgeGrid) (gridWidth gridHeight : ℕ)
    (seed current : Cell) (done : List Cell) (hcur : current ∈ done) (nbrs : List (ℤ × ℤ)) :
    (∀ n ∈ nbrs, n ∈ neighborsOf current) →
    ∀ st st' : List Cell × List Cell,
      visitNeighbors grid edgeGrid gridWidth gridHeight seed nbrs st = some st' →
      Grown grid edgeGrid seed (done ++ st.1) → Grown grid edgeGrid seed (done ++ st'.1) := by
  induction nbrs with
  | nil =>
    intro _ st st' h hg
    simp only [visitNeighbors, Option.some.injEq] at h
    rw [← h]; exact hg
  | cons n rest ih =>
    intro hn st st' h hg
    have hrest : ∀ n' ∈ rest, n' ∈ neighborsOf current :=
      fun n' hn' => hn n' (List.mem_cons_of_mem _ hn')
    unfold visitNeighbors at h
    cases ht : absorbTest grid edgeGrid gridWidth gridHeight seed st.2 n with
    | none => rw [ht] at h; exact absurd h (by simp)
    | some b =>
      rw [ht] at h
      cases b with
      | false => exact ih hrest st st' h hg
      | true =>
        obtain ⟨habs, h1, h2⟩ := absorbTest_absorbable _ _ _ _ _ _ _ ht
        refine ih hrest _ st' h ?_
        show Grown grid edgeGrid seed (done ++ (st.1 ++ [_]))
        rw [← List.append_assoc]
        exact grown_snoc grid edgeGrid seed _ _ hg habs
          ⟨current, List.mem_append_left _ hcur,
            adjacent_of_neighbor current n (hn n (List.mem_cons_self _ _)) h1 h2⟩

theorem floodFill_grown (grid : Grid) (edgeGrid : EdgeGrid) (gridWidth gridHeight : ℕ)
    (seed : Cell) :
    ∀ (fuel : ℕ) (queue region visited : List Cell) (res : List Cell × List Cell),
      floodFill grid edgeGrid gridWidth gridHeight seed fuel queue region visited = some res →
      Grown grid edgeGrid seed (region ++ queue) → Grown grid edgeGrid seed res.1 := by
  intro fuel
  induction fuel with
  | zero =>
    intro queue region visited res h hg
    cases queue with
    | nil =>
      simp only [floodFill, Option.some.injEq] at h
      rw [← h]; simpa using hg
    | cons current queue => simp [floodFill] at h
  | succ fuel ih =>
    intro queue region visited res h hg
    cases queue with
    | nil =>
      simp only [floodFill, Option.some.injEq] at h
      rw [← h]; simpa using hg
    | cons current queue =>
      simp only [floodFill] at h
      cases hst : visitNeighbors grid edgeGrid gridWidth gridHeight seed (neighborsOf current)
          (queue, visited) with
      | none => rw [hst] at h; exact absurd h (by simp)
      | some st =>
        rw [hst] at h
        refine ih st.1 (region ++ [current]) st.2 res h ?_
        refine visitNeighbors_grown grid edgeGrid gridWidth gridHeight seed current
          (region ++ [current]) (by simp) (neighborsOf current) (fun _ hn => hn)
          (queue, visited) st hst ?_
        simpa using hg

theorem segmentLoop_grown (grid : Grid) (edgeGrid : EdgeGrid) (gridWidth gridHeight : ℕ)
    (cells : List Cell) :
    ∀ st st' : List (List Cell) × List Cell,
      segmentLoop grid edgeGrid gridWidth gridHeight cells st = some st' →
      (∀ r ∈ st.1, ∃ seed, Grown grid edgeGrid seed r) →
      ∀ r ∈ st'.1, ∃ seed, Grown grid edgeGrid seed r := by
  induction cells with
  | nil =>
    intro st st' h hg
    simp only [segmentLoop, Option.some.injEq] at h
    rw [← h]; exact hg
  | cons c rest ih =>
    intro st st' h hg
    unfold segmentLoop at h
    by_cases hv : c ∈ st.2
    · rw [if_pos hv] at h
      exact ih st st' h hg
    · rw [if_neg hv] at h
      cases hf : floodFill grid edgeGrid gridWidth gridHeight c (gridWidth * gridHeight) [c] []
          (c :: st.2) with
      | none => rw [hf] at h; exact absurd h (by simp)
      | some filled =>
        rw [hf] at h
        refine ih _ st' h ?_
        have hfill : Grown grid edgeGrid c filled.1 :=
          floodFill_grown grid edgeGrid gridWidth gridHeight c _ _ _ _ filled hf
            ⟨rfl, by
              intro pre c' post heq hpre
              cases pre with
              | nil => exact absurd rfl hpre
              | cons a pre =>
                simp only [List.nil_append, List.cons_append, List.cons.injEq] at heq
                exact absurd heq.2 (by simp)⟩
        intro r hr
        show ∃ seed, Grown grid edgeGrid seed r
        by_cases h3 : filled.1.length ≥ 3
        · simp only [if_pos h3, List.mem_append, List.mem_singleton] at hr
          rcases hr with hr | hr
          · exact hg r hr
          · exact ⟨c, hr ▸ hfill⟩
        · simp only [if_neg h3] at hr
          exact hg r hr

/-- C21: for every feature grid and edge grid that cover the block grid, in every region
that `_segmentRegions` returns every cell after the first (the seed) has an edge value
strictly below 0.3, is similar (`_isSimilarBlock`) to the seed, and is 4-adjacent to a
cell that appears earlier in the region; the seed is not subject to the edge threshold:
in the 4 x 4 sample grid whose second row is an edge, the region that starts at the cell
`(0, 1)` is returned, and the edge value of that seed is 1. -/
theorem segmentRegions_growth (grid : Grid) (edgeGrid : EdgeGrid)
    (gridWidth gridHeight : ℕ) (hcov : GridsCover grid edgeGrid gridWidth gridHeight) :
    (∃ regions, _segmentRegions grid edgeGrid gridWidth gridHeight = some regions ∧
      ∀ r ∈ regions, ∃ seed rest, r = seed :: rest ∧
        ∀ pre c post, r = pre ++ c :: post → pre ≠ [] →
          (∃ e, edgeAt edgeGrid c = some e ∧ e < 0.3) ∧
          (∃ block1 block2, gridAt grid seed = some block1 ∧ gridAt grid c = some block2 ∧
            _isSimilarBlock block1 block2 = true) ∧
          ∃ p ∈ pre, Adjacent p c) ∧
      ∃ regions rest, _segmentRegions sampleGrid4 sampleEdgeGrid4 4 4 = some regions ∧
        (⟨0, 1⟩ :: rest) ∈ regions ∧ edgeAt sampleEdgeGrid4 ⟨0, 1⟩ = some 1 := by
  constructor
  · obtain ⟨regions, hreg, _⟩ := segmentRegions_spec grid edgeGrid gridWidth gridHeight hcov
    refine ⟨regions, hreg, ?_⟩
    unfold _segmentRegions at hreg
    cases hst : segmentLoop grid edgeGrid gridWidth gridHeight
        (cellsInOrder gridWidth gridHeight) ([], []) with
    | none => rw [hst] at hreg; exact absurd hreg (by simp)
    | some st =>
      rw [hst] at hreg
      simp only [Option.some.injEq] at hreg
      intro r hr
      obtain ⟨seed, hhead, hrest⟩ := segmentLoop_grown grid edgeGrid gridWidth gridHeight _ _ st
        hst (by simp) r (hreg ▸ hr)
      cases r with
      | nil => simp at hhead
      | cons a rest =>
        simp only [List.head?_cons, Option.some.injEq] at hhead
        subst hhead
        refine ⟨a, rest, rfl, fun pre c post heq hpre => ?_⟩
        obtain ⟨⟨he, hsim⟩, hadj⟩ := hrest pre c post heq hpre
        exact ⟨he, hsim, hadj⟩
  · exact ⟨[[⟨0, 0⟩, ⟨1, 0⟩, ⟨2, 0⟩, ⟨3, 0⟩],
        [⟨0, 1⟩, ⟨0, 2⟩, ⟨1, 2⟩, ⟨0, 3⟩, ⟨2, 2⟩, ⟨1, 3⟩, ⟨3, 2⟩, ⟨2, 3⟩, ⟨3, 3⟩]],
      [⟨0, 2⟩, ⟨1, 2⟩, ⟨0, 3⟩, ⟨2, 2⟩, ⟨1, 3⟩, ⟨3, 2⟩, ⟨2, 3⟩, ⟨3, 3⟩],
      by decide!, by decide, by decide!⟩

/-- Instance of C21 at the 4 x 4 sample grid whose second row is an edge. -/
theorem segmentRegions_growth_witness :
    GridsCover sampleGrid4 sampleEdgeGrid4 4 4 ∧
    ((∃ regions, _segmentRegions sampleGrid4 sampleEdgeGrid4 4 4 = some regions ∧
      ∀ r ∈ regions, ∃ seed rest, r = seed :: rest ∧
        ∀ pre c post, r = pre ++ c :: post → pre ≠ [] →
          (∃ e, edgeAt sampleEdgeGrid4 c = some e ∧ e < 0.3) ∧
          (∃ block1 block2, gridAt sampleGrid4 seed = some block1 ∧
            gridAt sampleGrid4 c = some block2 ∧ _isSimilarBlock block1 block2 = true) ∧
          ∃ p ∈ pre, Adjacent p c) ∧
      ∃ regions rest, _segmentRegions sampleGrid4 sampleEdgeGrid4 4 4 = some regions ∧
        (⟨0, 1⟩ :: rest) ∈ regions ∧ edgeAt sampleEdgeGrid4 ⟨0, 1⟩ = some 1) :=
  ⟨by decide, segmentRegions_growth sampleGrid4 sampleEdgeGrid4 4 4 (by decide)⟩

/-! ## Lemmas: the region of a uniform grid -/

theorem visitNeighbors_closed (grid : Grid) (edgeGrid : EdgeGrid) (gridWidth gridHeight : ℕ)
    (seed : Cell)
    (habs : ∀ (visited : List Cell) (n : ℤ × ℤ),
      (0 ≤ n.1 ∧ n.1 < (gridWidth : ℤ) ∧ 0 ≤ n.2 ∧ n.2 < (gridHeight : ℤ)) →
      (⟨n.1.toNat, n.2.toNat⟩ : Cell) ∉ visited →
      absorbTest grid edgeGrid gridWidth gridHeight seed visited n = some true)
    (nbrs : List (ℤ × ℤ)) :
    ∀ st st' : List Cell × List Cell,
      visitNeighbors grid edgeGrid gridWidth gridHeight seed nbrs st = some st' →
      (∀ c ∈ st.2, c ∈ st'.2) ∧
      ∀ n ∈ nbrs, (0 ≤ n.1 ∧ n.1 < (gridWidth : ℤ) ∧ 0 ≤ n.2 ∧ n.2 < (gridHeight : ℤ)) →
        (⟨n.1.toNat, n.2.toNat⟩ : Cell) ∈ st'.2 := by
  induction nbrs with
  | nil =>
    intro st st' h
    simp only [visitNeighbors, Option.some.injEq] at h
    rw [← h]
    exact ⟨fun _ hc => hc, fun _ hn => absurd hn (List.not_mem_nil _)⟩
  | cons n rest ih =>
    intro st st' h
    unfold visitNeighbors at h
    cases ht : absorbTest grid edgeGrid gridWidth gridHeight seed st.2 n with
    | none => rw [ht] at h; exact absurd h (by simp)
    | some b =>
      rw [ht] at h
      cases b with
      | false =>
        obtain ⟨hmono, hcov⟩ := ih st st' h
        refine ⟨hmono, fun n' hn' hb => ?_⟩
        rcases List.mem_cons.mp hn' with rfl | hn'
        · by_contra hnv
          have hin : (⟨n'.1.toNat, n'.2.toNat⟩ : Cell) ∉ st.2 := fun hc => hnv (hmono _ hc)
          rw [habs st.2 n' hb hin] at ht
          exact absurd ht (by simp)
        · exact hcov n' hn' hb
      | true =>
        obtain ⟨hmono, hcov⟩ := ih _ st' h
        refine ⟨fun c hc => hmono c (List.mem_cons_of_mem _ hc), fun n' hn' hb => ?_⟩
        rcases List.mem_cons.mp hn' with rfl | hn'
        · exact hmono _ (List.mem_cons_self _ _)
        · exact hcov n' hn' hb

theorem floodFill_closed (grid : Grid) (edgeGrid : EdgeGrid) (gridWidth gridHeight : ℕ)
    (seed : Cell)
    (habs : ∀ (visited : List Cell) (n : ℤ × ℤ),
      (0 ≤ n.1 ∧ n.1 < (gridWidth : ℤ) ∧ 0 ≤ n.2 ∧ n.2 < (gridHeight : ℤ)) →
      (⟨n.1.toNat, n.2.toNat⟩ : Cell) ∉ visited →
      absorbTest grid edgeGrid gridWidth gridHeight seed visited n = some true) :
    ∀ (fuel : ℕ) (queue region visited : List Cell) (res : List Cell × List Cell),
      floodFill grid edgeGrid gridWidth gridHeight seed fuel queue region visited = some res →
      (∀ c ∈ region, ∀ n ∈ neighborsOf c,
        (0 ≤ n.1 ∧ n.1 < (gridWidth : ℤ) ∧ 0 ≤ n.2 ∧ n.2 < (gridHeight : ℤ)) →
        (⟨n.1.toNat, n.2.toNat⟩ : Cell) ∈ visited) →
      ∀ c ∈ res.1, ∀ n ∈ neighborsOf c,
        (0 ≤ n.1 ∧ n.1 < (gridWidth : ℤ) ∧ 0 ≤ n.2 ∧ n.2 < (gridHeight : ℤ)) →
        (⟨n.1.toNat, n.2.toNat⟩ : Cell) ∈ res.2 := by
  intro fuel
  induction fuel with
  | zero =>
    intro queue region visited res h hc
    cases queue with
    | nil =>
      simp only [floodFill, Option.some.injEq] at h
      rw [← h]; exact hc
    | cons current queue => simp [floodFill] at h
  | succ fuel ih =>
    intro queue region visited res h hc
    cases queue with
    | nil =>
      simp only [floodFill, Option.some.injEq] at h
      rw [← h]; exact hc
    | cons current queue =>
      simp only [floodFill] at h
      cases hst : visitNeighbors grid edgeGrid gridWidth gridHeight seed (neighborsOf current)
          (queue, visited) with
      | none => rw [hst] at h; exact absurd h (by simp)
      | some st =>
        rw [hst] at h
        obtain ⟨hmono, hcov⟩ := visitNeighbors_closed grid edgeGrid gridWidth gridHeight seed
          habs (neighborsOf current) (queue, visited) st hst
        refine ih st.1 (region ++ [current]) st.2 res h ?_
        intro c hcm n hn hb
        rcases List.mem_append.mp hcm with hcm | hcm
        · exact hmono _ (hc c hcm n hn hb)
        · rw [List.mem_singleton.mp hcm] at hn
          exact hcov n hn hb

theorem closed_covers (gridWidth gridHeight : ℕ) (region : List Cell)
    (hseed : (⟨0, 0⟩ : Cell) ∈ region)
    (hclosed : ∀ c ∈ region, ∀ n ∈ neighborsOf c,
      (0 ≤ n.1 ∧ n.1 < (gridWidth : ℤ) ∧ 0 ≤ n.2 ∧ n.2 < (gridHeight : ℤ)) →
      (⟨n.1.toNat, n.2.toNat⟩ : Cell) ∈ region) :
    ∀ c : Cell, InGrid gridWidth gridHeight c → c ∈ region := by
  have hcol : ∀ y, y < gridHeight → 0 < gridWidth → (⟨0, y⟩ : Cell) ∈ region := by
    intro y
    induction y with
    | zero => intro _ _; exact hseed
    | succ y ih =>
      intro hy hw
      have h := hclosed ⟨0, y⟩ (ih (by omega) hw) (((0 : ℕ) : ℤ), ((y : ℕ) : ℤ) + 1)
        (by simp [neighborsOf]) ⟨by simp, by simpa using hw, by omega, by omega⟩
      have he : (⟨(((0 : ℕ) : ℤ)).toNat, (((y : ℕ) : ℤ) + 1).toNat⟩ : Cell) = ⟨0, y + 1⟩ := by
        rw [Cell.mk.injEq]; constructor <;> omega
      rwa [he] at h
  have hrow : ∀ x y, y < gridHeight → x < gridWidth → (⟨x, y⟩ : Cell) ∈ region := by
    intro x
    induction x with
    | zero => intro y hy hw; exact hcol y hy hw
    | succ x ih =>
      intro y hy hx
      have h := hclosed ⟨x, y⟩ (ih y hy (by omega)) (((x : ℕ) : ℤ) + 1, ((y : ℕ) : ℤ))
        (by simp [neighborsOf]) ⟨by omega, by omega, by omega, by omega⟩
      have he : (⟨(((x : ℕ) : ℤ) + 1).toNat, (((y : ℕ) : ℤ)).toNat⟩ : Cell) = ⟨x + 1, y⟩ := by
        rw [Cell.mk.injEq]; constructor <;> omega
      rwa [he] at h
  intro c hc
  exact hrow c.x c.y hc.2 hc.1

theorem nodup_cellsInOrder (gridWidth gridHeight : ℕ) :
    (cellsInOrder gridWidth gridHeight).Nodup := by
  unfold cellsInOrder
  rw [List.nodup_flatMap]
  constructor
  · intro y _
    exact (List.nodup_range gridWidth).map (fun a b h => by
      simpa using congrArg Cell.x h)
  · refine (List.nodup_range gridHeight).imp ?_
    intro a b hab
    simp only [Function.onFun, List.disjoint_left, List.mem_map, List.mem_range]
    rintro c ⟨x, _, rfl⟩ ⟨x', _, h⟩
    exact hab (by simpa using (congrArg Cell.y h).symm)

theorem cellsInOrder_cons (gridWidth gridHeight : ℕ) (hw : 0 < gridWidth)
    (hh : 0 < gridHeight) : ∃ tail, cellsInOrder gridWidth gridHeight = ⟨0, 0⟩ :: tail := by
  obtain ⟨w, rfl⟩ := Nat.exists_eq_succ_of_ne_zero (Nat.pos_iff_ne_zero.mp hw)
  obtain ⟨h, rfl⟩ := Nat.exists_eq_succ_of_ne_zero (Nat.pos_iff_ne_zero.mp hh)
  unfold cellsInOrder
  rw [List.range_succ_eq_map h, List.flatMap_cons, List.range_succ_eq_map w, List.map_cons,
    List.cons_append]
  exact ⟨_, rfl⟩

theorem segmentLoop_all_visited (grid : Grid) (edgeGrid : EdgeGrid)
    (gridWidth gridHeight : ℕ) (cells : List Cell) (st : List (List Cell) × List Cell)
    (h : ∀ c ∈ cells, c ∈ st.2) :
    segmentLoop grid edgeGrid gridWidth gridHeight cells st = some st := by
  induction cells with
  | nil => rfl
  | cons c rest ih =>
    unfold segmentLoop
    rw [if_pos (h c (List.mem_cons_self _ _))]
    exact ih (fun c' hc' => h c' (List.mem_cons_of_mem _ hc'))

theorem grown_singleton (grid : Grid) (edgeGrid : EdgeGrid) (seed : Cell) :
    Grown grid edgeGrid seed [seed] := by
  refine ⟨rfl, ?_⟩
  intro pre c' post heq hpre
  cases pre with
  | nil => exact absurd rfl hpre
  | cons a pre =>
    simp only [List.cons_append, List.cons.injEq] at heq
    exact absurd heq.2 (by simp)

/-- When every neighbour inside the grid that is not yet visited is absorbed, the region
grown from the first cell is the whole grid, and it is the only region. -/
theorem segmentRegions_whole_grid (grid : Grid) (edgeGrid : EdgeGrid)
    (gridWidth gridHeight : ℕ) (hcov : GridsCover grid edgeGrid gridWidth gridHeight)
    (hsize : 3 ≤ gridWidth * gridHeight)
    (habs : ∀ (visited : List Cell) (n : ℤ × ℤ),
      (0 ≤ n.1 ∧ n.1 < (gridWidth : ℤ) ∧ 0 ≤ n.2 ∧ n.2 < (gridHeight : ℤ)) →
      (⟨n.1.toNat, n.2.toNat⟩ : Cell) ∉ visited →
      absorbTest grid edgeGrid gridWidth gridHeight ⟨0, 0⟩ visited n = some true) :
    ∃ region, _segmentRegions grid edgeGrid gridWidth gridHeight = some [region] ∧
      region.length = gridWidth * gridHeight ∧
      ∀ c, c ∈ region ↔ InGrid gridWidth gridHeight c := by
  have hw : 0 < gridWidth := by
    rcases Nat.eq_zero_or_pos gridWidth with h | h
    · rw [h] at hsize; simp at hsize
    · exact h
  have hh : 0 < gridHeight := by
    rcases Nat.eq_zero_or_pos gridHeight with h | h
    · rw [h] at hsize; simp at hsize
    · exact h
  obtain ⟨tail, htail⟩ := cellsInOrder_cons gridWidth gridHeight hw hh
  have hseed : InGrid gridWidth gridHeight ⟨0, 0⟩ := ⟨hw, hh⟩
  obtain ⟨res, hres, hinv⟩ := floodFill_spec grid edgeGrid gridWidth gridHeight hcov ⟨0, 0⟩
    hseed [] (gridWidth * gridHeight) [⟨0, 0⟩] [] [⟨0, 0⟩]
    ⟨by simp, by intro c hc; simp at hc; rw [hc]; exact ⟨hseed, by simp⟩, by simp⟩ (by simp)
  have hmarks : ∀ c, c ∈ res.2 ↔ c ∈ res.1 := by
    intro c
    rw [hinv.marks c]
    simp
  have hgrown := floodFill_grown grid edgeGrid gridWidth gridHeight ⟨0, 0⟩ _ _ _ _ res hres
    (grown_singleton grid edgeGrid ⟨0, 0⟩)
  have hmem0 : (⟨0, 0⟩ : Cell) ∈ res.1 := List.mem_of_mem_head? hgrown.1
  have hclosed := floodFill_closed grid edgeGrid gridWidth gridHeight ⟨0, 0⟩ habs _ _ _ _ res
    hres (by simp)
  have hall : ∀ c : Cell, InGrid gridWidth gridHeight c → c ∈ res.1 :=
    closed_covers gridWidth gridHeight res.1 hmem0
      (fun c hc n hn hb => (hmarks _).mp (hclosed c hc n hn hb))
  have hnodup : res.1.Nodup := by simpa using hinv.nodup
  have hin : ∀ c ∈ res.1, InGrid gridWidth gridHeight c :=
    fun c hc => (hinv.fresh c (by simpa using hc)).1
  have hlen : res.1.length = gridWidth * gridHeight := by
    apply le_antisymm (length_le_of_inGrid gridWidth gridHeight res.1 hnodup hin)
    have hsub : cellsInOrder gridWidth gridHeight ⊆ res.1 :=
      fun c hc => hall c ((mem_cellsInOrder gridWidth gridHeight c).mp hc)
    have h := (List.subperm_of_subset (nodup_cellsInOrder gridWidth gridHeight) hsub).length_le
    rwa [length_cellsInOrder] at h
  refine ⟨res.1, ?_, hlen, fun c => ⟨hin c, hall c⟩⟩
  unfold _segmentRegions
  rw [htail]
  unfold segmentLoop
  rw [if_neg (by simp)]
  simp only [hres]
  rw [if_pos (by omega)]
  rw [segmentLoop_all_visited]
  · rfl
  · intro c hc
    refine (hmarks c).mpr (hall c ?_)
    exact (mem_cellsInOrder gridWidth gridHeight c).mp (htail ▸ List.mem_cons_of_mem _ hc)

theorem uniformFeature_gray (v : ℕ) : uniformFeature v v v = grayBlock v := by
  have hv : (0 : ℚ) ≤ (v : ℚ) := Nat.cast_nonneg v
  have h1 : ¬ ((v : ℚ) > (v : ℚ) * 1.15) := by
    intro hc; nlinarith
  have h2 : ¬ ((v : ℚ) > (v : ℚ) * 1.1) := by
    intro hc; nlinarith
  have hcls : classifyPixel (v : ℚ) v v = PixelClass.gray := by
    unfold classifyPixel
    rw [if_neg (fun hc => h1 hc.1), if_pos (by simp)]
  simp [uniformFeature, grayBlock, hcls, h1, h2]

theorem colorDifference_self (block : BlockFeature) : _colorDifference block block = 0 := by
  simp [_colorDifference]

theorem isSimilarBlock_self (block : BlockFeature) : _isSimilarBlock block block = true := by
  simp only [_isSimilarBlock, colorDifference_self, sub_self, abs_zero]
  norm_num

theorem edgeValueAt_uniform (grid : Grid) (gridWidth gridHeight : ℕ) (f : BlockFeature)
    (hf : f.edges = 0)
    (hgrid : ∀ y, y < gridHeight → ∀ x, x < gridWidth → gridAt grid ⟨x, y⟩ = some f)
    (x y : ℕ) (hx : x < gridWidth) (hy : y < gridHeight) :
    edgeValueAt grid gridWidth gridHeight x y = 0 := by
  unfold edgeValueAt
  rw [hgrid y hy x hx]
  by_cases hr : x + 1 < gridWidth
  · by_cases hb : y + 1 < gridHeight
    · simp [specEdgeValue, hr, hb, hgrid y hy (x + 1) hr, hgrid (y + 1) hb x hx, hf,
        colorDifference_self]
    · simp [specEdgeValue, hr, hb, hgrid y hy (x + 1) hr, hf, colorDifference_self]
  · by_cases hb : y + 1 < gridHeight
    · simp [specEdgeValue, hr, hb, hgrid (y + 1) hb x hx, hf, colorDifference_self]
    · simp [specEdgeValue, hr, hb, hf]

theorem absorbTest_uniform (grid : Grid) (edgeGrid : EdgeGrid) (gridWidth gridHeight : ℕ)
    (f : BlockFeature)
    (hgrid : ∀ y, y < gridHeight → ∀ x, x < gridWidth → gridAt grid ⟨x, y⟩ = some f)
    (hedge : ∀ y, y < gridHeight → ∀ x, x < gridWidth → edgeAt edgeGrid ⟨x, y⟩ = some 0)
    (seed : Cell) (hseed : InGrid gridWidth gridHeight seed) (visited : List Cell) (n : ℤ × ℤ)
    (hb : 0 ≤ n.1 ∧ n.1 < (gridWidth : ℤ) ∧ 0 ≤ n.2 ∧ n.2 < (gridHeight : ℤ))
    (hv : (⟨n.1.toNat, n.2.toNat⟩ : Cell) ∉ visited) :
    absorbTest grid edgeGrid gridWidth gridHeight seed visited n = some true := by
  have hx : n.1.toNat < gridWidth := by omega
  have hy : n.2.toNat < gridHeight := by omega
  have he := hedge n.2.toNat hy n.1.toNat hx
  unfold edgeAt at he
  cases hrow : edgeGrid[n.2.toNat]? with
  | none => simp [hrow] at he
  | some row =>
    simp only [hrow] at he
    simp only [absorbTest, if_pos hb, if_neg hv, hrow, he, hgrid seed.y hseed.2 seed.x hseed.1,
      hgrid n.2.toNat hy n.1.toNat hx, isSimilarBlock_self]
    norm_num

theorem fallback_debug_none (width height : ℚ) (aspectRatio : JsNum) (g : ℕ → ℚ) :
    ∀ d ∈ _generateFallbackDetections width height aspectRatio g, d.debug = none := by
  intro d hd
  unfold _generateFallbackDetections fallbackLoop at hd
  rw [mem_sortByConfidence] at hd
  exact fallbackFold_forall (fun d => d.debug = none) _ _ _ _ _
    (fun _ _ => ⟨_, rfl, rfl⟩) _ _ (by simp) d hd

/-- C28 (counterexample): for the 4 x 4 image of mid-gray pixels with blocks of 2 x 2
pixels (a block grid of 4 cells) the edge grid is zero, `_segmentRegions` returns one
region of 4 cells, and `_classifyRegions` returns that region as a building of
confidence 0.95 with its scores, not the fallback list. -/
theorem uniform_gray_image_example :
    _detectEdges sampleGrayFeatureGrid 2 2 = some [[0, 0], [0, 0]] ∧
      _segmentRegions sampleGrayFeatureGrid [[0, 0], [0, 0]] 2 2 = some [sampleRegion] ∧
      sampleRegion.length = 4 ∧
      (_classifyRegions [sampleRegion] sampleGrayFeatureGrid 4 4 2 halfSource).map
          (fun ds => ds.map (fun d => (d.cls, d.confidence, d.debug.isSome))) =
        some [(-1, 0.95, true)] ∧
      _classifyRegions [sampleRegion] sampleGrayFeatureGrid 4 4 2 halfSource ≠
        some (_generateFallbackDetections 4 4 (jsDiv 4 4) halfSource) := by
  refine ⟨by decide!, by decide!, rfl, by decide!, by decide!⟩

/-- C28 (amended): for every feature grid of at least 4 cells whose blocks are all
computed by `_analyzeImageBlock` from pixels of one gray value `(v, v, v)`, with its
`_detectEdges` edge grid `_segmentRegions` returns exactly one region, which consists of
all cells of the grid, and `_classifyRegions` returns for it one detection of class -1
(building) with confidence 0.95, which is not the list of the fallback generator. -/
theorem uniform_gray_image_one_region (grid : Grid) (gridWidth gridHeight : ℕ) (v : ℕ)
    (imgWidth imgHeight blockSize : ℚ) (random : ℕ → ℚ)
    (hsize : 4 ≤ gridWidth * gridHeight)
    (hgrid : ∀ y, y < gridHeight → ∀ x, x < gridWidth →
      ∃ (pixelData : PixelData) (w h startX startY : ℕ) (blockWidth blockHeight : ℤ),
        UniformBlock pixelData w h startX startY blockWidth blockHeight v v v ∧
        gridAt grid ⟨x, y⟩ =
          some (_analyzeImageBlock pixelData w h startX startY blockWidth blockHeight)) :
    ∃ edgeGrid region d,
      _detectEdges grid gridWidth gridHeight = some edgeGrid ∧
      _segmentRegions grid edgeGrid gridWidth gridHeight = some [region] ∧
      region.length = gridWidth * gridHeight ∧
      (∀ c : Cell, c ∈ region ↔ c.x < gridWidth ∧ c.y < gridHeight) ∧
      _classifyRegions [region] grid imgWidth imgHeight blockSize random = some [d] ∧
      d.cls = -1 ∧ d.confidence = 0.95 ∧
      ∀ g : ℕ → ℚ,
        _generateFallbackDetections imgWidth imgHeight (jsDiv imgWidth imgHeight) g ≠ [d] := by
  have hg : ∀ y, y < gridHeight → ∀ x, x < gridWidth →
      gridAt grid ⟨x, y⟩ = some (grayBlock v) := by
    intro y hy x hx
    obtain ⟨pixelData, w, h, sx, sy, bw, bh, hu, hf⟩ := hgrid y hy x hx
    rw [hf, analyze_uniform pixelData w h sx sy bw bh v v v hu, uniformFeature_gray]
  have hcovers : GridCovers grid gridWidth gridHeight := by
    intro y hy x hx
    rw [hg y hy x hx]; rfl
  have hedges := detectEdges_eq grid gridWidth gridHeight hcovers
  have hedge : ∀ y, y < gridHeight → ∀ x, x < gridWidth →
      edgeAt ((List.range gridHeight).map (fun y =>
        (List.range gridWidth).map (fun x => edgeValueAt grid gridWidth gridHeight x y)))
        ⟨x, y⟩ = some 0 := by
    intro y hy x hx
    rw [edgeAt_map_range gridWidth gridHeight _ x y hx hy,
      edgeValueAt_uniform grid gridWidth gridHeight (grayBlock v) rfl hg x y hx hy]
  have hcov : GridsCover grid ((List.range gridHeight).map (fun y =>
      (List.range gridWidth).map (fun x => edgeValueAt grid gridWidth gridHeight x y)))
      gridWidth gridHeight := by
    intro y hy x hx
    refine ⟨by rw [hg y hy x hx]; rfl, ?_⟩
    simp [hy]
  have hw : 0 < gridWidth := by
    rcases Nat.eq_zero_or_pos gridWidth with h | h
    · rw [h] at hsize; simp at hsize
    · exact h
  have hh : 0 < gridHeight := by
    rcases Nat.eq_zero_or_pos gridHeight with h | h
    · rw [h] at hsize; simp at hsize
    · exact h
  obtain ⟨region, hreg, hlen, hmem⟩ := segmentRegions_whole_grid grid _ gridWidth gridHeight
    hcov (by omega)
    (absorbTest_uniform grid _ gridWidth gridHeight (grayBlock v) hg hedge ⟨0, 0⟩ ⟨hw, hh⟩)
  obtain ⟨acc, hacc, _, _, hobj⟩ := regionObject_gray grid region (by omega)
    (fun c hc => ⟨grayBlock v, hg c.y ((hmem c).mp hc).2 c.x ((hmem c).mp hc).1,
      rfl, rfl, rfl, rfl, rfl⟩) imgHeight blockSize
  refine ⟨_, region, _, hedges, hreg, hlen, hmem,
    classifyRegions_single grid region acc imgWidth imgHeight blockSize random (by omega) hacc,
    (hobj _ _ _ _).1, (hobj _ _ _ _).2, ?_⟩
  intro g hfb
  have hnone := fallback_debug_none imgWidth imgHeight (jsDiv imgWidth imgHeight) g _
    (hfb ▸ List.mem_singleton_self _)
  rw [regionObject_debug_eq] at hnone
  exact absurd hnone (by simp)

/-- Instance of C28 (amended) at the 4 x 4 image of mid-gray pixels with blocks of 2 x 2
pixels. -/
theorem uniform_gray_image_one_region_witness :
    ∃ edgeGrid region d,
      _detectEdges sampleGrayFeatureGrid 2 2 = some edgeGrid ∧
      _segmentRegions sampleGrayFeatureGrid edgeGrid 2 2 = some [region] ∧
      region.length = 2 * 2 ∧
      (∀ c : Cell, c ∈ region ↔ c.x < 2 ∧ c.y < 2) ∧
      _classifyRegions [region] sampleGrayFeatureGrid 4 4 2 halfSource = some [d] ∧
      d.cls = -1 ∧ d.confidence = 0.95 ∧
      ∀ g : ℕ → ℚ, _generateFallbackDetections 4 4 (jsDiv 4 4) g ≠ [d] :=
  uniform_gray_image_one_region sampleGrayFeatureGrid 2 2 128 4 4 2 halfSource (by decide)
    (fun y hy x hx =>
      ⟨sampleGrayImage4, 4, 4, x * 2, y * 2, 2, 2, by
        revert y x; decide, by revert y x; decide!⟩)

/-! ## Claims about the overlap ratio of `_resolveOverlaps` -/

theorem inter_width_le (ax aw bx bw : ℚ) (ha : 0 < aw) (hb : 0 < bw) :
    max 0 (min (ax + aw) (bx + bw) - max ax bx) ≤ min aw bw := by
  apply max_le
  · exact le_min ha.le hb.le
  · apply le_min
    · have h1 : min (ax + aw) (bx + bw) ≤ ax + aw := min_le_left _ _
      have h2 : ax ≤ max ax bx := le_max_left _ _
      linarith
    · have h1 : min (ax + aw) (bx + bw) ≤ bx + bw := min_le_right _ _
      have h2 : bx ≤ max ax bx := le_max_right _ _
      linarith

theorem calculateOverlap_eq (a b : BBox) (ha : a.Positive) (hb : b.Positive) :
    calculateOverlap a b =
      JsNum.fin
        (max 0 (min (a.x + a.width) (b.x + b.width) - max a.x b.x) *
          max 0 (min (a.y + a.height) (b.y + b.height) - max a.y b.y) /
          min (a.width * a.height) (b.width * b.height)) := by
  have h1 : 0 < a.width * a.height := mul_pos ha.1 ha.2
  have h2 : 0 < b.width * b.height := mul_pos hb.1 hb.2
  have h3 : min (a.width * a.height) (b.width * b.height) ≠ 0 := (lt_min h1 h2).ne'
  simp only [calculateOverlap, jsDiv, if_neg h3]

theorem overlap_product_eq_spec (a b : BBox) :
    max 0 (min (a.x + a.width) (b.x + b.width) - max a.x b.x) *
        max 0 (min (a.y + a.height) (b.y + b.height) - max a.y b.y) =
      specIntersectionArea a b := by
  unfold specIntersectionArea
  simp only []
  by_cases h : max a.x b.x < min (a.x + a.width) (b.x + b.width) ∧
      max a.y b.y < min (a.y + a.height) (b.y + b.height)
  · have hX : max 0 (min (a.x + a.width) (b.x + b.width) - max a.x b.x) =
        min (a.x + a.width) (b.x + b.width) - max a.x b.x :=
      max_eq_right (by linarith [h.1])
    have hY : max 0 (min (a.y + a.height) (b.y + b.height) - max a.y b.y) =
        min (a.y + a.height) (b.y + b.height) - max a.y b.y :=
      max_eq_right (by linarith [h.2])
    rw [if_pos h, hX, hY]
  · rw [if_neg h]
    rw [not_and_or] at h
    rcases h with h | h
    · have hX : max 0 (min (a.x + a.width) (b.x + b.width) - max a.x b.x) = 0 :=
        max_eq_left (by linarith [not_lt.mp h])
      rw [hX, zero_mul]
    · have hY : max 0 (min (a.y + a.height) (b.y + b.height) - max a.y b.y) = 0 :=
        max_eq_left (by linarith [not_lt.mp h])
      rw [hY, mul_zero]

theorem overlap_product_apart (a b : BBox) (hap : a.Apart b) :
    max 0 (min (a.x + a.width) (b.x + b.width) - max a.x b.x) *
        max 0 (min (a.y + a.height) (b.y + b.height) - max a.y b.y) = 0 := by
  have l1 := min_le_left (a.x + a.width) (b.x + b.width)
  have l2 := min_le_right (a.x + a.width) (b.x + b.width)
  have l3 := le_max_left a.x b.x
  have l4 := le_max_right a.x b.x
  have l5 := min_le_left (a.y + a.height) (b.y + b.height)
  have l6 := min_le_right (a.y + a.height) (b.y + b.height)
  have l7 := le_max_left a.y b.y
  have l8 := le_max_right a.y b.y
  rcases hap with h | h | h | h
  · have hX : max 0 (min (a.x + a.width) (b.x + b.width) - max a.x b.x) = 0 :=
      max_eq_left (by linarith)
    rw [hX, zero_mul]
  · have hX : max 0 (min (a.x + a.width) (b.x + b.width) - max a.x b.x) = 0 :=
      max_eq_left (by linarith)
    rw [hX, zero_mul]
  · have hY : max 0 (min (a.y + a.height) (b.y + b.height) - max a.y b.y) = 0 :=
      max_eq_left (by linarith)
    rw [hY, mul_zero]
  · have hY : max 0 (min (a.y + a.height) (b.y + b.height) - max a.y b.y) = 0 :=
      max_eq_left (by linarith)
    rw [hY, mul_zero]

theorem overlap_product_contains (a b : BBox) (hb : b.Positive) (hc : a.Contains b) :
    max 0 (min (a.x + a.width) (b.x + b.width) - max a.x b.x) *
        max 0 (min (a.y + a.height) (b.y + b.height) - max a.y b.y) = b.width * b.height := by
  obtain ⟨c1, c2, c3, c4⟩ := hc
  have hX : max 0 (min (a.x + a.width) (b.x + b.width) - max a.x b.x) = b.width := by
    rw [min_eq_right c3, max_eq_right c1]
    have e1 : b.x + b.width - b.x = b.width := by ring
    rw [e1, max_eq_right hb.1.le]
  have hY : max 0 (min (a.y + a.height) (b.y + b.height) - max a.y b.y) = b.height := by
    rw [min_eq_right c4, max_eq_right c2]
    have e2 : b.y + b.height - b.y = b.height := by ring
    rw [e2, max_eq_right hb.2.le]
  rw [hX, hY]

theorem calculateOverlap_comm (a b : BBox) : calculateOverlap a b = calculateOverlap b a := by
  unfold calculateOverlap
  simp only [min_comm (a.x + a.width), max_comm a.x, min_comm (a.y + a.height), max_comm a.y,
    min_comm (a.width * a.height)]

/-- C34: for every two boxes with positive width and height, the overlap ratio that
`_resolveOverlaps` computes equals (area of the intersection rectangle) /
min(area(a), area(b)); it lies in `[0, 1]`, is symmetric in `a` and `b`, is 0 when the
boxes are disjoint and is 1 when one box contains the other. -/
theorem calculateOverlap_spec (a b : BBox) (ha : a.Positive) (hb : b.Positive) :
    calculateOverlap a b = JsNum.fin (specOverlap a b) ∧
      0 ≤ specOverlap a b ∧ specOverlap a b ≤ 1 ∧
      calculateOverlap a b = calculateOverlap b a ∧
      (a.Apart b → calculateOverlap a b = JsNum.fin 0) ∧
      (a.Contains b ∨ b.Contains a → calculateOverlap a b = JsNum.fin 1) := by
  have h1 : 0 < a.width * a.height := mul_pos ha.1 ha.2
  have h2 : 0 < b.width * b.height := mul_pos hb.1 hb.2
  have hmin : 0 < min (a.width * a.height) (b.width * b.height) := lt_min h1 h2
  have heq : calculateOverlap a b = JsNum.fin (specOverlap a b) := by
    rw [calculateOverlap_eq a b ha hb, overlap_product_eq_spec]
    rfl
  have hx0 : 0 ≤ max 0 (min (a.x + a.width) (b.x + b.width) - max a.x b.x) := le_max_left _ _
  have hy0 : 0 ≤ max 0 (min (a.y + a.height) (b.y + b.height) - max a.y b.y) := le_max_left _ _
  have hxw := inter_width_le a.x a.width b.x b.width ha.1 hb.1
  have hyh := inter_width_le a.y a.height b.y b.height ha.2 hb.2
  have hspec : specOverlap a b =
      max 0 (min (a.x + a.width) (b.x + b.width) - max a.x b.x) *
        max 0 (min (a.y + a.height) (b.y + b.height) - max a.y b.y) /
        min (a.width * a.height) (b.width * b.height) := by
    unfold specOverlap BBox.area
    rw [overlap_product_eq_spec]
  refine ⟨heq, ?_, ?_, ?_, ?_, ?_⟩
  · rw [hspec]
    exact div_nonneg (mul_nonneg hx0 hy0) hmin.le
  · rw [hspec, div_le_one hmin]
    apply le_min
    · exact mul_le_mul (le_trans hxw (min_le_left _ _)) (le_trans hyh (min_le_left _ _)) hy0
        ha.1.le
    · exact mul_le_mul (le_trans hxw (min_le_right _ _)) (le_trans hyh (min_le_right _ _)) hy0
        hb.1.le
  · exact calculateOverlap_comm a b
  · intro hap
    rw [calculateOverlap_eq a b ha hb, overlap_product_apart a b hap, zero_div]
  · intro hc
    rcases hc with hc | hc
    · have hw : b.width ≤ a.width := by
        obtain ⟨c1, _, c3, _⟩ := hc; linarith
      have hh : b.height ≤ a.height := by
        obtain ⟨_, c2, _, c4⟩ := hc; linarith
      rw [calculateOverlap_eq a b ha hb, overlap_product_contains a b hb hc,
        min_eq_right (mul_le_mul hw hh hb.2.le ha.1.le), div_self h2.ne']
    · have hw : a.width ≤ b.width := by
        obtain ⟨c1, _, c3, _⟩ := hc; linarith
      have hh : a.height ≤ b.height := by
        obtain ⟨_, c2, _, c4⟩ := hc; linarith
      rw [calculateOverlap_comm a b, calculateOverlap_eq b a hb ha,
        overlap_product_contains b a ha hc,
        min_eq_right (mul_le_mul hw hh ha.2.le hb.1.le), div_self h1.ne']

/-- Instance of C34 at the boxes `[0, 10] x [0, 10]` and `[8, 18] x [0, 10]`. -/
theorem calculateOverlap_spec_witness :
    calculateOverlap ⟨0, 0, 10, 10⟩ ⟨8, 0, 10, 10⟩ =
        JsNum.fin (specOverlap ⟨0, 0, 10, 10⟩ ⟨8, 0, 10, 10⟩) ∧
      0 ≤ specOverlap ⟨0, 0, 10, 10⟩ ⟨8, 0, 10, 10⟩ ∧
      specOverlap ⟨0, 0, 10, 10⟩ ⟨8, 0, 10, 10⟩ ≤ 1 ∧
      calculateOverlap ⟨0, 0, 10, 10⟩ ⟨8, 0, 10, 10⟩ =
        calculateOverlap ⟨8, 0, 10, 10⟩ ⟨0, 0, 10, 10⟩ ∧
      (BBox.Apart ⟨0, 0, 10, 10⟩ ⟨8, 0, 10, 10⟩ →
        calculateOverlap ⟨0, 0, 10, 10⟩ ⟨8, 0, 10, 10⟩ = JsNum.fin 0) ∧
      (BBox.Contains ⟨0, 0, 10, 10⟩ ⟨8, 0, 10, 10⟩ ∨
          BBox.Contains ⟨8, 0, 10, 10⟩ ⟨0, 0, 10, 10⟩ →
        calculateOverlap ⟨0, 0, 10, 10⟩ ⟨8, 0, 10, 10⟩ = JsNum.fin 1) :=
  calculateOverlap_spec ⟨0, 0, 10, 10⟩ ⟨8, 0, 10, 10⟩ (by decide!) (by decide!)

/-! ## Claims about `_resolveOverlaps` on two detections -/

theorem resolveOverlaps_pair_merge (a b : Detection) (h : HeavyOverlap a b) :
    _resolveOverlaps [a, b] =
      [{ a with
          bbox := mergeBBox a.bbox b.bbox
          confidence := max a.confidence b.confidence }] := by
  obtain ⟨hc, ho⟩ := h
  have hr : List.range 2 = [0, 1] := rfl
  simp [_resolveOverlaps, resolveStep, absorbStep, hr, hc, ho]

theorem resolveOverlaps_pair_keep (a b : Detection) (h : ¬ HeavyOverlap a b) :
    _resolveOverlaps [a, b] = [a, b] := by
  have hr : List.range 2 = [0, 1] := rfl
  unfold HeavyOverlap at h
  by_cases hc : a.cls = b.cls
  · have ho : (calculateOverlap a.bbox b.bbox).gt 0.7 = false := by
      cases hgt : (calculateOverlap a.bbox b.bbox).gt 0.7 with
      | true => exact absurd ⟨hc, hgt⟩ h
      | false => rfl
    simp [_resolveOverlaps, resolveStep, absorbStep, hr, hc, ho]
  · simp [_resolveOverlaps, resolveStep, absorbStep, hr, hc]

/-- C31: for every list of exactly two detections of the same category whose overlap
ratio exceeds 0.7, `_resolveOverlaps` returns exactly one detection: the first with its
box replaced by the smallest box that contains both (x = min x, y = min y, right edge =
max right edge, bottom edge = max bottom edge) and its confidence by the maximum of the
two. -/
theorem resolveOverlaps_two_merged (a b : Detection) (hpa : a.bbox.Positive)
    (hpb : b.bbox.Positive) (hcls : a.cls = b.cls)
    (hov : 0.7 < specOverlap a.bbox b.bbox) :
    ∃ d, _resolveOverlaps [a, b] = [d] ∧
      d.bbox.x = min a.bbox.x b.bbox.x ∧ d.bbox.y = min a.bbox.y b.bbox.y ∧
      d.bbox.x + d.bbox.width =
        max (a.bbox.x + a.bbox.width) (b.bbox.x + b.bbox.width) ∧
      d.bbox.y + d.bbox.height =
        max (a.bbox.y + a.bbox.height) (b.bbox.y + b.bbox.height) ∧
      d.confidence = max a.confidence b.confidence ∧ d.cls = a.cls ∧
      d.bbox.Contains a.bbox ∧ d.bbox.Contains b.bbox := by
  have hgt : (calculateOverlap a.bbox b.bbox).gt 0.7 = true := by
    rw [calculateOverlap_eq a.bbox b.bbox hpa hpb, overlap_product_eq_spec]
    simpa [JsNum.gt, specOverlap, BBox.area] using hov
  refine ⟨_, resolveOverlaps_pair_merge a b ⟨hcls, hgt⟩, rfl, rfl, ?_, ?_, rfl, rfl, ?_, ?_⟩
  · simp [mergeBBox]
  · simp [mergeBBox]
  · simp [mergeBBox, BBox.Contains]
  · simp [mergeBBox, BBox.Contains]

/-- Instance of C31 at two trees, the second box inside the first. -/
theorem resolveOverlaps_two_merged_witness :
    ∃ d, _resolveOverlaps [sampleDetection 58 0 0 10 10 (9 / 10),
        sampleDetection 58 8 0 2 2 (8 / 10)] = [d] ∧
      d.bbox.x = min 0 8 ∧ d.bbox.y = min 0 0 ∧
      d.bbox.x + d.bbox.width = max ((0 : ℚ) + 10) (8 + 2) ∧
      d.bbox.y + d.bbox.height = max ((0 : ℚ) + 10) (0 + 2) ∧
      d.confidence = max (9 / 10) (8 / 10) ∧ d.cls = 58 ∧
      d.bbox.Contains ⟨0, 0, 10, 10⟩ ∧ d.bbox.Contains ⟨8, 0, 2, 2⟩ :=
  resolveOverlaps_two_merged (sampleDetection 58 0 0 10 10 (9 / 10))
    (sampleDetection 58 8 0 2 2 (8 / 10)) (by decide!) (by decide!) (by decide) (by decide!)

/-- C32: for every list of exactly two detections that belong to different categories
or whose overlap ratio does not exceed 0.7, `_resolveOverlaps` returns both detections
unchanged, in input order. -/
theorem resolveOverlaps_two_kept (a b : Detection) (hpa : a.bbox.Positive)
    (hpb : b.bbox.Positive)
    (h : a.cls ≠ b.cls ∨ specOverlap a.bbox b.bbox ≤ 0.7) :
    _resolveOverlaps [a, b] = [a, b] := by
  apply resolveOverlaps_pair_keep
  rintro ⟨hc, ho⟩
  rcases h with h | h
  · exact h hc
  · rw [calculateOverlap_eq a.bbox b.bbox hpa hpb, overlap_product_eq_spec] at ho
    have ho' : (0.7 : ℚ) < specOverlap a.bbox b.bbox := by
      simpa [JsNum.gt, specOverlap, BBox.area] using ho
    linarith

/-- Instance of C32 at two trees whose overlap ratio is 0.2. -/
theorem resolveOverlaps_two_kept_witness :
    _resolveOverlaps [sampleDetection 58 0 0 10 10 (9 / 10),
        sampleDetection 58 8 0 10 10 (7 / 10)] =
      [sampleDetection 58 0 0 10 10 (9 / 10), sampleDetection 58 8 0 10 10 (7 / 10)] :=
  resolveOverlaps_two_kept (sampleDetection 58 0 0 10 10 (9 / 10))
    (sampleDetection 58 8 0 10 10 (7 / 10)) (by decide!) (by decide!)
    (Or.inr (by decide!))

/-! ## Lemmas: the anchors of `_resolveOverlaps` -/

theorem contains_refl (b : BBox) : b.Contains b := ⟨le_rfl, le_rfl, le_rfl, le_rfl⟩

theorem contains_trans (a b c : BBox) (h1 : a.Contains b) (h2 : b.Contains c) :
    a.Contains c :=
  ⟨le_trans h1.1 h2.1, le_trans h1.2.1 h2.2.1, le_trans h2.2.2.1 h1.2.2.1,
    le_trans h2.2.2.2 h1.2.2.2⟩

theorem mergeBBox_contains_left (cur other : BBox) : (mergeBBox cur other).Contains cur := by
  simp [mergeBBox, BBox.Contains]

theorem mergeBBox_contains_right (cur other : BBox) :
    (mergeBBox cur other).Contains other := by
  simp [mergeBBox, BBox.Contains]

theorem absorbStep_cases (objects : List Detection) (i : ℕ) (st : Detection × List ℕ)
    (j : ℕ) :
    absorbStep objects i st j = st ∨
      ∃ oi oj, objects[i]? = some oi ∧ objects[j]? = some oj ∧ oi.cls = oj.cls ∧ j ≠ i ∧
        j ∉ st.2 ∧ (calculateOverlap st.1.bbox oj.bbox).gt 0.7 = true ∧
        absorbStep objects i st j =
          ({ st.1 with
              bbox := mergeBBox st.1.bbox oj.bbox
              confidence := max st.1.confidence oj.confidence },
            j :: st.2) := by
  unfold absorbStep
  by_cases h1 : i = j ∨ j ∈ st.2
  · left; rw [if_pos h1]
  · rw [if_neg h1]
    rw [not_or] at h1
    cases hi : objects[i]? with
    | none => left; rfl
    | some oi =>
      cases hj : objects[j]? with
      | none => left; rfl
      | some oj =>
        simp only []
        by_cases hc : oi.cls ≠ oj.cls
        · left; rw [if_pos hc]
        · rw [if_neg hc]
          by_cases ho : (calculateOverlap st.1.bbox oj.bbox).gt 0.7 = true
          · right
            rw [if_pos ho]
            exact ⟨oi, oj, rfl, rfl, not_not.mp hc, fun h => h1.1 h.symm, h1.2, ho, rfl⟩
          · left; rw [if_neg ho]

theorem absorbStep_inv (objects : List Detection) (i : ℕ) (oi : Detection)
    (hoi : objects[i]? = some oi) (used₀ : List ℕ) (st : Detection × List ℕ) (j : ℕ)
    (h : AbsorbInv objects i oi used₀ st) :
    AbsorbInv objects i oi used₀ (absorbStep objects i st j) := by
  rcases absorbStep_cases objects i st j with he | ⟨oi', oj, hi, hj, hc, _, _, _, he⟩
  · rw [he]; exact h
  · rw [he]
    rw [hoi] at hi
    cases Option.some.inj hi
    refine ⟨h.cls, contains_trans _ _ _ (mergeBBox_contains_left _ _) h.box,
      List.mem_cons_of_mem _ h.self, fun k hk => List.mem_cons_of_mem _ (h.old k hk), ?_⟩
    intro k hk
    rcases List.mem_cons.mp hk with rfl | hk
    · exact Or.inr (Or.inr ⟨oj, hj, hc.symm, mergeBBox_contains_right _ _⟩)
    · rcases h.absorbed k hk with h1 | h1 | ⟨o, ho, hoc, hob⟩
      · exact Or.inl h1
      · exact Or.inr (Or.inl h1)
      · exact Or.inr (Or.inr ⟨o, ho, hoc,
          contains_trans _ _ _ (mergeBBox_contains_left _ _) hob⟩)

theorem absorbFold_inv (objects : List Detection) (i : ℕ) (oi : Detection)
    (hoi : objects[i]? = some oi) (used₀ : List ℕ) (l : List ℕ) :
    ∀ st : Detection × List ℕ, AbsorbInv objects i oi used₀ st →
      AbsorbInv objects i oi used₀ (l.foldl (absorbStep objects i) st) := by
  induction l with
  | nil => intro st h; exact h
  | cons j l ih =>
    intro st h
    rw [List.foldl_cons]
    exact ih _ (absorbStep_inv objects i oi hoi used₀ st j h)

theorem absorbInv_init (objects : List Detection) (i : ℕ) (oi : Detection)
    (used₀ : List ℕ) : AbsorbInv objects i oi used₀ (oi, i :: used₀) :=
  ⟨rfl, contains_refl _, List.mem_cons_self _ _, fun _ hj => List.mem_cons_of_mem _ hj,
    fun j hj => by
      rcases List.mem_cons.mp hj with h | h
      · exact Or.inl h
      · exact Or.inr (Or.inl h)⟩

theorem resolveStep_inv (objects : List Detection) (m : ℕ) (hm : m < objects.length)
    (pairs : List (Detection × ℕ)) (st : List Detection × List ℕ)
    (h : ResolveInv objects m pairs st) :
    ∃ pairs', ResolveInv objects (m + 1) pairs' (resolveStep objects st m) := by
  unfold resolveStep
  by_cases hu : m ∈ st.2
  · rw [if_pos hu]
    refine ⟨pairs, ⟨h.out, h.sorted, fun p hp => Nat.lt_succ_of_lt (h.bound p hp), h.anchor,
      ?_, h.covered⟩⟩
    intro i hi hin
    rcases Nat.lt_succ_iff_lt_or_eq.mp hi with hi | rfl
    · exact h.used i hi hin
    · exact hu
  · rw [if_neg hu]
    obtain ⟨oi, hoi⟩ : ∃ oi, objects[m]? = some oi :=
      ⟨objects[m], List.getElem?_eq_getElem hm⟩
    simp only [hoi]
    have hinv := absorbFold_inv objects m oi hoi st.2 (List.range objects.length) _
      (absorbInv_init objects m oi st.2)
    generalize (List.range objects.length).foldl (absorbStep objects m) (oi, m :: st.2) = inner
      at hinv
    refine ⟨pairs ++ [(inner.1, m)], ⟨?_, ?_, ?_, ?_, ?_, ?_⟩⟩
    · simp [h.out]
    · rw [List.map_append, List.map_singleton]
      unfold List.Sorted
      rw [List.pairwise_append]
      refine ⟨h.sorted, List.pairwise_singleton _ _, ?_⟩
      intro a ha b hb
      rw [List.mem_singleton.mp hb]
      obtain ⟨p, hp, rfl⟩ := List.mem_map.mp ha
      exact h.bound p hp
    · intro p hp
      rcases List.mem_append.mp hp with hp | hp
      · exact Nat.lt_succ_of_lt (h.bound p hp)
      · rw [List.mem_singleton.mp hp]; exact Nat.lt_succ_self m
    · intro p hp
      rcases List.mem_append.mp hp with hp | hp
      · exact h.anchor p hp
      · rw [List.mem_singleton.mp hp]
        exact ⟨oi, hoi, hinv.cls, hinv.box⟩
    · intro i hi hin
      rcases Nat.lt_succ_iff_lt_or_eq.mp hi with hi | rfl
      · exact hinv.old i (h.used i hi hin)
      · exact hinv.self
    · intro i hi o ho
      rcases hinv.absorbed i hi with rfl | h1 | ⟨o', ho', hoc, hob⟩
      · exact Or.inl ⟨(inner.1, i), by simp, rfl⟩
      · rcases h.covered i h1 o ho with ⟨p, hp, hpi⟩ | ⟨p, hp, hlt, hpc, hpb⟩
        · exact Or.inl ⟨p, List.mem_append_left _ hp, hpi⟩
        · exact Or.inr ⟨p, List.mem_append_left _ hp, hlt, hpc, hpb⟩
      · by_cases hiu : i ∈ st.2
        · rcases h.covered i hiu o ho with ⟨p, hp, hpi⟩ | ⟨p, hp, hlt, hpc, hpb⟩
          · exact Or.inl ⟨p, List.mem_append_left _ hp, hpi⟩
          · exact Or.inr ⟨p, List.mem_append_left _ hp, hlt, hpc, hpb⟩
        · by_cases him : i = m
          · exact Or.inl ⟨(inner.1, m), by simp, him.symm⟩
          · have hil : i < objects.length := by
              by_contra hc
              rw [List.getElem?_eq_none (not_lt.mp hc)] at ho
              exact absurd ho (by simp)
            have hmi : m < i := by
              rcases Nat.lt_or_ge i m with hlt | hge
              · exact absurd (h.used i hlt hil) hiu
              · exact lt_of_le_of_ne hge (fun e => him e.symm)
            rw [ho] at ho'
            cases Option.some.inj ho'
            exact Or.inr ⟨(inner.1, m), by simp, hmi, by rw [hinv.cls, hoc], hob⟩

theorem resolveFold_inv (objects : List Detection) :
    ∀ m, m ≤ objects.length →
      ∃ pairs, ResolveInv objects m pairs
        ((List.range m).foldl (resolveStep objects) ([], [])) := by
  intro m
  induction m with
  | zero =>
    intro _
    exact ⟨[], ⟨rfl, List.sorted_nil, by simp, by simp, by simp, by simp⟩⟩
  | succ m ih =>
    intro hm
    obtain ⟨pairs, hinv⟩ := ih (Nat.le_of_succ_le hm)
    obtain ⟨pairs', hinv'⟩ := resolveStep_inv objects m hm pairs _ hinv
    refine ⟨pairs', ?_⟩
    rw [List.range_succ, List.foldl_append]
    exact hinv'

/-- The outputs of `_resolveOverlaps` paired with the indices of their anchors. -/
theorem resolveOverlaps_pairs (objects : List Detection) :
    ∃ pairs : List (Detection × ℕ),
      _resolveOverlaps objects = pairs.map Prod.fst ∧
      (pairs.map Prod.snd).Sorted (fun a b => a < b) ∧
      (∀ p ∈ pairs, ∃ o, objects[p.2]? = some o ∧ p.1.cls = o.cls ∧
        p.1.bbox.Contains o.bbox) ∧
      ∀ i o, objects[i]? = some o →
        (∃ p ∈ pairs, p.2 = i) ∨
          ∃ p ∈ pairs, p.2 < i ∧ p.1.cls = o.cls ∧ p.1.bbox.Contains o.bbox := by
  unfold _resolveOverlaps
  by_cases hle : objects.length ≤ 1
  · rw [if_pos hle]
    cases objects with
    | nil => exact ⟨[], rfl, List.sorted_nil, by simp, by simp⟩
    | cons o rest =>
      cases rest with
      | cons o2 rest2 =>
        simp only [List.length_cons] at hle
        omega
      | nil =>
        refine ⟨[(o, 0)], rfl, List.sorted_singleton _, ?_, ?_⟩
        · intro p hp
          rw [List.mem_singleton.mp hp]
          exact ⟨o, rfl, rfl, contains_refl _⟩
        · intro i o' _
          cases i with
          | zero => exact Or.inl ⟨(o, 0), List.mem_singleton_self _, rfl⟩
          | succ i => rename_i ho'; simp at ho'
  · rw [if_neg hle]
    obtain ⟨pairs, hinv⟩ := resolveFold_inv objects objects.length le_rfl
    refine ⟨pairs, hinv.out, hinv.sorted, hinv.anchor, ?_⟩
    intro i o ho
    have hil : i < objects.length := by
      by_contra hc
      rw [List.getElem?_eq_none (not_lt.mp hc)] at ho
      exact absurd ho (by simp)
    exact hinv.covered i (hinv.used i hil hil) o ho

theorem absorbFold_box_mono (objects : List Detection) (i : ℕ) (l : List ℕ) :
    ∀ st : Detection × List ℕ,
      (l.foldl (absorbStep objects i) st).1.bbox.Contains st.1.bbox ∧
        (l.foldl (absorbStep objects i) st).1.cls = st.1.cls := by
  induction l with
  | nil => intro st; exact ⟨contains_refl _, rfl⟩
  | cons j l ih =>
    intro st
    rw [List.foldl_cons]
    obtain ⟨h1, h2⟩ := ih (absorbStep objects i st j)
    rcases absorbStep_cases objects i st j with he | ⟨_, oj, _, _, _, _, _, _, he⟩
    · rw [he] at h1 h2 ⊢; exact ⟨h1, h2⟩
    · rw [he] at h1 h2 ⊢
      exact ⟨contains_trans _ _ _ h1 (mergeBBox_contains_left _ _), h2⟩

theorem resolveStep_extends (objects : List Detection) (st : List Detection × List ℕ)
    (i : ℕ) : ∃ t, (resolveStep objects st i).1 = st.1 ++ t := by
  unfold resolveStep
  by_cases hu : i ∈ st.2
  · rw [if_pos hu]; exact ⟨[], by simp⟩
  · rw [if_neg hu]
    cases hi : objects[i]? with
    | none => exact ⟨[], by simp⟩
    | some oi => exact ⟨_, rfl⟩

theorem resolveFold_extends (objects : List Detection) (l : List ℕ) :
    ∀ st : List Detection × List ℕ,
      ∃ t, (l.foldl (resolveStep objects) st).1 = st.1 ++ t := by
  induction l with
  | nil => intro st; exact ⟨[], by simp⟩
  | cons i l ih =>
    intro st
    rw [List.foldl_cons]
    obtain ⟨t1, h1⟩ := resolveStep_extends objects st i
    obtain ⟨t2, h2⟩ := ih (resolveStep objects st i)
    exact ⟨t1 ++ t2, by rw [h2, h1, List.append_assoc]⟩

/-- When the first two inputs are of one category and overlap by more than 0.7, the
first output contains both. -/
theorem resolveOverlaps_first_two (a b : Detection) (rest : List Detection)
    (h : HeavyOverlap a b) :
    ∃ out, (_resolveOverlaps (a :: b :: rest)).head? = some out ∧ out.cls = a.cls ∧
      out.bbox.Contains a.bbox ∧ out.bbox.Contains b.bbox := by
  obtain ⟨hc, ho⟩ := h
  have hlen : ¬ (a :: b :: rest).length ≤ 1 := by simp
  have hrange : List.range (a :: b :: rest).length =
      0 :: 1 :: (List.range rest.length).map (fun k => k + 2) := by
    simp only [List.length_cons]
    rw [List.range_succ_eq_map, List.range_succ_eq_map]
    simp [Function.comp_def]
  unfold _resolveOverlaps
  rw [if_neg hlen, hrange, List.foldl_cons]
  have hfirst : resolveStep (a :: b :: rest) ([], []) 0 =
      ([(((List.range rest.length).map (fun k => k + 2)).foldl
          (absorbStep (a :: b :: rest) 0)
          ({ a with
              bbox := mergeBBox a.bbox b.bbox
              confidence := max a.confidence b.confidence }, [1, 0])).1],
        (((List.range rest.length).map (fun k => k + 2)).foldl
          (absorbStep (a :: b :: rest) 0)
          ({ a with
              bbox := mergeBBox a.bbox b.bbox
              confidence := max a.confidence b.confidence }, [1, 0])).2) := by
    unfold resolveStep
    rw [hrange]
    simp [absorbStep, hc, ho]
  rw [hfirst]
  obtain ⟨hbox, hcls⟩ := absorbFold_box_mono (a :: b :: rest) 0
    ((List.range rest.length).map (fun k => k + 2))
    ({ a with
        bbox := mergeBBox a.bbox b.bbox
        confidence := max a.confidence b.confidence }, [1, 0])
  have hpre := resolveFold_extends (a :: b :: rest)
    (1 :: (List.range rest.length).map (fun k => k + 2))
    ([(((List.range rest.length).map (fun k => k + 2)).foldl
          (absorbStep (a :: b :: rest) 0)
          ({ a with
              bbox := mergeBBox a.bbox b.bbox
              confidence := max a.confidence b.confidence }, [1, 0])).1],
        (((List.range rest.length).map (fun k => k + 2)).foldl
          (absorbStep (a :: b :: rest) 0)
          ({ a with
              bbox := mergeBBox a.bbox b.bbox
              confidence := max a.confidence b.confidence }, [1, 0])).2)
  obtain ⟨t, ht⟩ := hpre
  refine ⟨_, ?_, hcls, contains_trans _ _ _ hbox (mergeBBox_contains_left _ _),
    contains_trans _ _ _ hbox (mergeBBox_contains_right _ _)⟩
  rw [ht]
  rfl

/-! ## Claims about `_resolveOverlaps` on lists of any length -/

/-- C33 (counterexample): for three trees `c = [0, 10] x [0, 10]`,
`a = [7.5, 10] x [0, 2]` and `b = [8, 18] x [0, 10]` in this order, `a` and `b` overlap by
0.8, but `a` is absorbed by `c` and `b` is kept: the output is `[c, b]`, and neither box
contains both `a` and `b`. -/
theorem resolveOverlaps_pair_split_example :
    HeavyOverlap (sampleDetection 58 (15 / 2) 0 (5 / 2) 2 (8 / 10))
        (sampleDetection 58 8 0 10 10 (7 / 10)) ∧
      _resolveOverlaps [sampleDetection 58 0 0 10 10 (9 / 10),
          sampleDetection 58 (15 / 2) 0 (5 / 2) 2 (8 / 10),
          sampleDetection 58 8 0 10 10 (7 / 10)] =
        [sampleDetection 58 0 0 10 10 (9 / 10), sampleDetection 58 8 0 10 10 (7 / 10)] ∧
      ¬ ∃ d ∈ _resolveOverlaps [sampleDetection 58 0 0 10 10 (9 / 10),
          sampleDetection 58 (15 / 2) 0 (5 / 2) 2 (8 / 10),
          sampleDetection 58 8 0 10 10 (7 / 10)],
        d.bbox.Contains ⟨15 / 2, 0, 5 / 2, 2⟩ ∧ d.bbox.Contains ⟨8, 0, 10, 10⟩ := by
  refine ⟨by decide!, by decide!, by decide!⟩

/-- C33 (amended): for every input list, the box of every input detection is contained in
the box of an output detection of the same category; and when the first two detections
of the list are of the same category and their overlap ratio exceeds 0.7, the box of the
first output detection contains both of them. -/
theorem resolveOverlaps_covers (objects : List Detection) :
    (∀ a ∈ objects, ∃ out ∈ _resolveOverlaps objects,
      out.cls = a.cls ∧ out.bbox.Contains a.bbox) ∧
    (∀ a b rest, objects = a :: b :: rest → HeavyOverlap a b →
      ∃ out, (_resolveOverlaps objects).head? = some out ∧ out.cls = a.cls ∧
        out.bbox.Contains a.bbox ∧ out.bbox.Contains b.bbox) := by
  constructor
  · intro a ha
    obtain ⟨pairs, hout, _, hanchor, hcov⟩ := resolveOverlaps_pairs objects
    obtain ⟨i, hi⟩ := List.getElem?_of_mem ha
    rcases hcov i a hi with ⟨p, hp, hpi⟩ | ⟨p, hp, _, hpc, hpb⟩
    · obtain ⟨o, ho, hoc, hob⟩ := hanchor p hp
      rw [hpi, hi] at ho
      cases Option.some.inj ho
      exact ⟨p.1, by rw [hout]; exact List.mem_map_of_mem _ hp, hoc, hob⟩
    · exact ⟨p.1, by rw [hout]; exact List.mem_map_of_mem _ hp, hpc, hpb⟩
  · intro a b rest he h
    rw [he]
    exact resolveOverlaps_first_two a b rest h

/-- C35 (the code at the failing input): for three trees `[0, 10] x [0, 10]`,
`[8, 12] x [0, 10]` and `[1, 13] x [0, 10]` in this order, the first absorbs the third
(overlap 0.9) after it has passed the second (overlap 0.5); the output holds the merged
box `[0, 13] x [0, 10]` and the second box, two trees whose overlap ratio is 1. -/
theorem resolveOverlaps_overlap_left_example :
    _resolveOverlaps [sampleDetection 58 0 0 10 10 (9 / 10),
        sampleDetection 58 8 0 4 10 (8 / 10), sampleDetection 58 1 0 12 10 (7 / 10)] =
      [sampleDetection 58 0 0 13 10 (9 / 10), sampleDetection 58 8 0 4 10 (8 / 10)] ∧
    HeavyOverlap (sampleDetection 58 0 0 13 10 (9 / 10))
      (sampleDetection 58 8 0 4 10 (8 / 10)) ∧
    calculateOverlap ⟨0, 0, 13, 10⟩ ⟨8, 0, 4, 10⟩ = JsNum.fin 1 := by
  refine ⟨by decide!, by decide!, by decide!⟩

theorem sorted_lt_head_zero (l : List ℕ) (hs : l.Sorted (fun a b => a < b)) (h0 : 0 ∈ l) :
    l.head? = some 0 := by
  cases l with
  | nil => simp at h0
  | cons a l =>
    rcases List.mem_cons.mp h0 with h | h
    · rw [← h]; rfl
    · exact absurd ((List.sorted_cons.mp hs).1 0 h) (Nat.not_lt_zero a)

/-- C36: for every non-empty input list, `_resolveOverlaps` anchors its merges in scan
order: the output has at most as many detections as the input; each output keeps the
category of its anchor and its box contains the anchor's box; the anchors are input
indices that increase along the output, the first being index 0 (so the first output
keeps the category of the first input and contains its box); and every input that is not
an anchor is of the category of an earlier anchor and lies in the box of that anchor's
output. -/
theorem resolveOverlaps_anchors (objects : List Detection) (hne : objects ≠ []) :
    (_resolveOverlaps objects).length ≤ objects.length ∧
    ∃ pairs : List (Detection × ℕ),
      _resolveOverlaps objects = pairs.map Prod.fst ∧
      (pairs.map Prod.snd).Sorted (fun a b => a < b) ∧
      (pairs.map Prod.snd).head? = some 0 ∧
      (∃ out first, (_resolveOverlaps objects).head? = some out ∧
        objects.head? = some first ∧ out.cls = first.cls ∧
        out.bbox.Contains first.bbox) ∧
      (∀ p ∈ pairs, ∃ o, objects[p.2]? = some o ∧ p.1.cls = o.cls ∧
        p.1.bbox.Contains o.bbox) ∧
      ∀ i o, objects[i]? = some o → (∀ p ∈ pairs, p.2 ≠ i) →
        ∃ p ∈ pairs, p.2 < i ∧ p.1.cls = o.cls ∧ p.1.bbox.Contains o.bbox := by
  obtain ⟨pairs, hout, hsorted, hanchor, hcov⟩ := resolveOverlaps_pairs objects
  obtain ⟨first, tail, rfl⟩ := List.exists_cons_of_ne_nil hne
  have h0 : (0 : ℕ) ∈ pairs.map Prod.snd := by
    rcases hcov 0 first (List.getElem?_cons_zero) with ⟨p, hp, hpi⟩ | ⟨p, _, hlt, _⟩
    · exact List.mem_map.mpr ⟨p, hp, hpi⟩
    · exact absurd hlt (Nat.not_lt_zero _)
  have hhead := sorted_lt_head_zero _ hsorted h0
  have hlen : (_resolveOverlaps (first :: tail)).length ≤ (first :: tail).length := by
    have hnd : (pairs.map Prod.snd).Nodup :=
      (List.Sorted.nodup (r := fun a b : ℕ => a < b) hsorted)
    have hsub : pairs.map Prod.snd ⊆ List.range (first :: tail).length := by
      intro i hi
      obtain ⟨p, hp, rfl⟩ := List.mem_map.mp hi
      obtain ⟨o, ho, _⟩ := hanchor p hp
      rw [List.mem_range]
      by_contra hc
      rw [List.getElem?_eq_none (not_lt.mp hc)] at ho
      exact absurd ho (by simp)
    have h := (List.subperm_of_subset hnd hsub).length_le
    rw [List.length_range, List.length_map] at h
    rw [hout, List.length_map]
    exact h
  refine ⟨hlen, pairs, hout, hsorted, hhead, ?_, hanchor, ?_⟩
  · cases pairs with
    | nil => simp at h0
    | cons p ps =>
      simp only [List.map_cons, List.head?_cons, Option.some.injEq] at hhead
      obtain ⟨o, ho, hoc, hob⟩ := hanchor p (List.mem_cons_self _ _)
      rw [hhead] at ho
      simp only [List.getElem?_cons_zero, Option.some.injEq] at ho
      rw [← ho] at hoc hob
      exact ⟨p.1, first, by rw [hout]; rfl, rfl, hoc, hob⟩
  · intro i o ho hnot
    rcases hcov i o ho with ⟨p, hp, hpi⟩ | h
    · exact absurd hpi (hnot p hp)
    · exact h

/-- Instance of C36 at the three trees of which the first absorbs the third. -/
theorem resolveOverlaps_anchors_witness :
    (_resolveOverlaps [sampleDetection 58 0 0 10 10 (9 / 10),
        sampleDetection 58 8 0 4 10 (8 / 10),
        sampleDetection 58 1 0 12 10 (7 / 10)]).length ≤
      [sampleDetection 58 0 0 10 10 (9 / 10), sampleDetection 58 8 0 4 10 (8 / 10),
        sampleDetection 58 1 0 12 10 (7 / 10)].length ∧
    ∃ pairs : List (Detection × ℕ),
      _resolveOverlaps [sampleDetection 58 0 0 10 10 (9 / 10),
        sampleDetection 58 8 0 4 10 (8 / 10), sampleDetection 58 1 0 12 10 (7 / 10)] =
        pairs.map Prod.fst ∧
      (pairs.map Prod.snd).Sorted (fun a b => a < b) ∧
      (pairs.map Prod.snd).head? = some 0 ∧
      (∃ out first, (_resolveOverlaps [sampleDetection 58 0 0 10 10 (9 / 10),
          sampleDetection 58 8 0 4 10 (8 / 10),
          sampleDetection 58 1 0 12 10 (7 / 10)]).head? = some out ∧
        [sampleDetection 58 0 0 10 10 (9 / 10), sampleDetection 58 8 0 4 10 (8 / 10),
          sampleDetection 58 1 0 12 10 (7 / 10)].head? = some first ∧
        out.cls = first.cls ∧ out.bbox.Contains first.bbox) ∧
      (∀ p ∈ pairs, ∃ o, [sampleDetection 58 0 0 10 10 (9 / 10),
          sampleDetection 58 8 0 4 10 (8 / 10),
          sampleDetection 58 1 0 12 10 (7 / 10)][p.2]? = some o ∧ p.1.cls = o.cls ∧
        p.1.bbox.Contains o.bbox) ∧
      ∀ i o, [sampleDetection 58 0 0 10 10 (9 / 10), sampleDetection 58 8 0 4 10 (8 / 10),
          sampleDetection 58 1 0 12 10 (7 / 10)][i]? = some o →
        (∀ p ∈ pairs, p.2 ≠ i) →
        ∃ p ∈ pairs, p.2 < i ∧ p.1.cls = o.cls ∧ p.1.bbox.Contains o.bbox :=
  resolveOverlaps_anchors _ (by simp)

/-! ## Lemmas: `_applyNMS` -/

theorem calculateIoU_comm (a b : BBox) : _calculateIoU a b = _calculateIoU b a := by
  unfold _calculateIoU
  simp only [max_comm b.x a.x, max_comm b.y a.y, min_comm (b.x + b.width) (a.x + a.width),
    min_comm (b.y + b.height) (a.y + a.height),
    add_comm (b.width * b.height) (a.width * a.height)]

theorem suppresses_comm (a b : Detection) : Suppresses a b ↔ Suppresses b a := by
  unfold Suppresses
  rw [calculateIoU_comm a.bbox b.bbox]
  exact ⟨fun h => ⟨h.1.symm, h.2⟩, fun h => ⟨h.1.symm, h.2⟩⟩

theorem suppressStep_cases (ds : List Detection) (i : ℕ) (di : Detection)
    (hdi : ds[i]? = some di) (isSelected : List ℕ) (j : ℕ) :
    (suppressStep ds i isSelected j = isSelected ∧
        (j ∈ isSelected ∨ ∀ dj, ds[j]? = some dj → ¬ Suppresses di dj)) ∨
      (suppressStep ds i isSelected j = j :: isSelected ∧
        ∃ dj, ds[j]? = some dj ∧ Suppresses di dj) := by
  unfold suppressStep
  by_cases hj : j ∈ isSelected
  · left; rw [if_pos hj]; exact ⟨rfl, Or.inl hj⟩
  · rw [if_neg hj, hdi]
    cases hdj : ds[j]? with
    | none => left; exact ⟨rfl, Or.inr (fun dj h => absurd h (by simp))⟩
    | some dj =>
      simp only []
      by_cases hc : di.cls = dj.cls
      · rw [if_pos hc]
        by_cases ho : (_calculateIoU di.bbox dj.bbox).ge IOU_THRESHOLD = true
        · right; rw [if_pos ho]; exact ⟨rfl, dj, rfl, hc, ho⟩
        · left; rw [if_neg ho]
          refine ⟨rfl, Or.inr (fun dj' h => ?_)⟩
          cases Option.some.inj h
          exact fun hs => ho hs.2
      · left; rw [if_neg hc]
        refine ⟨rfl, Or.inr (fun dj' h => ?_)⟩
        cases Option.some.inj h
        exact fun hs => hc hs.1

theorem suppressFold_spec (ds : List Detection) (i : ℕ) (di : Detection)
    (hdi : ds[i]? = some di) (l : List ℕ) :
    ∀ isSelected : List ℕ,
      (∀ j ∈ isSelected, j ∈ l.foldl (suppressStep ds i) isSelected) ∧
      (∀ j ∈ l.foldl (suppressStep ds i) isSelected,
        j ∈ isSelected ∨ (j ∈ l ∧ ∃ dj, ds[j]? = some dj ∧ Suppresses di dj)) ∧
      ∀ j ∈ l, j ∈ l.foldl (suppressStep ds i) isSelected ∨
        ∀ dj, ds[j]? = some dj → ¬ Suppresses di dj := by
  induction l with
  | nil =>
    intro isSelected
    exact ⟨fun _ h => h, fun _ h => Or.inl h, fun _ h => absurd h (List.not_mem_nil _)⟩
  | cons j l ih =>
    intro isSelected
    rw [List.foldl_cons]
    obtain ⟨i1, i2, i3⟩ := ih (suppressStep ds i isSelected j)
    rcases suppressStep_cases ds i di hdi isSelected j with ⟨he, hj⟩ | ⟨he, dj, hdj, hs⟩
    · rw [he] at i1 i2 i3 ⊢
      refine ⟨i1, ?_, ?_⟩
      · intro k hk
        rcases i2 k hk with h | ⟨h, h'⟩
        · exact Or.inl h
        · exact Or.inr ⟨List.mem_cons_of_mem _ h, h'⟩
      · intro k hk
        rcases List.mem_cons.mp hk with rfl | hk
        · rcases hj with hj | hj
          · exact Or.inl (i1 _ hj)
          · exact Or.inr hj
        · exact i3 k hk
    · rw [he] at i1 i2 i3 ⊢
      refine ⟨fun k hk => i1 k (List.mem_cons_of_mem _ hk), ?_, ?_⟩
      · intro k hk
        rcases i2 k hk with h | ⟨h, h'⟩
        · rcases List.mem_cons.mp h with rfl | h
          · exact Or.inr ⟨List.mem_cons_self _ _, dj, hdj, hs⟩
          · exact Or.inl h
        · exact Or.inr ⟨List.mem_cons_of_mem _ h, h'⟩
      · intro k hk
        rcases List.mem_cons.mp hk with rfl | hk
        · exact Or.inl (i1 _ (List.mem_cons_self _ _))
        · exact i3 k hk

theorem nmsStep_inv (ds : List Detection) (m : ℕ) (hm : m < ds.length)
    (pairs : List (Detection × ℕ)) (st : List Detection × List ℕ)
    (h : NmsInv ds m pairs st)
    (hpw : ∀ p ∈ pairs, ∀ q ∈ pairs, p.2 < q.2 → ¬ Suppresses p.1 q.1) :
    ∃ pairs', NmsInv ds (m + 1) pairs' (nmsStep ds st m) ∧
      ∀ p ∈ pairs', ∀ q ∈ pairs', p.2 < q.2 → ¬ Suppresses p.1 q.1 := by
  unfold nmsStep
  by_cases hu : m ∈ st.2
  · rw [if_pos hu]
    refine ⟨pairs, ⟨h.out, h.sorted, fun p hp => Nat.lt_succ_of_lt (h.bound p hp), h.get, ?_,
      h.dropped, h.clear⟩, hpw⟩
    intro i hi hin
    rcases Nat.lt_succ_iff_lt_or_eq.mp hi with hi | rfl
    · exact h.used i hi hin
    · exact hu
  · rw [if_neg hu]
    obtain ⟨di, hdi⟩ : ∃ di, ds[m]? = some di := ⟨ds[m], List.getElem?_eq_getElem hm⟩
    simp only [hdi]
    obtain ⟨f1, f2, f3⟩ := suppressFold_spec ds m di hdi
      (List.range' (m + 1) (ds.length - (m + 1))) (m :: st.2)
    generalize (List.range' (m + 1) (ds.length - (m + 1))).foldl (suppressStep ds m)
      (m :: st.2) = final at f1 f2 f3
    refine ⟨pairs ++ [(di, m)], ⟨?_, ?_, ?_, ?_, ?_, ?_, ?_⟩, ?_⟩
    · simp [h.out]
    · rw [List.map_append, List.map_singleton]
      unfold List.Sorted
      rw [List.pairwise_append]
      refine ⟨h.sorted, List.pairwise_singleton _ _, ?_⟩
      intro a ha b hb
      rw [List.mem_singleton.mp hb]
      obtain ⟨p, hp, rfl⟩ := List.mem_map.mp ha
      exact h.bound p hp
    · intro p hp
      rcases List.mem_append.mp hp with hp | hp
      · exact Nat.lt_succ_of_lt (h.bound p hp)
      · rw [List.mem_singleton.mp hp]; exact Nat.lt_succ_self m
    · intro p hp
      rcases List.mem_append.mp hp with hp | hp
      · exact h.get p hp
      · rw [List.mem_singleton.mp hp]; exact hdi
    · intro i hi hin
      rcases Nat.lt_succ_iff_lt_or_eq.mp hi with hi | rfl
      · exact f1 i (List.mem_cons_of_mem _ (h.used i hi hin))
      · exact f1 i (List.mem_cons_self _ _)
    · intro j hj
      rcases f2 j hj with hj | ⟨hjl, dj, hdj, hs⟩
      · rcases List.mem_cons.mp hj with rfl | hj
        · exact Or.inl ⟨(di, j), by simp, rfl⟩
        · rcases h.dropped j hj with ⟨p, hp, hpj⟩ | ⟨p, hp, hlt, hrest⟩
          · exact Or.inl ⟨p, List.mem_append_left _ hp, hpj⟩
          · exact Or.inr ⟨p, List.mem_append_left _ hp, hlt, hrest⟩
      · have hmj : m < j := by
          rw [List.mem_range'_1] at hjl
          omega
        exact Or.inr ⟨(di, m), by simp, hmj, dj, hdj, hs⟩
    · intro p hp j dj hlt hdj hnot
      rcases List.mem_append.mp hp with hp | hp
      · exact h.clear p hp j dj hlt hdj
          (fun hc => hnot (f1 j (List.mem_cons_of_mem _ hc)))
      · rw [List.mem_singleton.mp hp] at hlt ⊢
        have hjl : j < ds.length := by
          by_contra hc
          rw [List.getElem?_eq_none (not_lt.mp hc)] at hdj
          exact absurd hdj (by simp)
        have hmem : j ∈ List.range' (m + 1) (ds.length - (m + 1)) := by
          rw [List.mem_range'_1]
          simp only at hlt
          omega
        rcases f3 j hmem with hc | hc
        · exact absurd hc hnot
        · exact hc dj hdj
    · intro p hp q hq hlt
      rcases List.mem_append.mp hp with hp | hp
      · rcases List.mem_append.mp hq with hq | hq
        · exact hpw p hp q hq hlt
        · rw [List.mem_singleton.mp hq]
          exact h.clear p hp m di (h.bound p hp) hdi hu
      · rw [List.mem_singleton.mp hp] at hlt
        rcases List.mem_append.mp hq with hq | hq
        · have := h.bound q hq
          simp only at hlt
          omega
        · rw [List.mem_singleton.mp hq] at hlt
          exact absurd hlt (lt_irrefl _)

theorem nmsFold_inv (ds : List Detection) :
    ∀ m, m ≤ ds.length →
      ∃ pairs, NmsInv ds m pairs ((List.range m).foldl (nmsStep ds) ([], [])) ∧
        ∀ p ∈ pairs, ∀ q ∈ pairs, p.2 < q.2 → ¬ Suppresses p.1 q.1 := by
  intro m
  induction m with
  | zero =>
    intro _
    exact ⟨[], ⟨rfl, List.sorted_nil, by simp, by simp, by simp, by simp, by simp⟩, by simp⟩
  | succ m ih =>
    intro hm
    obtain ⟨pairs, hinv, hpw⟩ := ih (Nat.le_of_succ_le hm)
    obtain ⟨pairs', hinv', hpw'⟩ := nmsStep_inv ds m hm pairs _ hinv hpw
    refine ⟨pairs', ?_, hpw'⟩
    rw [List.range_succ, List.foldl_append]
    exact hinv'

theorem pairwise_map_fst_of_index (R : Detection → Detection → Prop)
    (pairs : List (Detection × ℕ))
    (hs : (pairs.map Prod.snd).Sorted (fun a b => a < b))
    (hR : ∀ p ∈ pairs, ∀ q ∈ pairs, p.2 < q.2 → R p.1 q.1) :
    (pairs.map Prod.fst).Pairwise R := by
  rw [List.pairwise_map]
  have hs' : pairs.Pairwise (fun p q => p.2 < q.2) := by
    have := hs
    unfold List.Sorted at this
    rwa [List.pairwise_map] at this
  exact hs'.imp_of_mem (fun hp hq hlt => hR _ hp _ hq hlt)

theorem confGE_of_index (ds : List Detection) (hs : ds.Sorted ConfGE) (i j : ℕ)
    (di dj : Detection) (hi : ds[i]? = some di) (hj : ds[j]? = some dj) (hij : i < j) :
    ConfGE di dj := by
  have hjl : j < ds.length := by
    by_contra hc
    rw [List.getElem?_eq_none (not_lt.mp hc)] at hj
    exact absurd hj (by simp)
  have hil : i < ds.length := lt_trans hij hjl
  have h := List.pairwise_iff_getElem.mp hs i j hil hjl hij
  rw [List.getElem?_eq_getElem hil] at hi
  rw [List.getElem?_eq_getElem hjl] at hj
  cases Option.some.inj hi
  cases Option.some.inj hj
  exact h

theorem sublist_of_sorted_indices (ds : List Detection) (pairs : List (Detection × ℕ)) :
    (pairs.map Prod.snd).Sorted (fun a b => a < b) →
    (∀ p ∈ pairs, ds[p.2]? = some p.1) →
    ∀ n, (∀ p ∈ pairs, n ≤ p.2) → (pairs.map Prod.fst).Sublist (ds.drop n) := by
  induction pairs with
  | nil => intro _ _ n _; exact List.nil_sublist _
  | cons p ps ih =>
    intro hs hget n hn
    rw [List.map_cons, List.sorted_cons] at hs
    have hpl : p.2 < ds.length := by
      by_contra hc
      have := hget p (List.mem_cons_self _ _)
      rw [List.getElem?_eq_none (not_lt.mp hc)] at this
      exact absurd this (by simp)
    have hp : ds[p.2] = p.1 := by
      have := hget p (List.mem_cons_self _ _)
      rw [List.getElem?_eq_getElem hpl] at this
      exact Option.some.inj this
    have h1 := ih hs.2 (fun q hq => hget q (List.mem_cons_of_mem _ hq)) (p.2 + 1)
      (fun q hq => hs.1 q.2 (List.mem_map_of_mem _ hq))
    have h2 : (p.1 :: ps.map Prod.fst).Sublist (ds.drop p.2) := by
      rw [List.drop_eq_getElem_cons hpl, hp]
      exact h1.cons₂ _
    exact h2.trans (List.drop_sublist_drop_left ds (hn p (List.mem_cons_self _ _)))

/-- C39: for every list of detections, the list that `_applyNMS` returns consists of
input detections in non-increasing confidence order and holds no two detections of the
same class whose IoU (`_calculateIoU`) is at least 0.45; every input detection that is
not returned has a returned detection of the same class with at least its confidence
and an IoU of at least 0.45 with it. -/
theorem applyNMS_spec (detections : List Detection) :
    (∀ d ∈ _applyNMS detections, d ∈ detections) ∧
      (_applyNMS detections).Sublist (sortByConfidence detections) ∧
      ConfidenceSorted (_applyNMS detections) ∧
      (_applyNMS detections).Pairwise (fun a b => ¬ Suppresses a b ∧ ¬ Suppresses b a) ∧
      ∀ d ∈ detections, d ∉ _applyNMS detections →
        ∃ k ∈ _applyNMS detections, k.cls = d.cls ∧ d.confidence ≤ k.confidence ∧
          (_calculateIoU k.bbox d.bbox).ge 0.45 = true := by
  obtain ⟨pairs, hinv, hpw⟩ := nmsFold_inv (sortByConfidence detections)
    (sortByConfidence detections).length le_rfl
  have hout : _applyNMS detections = pairs.map Prod.fst := hinv.out
  have hds := sorted_sortByConfidence detections
  have hmemds : ∀ p ∈ pairs, p.1 ∈ sortByConfidence detections :=
    fun p hp => List.getElem?_mem (hinv.get p hp)
  have hsub : (pairs.map Prod.fst).Sublist (sortByConfidence detections) := by
    have h := sublist_of_sorted_indices (sortByConfidence detections) pairs hinv.sorted
      hinv.get 0 (fun _ _ => Nat.zero_le _)
    simpa using h
  refine ⟨?_, ?_, ?_, ?_, ?_⟩
  · intro d hd
    rw [hout] at hd
    obtain ⟨p, hp, rfl⟩ := List.mem_map.mp hd
    exact mem_sortByConfidence.mp (hmemds p hp)
  · rw [hout]; exact hsub
  · rw [hout]
    exact pairwise_map_fst_of_index ConfGE pairs hinv.sorted
      (fun p hp q hq hlt =>
        confGE_of_index _ hds p.2 q.2 p.1 q.1 (hinv.get p hp) (hinv.get q hq) hlt)
  · rw [hout]
    exact pairwise_map_fst_of_index _ pairs hinv.sorted
      (fun p hp q hq hlt =>
        ⟨hpw p hp q hq hlt, fun h => hpw p hp q hq hlt ((suppresses_comm _ _).mp h)⟩)
  · intro d hd hnot
    obtain ⟨j, hj⟩ := List.getElem?_of_mem (mem_sortByConfidence.mpr hd)
    have hjl : j < (sortByConfidence detections).length := by
      by_contra hc
      rw [List.getElem?_eq_none (not_lt.mp hc)] at hj
      exact absurd hj (by simp)
    rcases hinv.dropped j (hinv.used j hjl hjl) with ⟨p, hp, hpj⟩ | ⟨p, hp, hlt, dj, hdj, hs⟩
    · exfalso
      apply hnot
      rw [hout]
      have := hinv.get p hp
      rw [hpj, hj] at this
      rw [Option.some.inj this]
      exact List.mem_map_of_mem _ hp
    · rw [hj] at hdj
      cases Option.some.inj hdj
      refine ⟨p.1, by rw [hout]; exact List.mem_map_of_mem _ hp, hs.1, ?_, hs.2⟩
      exact confGE_of_index _ hds p.2 j p.1 d (hinv.get p hp) hj hlt

/-! ## Claims about `_divideCanvasToRegions` and `simulateDetection` -/

/-- C37 (the code at the failing input): for the canvas 640 x 480, count 2 and a random
source that always returns 0.9, the first region has y = 0 and height 480 * 1.08 = 518.4,
so it reaches below the canvas. -/
theorem divideCanvasToRegions_outside_example :
    UnitRange highSource ∧
      _divideCanvasToRegions 640 480 2 highSource 0 =
        [⟨64 / 5, 0, 1728 / 5, 2592 / 5⟩, ⟨1472 / 5, 0, 1728 / 5, 2592 / 5⟩] ∧
      ¬ BBox.Inside ⟨64 / 5, 0, 1728 / 5, 2592 / 5⟩ 640 480 ∧
      (480 : ℚ) < 0 + 2592 / 5 := by
  refine ⟨fun _ => by norm_num [highSource], by decide!, ?_, by norm_num⟩
  unfold BBox.Inside
  norm_num

/-- C38 (the code at the failing input): for imageHash -6 and variation 0 the generator
returns -6509/233280 first, so detectionCount = floor(-0.08) + 2 = 1, and the list holds
one building and no tree. -/
theorem simulateDetection_no_tree_example :
    _seededRandom (-6 + 0 * 0.1) 0 0 = -6509 / 233280 ∧
      (simulateDetection 640 480 (-6) 0 false 0).map (fun d => d.cls) = [-1] := by
  refine ⟨by decide!, by decide!⟩

theorem simulateStep_cls (regions : List BBox) (treeIndex buildingIndex : ℤ) (debug : Bool)
    (rng : ℕ → ℚ) (st : List Detection × ℕ) (i : ℕ) :
    ∃ d, (simulateStep regions treeIndex buildingIndex debug rng st i).1 = st.1 ++ [d] ∧
      ((i : ℤ) = treeIndex → d.cls = 58) ∧
      ((i : ℤ) ≠ treeIndex → (i : ℤ) = buildingIndex → d.cls = -1) := by
  refine ⟨_, rfl, ?_, ?_⟩
  · intro h
    simp [h]
  · intro h1 h2
    have h3 : ¬ buildingIndex = treeIndex := fun h => h1 (h2.trans h)
    simp [h1, h2, h3]

theorem simulateFold_cls (regions : List BBox) (treeIndex buildingIndex : ℤ) (debug : Bool)
    (rng : ℕ → ℚ) (l : List ℕ) :
    ∀ st : List Detection × ℕ,
      (∀ d ∈ st.1, d ∈ (l.foldl (simulateStep regions treeIndex buildingIndex debug rng) st).1) ∧
      ∀ i ∈ l, ∃ d ∈ (l.foldl (simulateStep regions treeIndex buildingIndex debug rng) st).1,
        ((i : ℤ) = treeIndex → d.cls = 58) ∧
        ((i : ℤ) ≠ treeIndex → (i : ℤ) = buildingIndex → d.cls = -1) := by
  induction l with
  | nil => intro st; exact ⟨fun _ h => h, fun _ h => absurd h (List.not_mem_nil _)⟩
  | cons j l ih =>
    intro st
    rw [List.foldl_cons]
    obtain ⟨d, hd, h1, h2⟩ := simulateStep_cls regions treeIndex buildingIndex debug rng st j
    obtain ⟨i1, i2⟩ := ih (simulateStep regions treeIndex buildingIndex debug rng st j)
    refine ⟨fun e he => i1 e (by rw [hd]; exact List.mem_append_left _ he), ?_⟩
    intro i hi
    rcases List.mem_cons.mp hi with rfl | hi
    · exact ⟨d, i1 d (by rw [hd]; simp), h1, h2⟩
    · exact i2 i hi

/-- For a generator whose first three values lie in `[0, 1)`, the list of
`simulateDetection` holds a tree and a building. -/
theorem simulateDetection_tree_and_building (canvasWidth canvasHeight imageHash variation : ℚ)
    (debug : Bool) (ambient : ℚ)
    (h0 : 0 ≤ _seededRandom (imageHash + variation * 0.1) ambient 0 ∧
      _seededRandom (imageHash + variation * 0.1) ambient 0 < 1)
    (h1 : 0 ≤ _seededRandom (imageHash + variation * 0.1) ambient 1 ∧
      _seededRandom (imageHash + variation * 0.1) ambient 1 < 1)
    (h2 : 0 ≤ _seededRandom (imageHash + variation * 0.1) ambient 2 ∧
      _seededRandom (imageHash + variation * 0.1) ambient 2 < 1) :
    (∃ d ∈ simulateDetection canvasWidth canvasHeight imageHash variation debug ambient,
        d.cls = 58) ∧
      ∃ d ∈ simulateDetection canvasWidth canvasHeight imageHash variation debug ambient,
        d.cls = -1 := by
  unfold simulateDetection
  simp only []
  generalize _seededRandom (imageHash + variation * 0.1) ambient = rng at h0 h1 h2 ⊢
  have hc1 : 2 ≤ ⌊rng 0 * 3⌋ + 2 := by
    have : 0 ≤ ⌊rng 0 * 3⌋ := Int.floor_nonneg.mpr (by linarith [h0.1])
    omega
  have hc2 : ⌊rng 0 * 3⌋ + 2 ≤ 4 := by
    have : ⌊rng 0 * 3⌋ < 3 := Int.floor_lt.mpr (by push_cast; linarith [h0.2])
    omega
  generalize hcount : ⌊rng 0 * 3⌋ + 2 = count at hc1 hc2 ⊢
  have hcq : (2 : ℚ) ≤ (count : ℚ) := by exact_mod_cast hc1
  have ht0 : 0 ≤ ⌊rng 1 * (count : ℚ)⌋ :=
    Int.floor_nonneg.mpr (mul_nonneg h1.1 (by linarith))
  have ht1 : ⌊rng 1 * (count : ℚ)⌋ < count := by
    rw [Int.floor_lt]
    nlinarith [h1.2]
  have hk0 : 0 ≤ ⌊rng 2 * ((count : ℚ) - 1)⌋ :=
    Int.floor_nonneg.mpr (mul_nonneg h2.1 (by linarith))
  have hk1 : ⌊rng 2 * ((count : ℚ) - 1)⌋ < count - 1 := by
    rw [Int.floor_lt]
    push_cast
    nlinarith [h2.2]
  generalize ht : ⌊rng 1 * (count : ℚ)⌋ = treeIndex at ht0 ht1 ⊢
  generalize hk : ⌊rng 2 * ((count : ℚ) - 1)⌋ = k at hk0 hk1 ⊢
  have hb : 0 ≤ Int.tmod (treeIndex + 1 + k) count ∧
      Int.tmod (treeIndex + 1 + k) count < count ∧
      Int.tmod (treeIndex + 1 + k) count ≠ treeIndex := by
    rw [Int.tmod_eq_emod (by omega) (by omega)]
    have hcases : count = 2 ∨ count = 3 ∨ count = 4 := by omega
    rcases hcases with rfl | rfl | rfl <;> omega
  generalize hbi : Int.tmod (treeIndex + 1 + k) count = buildingIndex at hb ⊢
  obtain ⟨_, hall⟩ := simulateFold_cls
    (_divideCanvasToRegions canvasWidth canvasHeight count rng 3) treeIndex buildingIndex
    debug rng (List.range count.toNat) ([], 3 + 4 * count.toNat)
  constructor
  · obtain ⟨d, hd, hd1, _⟩ := hall treeIndex.toNat (by rw [List.mem_range]; omega)
    exact ⟨d, hd, hd1 (by omega)⟩
  · obtain ⟨d, hd, _, hd2⟩ := hall buildingIndex.toNat (by rw [List.mem_range]; omega)
    exact ⟨d, hd, hd2 (by omega) (by omega)⟩

/-- For a seed that is not negative (and `Math.random() ≥ 0` when the seed is 0), the
list of `simulateDetection` holds a tree and a building. -/
theorem simulateDetection_tree_and_building_of_nonneg_seed
    (canvasWidth canvasHeight imageHash variation : ℚ) (debug : Bool) (ambient : ℚ)
    (hs : 0 ≤ imageHash + variation * 0.1) (ha : 0 ≤ ambient) :
    (∃ d ∈ simulateDetection canvasWidth canvasHeight imageHash variation debug ambient,
        d.cls = 58) ∧
      ∃ d ∈ simulateDetection canvasWidth canvasHeight imageHash variation debug ambient,
        d.cls = -1 := by
  have hu : UnitRange (_seededRandom (imageHash + variation * 0.1) ambient) := by
    unfold _seededRandom
    apply lcgValue_unitRange
    split_ifs
    · exact mul_nonneg ha (by norm_num)
    · exact hs
  exact simulateDetection_tree_and_building canvasWidth canvasHeight imageHash variation
    debug ambient (hu 0) (hu 1) (hu 2)

/-! ## Claims about `generateHashFromFilename` -/

theorem toInt32_range (n : ℤ) : -2147483648 ≤ toInt32 n ∧ toInt32 n < 2147483648 := by
  unfold toInt32
  constructor <;> omega

theorem filenameHash_range (filename : List ℕ) :
    -2147483648 ≤ filenameHash filename ∧ filenameHash filename < 2147483648 := by
  unfold filenameHash
  have key : ∀ (l : List ℕ) (h : ℤ), -2147483648 ≤ h ∧ h < 2147483648 →
      -2147483648 ≤ l.foldl hashStep h ∧ l.foldl hashStep h < 2147483648 := by
    intro l
    induction l with
    | nil => intro h hh; exact hh
    | cons c l ih =>
      intro h _
      rw [List.foldl_cons]
      exact ih _ (toInt32_range _)
  exact key filename 0 (by norm_num)

theorem hashNumberString_mem (hash : ℤ) : hashNumberString hash ∈ ["1", "2", "3", "4"] := by
  unfold hashNumberString
  simp only []
  have h0 : 0 ≤ |hash| % 4 := Int.emod_nonneg _ (by norm_num)
  have h4 : |hash| % 4 < 4 := Int.emod_lt_of_pos _ (by norm_num)
  have hcases : |hash| % 4 = 0 ∨ |hash| % 4 = 1 ∨ |hash| % 4 = 2 ∨ |hash| % 4 = 3 := by omega
  rcases hcases with h | h | h | h <;> rw [h] <;> decide

/-- C40: for every string (given by its list of UTF-16 code units, the empty list
included), `generateHashFromFilename` returns one of "1", "2", "3", "4": the hash is in
the signed 32-bit range after every step, and the last step maps every hash into 1..4,
the hash -2^31 to "1". -/
theorem generateHashFromFilename_range (filename : List ℕ) :
    generateHashFromFilename filename ∈ ["1", "2", "3", "4"] ∧
      (-2147483648 ≤ filenameHash filename ∧ filenameHash filename < 2147483648) ∧
      (∀ (hash : ℤ) (char : ℕ),
        -2147483648 ≤ hashStep hash char ∧ hashStep hash char < 2147483648 ∧
        (hashStep hash char - (31 * hash + char)) % 4294967296 = 0) ∧
      hashNumberString (-2147483648) = "1" ∧ generateHashFromFilename [] = "1" := by
  refine ⟨hashNumberString_mem _, filenameHash_range filename, ?_, by decide, by decide⟩
  intro hash char
  refine ⟨(toInt32_range _).1, (toInt32_range _).2, ?_⟩
  unfold hashStep toInt32
  simp only []
  omega

/-! ## Lemmas: double rounding -/

theorem halvings_spec : ∀ fuel n : ℕ, n ≤ fuel → 1 ≤ n →
    2 ^ halvings fuel n ≤ n ∧ n < 2 ^ (halvings fuel n + 1) := by
  intro fuel
  induction fuel with
  | zero => intro n h0 h1; omega
  | succ fuel ih =>
    intro n hn h1
    unfold halvings
    by_cases h2 : n < 2
    · rw [if_pos h2]
      have : n = 1 := by omega
      subst this
      norm_num
    · rw [if_neg h2]
      obtain ⟨i1, i2⟩ := ih (n / 2) (by omega) (by omega)
      have e1 : 2 ^ (halvings fuel (n / 2) + 1) = 2 * 2 ^ halvings fuel (n / 2) := by ring
      have e2 : 2 ^ (halvings fuel (n / 2) + 1 + 1) = 4 * 2 ^ halvings fuel (n / 2) := by ring
      rw [e1] at i2
      rw [e1, e2]
      generalize 2 ^ halvings fuel (n / 2) = p at i1 i2 ⊢
      constructor <;> omega

theorem abs_eq_natAbs_div_den (q : ℚ) : |q| = (q.num.natAbs : ℚ) / (q.den : ℚ) := by
  have hd : (0 : ℚ) < (q.den : ℚ) := by exact_mod_cast q.den_pos
  conv_lhs => rw [← Rat.num_div_den q]
  rw [abs_div, abs_of_pos hd, Nat.cast_natAbs, Int.cast_abs]

theorem binaryExponent_spec (q : ℚ) (hq : q ≠ 0) :
    (2 : ℚ) ^ binaryExponent q ≤ |q| ∧ |q| < (2 : ℚ) ^ (binaryExponent q + 1) := by
  have hn1 : 1 ≤ q.num.natAbs := by
    have : q.num ≠ 0 := Rat.num_ne_zero.mpr hq
    omega
  have hd1 : 1 ≤ q.den := q.den_pos
  obtain ⟨a1, a2⟩ := halvings_spec q.num.natAbs q.num.natAbs le_rfl hn1
  obtain ⟨b1, b2⟩ := halvings_spec q.den q.den le_rfl hd1
  have hd : (0 : ℚ) < (q.den : ℚ) := by exact_mod_cast q.den_pos
  have a1' : (2 : ℚ) ^ (halvings q.num.natAbs q.num.natAbs : ℤ) ≤ (q.num.natAbs : ℚ) := by
    rw [zpow_natCast]; exact_mod_cast a1
  have a2' : (q.num.natAbs : ℚ) < (2 : ℚ) ^ ((halvings q.num.natAbs q.num.natAbs : ℤ) + 1) := by
    have : ((halvings q.num.natAbs q.num.natAbs : ℤ) + 1) =
        ((halvings q.num.natAbs q.num.natAbs + 1 : ℕ) : ℤ) := by push_cast; ring
    rw [this, zpow_natCast]; exact_mod_cast a2
  have b1' : (2 : ℚ) ^ (halvings q.den q.den : ℤ) ≤ (q.den : ℚ) := by
    rw [zpow_natCast]; exact_mod_cast b1
  have b2' : (q.den : ℚ) < (2 : ℚ) ^ ((halvings q.den q.den : ℤ) + 1) := by
    have : ((halvings q.den q.den : ℤ) + 1) = ((halvings q.den q.den + 1 : ℕ) : ℤ) := by
      push_cast; ring
    rw [this, zpow_natCast]; exact_mod_cast b2
  have habs := abs_eq_natAbs_div_den q
  unfold binaryExponent
  simp only []
  generalize (halvings q.num.natAbs q.num.natAbs : ℤ) = a at a1' a2' ⊢
  generalize (halvings q.den q.den : ℤ) = b at b1' b2' ⊢
  have h2 : (0 : ℚ) < 2 := by norm_num
  have hpb : (0 : ℚ) < (2 : ℚ) ^ b := zpow_pos h2 b
  have hpb1 : (0 : ℚ) < (2 : ℚ) ^ (b + 1) := zpow_pos h2 (b + 1)
  have hupper : |q| < (2 : ℚ) ^ (a - b + 1) := by
    rw [habs, div_lt_iff₀ hd]
    have e : (2 : ℚ) ^ (a - b + 1) = (2 : ℚ) ^ (a + 1) / (2 : ℚ) ^ b := by
      rw [← zpow_sub₀ (by norm_num)]; congr 1; ring
    rw [e, div_mul_eq_mul_div, lt_div_iff₀ hpb]
    calc (q.num.natAbs : ℚ) * (2 : ℚ) ^ b ≤ (q.num.natAbs : ℚ) * (q.den : ℚ) :=
          mul_le_mul_of_nonneg_left b1' (Nat.cast_nonneg _)
      _ < (2 : ℚ) ^ (a + 1) * (q.den : ℚ) := mul_lt_mul_of_pos_right a2' hd
  have hlower : (2 : ℚ) ^ (a - b - 1) ≤ |q| := by
    rw [habs, le_div_iff₀ hd]
    have e : (2 : ℚ) ^ (a - b - 1) = (2 : ℚ) ^ a / (2 : ℚ) ^ (b + 1) := by
      rw [← zpow_sub₀ (by norm_num)]; congr 1; ring
    rw [e, div_mul_eq_mul_div, div_le_iff₀ hpb1]
    calc (2 : ℚ) ^ a * (q.den : ℚ) ≤ (2 : ℚ) ^ a * (2 : ℚ) ^ (b + 1) :=
          mul_le_mul_of_nonneg_left b2'.le (zpow_pos h2 a).le
      _ ≤ (q.num.natAbs : ℚ) * (2 : ℚ) ^ (b + 1) :=
          mul_le_mul_of_nonneg_right a1' hpb1.le
  by_cases hc : (2 : ℚ) ^ (a - b) ≤ |q|
  · rw [if_pos hc]; exact ⟨hc, hupper⟩
  · rw [if_neg hc]
    refine ⟨hlower, ?_⟩
    have : a - b - 1 + 1 = a - b := by ring
    rw [this]
    exact not_le.mp hc


theorem binaryExponent_unique (q : ℚ) (e : ℤ) (h1 : (2 : ℚ) ^ e ≤ |q|)
    (h2 : |q| < (2 : ℚ) ^ (e + 1)) : binaryExponent q = e := by
  have hq : q ≠ 0 := by
    intro h
    rw [h, abs_zero] at h1
    exact absurd h1 (not_le.mpr (zpow_pos (by norm_num) e))
  obtain ⟨s1, s2⟩ := binaryExponent_spec q hq
  have hlt1 : binaryExponent q < e + 1 :=
    (zpow_lt_zpow_iff_right₀ (by norm_num : (1 : ℚ) < 2)).mp (lt_of_le_of_lt s1 h2)
  have hlt2 : e < binaryExponent q + 1 :=
    (zpow_lt_zpow_iff_right₀ (by norm_num : (1 : ℚ) < 2)).mp (lt_of_le_of_lt h1 s2)
  omega

theorem binaryExponent_neg (q : ℚ) : binaryExponent (-q) = binaryExponent q := by
  unfold binaryExponent
  simp only [Rat.neg_num, Rat.neg_den, Int.natAbs_neg, abs_neg]

theorem roundHalfEven_cases (m : ℚ) :
    roundHalfEven m = ⌊m⌋ ∨ roundHalfEven m = ⌊m⌋ + 1 := by
  unfold roundHalfEven
  simp only []
  split_ifs <;> simp

theorem roundHalfEven_intCast (k : ℤ) : roundHalfEven (k : ℚ) = k := by
  unfold roundHalfEven
  simp

theorem roundHalfEven_mono (a b : ℚ) (h : a ≤ b) : roundHalfEven a ≤ roundHalfEven b := by
  have hf : ⌊a⌋ ≤ ⌊b⌋ := Int.floor_mono h
  rcases lt_or_eq_of_le hf with hlt | heq
  · rcases roundHalfEven_cases a with ha | ha <;> rcases roundHalfEven_cases b with hb | hb <;>
      omega
  · unfold roundHalfEven
    simp only []
    rw [heq]
    have hab : a - ⌊b⌋ ≤ b - ⌊b⌋ := by linarith
    split_ifs <;> first | omega | (exfalso; linarith)

theorem roundHalfEven_neg (m : ℚ) : roundHalfEven (-m) = -roundHalfEven m := by
  by_cases hint : (⌊m⌋ : ℚ) = m
  · rw [← hint, ← Int.cast_neg, roundHalfEven_intCast, roundHalfEven_intCast]
  · have hlt : (⌊m⌋ : ℚ) < m := lt_of_le_of_ne (Int.floor_le m) hint
    have hlt2 : m < (⌊m⌋ : ℚ) + 1 := Int.lt_floor_add_one m
    have hfl : ⌊-m⌋ = -⌊m⌋ - 1 := by
      rw [Int.floor_eq_iff]
      push_cast
      constructor <;> linarith
    unfold roundHalfEven
    simp only []
    rw [hfl]
    push_cast
    split_ifs <;> first | omega | (exfalso; linarith)

theorem roundHalfEven_ge (m : ℚ) (k : ℤ) (h : (k : ℚ) ≤ m) : k ≤ roundHalfEven m := by
  have := roundHalfEven_mono _ _ h
  rwa [roundHalfEven_intCast] at this

theorem roundHalfEven_le (m : ℚ) (k : ℤ) (h : m ≤ (k : ℚ)) : roundHalfEven m ≤ k := by
  have := roundHalfEven_mono _ _ h
  rwa [roundHalfEven_intCast] at this

theorem toDouble_zero : toDouble 0 = 0 := by
  unfold toDouble
  rw [if_pos rfl]

theorem toDouble_of_ne (q : ℚ) (hq : q ≠ 0) :
    toDouble q = (roundHalfEven (q / (2 : ℚ) ^ (binaryExponent q - 52)) : ℚ) *
      (2 : ℚ) ^ (binaryExponent q - 52) := by
  unfold toDouble
  rw [if_neg hq]

theorem toDouble_neg (q : ℚ) : toDouble (-q) = -toDouble q := by
  unfold toDouble
  by_cases hq : q = 0
  · simp [hq]
  · rw [if_neg hq, if_neg (neg_ne_zero.mpr hq)]
    simp only [binaryExponent_neg, neg_div, roundHalfEven_neg, Int.cast_neg, neg_mul]

/-- For a positive `q` with binary exponent `e`, the double is `k * 2^(e - 52)` with an
integer `k` between `2^52` and `2^53`. -/
theorem toDouble_pos_form (q : ℚ) (hq : 0 < q) :
    ∃ k : ℤ, toDouble q = (k : ℚ) * (2 : ℚ) ^ (binaryExponent q - 52) ∧
      k = roundHalfEven (q / (2 : ℚ) ^ (binaryExponent q - 52)) ∧
      (2 : ℤ) ^ 52 ≤ k ∧ k ≤ (2 : ℤ) ^ 53 := by
  obtain ⟨s1, s2⟩ := binaryExponent_spec q hq.ne'
  rw [abs_of_pos hq] at s1 s2
  have hu : (0 : ℚ) < (2 : ℚ) ^ (binaryExponent q - 52) := zpow_pos (by norm_num) _
  refine ⟨_, ?_, rfl, ?_, ?_⟩
  · unfold toDouble
    rw [if_neg hq.ne']
  · apply roundHalfEven_ge
    rw [le_div_iff₀ hu]
    have : (((2 : ℤ) ^ 52 : ℤ) : ℚ) * (2 : ℚ) ^ (binaryExponent q - 52) =
        (2 : ℚ) ^ binaryExponent q := by
      rw [zpow_sub₀ (by norm_num)]
      push_cast
      field_simp
      ring
    rw [this]; exact s1
  · apply roundHalfEven_le
    rw [div_le_iff₀ hu]
    have : (((2 : ℤ) ^ 53 : ℤ) : ℚ) * (2 : ℚ) ^ (binaryExponent q - 52) =
        (2 : ℚ) ^ (binaryExponent q + 1) := by
      rw [zpow_sub₀ (by norm_num), zpow_add_one₀ (by norm_num)]
      push_cast
      field_simp
      ring
    rw [this]; exact s2.le

theorem toDouble_pos_bounds (q : ℚ) (hq : 0 < q) :
    (2 : ℚ) ^ binaryExponent q ≤ toDouble q ∧
      toDouble q ≤ (2 : ℚ) ^ (binaryExponent q + 1) := by
  obtain ⟨k, hk, _, k1, k2⟩ := toDouble_pos_form q hq
  have hu : (0 : ℚ) < (2 : ℚ) ^ (binaryExponent q - 52) := zpow_pos (by norm_num) _
  have e1 : (2 : ℚ) ^ binaryExponent q =
      (((2 : ℤ) ^ 52 : ℤ) : ℚ) * (2 : ℚ) ^ (binaryExponent q - 52) := by
    rw [zpow_sub₀ (by norm_num)]
    push_cast
    field_simp
    ring
  have e2 : (2 : ℚ) ^ (binaryExponent q + 1) =
      (((2 : ℤ) ^ 53 : ℤ) : ℚ) * (2 : ℚ) ^ (binaryExponent q - 52) := by
    rw [zpow_sub₀ (by norm_num), zpow_add_one₀ (by norm_num)]
    push_cast
    field_simp
    ring
  rw [hk, e1, e2]
  constructor
  · exact mul_le_mul_of_nonneg_right (by exact_mod_cast k1) hu.le
  · exact mul_le_mul_of_nonneg_right (by exact_mod_cast k2) hu.le

theorem toDouble_pos (q : ℚ) (hq : 0 < q) : 0 < toDouble q :=
  lt_of_lt_of_le (zpow_pos (by norm_num) _) (toDouble_pos_bounds q hq).1

theorem toDouble_mono_pos (a b : ℚ) (ha : 0 < a) (hab : a ≤ b) :
    toDouble a ≤ toDouble b := by
  have hb : 0 < b := lt_of_lt_of_le ha hab
  obtain ⟨a1, a2⟩ := binaryExponent_spec a ha.ne'
  obtain ⟨b1, b2⟩ := binaryExponent_spec b hb.ne'
  rw [abs_of_pos ha] at a1 a2
  rw [abs_of_pos hb] at b1 b2
  have hle : binaryExponent a < binaryExponent b + 1 :=
    (zpow_lt_zpow_iff_right₀ (by norm_num : (1 : ℚ) < 2)).mp
      (lt_of_le_of_lt a1 (lt_of_le_of_lt hab b2))
  rcases lt_or_eq_of_le (Int.lt_add_one_iff.mp hle) with hlt | heq
  · calc toDouble a ≤ (2 : ℚ) ^ (binaryExponent a + 1) := (toDouble_pos_bounds a ha).2
      _ ≤ (2 : ℚ) ^ binaryExponent b :=
          (zpow_le_zpow_iff_right₀ (by norm_num : (1 : ℚ) < 2)).mpr (by omega)
      _ ≤ toDouble b := (toDouble_pos_bounds b hb).1
  · obtain ⟨ka, hka, hka', _, _⟩ := toDouble_pos_form a ha
    obtain ⟨kb, hkb, hkb', _, _⟩ := toDouble_pos_form b hb
    have hu : (0 : ℚ) < (2 : ℚ) ^ (binaryExponent b - 52) := zpow_pos (by norm_num) _
    rw [hka, hkb, heq]
    apply mul_le_mul_of_nonneg_right _ hu.le
    rw [hka', hkb', heq]
    exact_mod_cast roundHalfEven_mono _ _ (div_le_div_of_nonneg_right hab hu.le)

theorem toDouble_mono (a b : ℚ) (hab : a ≤ b) : toDouble a ≤ toDouble b := by
  rcases lt_trichotomy a 0 with ha | ha | ha
  · rcases lt_trichotomy b 0 with hb | hb | hb
    · have h := toDouble_mono_pos (-b) (-a) (by linarith) (by linarith)
      rw [toDouble_neg, toDouble_neg] at h
      linarith
    · have h := toDouble_pos (-a) (by linarith)
      rw [toDouble_neg] at h
      rw [hb, toDouble_zero]
      linarith
    · have h := toDouble_pos (-a) (by linarith)
      rw [toDouble_neg] at h
      have h' := toDouble_pos b hb
      linarith
  · rw [ha, toDouble_zero]
    rcases lt_or_eq_of_le (ha ▸ hab) with hb | hb
    · exact (toDouble_pos b hb).le
    · rw [← hb, toDouble_zero]
  · exact toDouble_mono_pos a b ha hab

theorem toDouble_idem_pos (q : ℚ) (hq : 0 < q) : toDouble (toDouble q) = toDouble q := by
  obtain ⟨k, hk, _, k1, k2⟩ := toDouble_pos_form q hq
  have hpos := toDouble_pos q hq
  obtain ⟨l1, l2⟩ := toDouble_pos_bounds q hq
  rcases lt_or_eq_of_le k2 with hlt | heq
  · -- the significand did not overflow: same exponent
    have hu : (0 : ℚ) < (2 : ℚ) ^ (binaryExponent q - 52) := zpow_pos (by norm_num) _
    have hup : toDouble q < (2 : ℚ) ^ (binaryExponent q + 1) := by
      have e2 : (2 : ℚ) ^ (binaryExponent q + 1) =
          (((2 : ℤ) ^ 53 : ℤ) : ℚ) * (2 : ℚ) ^ (binaryExponent q - 52) := by
        rw [zpow_sub₀ (by norm_num), zpow_add_one₀ (by norm_num)]
        push_cast
        field_simp
        ring
      rw [hk, e2]
      exact mul_lt_mul_of_pos_right (by exact_mod_cast hlt) hu
    have he : binaryExponent (toDouble q) = binaryExponent q :=
      binaryExponent_unique _ _ (by rw [abs_of_pos hpos]; exact l1)
        (by rw [abs_of_pos hpos]; exact hup)
    have hdiv : toDouble q / (2 : ℚ) ^ (binaryExponent q - 52) = (k : ℚ) := by
      rw [hk]; field_simp
    rw [toDouble_of_ne (toDouble q) hpos.ne', he, hdiv, roundHalfEven_intCast]
    exact hk.symm
  · -- the significand is 2^53: the double is the next power of two
    have hval : toDouble q = (2 : ℚ) ^ (binaryExponent q + 1) := by
      rw [hk, heq, zpow_sub₀ (by norm_num), zpow_add_one₀ (by norm_num)]
      push_cast
      field_simp
      ring
    have he : binaryExponent (toDouble q) = binaryExponent q + 1 :=
      binaryExponent_unique _ _ (by rw [abs_of_pos hpos, hval])
        (by
          rw [abs_of_pos hpos, hval]
          exact (zpow_lt_zpow_iff_right₀ (by norm_num : (1 : ℚ) < 2)).mpr (by omega))
    have hdiv : toDouble q / (2 : ℚ) ^ (binaryExponent q + 1 - 52) =
        (((2 : ℤ) ^ 52 : ℤ) : ℚ) := by
      rw [hval, ← zpow_sub₀ (by norm_num)]
      have : binaryExponent q + 1 - (binaryExponent q + 1 - 52) = 52 := by ring
      rw [this]
      norm_num
    rw [toDouble_of_ne (toDouble q) hpos.ne', he, hdiv, roundHalfEven_intCast]
    rw [hval, zpow_sub₀ (by norm_num)]
    push_cast
    field_simp
    ring

theorem toDouble_idem (q : ℚ) : toDouble (toDouble q) = toDouble q := by
  rcases lt_trichotomy q 0 with hq | hq | hq
  · have h := toDouble_idem_pos (-q) (by linarith)
    rw [toDouble_neg, toDouble_neg] at h
    linarith
  · rw [hq, toDouble_zero, toDouble_zero]
  · exact toDouble_idem_pos q hq

/-- Integers below `2^53` in absolute value are doubles. -/
theorem toDouble_intCast (n : ℤ) (hn : |n| < (2 : ℤ) ^ 53) : toDouble (n : ℚ) = (n : ℚ) := by
  have key : ∀ m : ℤ, 0 < m → m < (2 : ℤ) ^ 53 → toDouble (m : ℚ) = (m : ℚ) := by
    intro m hm0 hm
    have hq : (0 : ℚ) < (m : ℚ) := by exact_mod_cast hm0
    obtain ⟨s1, _⟩ := binaryExponent_spec (m : ℚ) hq.ne'
    rw [abs_of_pos hq] at s1
    have he : binaryExponent (m : ℚ) < 53 := by
      apply (zpow_lt_zpow_iff_right₀ (by norm_num : (1 : ℚ) < 2)).mp
      refine lt_of_le_of_lt s1 ?_
      have : ((m : ℤ) : ℚ) < (((2 : ℤ) ^ 53 : ℤ) : ℚ) := by exact_mod_cast hm
      have e53 : (((2 : ℤ) ^ 53 : ℤ) : ℚ) = (2 : ℚ) ^ (53 : ℤ) := by norm_num
      rw [← e53]; exact this
    obtain ⟨t, ht⟩ : ∃ t : ℕ, (52 : ℤ) - binaryExponent (m : ℚ) = (t : ℤ) :=
      ⟨(52 - binaryExponent (m : ℚ)).toNat, by omega⟩
    have hulp : (2 : ℚ) ^ (binaryExponent (m : ℚ) - 52) = ((2 : ℚ) ^ t)⁻¹ := by
      have : binaryExponent (m : ℚ) - 52 = -(t : ℤ) := by omega
      rw [this, zpow_neg, zpow_natCast]
    have hdiv : (m : ℚ) / (2 : ℚ) ^ (binaryExponent (m : ℚ) - 52) =
        ((m * (2 : ℤ) ^ t : ℤ) : ℚ) := by
      rw [hulp]
      push_cast
      field_simp
    unfold toDouble
    rw [if_neg hq.ne']
    simp only [hdiv, roundHalfEven_intCast]
    rw [hulp]
    push_cast
    field_simp
  rcases lt_trichotomy n 0 with h | h | h
  · have hk := key (-n) (by omega) (by rw [abs_of_neg h] at hn; exact hn)
    rw [Int.cast_neg, toDouble_neg] at hk
    linarith
  · rw [h, Int.cast_zero, toDouble_zero]
  · exact key n h (by rw [abs_of_pos h] at hn; exact hn)

theorem roundHalfEven_error (m : ℚ) : |(roundHalfEven m : ℚ) - m| ≤ 1 / 2 := by
  have h1 : (⌊m⌋ : ℚ) ≤ m := Int.floor_le m
  have h2 : m < (⌊m⌋ : ℚ) + 1 := Int.lt_floor_add_one m
  unfold roundHalfEven
  simp only []
  rw [abs_le]
  split_ifs <;> push_cast <;> constructor <;> linarith

/-- The rounding error of `toDouble` is at most half a unit in the last place, hence at
most `2^(-53)` times the absolute value. -/
theorem toDouble_error (q : ℚ) : |toDouble q - q| ≤ |q| * (2 : ℚ) ^ (-53 : ℤ) := by
  by_cases hq : q = 0
  · rw [hq, toDouble_zero]; simp
  · obtain ⟨s1, _⟩ := binaryExponent_spec q hq
    have hu : (0 : ℚ) < (2 : ℚ) ^ (binaryExponent q - 52) := zpow_pos (by norm_num) _
    have hm := roundHalfEven_error (q / (2 : ℚ) ^ (binaryExponent q - 52))
    have e1 : toDouble q - q =
        ((roundHalfEven (q / (2 : ℚ) ^ (binaryExponent q - 52)) : ℚ) -
          q / (2 : ℚ) ^ (binaryExponent q - 52)) * (2 : ℚ) ^ (binaryExponent q - 52) := by
      rw [toDouble_of_ne q hq]
      field_simp
    rw [e1, abs_mul, abs_of_pos hu]
    have e2 : (2 : ℚ) ^ (binaryExponent q - 52) * (1 / 2) =
        (2 : ℚ) ^ binaryExponent q * (2 : ℚ) ^ (-53 : ℤ) := by
      rw [zpow_sub₀ (by norm_num), zpow_neg]
      have h52 : ((2 : ℚ) ^ (52 : ℤ)) = 4503599627370496 := by norm_num
      have h53 : ((2 : ℚ) ^ (53 : ℤ)) = 9007199254740992 := by norm_num
      rw [h52, h53]
      ring
    calc |(roundHalfEven (q / (2 : ℚ) ^ (binaryExponent q - 52)) : ℚ) -
          q / (2 : ℚ) ^ (binaryExponent q - 52)| * (2 : ℚ) ^ (binaryExponent q - 52)
        ≤ 1 / 2 * (2 : ℚ) ^ (binaryExponent q - 52) :=
          mul_le_mul_of_nonneg_right hm hu.le
      _ = (2 : ℚ) ^ binaryExponent q * (2 : ℚ) ^ (-53 : ℤ) := by rw [← e2]; ring
      _ ≤ |q| * (2 : ℚ) ^ (-53 : ℤ) :=
          mul_le_mul_of_nonneg_right s1 (zpow_pos (by norm_num) _).le

theorem toDouble_nonneg (q : ℚ) (hq : 0 ≤ q) : 0 ≤ toDouble q := by
  have := toDouble_mono 0 q hq
  rwa [toDouble_zero] at this

theorem toDouble_natCast (n : ℕ) (hn : n < 2 ^ 53) : toDouble (n : ℚ) = (n : ℚ) := by
  have h := toDouble_intCast (n : ℤ) (by
    rw [abs_of_nonneg (Int.natCast_nonneg n)]
    exact_mod_cast hn)
  simpa using h

/-! ## The seeded generator in double arithmetic: claims -/

theorem specMod_natCast (a : ℕ) : specMod (a : ℚ) 233280 = ((a % 233280 : ℕ) : ℚ) := by
  unfold specMod
  have hf : ⌊(a : ℚ) / 233280⌋ = ((a / 233280 : ℕ) : ℤ) := by
    have h := Rat.floor_intCast_div_natCast (a : ℤ) 233280
    push_cast at h
    rw [h]
    norm_cast
  rw [hf, Int.cast_natCast]
  have hdm : a % 233280 + 233280 * (a / 233280) = a := Nat.mod_add_div a 233280
  have hq : ((a % 233280 : ℕ) : ℚ) + 233280 * ((a / 233280 : ℕ) : ℚ) = (a : ℚ) := by
    exact_mod_cast hdm
  linarith

theorem lcgNextDouble_natCast (t : ℕ) (ht : t * 9301 + 49297 < 2 ^ 53) :
    lcgNextDouble (t : ℚ) = (((t * 9301 + 49297) % 233280 : ℕ) : ℚ) ∧
      lcgNextDouble (t : ℚ) = specMod ((t : ℚ) * 9301 + 49297) 233280 := by
  have h1 : toDouble ((t : ℚ) * 9301) = ((t * 9301 : ℕ) : ℚ) := by
    have := toDouble_natCast (t * 9301) (by omega)
    push_cast at this ⊢
    exact this
  have h2 : toDouble (((t * 9301 : ℕ) : ℚ) + 49297) = ((t * 9301 + 49297 : ℕ) : ℚ) := by
    have := toDouble_natCast (t * 9301 + 49297) ht
    push_cast at this ⊢
    exact this
  have h3 : lcgNextDouble (t : ℚ) = specMod (((t * 9301 + 49297 : ℕ) : ℚ)) 233280 := by
    unfold lcgNextDouble
    rw [h1, h2, jsMod_eq_specMod _ _ (Nat.cast_nonneg _) (by norm_num)]
  refine ⟨by rw [h3, specMod_natCast], ?_⟩
  rw [h3]
  push_cast
  rfl

theorem lcgStateDouble_spec (n : ℕ) (hn : n * 9301 + 49297 < 2 ^ 53) :
    ∀ k, lcgStateDouble (n : ℚ) k = specLcgState (n : ℚ) k ∧
      ∃ t : ℕ, lcgStateDouble (n : ℚ) k = (t : ℚ) ∧ t * 9301 + 49297 < 2 ^ 53 ∧
        (0 < k → t < 233280) := by
  intro k
  induction k with
  | zero => exact ⟨rfl, n, rfl, hn, fun h => absurd h (lt_irrefl 0)⟩
  | succ k ih =>
    obtain ⟨he, t, ht, hb, _⟩ := ih
    obtain ⟨g1, g2⟩ := lcgNextDouble_natCast t hb
    have hlt : (t * 9301 + 49297) % 233280 < 233280 := Nat.mod_lt _ (by norm_num)
    refine ⟨?_, (t * 9301 + 49297) % 233280, ?_, by omega, fun _ => hlt⟩
    · show lcgNextDouble (lcgStateDouble (n : ℚ) k) =
        specMod (specLcgState (n : ℚ) k * 9301 + 49297) 233280
      rw [← he, ht, g2]
    · show lcgNextDouble (lcgStateDouble (n : ℚ) k) = _
      rw [ht, g1]

/-- C12 (amended): for every integer seed `n > 0` with `n * 9301 + 49297 < 2^53`, call
number `k` (counted from 1) of the generator that `_seededRandom(n)` returns runs, in
double arithmetic, through exactly the states `s_k` with `s_0 = n` and
`s_(k+1) = (s_k * 9301 + 49297) mod 233280` (the states of the exact recurrence); the
value it yields is the double nearest to `s_k / 233280`, within `2^(-53)` of it, at least
0 and below 1. -/
theorem seededRandomDouble_sequence (n : ℕ) (hn : 0 < n)
    (hsmall : n * 9301 + 49297 < 2 ^ 53) (ambient : ℚ) (k : ℕ) :
    lcgStateDouble (n : ℚ) (k + 1) = specLcgState (n : ℚ) (k + 1) ∧
      lcgStateDouble (n : ℚ) (k + 1) = lcgState (n : ℚ) (k + 1) ∧
      seededRandomDouble (n : ℚ) ambient k = toDouble (specLcgState (n : ℚ) (k + 1) / 233280) ∧
      |seededRandomDouble (n : ℚ) ambient k - specLcgState (n : ℚ) (k + 1) / 233280| ≤
        (2 : ℚ) ^ (-53 : ℤ) ∧
      0 ≤ seededRandomDouble (n : ℚ) ambient k ∧ seededRandomDouble (n : ℚ) ambient k < 1 := by
  obtain ⟨he, t, ht, _, hlt⟩ := lcgStateDouble_spec n hsmall (k + 1)
  have hlt' : t < 233280 := hlt (Nat.succ_pos k)
  have hn0 : (n : ℚ) ≠ 0 := by exact_mod_cast hn.ne'
  have hval : seededRandomDouble (n : ℚ) ambient k =
      toDouble (specLcgState (n : ℚ) (k + 1) / 233280) := by
    unfold seededRandomDouble lcgValueDouble
    rw [if_neg hn0, he]
  have hq : specLcgState (n : ℚ) (k + 1) = (t : ℚ) := by rw [← he, ht]
  have hq0 : (0 : ℚ) ≤ (t : ℚ) / 233280 := div_nonneg (Nat.cast_nonneg t) (by norm_num)
  have hq1 : (t : ℚ) / 233280 ≤ 233279 / 233280 := by
    apply div_le_div_of_nonneg_right _ (by norm_num)
    have : t ≤ 233279 := by omega
    exact_mod_cast this
  have htop : toDouble (233279 / 233280) < 1 := by decide!
  refine ⟨he, ?_, hval, ?_, ?_, ?_⟩
  · rw [he, lcgState_eq_spec (n : ℚ) (Nat.cast_nonneg n)]
  · rw [hval, hq]
    refine le_trans (toDouble_error _) ?_
    rw [abs_of_nonneg hq0]
    have hp : (0 : ℚ) < (2 : ℚ) ^ (-53 : ℤ) := zpow_pos (by norm_num) _
    have : (t : ℚ) / 233280 ≤ 1 := le_trans hq1 (by norm_num)
    calc (t : ℚ) / 233280 * (2 : ℚ) ^ (-53 : ℤ) ≤ 1 * (2 : ℚ) ^ (-53 : ℤ) :=
          mul_le_mul_of_nonneg_right this hp.le
      _ = (2 : ℚ) ^ (-53 : ℤ) := one_mul _
  · rw [hval, hq]; exact toDouble_nonneg _ hq0
  · rw [hval, hq]; exact lt_of_le_of_lt (toDouble_mono _ _ hq1) htop

/-- Instance of C12 (amended) at seed 2, first call: the state is 67899 and the value is
the double nearest to 67899 / 233280. -/
theorem seededRandomDouble_sequence_witness :
    0 < 2 ∧ 2 * 9301 + 49297 < 2 ^ 53 ∧
      lcgStateDouble ((2 : ℕ) : ℚ) (0 + 1) = specLcgState ((2 : ℕ) : ℚ) (0 + 1) ∧
      lcgStateDouble ((2 : ℕ) : ℚ) (0 + 1) = lcgState ((2 : ℕ) : ℚ) (0 + 1) ∧
      seededRandomDouble ((2 : ℕ) : ℚ) 0 0 =
        toDouble (specLcgState ((2 : ℕ) : ℚ) (0 + 1) / 233280) ∧
      |seededRandomDouble ((2 : ℕ) : ℚ) 0 0 - specLcgState ((2 : ℕ) : ℚ) (0 + 1) / 233280| ≤
        (2 : ℚ) ^ (-53 : ℤ) ∧
      0 ≤ seededRandomDouble ((2 : ℕ) : ℚ) 0 0 ∧ seededRandomDouble ((2 : ℕ) : ℚ) 0 0 < 1 :=
  ⟨by decide, by decide, seededRandomDouble_sequence 2 (by decide) (by decide) 0 0⟩

/-- C12 (counterexample): at the seed `10^15` (a double) the sum `10^15 * 9301 + 49297`
is rounded to `10^15 * 9301 + 49152`, so the first state of the generator is 149632 where
the recurrence gives `s_1 = 149777`, and the first value is neither `s_1 / 233280` nor the
double nearest to it. -/
theorem seededRandomDouble_large_seed :
    (0 : ℚ) < 10 ^ 15 ∧ toDouble (10 ^ 15) = 10 ^ 15 ∧
      toDouble (toDouble (10 ^ 15 * 9301) + 49297) = 10 ^ 15 * 9301 + 49152 ∧
      lcgStateDouble (10 ^ 15) 1 = 149632 ∧ specLcgState (10 ^ 15) 1 = 149777 ∧
      seededRandomDouble (10 ^ 15) 0 0 = toDouble (149632 / 233280) ∧
      seededRandomDouble (10 ^ 15) 0 0 ≠ specLcgState (10 ^ 15) 1 / 233280 ∧
      seededRandomDouble (10 ^ 15) 0 0 ≠ toDouble (specLcgState (10 ^ 15) 1 / 233280) := by
  decide!

/-- At the fractional seed 7.3 (as a double) the generator leaves the exact recurrence at
the second state. -/
theorem seededRandomDouble_fraction_seed :
    lcgStateDouble (toDouble 7.3) 2 ≠ specLcgState (toDouble 7.3) 2 := by
  decide!

/-! ## The color scores in double arithmetic: claims -/

theorem sumStepDouble_exact (pixelData : PixelData) (h8 : EightBit pixelData) (imgWidth : ℕ)
    (st : BlockSumsDouble) (xy : ℕ × ℕ) (n : ℕ) (hn : 255 * (n + 1) < 2 ^ 53)
    (h : st.Exact n) : (sumStepDouble pixelData imgWidth st xy).Exact (n + 1) := by
  obtain ⟨c, R, G, B, gp, yp, bp, e1, e2, e3, e4, e5, e6, e7, hc, hR, hG, hB, hgp, hyp, hbp⟩ := h
  unfold sumStepDouble
  cases hq : pixelData[xy.2 * imgWidth + xy.1]? with
  | none =>
    exact ⟨c, R, G, B, gp, yp, bp, e1, e2, e3, e4, e5, e6, e7, by omega, hR, hG, hB, hgp, hyp,
      hbp⟩
  | some p =>
    obtain ⟨p1, p2, p3⟩ := h8 p (List.getElem?_mem hq)
    have key : ∀ a b : ℕ, a + b ≤ 255 * (c + 1) →
        toDouble ((a : ℚ) + (b : ℚ)) = ((a + b : ℕ) : ℚ) := by
      intro a b hab
      have := toDouble_natCast (a + b) (by omega)
      push_cast at this ⊢
      exact this
    have key1 : ∀ a : ℕ, a ≤ c → toDouble ((a : ℚ) + 1) = ((a + 1 : ℕ) : ℚ) := by
      intro a ha
      have := key a 1 (by omega)
      push_cast at this ⊢
      exact this
    simp only [e1, e2, e3, e4, e5, e6, e7]
    generalize classifyPixelDouble (p.r : ℚ) (p.g : ℚ) (p.b : ℚ) = cls
    refine ⟨c + 1, R + p.r, G + p.g, B + p.b,
      if cls = PixelClass.green then gp + 1 else gp,
      if cls = PixelClass.gray then yp + 1 else yp,
      if cls = PixelClass.blue then bp + 1 else bp,
      key1 c le_rfl, key R p.r (by omega), key G p.g (by omega), key B p.b (by omega),
      ?_, ?_, ?_, by omega, by omega, by omega, by omega, ?_, ?_, ?_⟩
    · show (if cls = PixelClass.green then toDouble ((gp : ℚ) + 1) else (gp : ℚ)) = _
      by_cases h : cls = PixelClass.green
      · rw [if_pos h, if_pos h]; exact key1 gp hgp
      · rw [if_neg h, if_neg h]
    · show (if cls = PixelClass.gray then toDouble ((yp : ℚ) + 1) else (yp : ℚ)) = _
      by_cases h : cls = PixelClass.gray
      · rw [if_pos h, if_pos h]; exact key1 yp hyp
      · rw [if_neg h, if_neg h]
    · show (if cls = PixelClass.blue then toDouble ((bp : ℚ) + 1) else (bp : ℚ)) = _
      by_cases h : cls = PixelClass.blue
      · rw [if_pos h, if_pos h]; exact key1 bp hbp
      · rw [if_neg h, if_neg h]
    · split_ifs <;> omega
    · split_ifs <;> omega
    · split_ifs <;> omega

theorem sumFoldDouble_exact (pixelData : PixelData) (h8 : EightBit pixelData) (imgWidth : ℕ)
    (l : List (ℕ × ℕ)) :
    ∀ (st : BlockSumsDouble) (n : ℕ), 255 * (n + l.length) < 2 ^ 53 → st.Exact n →
      (l.foldl (sumStepDouble pixelData imgWidth) st).Exact (n + l.length) := by
  induction l with
  | nil => intro st n _ h; exact h
  | cons xy l ih =>
    intro st n hn h
    rw [List.foldl_cons]
    rw [List.length_cons] at hn ⊢
    have h1 := sumStepDouble_exact pixelData h8 imgWidth st xy n (by omega) h
    have h2 := ih _ (n + 1) (by omega) h1
    have e : n + (l.length + 1) = n + 1 + l.length := by omega
    rw [e]
    exact h2

theorem blockSumsDouble_exact (pixelData : PixelData) (h8 : EightBit pixelData)
    (imgWidth imgHeight startX startY : ℕ) (blockWidth blockHeight : ℤ)
    (hsize : 255 * (blockCoords imgWidth imgHeight startX startY blockWidth blockHeight).length
      < 2 ^ 53) :
    (blockSumsDouble pixelData imgWidth imgHeight startX startY blockWidth blockHeight).Exact
      (blockCoords imgWidth imgHeight startX startY blockWidth blockHeight).length := by
  have h := sumFoldDouble_exact pixelData h8 imgWidth
    (blockCoords imgWidth imgHeight startX startY blockWidth blockHeight)
    { rSum := 0, gSum := 0, bSum := 0, pixelCount := 0, greenPixels := 0, grayPixels := 0,
      bluePixels := 0 } 0 (by omega)
    ⟨0, 0, 0, 0, 0, 0, 0, by simp, by simp, by simp, by simp, by simp, by simp, by simp,
      le_rfl, by omega, by omega, by omega, le_rfl, le_rfl, le_rfl⟩
  rw [Nat.zero_add] at h
  exact h

theorem toDouble_one : toDouble 1 = 1 := by
  have := toDouble_natCast 1 (by norm_num)
  simpa using this

theorem toDouble_255 : toDouble 255 = 255 := by
  have := toDouble_natCast 255 (by norm_num)
  simpa using this

theorem toDouble_unit (q : ℚ) (h0 : 0 ≤ q) (h1 : q ≤ 1) :
    0 ≤ toDouble q ∧ toDouble q ≤ 1 := by
  refine ⟨toDouble_nonneg q h0, ?_⟩
  have := toDouble_mono q 1 h1
  rwa [toDouble_one] at this

theorem toDouble_byte (q : ℚ) (h0 : 0 ≤ q) (h1 : q ≤ 255) :
    0 ≤ toDouble q ∧ toDouble q ≤ 255 := by
  refine ⟨toDouble_nonneg q h0, ?_⟩
  have := toDouble_mono q 255 h1
  rwa [toDouble_255] at this

theorem toDouble_abs_byte (q : ℚ) (h : |q| ≤ 255) : |toDouble q| ≤ 255 := by
  rw [abs_le] at h ⊢
  have h1 := toDouble_mono (-255) q h.1
  have h2 := toDouble_mono q 255 h.2
  rw [toDouble_neg, toDouble_255] at h1
  rw [toDouble_255] at h2
  exact ⟨h1, h2⟩

/-- A product of a non-negative double `x` with a double literal of at least 1 rounds to
at least `x`, and to at least `x * k` when `k` is below the literal by more than the
rounding error. -/
theorem toDouble_mul_lower (x c k : ℚ) (hx : 0 ≤ x) (hfix : toDouble x = x)
    (hc : 1 ≤ toDouble c) (hk : k ≤ toDouble c * (1 - (2 : ℚ) ^ (-53 : ℤ))) :
    x ≤ toDouble (x * toDouble c) ∧ x * k ≤ toDouble (x * toDouble c) := by
  have hprod : 0 ≤ x * toDouble c := mul_nonneg hx (by linarith)
  constructor
  · have := toDouble_mono x (x * toDouble c) (by nlinarith)
    rwa [hfix] at this
  · have herr := toDouble_error (x * toDouble c)
    rw [abs_of_nonneg hprod, abs_le] at herr
    have h1 : x * k ≤ x * (toDouble c * (1 - (2 : ℚ) ^ (-53 : ℤ))) :=
      mul_le_mul_of_nonneg_left hk hx
    have h2 : x * (toDouble c * (1 - (2 : ℚ) ^ (-53 : ℤ))) =
        x * toDouble c - x * toDouble c * (2 : ℚ) ^ (-53 : ℤ) := by ring
    linarith [herr.1]

theorem dominanceDouble_bounds (a b c l1 l2 : ℚ) (ha : 0 ≤ a ∧ a ≤ 255)
    (hb : 0 ≤ b ∧ b ≤ 255) (hc : 0 ≤ c ∧ c ≤ 255) (hfb : toDouble b = b)
    (hfc : toDouble c = c) (h1 : 1 ≤ toDouble l1) (h2 : 1 ≤ toDouble l2) :
    0 ≤ (if a > toDouble (b * toDouble l1) ∧ a > toDouble (c * toDouble l2) then
        toDouble (toDouble (a - max b c) / 255) else 0) ∧
      (if a > toDouble (b * toDouble l1) ∧ a > toDouble (c * toDouble l2) then
        toDouble (toDouble (a - max b c) / 255) else 0) ≤ 1 := by
  split_ifs with hcond
  · have hb' := (toDouble_mul_lower b l1 0 hb.1 hfb h1 (by
      have : (0 : ℚ) < (2 : ℚ) ^ (-53 : ℤ) := zpow_pos (by norm_num) _
      have h53 : (2 : ℚ) ^ (-53 : ℤ) ≤ 1 := by
        rw [zpow_neg]; norm_num
      nlinarith)).1
    have hc' := (toDouble_mul_lower c l2 0 hc.1 hfc h2 (by
      have : (0 : ℚ) < (2 : ℚ) ^ (-53 : ℤ) := zpow_pos (by norm_num) _
      have h53 : (2 : ℚ) ^ (-53 : ℤ) ≤ 1 := by
        rw [zpow_neg]; norm_num
      nlinarith)).1
    have hgap0 : 0 ≤ a - max b c := by
      rcases max_cases b c with ⟨e, _⟩ | ⟨e, _⟩ <;> rw [e] <;> linarith [hcond.1, hcond.2]
    have hgap1 : a - max b c ≤ 255 := by
      have : 0 ≤ max b c := le_max_of_le_left hb.1
      linarith [ha.2]
    obtain ⟨g0, g1⟩ := toDouble_byte _ hgap0 hgap1
    exact toDouble_unit _ (div_nonneg g0 (by norm_num))
      (by rw [div_le_one (by norm_num)]; exact g1)
  · exact ⟨le_rfl, by norm_num⟩

/-- C26 (amended): for every pixel buffer with 8-bit channels and every block of fewer
than `2^53 / 255` positions, the feature that `_analyzeImageBlock` computes in double
arithmetic has greenness, grayness, blueness and the three ratios in `[0, 1]`; greenness
is 0 unless mean G exceeds the rounded products of mean R and of mean B with the double
`1.15`, which makes mean G larger than mean R and mean B and larger than
1.149999999999999 times each; blueness is 0 unless mean B exceeds the rounded products of
mean R with `1.1` and of mean G with `1.05`, which makes mean B larger than mean R and
mean G, than 1.099999999999999 times mean R and than 1.049999999999999 times mean G. -/
theorem analyzeImageBlockDouble_ranges (pixelData : PixelData) (h8 : EightBit pixelData)
    (imgWidth imgHeight startX startY : ℕ) (blockWidth blockHeight : ℤ)
    (hsize : 255 * (blockCoords imgWidth imgHeight startX startY blockWidth blockHeight).length
      < 2 ^ 53) :
    let f := analyzeImageBlockDouble pixelData imgWidth imgHeight startX startY blockWidth
      blockHeight
    (0 ≤ f.greenness ∧ f.greenness ≤ 1) ∧ (0 ≤ f.grayness ∧ f.grayness ≤ 1) ∧
      (0 ≤ f.blueness ∧ f.blueness ≤ 1) ∧ (0 ≤ f.greenRatio ∧ f.greenRatio ≤ 1) ∧
      (0 ≤ f.grayRatio ∧ f.grayRatio ≤ 1) ∧ (0 ≤ f.blueRatio ∧ f.blueRatio ≤ 1) ∧
      (f.greenness ≠ 0 →
        (f.g > toDouble (f.r * toDouble 1.15) ∧ f.g > toDouble (f.b * toDouble 1.15)) ∧
        (f.g > f.r ∧ f.g > f.b) ∧
        (f.g > f.r * 1.149999999999999 ∧ f.g > f.b * 1.149999999999999)) ∧
      (f.blueness ≠ 0 →
        (f.b > toDouble (f.r * toDouble 1.1) ∧ f.b > toDouble (f.g * toDouble 1.05)) ∧
        (f.b > f.r ∧ f.b > f.g) ∧
        (f.b > f.r * 1.099999999999999 ∧ f.b > f.g * 1.049999999999999)) := by
  intro f
  obtain ⟨c, R, G, B, gp, yp, bp, e1, e2, e3, e4, e5, e6, e7, _, hR, hG, hB, hgp, hyp, hbp⟩ :=
    blockSumsDouble_exact pixelData h8 imgWidth imgHeight startX startY blockWidth blockHeight
      hsize
  by_cases h0 : c = 0
  · have hf : f = zeroColorScores := by
      show analyzeImageBlockDouble _ _ _ _ _ _ _ = _
      unfold analyzeImageBlockDouble
      simp only [e1, h0, Nat.cast_zero, if_true]
    rw [hf]
    simp [zeroColorScores]
  · have hcpos : (0 : ℚ) < (c : ℚ) := by exact_mod_cast Nat.pos_of_ne_zero h0
    have hcne : ¬ ((c : ℚ) = 0) := hcpos.ne'
    have hdiv : ∀ k : ℕ, k ≤ 255 * c → 0 ≤ (k : ℚ) / c ∧ (k : ℚ) / c ≤ 255 := by
      intro k hk
      refine ⟨div_nonneg (Nat.cast_nonneg k) hcpos.le, ?_⟩
      rw [div_le_iff₀ hcpos]
      exact_mod_cast hk
    have hratio : ∀ k : ℕ, k ≤ c → 0 ≤ (k : ℚ) / c ∧ (k : ℚ) / c ≤ 1 := by
      intro k hk
      refine ⟨div_nonneg (Nat.cast_nonneg k) hcpos.le, ?_⟩
      rw [div_le_one hcpos]
      exact_mod_cast hk
    have hfr : f.r = toDouble ((R : ℚ) / c) := by
      show (analyzeImageBlockDouble _ _ _ _ _ _ _).r = _
      unfold analyzeImageBlockDouble
      simp only [e1, e2, hcne, if_false]
    have hfg : f.g = toDouble ((G : ℚ) / c) := by
      show (analyzeImageBlockDouble _ _ _ _ _ _ _).g = _
      unfold analyzeImageBlockDouble
      simp only [e1, e3, hcne, if_false]
    have hfb : f.b = toDouble ((B : ℚ) / c) := by
      show (analyzeImageBlockDouble _ _ _ _ _ _ _).b = _
      unfold analyzeImageBlockDouble
      simp only [e1, e4, hcne, if_false]
    have hgR : f.greenRatio = toDouble ((gp : ℚ) / c) := by
      show (analyzeImageBlockDouble _ _ _ _ _ _ _).greenRatio = _
      unfold analyzeImageBlockDouble
      simp only [e1, e5, hcne, if_false]
    have hyR : f.grayRatio = toDouble ((yp : ℚ) / c) := by
      show (analyzeImageBlockDouble _ _ _ _ _ _ _).grayRatio = _
      unfold analyzeImageBlockDouble
      simp only [e1, e6, hcne, if_false]
    have hbR : f.blueRatio = toDouble ((bp : ℚ) / c) := by
      show (analyzeImageBlockDouble _ _ _ _ _ _ _).blueRatio = _
      unfold analyzeImageBlockDouble
      simp only [e1, e7, hcne, if_false]
    have hgn : f.greenness =
        if f.g > toDouble (f.r * toDouble 1.15) ∧ f.g > toDouble (f.b * toDouble 1.15) then
          toDouble (toDouble (f.g - max f.r f.b) / 255) else 0 := by
      rw [hfr, hfg, hfb]
      show (analyzeImageBlockDouble _ _ _ _ _ _ _).greenness = _
      unfold analyzeImageBlockDouble
      simp only [e1, e2, e3, e4, hcne, if_false]
    have hbn : f.blueness =
        if f.b > toDouble (f.r * toDouble 1.1) ∧ f.b > toDouble (f.g * toDouble 1.05) then
          toDouble (toDouble (f.b - max f.r f.g) / 255) else 0 := by
      rw [hfr, hfg, hfb]
      show (analyzeImageBlockDouble _ _ _ _ _ _ _).blueness = _
      unfold analyzeImageBlockDouble
      simp only [e1, e2, e3, e4, hcne, if_false]
    have hgy : f.grayness = toDouble (1 - toDouble
        (max |toDouble (f.r - f.g)| (max |toDouble (f.r - f.b)| |toDouble (f.g - f.b)|)
          / 255)) := by
      rw [hfr, hfg, hfb]
      show (analyzeImageBlockDouble _ _ _ _ _ _ _).grayness = _
      unfold analyzeImageBlockDouble
      simp only [e1, e2, e3, e4, hcne, if_false]
    have bR : 0 ≤ f.r ∧ f.r ≤ 255 := by
      rw [hfr]; exact toDouble_byte _ (hdiv R hR).1 (hdiv R hR).2
    have bG : 0 ≤ f.g ∧ f.g ≤ 255 := by
      rw [hfg]; exact toDouble_byte _ (hdiv G hG).1 (hdiv G hG).2
    have bB : 0 ≤ f.b ∧ f.b ≤ 255 := by
      rw [hfb]; exact toDouble_byte _ (hdiv B hB).1 (hdiv B hB).2
    have iR : toDouble f.r = f.r := by rw [hfr]; exact toDouble_idem _
    have iG : toDouble f.g = f.g := by rw [hfg]; exact toDouble_idem _
    have iB : toDouble f.b = f.b := by rw [hfb]; exact toDouble_idem _
    have c115 : (1 : ℚ) ≤ toDouble 1.15 := by decide!
    have c110 : (1 : ℚ) ≤ toDouble 1.1 := by decide!
    have c105 : (1 : ℚ) ≤ toDouble 1.05 := by decide!
    have k115 : (1.149999999999999 : ℚ) ≤ toDouble 1.15 * (1 - (2 : ℚ) ^ (-53 : ℤ)) := by
      decide!
    have k110 : (1.099999999999999 : ℚ) ≤ toDouble 1.1 * (1 - (2 : ℚ) ^ (-53 : ℤ)) := by
      decide!
    have k105 : (1.049999999999999 : ℚ) ≤ toDouble 1.05 * (1 - (2 : ℚ) ^ (-53 : ℤ)) := by
      decide!
    refine ⟨?_, ?_, ?_, ?_, ?_, ?_, ?_, ?_⟩
    · rw [hgn]
      exact dominanceDouble_bounds f.g f.r f.b 1.15 1.15 bG bR bB iR iB c115 c115
    · rw [hgy]
      have h1 : |toDouble (f.r - f.g)| ≤ 255 := toDouble_abs_byte _
        (abs_le.mpr ⟨by linarith [bR.1, bG.2], by linarith [bR.2, bG.1]⟩)
      have h2 : |toDouble (f.r - f.b)| ≤ 255 := toDouble_abs_byte _
        (abs_le.mpr ⟨by linarith [bR.1, bB.2], by linarith [bR.2, bB.1]⟩)
      have h3 : |toDouble (f.g - f.b)| ≤ 255 := toDouble_abs_byte _
        (abs_le.mpr ⟨by linarith [bG.1, bB.2], by linarith [bG.2, bB.1]⟩)
      generalize hdev :
        max |toDouble (f.r - f.g)| (max |toDouble (f.r - f.b)| |toDouble (f.g - f.b)|) = dev
      have hmax : dev ≤ 255 := by rw [← hdev]; exact max_le h1 (max_le h2 h3)
      have hmin : 0 ≤ dev := by rw [← hdev]; exact le_max_of_le_left (abs_nonneg _)
      obtain ⟨q0, q1⟩ := toDouble_unit (dev / 255) (div_nonneg hmin (by norm_num))
        (by rw [div_le_one (by norm_num)]; exact hmax)
      exact toDouble_unit _ (by linarith) (by linarith)
    · rw [hbn]
      exact dominanceDouble_bounds f.b f.r f.g 1.1 1.05 bB bR bG iR iG c110 c105
    · rw [hgR]; exact toDouble_unit _ (hratio gp hgp).1 (hratio gp hgp).2
    · rw [hyR]; exact toDouble_unit _ (hratio yp hyp).1 (hratio yp hyp).2
    · rw [hbR]; exact toDouble_unit _ (hratio bp hbp).1 (hratio bp hbp).2
    · intro hne
      have hcon : f.g > toDouble (f.r * toDouble 1.15) ∧
          f.g > toDouble (f.b * toDouble 1.15) := by
        by_contra hcon
        exact hne (by rw [hgn, if_neg hcon])
      obtain ⟨r1, r2⟩ := toDouble_mul_lower f.r 1.15 1.149999999999999 bR.1 iR c115 k115
      obtain ⟨b1, b2⟩ := toDouble_mul_lower f.b 1.15 1.149999999999999 bB.1 iB c115 k115
      exact ⟨hcon, ⟨lt_of_le_of_lt r1 hcon.1, lt_of_le_of_lt b1 hcon.2⟩,
        ⟨lt_of_le_of_lt r2 hcon.1, lt_of_le_of_lt b2 hcon.2⟩⟩
    · intro hne
      have hcon : f.b > toDouble (f.r * toDouble 1.1) ∧
          f.b > toDouble (f.g * toDouble 1.05) := by
        by_contra hcon
        exact hne (by rw [hbn, if_neg hcon])
      obtain ⟨r1, r2⟩ := toDouble_mul_lower f.r 1.1 1.099999999999999 bR.1 iR c110 k110
      obtain ⟨g1, g2⟩ := toDouble_mul_lower f.g 1.05 1.049999999999999 bG.1 iG c105 k105
      exact ⟨hcon, ⟨lt_of_le_of_lt r1 hcon.1, lt_of_le_of_lt g1 hcon.2⟩,
        ⟨lt_of_le_of_lt r2 hcon.1, lt_of_le_of_lt g2 hcon.2⟩⟩

/-- Instance of C26 (amended) at the 1 x 1 image of pixel `(100, 115, 100)`. -/
theorem analyzeImageBlockDouble_ranges_witness :
    EightBit sampleBoundaryImage ∧
    255 * (blockCoords 1 1 0 0 1 1).length < 2 ^ 53 ∧
    (let f := analyzeImageBlockDouble sampleBoundaryImage 1 1 0 0 1 1
    (0 ≤ f.greenness ∧ f.greenness ≤ 1) ∧ (0 ≤ f.grayness ∧ f.grayness ≤ 1) ∧
      (0 ≤ f.blueness ∧ f.blueness ≤ 1) ∧ (0 ≤ f.greenRatio ∧ f.greenRatio ≤ 1) ∧
      (0 ≤ f.grayRatio ∧ f.grayRatio ≤ 1) ∧ (0 ≤ f.blueRatio ∧ f.blueRatio ≤ 1) ∧
      (f.greenness ≠ 0 →
        (f.g > toDouble (f.r * toDouble 1.15) ∧ f.g > toDouble (f.b * toDouble 1.15)) ∧
        (f.g > f.r ∧ f.g > f.b) ∧
        (f.g > f.r * 1.149999999999999 ∧ f.g > f.b * 1.149999999999999)) ∧
      (f.blueness ≠ 0 →
        (f.b > toDouble (f.r * toDouble 1.1) ∧ f.b > toDouble (f.g * toDouble 1.05)) ∧
        (f.b > f.r ∧ f.b > f.g) ∧
        (f.b > f.r * 1.099999999999999 ∧ f.b > f.g * 1.049999999999999))) :=
  ⟨by decide, by decide,
    analyzeImageBlockDouble_ranges sampleBoundaryImage (by decide) 1 1 0 0 1 1 (by decide)⟩

/-- C26 (counterexample): for the 1 x 1 image of pixel `(100, 115, 100)` the product
`100 * 1.15` is rounded to a double below 115, so the pixel counts as green and the block
has greenRatio 1 and the positive greenness `15 / 255` (rounded), although mean G = 115
does not exceed 1.15 times mean R = 100; without rounding the greenness is 0. -/
theorem analyzeImageBlockDouble_boundary_pixel :
    EightBit sampleBoundaryImage ∧
      toDouble (100 * toDouble 1.15) < 115 ∧
      (analyzeImageBlockDouble sampleBoundaryImage 1 1 0 0 1 1).r = 100 ∧
      (analyzeImageBlockDouble sampleBoundaryImage 1 1 0 0 1 1).g = 115 ∧
      (analyzeImageBlockDouble sampleBoundaryImage 1 1 0 0 1 1).b = 100 ∧
      (analyzeImageBlockDouble sampleBoundaryImage 1 1 0 0 1 1).greenRatio = 1 ∧
      (analyzeImageBlockDouble sampleBoundaryImage 1 1 0 0 1 1).greenness =
        toDouble (15 / 255) ∧
      (analyzeImageBlockDouble sampleBoundaryImage 1 1 0 0 1 1).greenness ≠ 0 ∧
      ¬ ((analyzeImageBlockDouble sampleBoundaryImage 1 1 0 0 1 1).g >
        (analyzeImageBlockDouble sampleBoundaryImage 1 1 0 0 1 1).r * 1.15) ∧
      (_analyzeImageBlock sampleBoundaryImage 1 1 0 0 1 1).greenness = 0 := by
  decide!

/-! ## Lemmas: confidences through `_resolveOverlaps` -/

theorem absorbStep_confInv (objects : List Detection) (i : ℕ) (oi : Detection)
    (hoi : objects[i]? = some oi) (used₀ : List ℕ) (st : Detection × List ℕ) (j : ℕ)
    (h : AbsorbConfInv objects i oi used₀ st) :
    AbsorbConfInv objects i oi used₀ (absorbStep objects i st j) := by
  rcases absorbStep_cases objects i st j with he | ⟨oi', oj, hi, hj, hc, _, _, _, he⟩
  · rw [he]; exact h
  · rw [he]
    rw [hoi] at hi
    cases Option.some.inj hi
    refine ⟨h.cls, contains_trans _ _ _ (mergeBBox_contains_left _ _) h.box,
      le_trans h.conf (le_max_left _ _),
      List.mem_cons_of_mem _ h.self, fun k hk => List.mem_cons_of_mem _ (h.old k hk), ?_⟩
    intro k hk
    rcases List.mem_cons.mp hk with rfl | hk
    · exact Or.inr (Or.inr ⟨oj, hj, hc.symm, mergeBBox_contains_right _ _, le_max_right _ _⟩)
    · rcases h.absorbed k hk with h1 | h1 | ⟨o, ho, hoc, hob, hcf⟩
      · exact Or.inl h1
      · exact Or.inr (Or.inl h1)
      · exact Or.inr (Or.inr ⟨o, ho, hoc,
          contains_trans _ _ _ (mergeBBox_contains_left _ _) hob,
          le_trans hcf (le_max_left _ _)⟩)

theorem absorbFold_confInv (objects : List Detection) (i : ℕ) (oi : Detection)
    (hoi : objects[i]? = some oi) (used₀ : List ℕ) (l : List ℕ) :
    ∀ st : Detection × List ℕ, AbsorbConfInv objects i oi used₀ st →
      AbsorbConfInv objects i oi used₀ (l.foldl (absorbStep objects i) st) := by
  induction l with
  | nil => intro st h; exact h
  | cons j l ih =>
    intro st h
    rw [List.foldl_cons]
    exact ih _ (absorbStep_confInv objects i oi hoi used₀ st j h)

theorem absorbConfInv_init (objects : List Detection) (i : ℕ) (oi : Detection)
    (used₀ : List ℕ) : AbsorbConfInv objects i oi used₀ (oi, i :: used₀) :=
  ⟨rfl, contains_refl _, le_rfl, List.mem_cons_self _ _,
    fun _ hj => List.mem_cons_of_mem _ hj,
    fun j hj => by
      rcases List.mem_cons.mp hj with h | h
      · exact Or.inl h
      · exact Or.inr (Or.inl h)⟩

theorem resolveStep_confInv (objects : List Detection) (m : ℕ) (hm : m < objects.length)
    (st : List Detection × List ℕ) (h : ResolveConfInv objects m st) :
    ResolveConfInv objects (m + 1) (resolveStep objects st m) := by
  unfold resolveStep
  by_cases hu : m ∈ st.2
  · rw [if_pos hu]
    refine ⟨Nat.le_succ_of_le h.count, ?_, h.covered⟩
    intro i hi hin
    rcases Nat.lt_succ_iff_lt_or_eq.mp hi with hi | rfl
    · exact h.used i hi hin
    · exact hu
  · rw [if_neg hu]
    obtain ⟨oi, hoi⟩ : ∃ oi, objects[m]? = some oi :=
      ⟨objects[m], List.getElem?_eq_getElem hm⟩
    simp only [hoi]
    have hinv := absorbFold_confInv objects m oi hoi st.2 (List.range objects.length) _
      (absorbConfInv_init objects m oi st.2)
    generalize (List.range objects.length).foldl (absorbStep objects m) (oi, m :: st.2) = inner
      at hinv
    refine ⟨?_, ?_, ?_⟩
    · rw [List.length_append, List.length_singleton]
      exact Nat.succ_le_succ h.count
    · intro i hi hin
      rcases Nat.lt_succ_iff_lt_or_eq.mp hi with hi | rfl
      · exact hinv.old i (h.used i hi hin)
      · exact hinv.self
    · intro i hi o ho
      have hnew : inner.1 ∈ st.1 ++ [inner.1] :=
        List.mem_append_right _ (List.mem_singleton_self _)
      rcases hinv.absorbed i hi with rfl | h1 | ⟨o', ho', hoc, hob, hcf⟩
      · rw [hoi] at ho
        cases Option.some.inj ho
        exact ⟨inner.1, hnew, hinv.cls, hinv.box, hinv.conf⟩
      · obtain ⟨out, hout, h2⟩ := h.covered i h1 o ho
        exact ⟨out, List.mem_append_left _ hout, h2⟩
      · rw [ho] at ho'
        cases Option.some.inj ho'
        exact ⟨inner.1, hnew, by rw [hinv.cls, hoc], hob, hcf⟩

theorem resolveFold_confInv (objects : List Detection) :
    ∀ m, m ≤ objects.length →
      ResolveConfInv objects m ((List.range m).foldl (resolveStep objects) ([], [])) := by
  intro m
  induction m with
  | zero =>
    intro _
    exact ⟨le_rfl, by simp, by simp⟩
  | succ m ih =>
    intro hm
    rw [List.range_succ, List.foldl_append]
    exact resolveStep_confInv objects m hm _ (ih (Nat.le_of_succ_le hm))

/-- `_resolveOverlaps` returns at most as many objects as it is given, and every input is
covered by an output of its category whose box contains its box and whose confidence is
at least its own. -/
theorem resolveOverlaps_cover_conf (objects : List Detection) :
    (_resolveOverlaps objects).length ≤ objects.length ∧
      ∀ o ∈ objects, ∃ out ∈ _resolveOverlaps objects,
        out.cls = o.cls ∧ out.bbox.Contains o.bbox ∧ o.confidence ≤ out.confidence := by
  unfold _resolveOverlaps
  by_cases hle : objects.length ≤ 1
  · rw [if_pos hle]
    exact ⟨le_rfl, fun o ho => ⟨o, ho, rfl, contains_refl _, le_rfl⟩⟩
  · rw [if_neg hle]
    have hinv := resolveFold_confInv objects objects.length le_rfl
    refine ⟨hinv.count, ?_⟩
    intro o ho
    obtain ⟨i, hi, hget⟩ := List.getElem_of_mem ho
    have hget' : objects[i]? = some o := by
      rw [List.getElem?_eq_getElem hi, hget]
    exact hinv.covered i (hinv.used i hi hi) o hget'

theorem absorbFold_conf_range (objects : List Detection) (lo hi : ℚ)
    (hall : ∀ o ∈ objects, lo ≤ o.confidence ∧ o.confidence ≤ hi) (i : ℕ) (l : List ℕ) :
    ∀ st : Detection × List ℕ, (lo ≤ st.1.confidence ∧ st.1.confidence ≤ hi) →
      lo ≤ (l.foldl (absorbStep objects i) st).1.confidence ∧
        (l.foldl (absorbStep objects i) st).1.confidence ≤ hi := by
  induction l with
  | nil => intro st h; exact h
  | cons j l ih =>
    intro st h
    rw [List.foldl_cons]
    apply ih
    rcases absorbStep_cases objects i st j with he | ⟨_, oj, _, hj, _, _, _, _, he⟩
    · rw [he]; exact h
    · rw [he]
      have hoj := hall oj (List.getElem?_mem hj)
      exact ⟨le_trans h.1 (le_max_left _ _), max_le h.2 hoj.2⟩

theorem resolveFold_conf_range (objects : List Detection) (lo hi : ℚ)
    (hall : ∀ o ∈ objects, lo ≤ o.confidence ∧ o.confidence ≤ hi) (l : List ℕ) :
    ∀ st : List Detection × List ℕ,
      (∀ out ∈ st.1, lo ≤ out.confidence ∧ out.confidence ≤ hi) →
      ∀ out ∈ (l.foldl (resolveStep objects) st).1,
        lo ≤ out.confidence ∧ out.confidence ≤ hi := by
  induction l with
  | nil => intro st h; exact h
  | cons i l ih =>
    intro st h
    rw [List.foldl_cons]
    apply ih
    unfold resolveStep
    by_cases hu : i ∈ st.2
    · rw [if_pos hu]; exact h
    · rw [if_neg hu]
      cases hget : objects[i]? with
      | none => exact h
      | some oi =>
        intro out hout
        rcases List.mem_append.mp hout with hout | hout
        · exact h out hout
        · rw [List.mem_singleton.mp hout]
          exact absorbFold_conf_range objects lo hi hall i _ _
            (hall oi (List.getElem?_mem hget))

theorem resolveOverlaps_conf_range (objects : List Detection) (lo hi : ℚ)
    (hall : ∀ o ∈ objects, lo ≤ o.confidence ∧ o.confidence ≤ hi) :
    ∀ out ∈ _resolveOverlaps objects, lo ≤ out.confidence ∧ out.confidence ≤ hi := by
  unfold _resolveOverlaps
  split
  · exact hall
  · exact resolveFold_conf_range objects lo hi hall _ _ (by simp)

/-! ## Lemmas: the classifier loop over a list of regions -/

theorem regionObject_conf_range (acc : RegionAcc) (len : ℕ)
    (imgHeight blockSize j1 j2 j3 j4 : ℚ) :
    0.7 ≤ (regionObject acc len imgHeight blockSize j1 j2 j3 j4).confidence ∧
      (regionObject acc len imgHeight blockSize j1 j2 j3 j4).confidence ≤ 0.95 := by
  rw [regionObject_conf_formula]
  have h0 : (0 : ℚ) ≤ min 0.25 (((|regionTreeScore acc len -
      regionBuildingScore acc len imgHeight blockSize| : ℤ) : ℚ) * 0.05) :=
    le_min (by norm_num) (mul_nonneg (by exact_mod_cast abs_nonneg _) (by norm_num))
  have h1 : min 0.25 (((|regionTreeScore acc len -
      regionBuildingScore acc len imgHeight blockSize| : ℤ) : ℚ) * 0.05) ≤ 0.25 :=
    min_le_left _ _
  constructor
  · linarith
  · linarith

/-- The loop of `_classifyRegions` over regions that lie in the grid: it completes, it
pushes at most one object per region, every pushed object has a confidence between 0.7
and 0.95, and for every region of at least 4 cells it pushes the object built from the
sums over that region. -/
theorem classifyLoop_mem (grid : Grid) (imgHeight blockSize : ℚ) (random : ℕ → ℚ)
    (regions : List (List Cell)) (hin : RegionsInGrid regions grid) :
    ∀ k, ∃ objects k', classifyLoop grid imgHeight blockSize random regions k =
        some (objects, k') ∧
      objects.length ≤ regions.length ∧
      (∀ o ∈ objects, 0.7 ≤ o.confidence ∧ o.confidence ≤ 0.95) ∧
      ∀ region ∈ regions, 4 ≤ region.length →
        ∃ acc kr, accumulateRegion grid region RegionAcc.init = some acc ∧
          regionObject acc region.length imgHeight blockSize (jitter (random kr))
            (jitter (random (kr + 1))) (jitter (random (kr + 2)))
            (jitter (random (kr + 3))) ∈ objects := by
  induction regions with
  | nil => intro k; exact ⟨[], k, rfl, le_rfl, by simp, by simp⟩
  | cons region rest ih =>
    intro k
    have hrest : RegionsInGrid rest grid :=
      fun r hr => hin r (List.mem_cons_of_mem region hr)
    by_cases hlen : region.length < 4
    · obtain ⟨objects, k', hloop, hcount, hconf, hmem⟩ := ih hrest k
      refine ⟨objects, k', ?_, ?_, hconf, ?_⟩
      · rw [classifyLoop, if_pos hlen]; exact hloop
      · rw [List.length_cons]; omega
      · intro r hr hr4
        rcases List.mem_cons.mp hr with rfl | hr
        · omega
        · exact hmem r hr hr4
    · obtain ⟨acc, hacc⟩ := accumulateRegion_isSome grid region RegionAcc.init
        (hin region (List.mem_cons_self region rest))
      obtain ⟨objects, k', hloop, hcount, hconf, hmem⟩ := ih hrest (k + 4)
      refine ⟨regionObject acc region.length imgHeight blockSize (jitter (random k))
          (jitter (random (k + 1))) (jitter (random (k + 2))) (jitter (random (k + 3)))
          :: objects, k', ?_, ?_, ?_, ?_⟩
      · rw [classifyLoop, if_neg hlen]
        simp only [hacc, hloop]
      · rw [List.length_cons, List.length_cons]; omega
      · intro o ho
        rcases List.mem_cons.mp ho with rfl | ho
        · exact regionObject_conf_range _ _ _ _ _ _ _ _
        · exact hconf o ho
      · intro r hr hr4
        rcases List.mem_cons.mp hr with rfl | hr
        · exact ⟨acc, k, hacc, List.mem_cons_self _ _⟩
        · obtain ⟨acc', kr, hacc', hin'⟩ := hmem r hr hr4
          exact ⟨acc', kr, hacc', List.mem_cons_of_mem _ hin'⟩

theorem take_min_length (l : List Detection) (n : ℕ) :
    l.take (min l.length n) = l.take n := by
  by_cases h : l.length ≤ n
  · rw [min_eq_left h, List.take_length, List.take_of_length_le h]
  · rw [min_eq_right (le_of_not_le h)]

/-- A call of `_classifyRegions` on regions that lie in the grid, one of which (`region`)
has at least 4 cells: the loop pushes the object `d` of that region; the merged list has
an entry of the class of `d` whose box contains the box of `d` and whose confidence is at
least that of `d` and at most 0.95; the call returns the first six entries of the merged
list sorted by confidence, so that entry is returned when the merged list has at most six
entries. -/
theorem classifyRegions_of_mem (grid : Grid) (regions : List (List Cell))
    (region : List Cell) (imgWidth imgHeight blockSize : ℚ) (random : ℕ → ℚ)
    (hin : RegionsInGrid regions grid) (hmem : region ∈ regions) (hlen : 4 ≤ region.length) :
    ∃ objects k acc kr,
      classifyLoop grid imgHeight blockSize random regions 0 = some (objects, k) ∧
      accumulateRegion grid region RegionAcc.init = some acc ∧
      regionObject acc region.length imgHeight blockSize (jitter (random kr))
        (jitter (random (kr + 1))) (jitter (random (kr + 2)))
        (jitter (random (kr + 3))) ∈ objects ∧
      (∃ out ∈ _resolveOverlaps objects,
        out.cls = (regionObject acc region.length imgHeight blockSize (jitter (random kr))
          (jitter (random (kr + 1))) (jitter (random (kr + 2)))
          (jitter (random (kr + 3)))).cls ∧
        out.bbox.Contains (regionObject acc region.length imgHeight blockSize
          (jitter (random kr)) (jitter (random (kr + 1))) (jitter (random (kr + 2)))
          (jitter (random (kr + 3)))).bbox ∧
        (regionObject acc region.length imgHeight blockSize (jitter (random kr))
          (jitter (random (kr + 1))) (jitter (random (kr + 2)))
          (jitter (random (kr + 3)))).confidence ≤ out.confidence ∧
        out.confidence ≤ 0.95 ∧
        ((_resolveOverlaps objects).length ≤ 6 →
          out ∈ (sortByConfidence (_resolveOverlaps objects)).take 6)) ∧
      (_resolveOverlaps objects).length ≤ regions.length ∧
      _classifyRegions regions grid imgWidth imgHeight blockSize random =
        some ((sortByConfidence (_resolveOverlaps objects)).take 6) := by
  obtain ⟨objects, k, hloop, hcount, hconf, hobj⟩ :=
    classifyLoop_mem grid imgHeight blockSize random regions hin 0
  obtain ⟨acc, kr, hacc, hd⟩ := hobj region hmem hlen
  obtain ⟨hlenle, hcover⟩ := resolveOverlaps_cover_conf objects
  obtain ⟨out, hout, hcls, hbox, hcf⟩ := hcover _ hd
  have hrange := resolveOverlaps_conf_range objects 0.7 0.95 hconf out hout
  refine ⟨objects, k, acc, kr, hloop, hacc, hd,
    ⟨out, hout, hcls, hbox, hcf, hrange.2, ?_⟩, le_trans hlenle hcount, ?_⟩
  · intro h6
    rw [List.take_of_length_le (by rw [length_sortByConfidence]; exact h6)]
    exact mem_sortByConfidence.mpr hout
  · have hne : ¬ objects.length = 0 := by
      intro h0
      rw [List.length_eq_zero] at h0
      rw [h0] at hd
      exact absurd hd (List.not_mem_nil _)
    unfold _classifyRegions
    simp only [hloop, if_neg hne]
    rw [take_min_length]

/-- The object of a region all of whose blocks are computed by `_analyzeImageBlock` from
uniformly pure-green pixels `(0, G, 0)` with `G ≥ 52`: class 58 with a confidence of at
least 0.7. -/
theorem regionObject_green (grid : Grid) (region : List Cell) (hlen : 4 ≤ region.length)
    (hgreen : ∀ c ∈ region, ∃ (pixelData : PixelData) (w h startX startY : ℕ)
      (blockWidth blockHeight : ℤ) (G : ℕ), 52 ≤ G ∧
      UniformBlock pixelData w h startX startY blockWidth blockHeight 0 G 0 ∧
      gridAt grid c = some (_analyzeImageBlock pixelData w h startX startY blockWidth
        blockHeight))
    (imgHeight blockSize : ℚ) :
    ∃ acc, accumulateRegion grid region RegionAcc.init = some acc ∧
      ∀ j1 j2 j3 j4 : ℚ,
        (regionObject acc region.length imgHeight blockSize j1 j2 j3 j4).cls = 58 ∧
        0.7 ≤ (regionObject acc region.length imgHeight blockSize j1 j2 j3 j4).confidence := by
  have hfe : ∀ c ∈ region, ∀ f, gridAt grid c = some f → f.greenRatio = 1 ∧ f.grayRatio = 0 ∧
      f.edges = 0 ∧ 52 / 255 ≤ f.greenness ∧ f.grayness ≤ 1 := by
    intro c hc f hf
    obtain ⟨pixelData, w, h, sx, sy, bw, bh, G, hG, hu, hf'⟩ := hgreen c hc
    rw [hf] at hf'
    have hau := analyze_uniform pixelData w h sx sy bw bh 0 G 0 hu
    simp only [Nat.cast_zero] at hau
    rw [Option.some.inj hf', hau]
    exact uniformFeature_green G hG
  obtain ⟨acc, hacc, havg⟩ := accumulateRegion_averages grid region (by omega)
    (fun c hc => by obtain ⟨_, _, _, _, _, _, _, _, _, _, hf⟩ := hgreen c hc; rw [hf]; rfl)
  have hr : 1 ≤ acc.avgGreenRatio / region.length :=
    (havg 1 1).2.2.2.1.1 (fun c hc f hf => (hfe c hc f hf).1.ge)
  have hs : acc.avgGrayRatio / region.length ≤ 0 :=
    (havg 0 0).2.2.2.2.2 (fun c hc f hf => (hfe c hc f hf).2.1.le)
  have he : acc.avgEdges / region.length ≤ 0 :=
    (havg 0 0).2.2.1.2 (fun c hc f hf => (hfe c hc f hf).2.2.1.le)
  have hg : 52 / 255 ≤ acc.avgGreenness / region.length :=
    (havg (52 / 255) 0).1.1 (fun c hc f hf => (hfe c hc f hf).2.2.2.1)
  have htree : regionTreeScore acc region.length = 5 := by
    unfold regionTreeScore treeScoreOf
    rw [if_pos (by linarith), if_pos (by linarith)]; norm_num
  have hbuild : regionBuildingScore acc region.length imgHeight blockSize ≤ 3 := by
    unfold regionBuildingScore buildingScoreOf
    rw [if_neg (by linarith), if_neg (by linarith), if_neg (by linarith), if_neg (by linarith),
      if_neg (by linarith), if_neg (by linarith)]
    split_ifs <;> norm_num
  refine ⟨acc, hacc, fun j1 j2 j3 j4 => ⟨?_, (regionObject_conf_range _ _ _ _ _ _ _ _).1⟩⟩
  rw [regionObject_cls_eq, htree, if_pos (by omega)]

/-- C29 (amended): in a call of `_classifyRegions` on any list of regions that lie in the
grid, for every region of the list with at least 4 cells whose blocks all carry the
features of a uniform gray or black block, the loop computes treeScore 0 and a
buildingScore of at least 5 and pushes a detection `d` of class -1 (building) with
confidence 0.95; the merged list has an entry of class -1 and confidence 0.95 whose box
contains the box of `d`; the call returns the first six entries of the merged list sorted
by confidence, so that entry is returned whenever the merged list has at most six entries
(in particular when the call has at most six regions). -/
theorem classifyRegions_gray_region_of_mem (grid : Grid) (regions : List (List Cell))
    (region : List Cell) (imgWidth imgHeight blockSize : ℚ) (random : ℕ → ℚ)
    (hin : RegionsInGrid regions grid) (hmem : region ∈ regions) (hlen : 4 ≤ region.length)
    (hgray : ∀ c ∈ region, ∃ f, gridAt grid c = some f ∧ f.grayRatio = 1 ∧ f.grayness = 1 ∧
      f.greenRatio = 0 ∧ f.greenness = 0 ∧ f.edges = 0) :
    ∃ objects k d info buildingScore,
      classifyLoop grid imgHeight blockSize random regions 0 = some (objects, k) ∧
      d ∈ objects ∧
      (∃ acc kr, accumulateRegion grid region RegionAcc.init = some acc ∧
        d = regionObject acc region.length imgHeight blockSize (jitter (random kr))
          (jitter (random (kr + 1))) (jitter (random (kr + 2)))
          (jitter (random (kr + 3)))) ∧
      d.debug = some info ∧ info.treeScore = some 0 ∧
      info.buildingScore = some buildingScore ∧ 5 ≤ buildingScore ∧
      d.cls = -1 ∧ d.confidence = 0.95 ∧
      ∃ res, _classifyRegions regions grid imgWidth imgHeight blockSize random = some res ∧
        res = (sortByConfidence (_resolveOverlaps objects)).take 6 ∧
        (_resolveOverlaps objects).length ≤ regions.length ∧
        ∃ out ∈ _resolveOverlaps objects, out.cls = -1 ∧ out.confidence = 0.95 ∧
          out.bbox.Contains d.bbox ∧ ((_resolveOverlaps objects).length ≤ 6 → out ∈ res) := by
  obtain ⟨objects, k, acc, kr, hloop, hacc, hd, ⟨out, hout, hcls, hbox, hcf, hhi, hret⟩,
    hcount, hres⟩ := classifyRegions_of_mem grid regions region imgWidth imgHeight blockSize
      random hin hmem hlen
  obtain ⟨acc', hacc', htree, hb5, hobj⟩ := regionObject_gray grid region hlen hgray imgHeight
    blockSize
  rw [hacc] at hacc'
  cases Option.some.inj hacc'
  obtain ⟨hdcls, hdconf⟩ := hobj (jitter (random kr)) (jitter (random (kr + 1)))
    (jitter (random (kr + 2))) (jitter (random (kr + 3)))
  refine ⟨objects, k, _, _, _, hloop, hd, ⟨acc, kr, hacc, rfl⟩,
    regionObject_debug_eq _ _ _ _ _ _ _ _, congrArg some htree, rfl, hb5, hdcls, hdconf,
    _, hres, rfl, hcount, out, hout, by rw [hcls, hdcls], ?_, hbox, hret⟩
  rw [hdconf] at hcf
  exact le_antisymm hhi hcf

/-- Instance of C29 (amended): a call with two regions, a row of green blocks and a row
of gray blocks, at the row of gray blocks. -/
theorem classifyRegions_gray_region_of_mem_witness :
    RegionsInGrid [rowRegion 5, rowRegion 6] sampleGreenAboveGrayGrid ∧
    rowRegion 6 ∈ [rowRegion 5, rowRegion 6] ∧ 4 ≤ (rowRegion 6).length ∧
    (∀ c ∈ rowRegion 6, ∃ f, gridAt sampleGreenAboveGrayGrid c = some f ∧ f.grayRatio = 1 ∧
      f.grayness = 1 ∧ f.greenRatio = 0 ∧ f.greenness = 0 ∧ f.edges = 0) ∧
    ∃ objects k d info buildingScore,
      classifyLoop sampleGreenAboveGrayGrid 112 16 halfSource [rowRegion 5, rowRegion 6] 0 =
        some (objects, k) ∧
      d ∈ objects ∧
      (∃ acc kr, accumulateRegion sampleGreenAboveGrayGrid (rowRegion 6) RegionAcc.init =
          some acc ∧
        d = regionObject acc (rowRegion 6).length 112 16 (jitter (halfSource kr))
          (jitter (halfSource (kr + 1))) (jitter (halfSource (kr + 2)))
          (jitter (halfSource (kr + 3)))) ∧
      d.debug = some info ∧ info.treeScore = some 0 ∧
      info.buildingScore = some buildingScore ∧ 5 ≤ buildingScore ∧
      d.cls = -1 ∧ d.confidence = 0.95 ∧
      ∃ res, _classifyRegions [rowRegion 5, rowRegion 6] sampleGreenAboveGrayGrid 64 112 16
          halfSource = some res ∧
        res = (sortByConfidence (_resolveOverlaps objects)).take 6 ∧
        (_resolveOverlaps objects).length ≤ [rowRegion 5, rowRegion 6].length ∧
        ∃ out ∈ _resolveOverlaps objects, out.cls = -1 ∧ out.confidence = 0.95 ∧
          out.bbox.Contains d.bbox ∧ ((_resolveOverlaps objects).length ≤ 6 → out ∈ res) :=
  have hgray : ∀ c ∈ rowRegion 6, ∃ f, gridAt sampleGreenAboveGrayGrid c = some f ∧
      f.grayRatio = 1 ∧ f.grayness = 1 ∧ f.greenRatio = 0 ∧ f.greenness = 0 ∧ f.edges = 0 :=
    fun c hc => ⟨sampleGrayBlock, by revert c; decide, rfl, rfl, rfl, rfl, rfl⟩
  ⟨by decide, by decide, by decide, hgray,
    classifyRegions_gray_region_of_mem sampleGreenAboveGrayGrid [rowRegion 5, rowRegion 6]
      (rowRegion 6) 64 112 16 halfSource (by decide) (by decide) (by decide) hgray⟩

/-- C29 (counterexample): a call with seven regions (the rows of a grid of 7 rows and 4
columns, image 64 x 112, blocks of 16 pixels, every jitter factor 1).  When six rows of
pure-green blocks stand above a row of gray blocks, each region gets confidence 0.95 and
the returned list is the six trees, without any detection of class -1.  When all seven
rows are gray, the loop pushes seven buildings of confidence 0.95 and the returned list
holds the six of the rows 0 to 5, none for the seventh region (box at y = 96). -/
theorem classifyRegions_gray_region_dropped :
    RegionsInGrid sampleRowRegions sampleGreenAboveGrayGrid ∧
      rowRegion 6 ∈ sampleRowRegions ∧ 4 ≤ (rowRegion 6).length ∧
      (∀ c ∈ rowRegion 6, gridAt sampleGreenAboveGrayGrid c = some sampleGrayBlock) ∧
      (∀ c ∈ rowRegion 6, gridAt sampleGrayRowsGrid c = some sampleGrayBlock) ∧
      (sampleGrayBlock.grayRatio = 1 ∧ sampleGrayBlock.grayness = 1 ∧
        sampleGrayBlock.greenRatio = 0 ∧ sampleGrayBlock.greenness = 0 ∧
        sampleGrayBlock.edges = 0) ∧
      (_classifyRegions sampleRowRegions sampleGreenAboveGrayGrid 64 112 16 halfSource).map
          (fun res => res.map (fun d => (d.cls, d.confidence))) =
        some [(58, 0.95), (58, 0.95), (58, 0.95), (58, 0.95), (58, 0.95), (58, 0.95)] ∧
      (classifyLoop sampleGrayRowsGrid 112 16 halfSource sampleRowRegions 0).map
          (fun r => r.1.map (fun d => (d.cls, d.confidence, d.bbox))) =
        some [(-1, 0.95, ⟨0, 0, 64, 16⟩), (-1, 0.95, ⟨0, 16, 64, 16⟩),
          (-1, 0.95, ⟨0, 32, 64, 16⟩), (-1, 0.95, ⟨0, 48, 64, 16⟩),
          (-1, 0.95, ⟨0, 64, 64, 16⟩), (-1, 0.95, ⟨0, 80, 64, 16⟩),
          (-1, 0.95, ⟨0, 96, 64, 16⟩)] ∧
      (_classifyRegions sampleRowRegions sampleGrayRowsGrid 64 112 16 halfSource).map
          (fun res => res.map (fun d => (d.cls, d.confidence, d.bbox))) =
        some [(-1, 0.95, ⟨0, 0, 64, 16⟩), (-1, 0.95, ⟨0, 16, 64, 16⟩),
          (-1, 0.95, ⟨0, 32, 64, 16⟩), (-1, 0.95, ⟨0, 48, 64, 16⟩),
          (-1, 0.95, ⟨0, 64, 64, 16⟩), (-1, 0.95, ⟨0, 80, 64, 16⟩)] := by
  decide!

/-- C30 (amended): in a call of `_classifyRegions` on any list of regions that lie in the
grid, for every region of the list with at least 4 cells whose blocks are all computed by
`_analyzeImageBlock` from uniformly pure-green pixels `(0, G, 0)` with `G ≥ 52`, wherever
the region lies in the image, the loop pushes a detection `d` of class 58 (tree) with a
confidence of at least 0.7; the merged list has an entry of class 58 whose box contains
the box of `d` and whose confidence is at least that of `d`; the call returns the first
six entries of the merged list sorted by confidence, so that entry is returned whenever
the merged list has at most six entries (in particular when the call has at most six
regions). -/
theorem classifyRegions_green_region_of_mem (grid : Grid) (regions : List (List Cell))
    (region : List Cell) (imgWidth imgHeight blockSize : ℚ) (random : ℕ → ℚ)
    (hin : RegionsInGrid regions grid) (hmem : region ∈ regions) (hlen : 4 ≤ region.length)
    (hgreen : ∀ c ∈ region, ∃ (pixelData : PixelData) (w h startX startY : ℕ)
      (blockWidth blockHeight : ℤ) (G : ℕ), 52 ≤ G ∧
      UniformBlock pixelData w h startX startY blockWidth blockHeight 0 G 0 ∧
      gridAt grid c = some (_analyzeImageBlock pixelData w h startX startY blockWidth
        blockHeight)) :
    ∃ objects k d,
      classifyLoop grid imgHeight blockSize random regions 0 = some (objects, k) ∧
      d ∈ objects ∧
      (∃ acc kr, accumulateRegion grid region RegionAcc.init = some acc ∧
        d = regionObject acc region.length imgHeight blockSize (jitter (random kr))
          (jitter (random (kr + 1))) (jitter (random (kr + 2)))
          (jitter (random (kr + 3)))) ∧
      d.cls = 58 ∧ 0.7 ≤ d.confidence ∧
      ∃ res, _classifyRegions regions grid imgWidth imgHeight blockSize random = some res ∧
        res = (sortByConfidence (_resolveOverlaps objects)).take 6 ∧
        (_resolveOverlaps objects).length ≤ regions.length ∧
        ∃ out ∈ _resolveOverlaps objects, out.cls = 58 ∧ 0.7 ≤ out.confidence ∧
          d.confidence ≤ out.confidence ∧ out.bbox.Contains d.bbox ∧
          ((_resolveOverlaps objects).length ≤ 6 → out ∈ res) := by
  obtain ⟨objects, k, acc, kr, hloop, hacc, hd, ⟨out, hout, hcls, hbox, hcf, _, hret⟩,
    hcount, hres⟩ := classifyRegions_of_mem grid regions region imgWidth imgHeight blockSize
      random hin hmem hlen
  obtain ⟨acc', hacc', hobj⟩ := regionObject_green grid region hlen hgreen imgHeight blockSize
  rw [hacc] at hacc'
  cases Option.some.inj hacc'
  obtain ⟨hdcls, hdconf⟩ := hobj (jitter (random kr)) (jitter (random (kr + 1)))
    (jitter (random (kr + 2))) (jitter (random (kr + 3)))
  exact ⟨objects, k, _, hloop, hd, ⟨acc, kr, hacc, rfl⟩, hdcls, hdconf,
    _, hres, rfl, hcount, out, hout, by rw [hcls, hdcls], le_trans hdconf hcf, hcf, hbox,
    hret⟩

/-- Instance of C30 (amended): a call with two regions, a row of gray blocks and a row of
blocks of pure-green pixels, at the row of green blocks. -/
theorem classifyRegions_green_region_of_mem_witness :
    RegionsInGrid [rowRegion 5, rowRegion 6] sampleGrayAboveGreenGrid ∧
    rowRegion 6 ∈ [rowRegion 5, rowRegion 6] ∧ 4 ≤ (rowRegion 6).length ∧
    (∀ c ∈ rowRegion 6, ∃ (pixelData : PixelData) (w h startX startY : ℕ)
      (blockWidth blockHeight : ℤ) (G : ℕ), 52 ≤ G ∧
      UniformBlock pixelData w h startX startY blockWidth blockHeight 0 G 0 ∧
      gridAt sampleGrayAboveGreenGrid c = some (_analyzeImageBlock pixelData w h startX startY
        blockWidth blockHeight)) ∧
    ∃ objects k d,
      classifyLoop sampleGrayAboveGreenGrid 112 16 halfSource [rowRegion 5, rowRegion 6] 0 =
        some (objects, k) ∧
      d ∈ objects ∧
      (∃ acc kr, accumulateRegion sampleGrayAboveGreenGrid (rowRegion 6) RegionAcc.init =
          some acc ∧
        d = regionObject acc (rowRegion 6).length 112 16 (jitter (halfSource kr))
          (jitter (halfSource (kr + 1))) (jitter (halfSource (kr + 2)))
          (jitter (halfSource (kr + 3)))) ∧
      d.cls = 58 ∧ 0.7 ≤ d.confidence ∧
      ∃ res, _classifyRegions [rowRegion 5, rowRegion 6] sampleGrayAboveGreenGrid 64 112 16
          halfSource = some res ∧
        res = (sortByConfidence (_resolveOverlaps objects)).take 6 ∧
        (_resolveOverlaps objects).length ≤ [rowRegion 5, rowRegion 6].length ∧
        ∃ out ∈ _resolveOverlaps objects, out.cls = 58 ∧ 0.7 ≤ out.confidence ∧
          d.confidence ≤ out.confidence ∧ out.bbox.Contains d.bbox ∧
          ((_resolveOverlaps objects).length ≤ 6 → out ∈ res) :=
  have hgreen : ∀ c ∈ rowRegion 6, ∃ (pixelData : PixelData) (w h startX startY : ℕ)
      (blockWidth blockHeight : ℤ) (G : ℕ), 52 ≤ G ∧
      UniformBlock pixelData w h startX startY blockWidth blockHeight 0 G 0 ∧
      gridAt sampleGrayAboveGreenGrid c = some (_analyzeImageBlock pixelData w h startX startY
        blockWidth blockHeight) :=
    fun c hc => ⟨sampleGreenImage, 2, 2, 0, 0, 1, 1, 200, by decide, by decide, by
      revert c; decide!⟩
  ⟨by decide, by decide, by decide, hgreen,
    classifyRegions_green_region_of_mem sampleGrayAboveGreenGrid [rowRegion 5, rowRegion 6]
      (rowRegion 6) 64 112 16 halfSource (by decide) (by decide) (by decide) hgreen⟩

/-- C30 (counterexample): a call with seven regions (the rows of a grid of 7 rows and 4
columns, image 64 x 112, blocks of 16 pixels, every jitter factor 1).  When six rows of
gray blocks stand above a row of blocks of pure-green pixels `(0, 200, 0)`, each region
gets confidence 0.95 and the returned list is the six buildings, without any detection of
class 58.  When all seven rows are green, the loop pushes seven trees of confidence 0.95
and the returned list holds the six of the rows 0 to 5, none for the seventh region (box
at y = 96). -/
theorem classifyRegions_green_region_dropped :
    RegionsInGrid sampleRowRegions sampleGrayAboveGreenGrid ∧
      rowRegion 6 ∈ sampleRowRegions ∧ 4 ≤ (rowRegion 6).length ∧
      (52 ≤ 200 ∧ UniformBlock sampleGreenImage 2 2 0 0 1 1 0 200 0) ∧
      (∀ c ∈ rowRegion 6, gridAt sampleGrayAboveGreenGrid c =
        some (_analyzeImageBlock sampleGreenImage 2 2 0 0 1 1)) ∧
      (∀ c ∈ rowRegion 6, gridAt sampleGreenRowsGrid c =
        some (_analyzeImageBlock sampleGreenImage 2 2 0 0 1 1)) ∧
      (_classifyRegions sampleRowRegions sampleGrayAboveGreenGrid 64 112 16 halfSource).map
          (fun res => res.map (fun d => (d.cls, d.confidence))) =
        some [(-1, 0.95), (-1, 0.95), (-1, 0.95), (-1, 0.95), (-1, 0.95), (-1, 0.95)] ∧
      (classifyLoop sampleGreenRowsGrid 112 16 halfSource sampleRowRegions 0).map
          (fun r => r.1.map (fun d => (d.cls, d.confidence, d.bbox))) =
        some [(58, 0.95, ⟨0, 0, 64, 16⟩), (58, 0.95, ⟨0, 16, 64, 16⟩),
          (58, 0.95, ⟨0, 32, 64, 16⟩), (58, 0.95, ⟨0, 48, 64, 16⟩),
          (58, 0.95, ⟨0, 64, 64, 16⟩), (58, 0.95, ⟨0, 80, 64, 16⟩),
          (58, 0.95, ⟨0, 96, 64, 16⟩)] ∧
      (_classifyRegions sampleRowRegions sampleGreenRowsGrid 64 112 16 halfSource).map
          (fun res => res.map (fun d => (d.cls, d.confidence, d.bbox))) =
        some [(58, 0.95, ⟨0, 0, 64, 16⟩), (58, 0.95, ⟨0, 16, 64, 16⟩),
          (58, 0.95, ⟨0, 32, 64, 16⟩), (58, 0.95, ⟨0, 48, 64, 16⟩),
          (58, 0.95, ⟨0, 64, 64, 16⟩), (58, 0.95, ⟨0, 80, 64, 16⟩)] := by
  decide!

end Txsb
